import Mathlib

/-! # Shader pipeline of DAGGer / RAPIER: `OpenGLShader.cpp`

A shallow embedding of the OpenGL shader pipeline that the two code bases share
(`src/DAGGer/src/Platform/OpenGL/OpenGLShader.cpp` and
`src/RAPIER/src/RAPIER/Platform/OpenGL/OpenGLShader.cpp`), of the vendor-fallback path that
RAPIER adds to it, and of the cell multipliers of
`src/RAPIER/src/RAPIER/Renderer/SubTexture2D.cpp`, followed by theorems about them.

Conventions of the embedding.

* A `std::string` is a list of characters (`Str`), one character per byte.
* A `size_t` position is a natural number; the value `std::string::npos` returned by the
  search functions is `none`.  Where the source subtracts two `size_t` values the
  subtraction is taken modulo `2 ^ 64`.
* A failed `Dr_CORE_ASSERT` / `RP_CORE_ASSERT` and an uncaught C++ exception end the run,
  and so does a write past the end of a buffer or an array (undefined behaviour in the
  source): fallible functions return `Except Fatal _`.
* A `std::unordered_map<GLenum, T>` is an association list with at most one entry per key;
  loops over a map run in the order of the list.
* The file system and the graphics driver are an explicit state (`World`) with a log of the
  calls that leave the repository; the shader compiler, the cross compiler and the link
  status are oracles (`Env`), and so are the answers of the driver on the vendor-fallback
  path (`Driver`).  A method of `OpenGLShader` is a function from the object and the world
  to the new object, or the fatal error, and the new world.
* A 32-bit word of a binary is a natural number below `2 ^ 32`, a byte of a file a natural
  number; a binary file is the little-endian dump of its words.
* A `float` quotient is the exact rational quotient; it is only evaluated where the two
  agree.

The file has three parts: the embedding of the source, the vocabulary and the lemmas about
it, and the main results.
-/

namespace DAGGer

/-- A `std::string`: the sequence of its bytes. -/
abbrev Str := List Char

/-- The OpenGL enumeration type `GLenum`. -/
abbrev GLenum := Nat

/-- The constant `GL_VERTEX_SHADER` of the OpenGL headers. -/
def GL_VERTEX_SHADER : GLenum := 0x8B31

/-- The constant `GL_FRAGMENT_SHADER` of the OpenGL headers. -/
def GL_FRAGMENT_SHADER : GLenum := 0x8B30

/-- The ways a run of the pipeline ends without a result.

Modelled from the spec: the assertion macros `Dr_CORE_ASSERT` / `RP_CORE_ASSERT` are not
defined in the sources at hand; the spec describes a failed assertion as a fatal,
process-terminating event.  Each constructor below is one assertion of the source (named
after its message) or one C++ exception. -/
inductive Fatal where
  /-- The assertion "Unknown shader type!" of `Utils::ShaderTypeFromString`. -/
  | unknownShaderType
  /-- The assertion "Syntax error" of `PreProcess` (both occurrences). -/
  | syntaxError
  /-- The assertion "Invalid shader type specified" of `PreProcess`. -/
  | invalidShaderType
  /-- The exception `std::out_of_range` thrown by `std::string::substr`. -/
  | outOfRange
  /-- The embedding ran out of loop fuel (never happens, see `PreProcess_terminates`). -/
  | outOfFuel
  /-- The assertion `Dr_CORE_ASSERT(false)` after a failed compilation. -/
  | compilationFailed
  /-- The assertion `Dr_CORE_ASSERT(false)` after the `switch` over the stage in
  `GLShaderStageToShaderC` and in the two cache-extension functions. -/
  | unknownStage
  /-- The assertion "[OpenGL] Shader link failure" of RAPIER's `VerifyProgramLink`. -/
  | shaderLinkFailure
  /-- The assertion "[OpenGL] Shader compilation failure!" of RAPIER's
  `CompileOpenGLBinariesForAMD`. -/
  | shaderCompilationFailure
  /-- The assertion "Driver does not support binary format" of RAPIER's `CreateProgramAMD`. -/
  | noBinaryFormat
  /-- A write past the last slot of a `std::array` (undefined behaviour in the source). -/
  | arrayOutOfBounds
  /-- A write past the end of the buffer of a `std::vector` (undefined behaviour in the
  source): `in.read` of more bytes than the vector holds. -/
  | bufferOverflow
  /-- The exception `std::filesystem::filesystem_error` thrown by
  `std::filesystem::create_directories`. -/
  | filesystemError
  deriving DecidableEq, Repr

/-- Size of the `size_t` type: `2 ^ 64`. -/
def sizeMod : Nat := 2 ^ 64

/-- The value `std::string::npos`, used as a count. -/
def npos : Nat := sizeMod - 1

/-- Subtraction of two `size_t` values. -/
def sizeSub (a b : Nat) : Nat := (a + sizeMod - b % sizeMod) % sizeMod

/-! ## The `std::string` operations used by the source -/

/-- Scan `s`, whose first character has index `i`, for the first character satisfying `p`. -/
def scanFrom (p : Char → Bool) : Str → Nat → Option Nat
  | [], _ => none
  | c :: cs, i => if p c then some i else scanFrom p cs (i + 1)

/-- Scan `s`, whose first character has index `i`, for the first position where `tok`
starts. -/
def scanTokenFrom (tok : Str) : Str → Nat → Option Nat
  | [], i => if tok = [] then some i else none
  | c :: cs, i => if tok.isPrefixOf (c :: cs) then some i else scanTokenFrom tok cs (i + 1)

/-- The call `s.find(tok, pos)`: the first position at or after `pos` where `tok` occurs. -/
def find (s tok : Str) (pos : Nat) : Option Nat :=
  if s.length < pos then none else scanTokenFrom tok (s.drop pos) pos

/-- The call `s.find_first_of(set, pos)`: the first position at or after `pos` holding a
character of `set`. -/
def find_first_of (s set : Str) (pos : Nat) : Option Nat :=
  scanFrom (fun c => set.contains c) (s.drop pos) pos

/-- The call `s.find_first_not_of(set, pos)`: the first position at or after `pos` holding
a character that is not in `set`. -/
def find_first_not_of (s set : Str) (pos : Nat) : Option Nat :=
  scanFrom (fun c => !set.contains c) (s.drop pos) pos

/-- The call `s.substr(pos, count)`: throws when `pos` lies beyond the end, and otherwise
yields the `min count (size - pos)` characters from `pos` on. -/
def substr (s : Str) (pos count : Nat) : Except Fatal Str :=
  if s.length < pos then .error .outOfRange else .ok ((s.drop pos).take count)

/-! ## Stage maps -/

/-- A `std::unordered_map<GLenum, T>`: association list, one entry per key. -/
abbrev StageMap (α : Type) := List (GLenum × α)

/-- Lookup of a key. -/
def StageMap.lookup {α : Type} (k : GLenum) : StageMap α → Option α
  | [] => none
  | (k', v) :: m => if k' = k then some v else StageMap.lookup k m

/-- The statement `m[k] = v`: overwrite the entry of `k`, or add one. -/
def StageMap.assign {α : Type} (k : GLenum) (v : α) : StageMap α → StageMap α
  | [] => [(k, v)]
  | (k', v') :: m => if k' = k then (k, v) :: m else (k', v') :: StageMap.assign k v m

/-- The keys of a map. -/
def StageMap.keys {α : Type} (m : StageMap α) : List GLenum := m.map Prod.fst

/-! ## `Utils::ShaderTypeFromString` and `OpenGLShader::PreProcess` -/

/-- The function `Utils::ShaderTypeFromString`. -/
def ShaderTypeFromString (type : Str) : Except Fatal GLenum :=
  if type = "vertex".toList then .ok GL_VERTEX_SHADER
  else if type = "fragment".toList ∨ type = "pixel".toList then .ok GL_FRAGMENT_SHADER
  else .error .unknownShaderType

/-- The marker token `typeToken` of `PreProcess`. -/
def typeToken : Str := "#type".toList

/-- The length `typeTokenLength` of the marker token. -/
def typeTokenLength : Nat := typeToken.length

/-- The character set `"\r\n"` of the two line searches of `PreProcess`. -/
def lineTerminators : Str := "\r\n".toList

/-- The stage name that `PreProcess` reads off the declaration line starting at `pos` and
ending at `eol`: `source.substr(begin, eol - begin)` with `begin = pos + typeTokenLength + 1`. -/
def stageName (source : Str) (pos eol : Nat) : Except Fatal Str :=
  let «begin» := pos + typeTokenLength + 1
  substr source «begin» (sizeSub eol «begin»)

/-- The body that `PreProcess` stores for a block whose code starts at `nextLinePos`, given
the position `pos` of the next marker: `source.substr(nextLinePos)` when there is none and
`source.substr(nextLinePos, pos - nextLinePos)` otherwise. -/
def stageBody (source : Str) (nextLinePos : Nat) (pos : Option Nat) : Except Fatal Str :=
  match pos with
  | none => substr source nextLinePos npos
  | some p => substr source nextLinePos (sizeSub p nextLinePos)

/-- The `while` loop of `PreProcess`, run for at most `fuel` iterations from the marker
position `pos` with the map `shaderSources` built so far. -/
def PreProcessLoop (source : Str) :
    Nat → Option Nat → StageMap Str → Except Fatal (StageMap Str)
  | _, none, shaderSources => .ok shaderSources
  | 0, some _, _ => .error .outOfFuel
  | fuel + 1, some pos, shaderSources =>
    match find_first_of source lineTerminators pos with
    | none => .error .syntaxError
    | some eol =>
      match stageName source pos eol with
      | .error e => .error e
      | .ok type =>
        match ShaderTypeFromString type with
        | .error e => .error e
        | .ok stage =>
          if stage = 0 then .error .invalidShaderType
          else
            match find_first_not_of source lineTerminators eol with
            | none => .error .syntaxError
            | some nextLinePos =>
              let pos' := find source typeToken nextLinePos
              match stageBody source nextLinePos pos' with
              | .error e => .error e
              | .ok body => PreProcessLoop source fuel pos' (StageMap.assign stage body shaderSources)

/-- The method `OpenGLShader::PreProcess`: the loop started at the first marker of the source, with
one unit of fuel per character of the source. -/
def PreProcess (source : Str) : Except Fatal (StageMap Str) :=
  PreProcessLoop source source.length (find source typeToken 0) []

/-- The body of the `while` loop of `PreProcess`, run once at the marker position `pos`:
the stage and the body it stores and the position of the next marker. -/
def stepAt (source : Str) (pos : Nat) : Except Fatal (GLenum × Str × Option Nat) :=
  match find_first_of source lineTerminators pos with
  | none => .error .syntaxError
  | some eol =>
    match stageName source pos eol with
    | .error e => .error e
    | .ok type =>
      match ShaderTypeFromString type with
      | .error e => .error e
      | .ok stage =>
        if stage = 0 then .error .invalidShaderType
        else
          match find_first_not_of source lineTerminators eol with
          | none => .error .syntaxError
          | some nextLinePos =>
            match stageBody source nextLinePos (find source typeToken nextLinePos) with
            | .error e => .error e
            | .ok body => .ok (stage, body, find source typeToken nextLinePos)

/-- Two outcomes of the loop body agree: the same error, or the same stage and body with
next positions that are both `npos` or related by `R`. -/
def StepRel (R : Nat → Nat → Prop) :
    Except Fatal (GLenum × Str × Option Nat) → Except Fatal (GLenum × Str × Option Nat) → Prop
  | .error e1, .error e2 => e1 = e2
  | .ok (k1, b1, none), .ok (k2, b2, none) => k1 = k2 ∧ b1 = b2
  | .ok (k1, b1, some q1), .ok (k2, b2, some q2) => k1 = k2 ∧ b1 = b2 ∧ R q1 q2
  | _, _ => False

/-- The sources `s1` and `s2` have the same remainder from the positions `q1` and `q2` on. -/
def Tail (s1 s2 : Str) (q1 q2 : Nat) : Prop :=
  q1 ≤ s1.length ∧ q2 ≤ s2.length ∧ s1.drop q1 = s2.drop q2

/-! ## The name of a program built from a file -/

/-- Scan `s`, whose first character has index `i`, for the last character satisfying `p`. -/
def scanLast (p : Char → Bool) : Str → Nat → Option Nat
  | [], _ => none
  | c :: cs, i =>
    match scanLast p cs (i + 1) with
    | some j => some j
    | none => if p c then some i else none

/-- The call `s.find_last_of(set)`: the last position holding a character of `set`. -/
def find_last_of (s set : Str) : Option Nat := scanLast (fun c => set.contains c) s 0

/-- The call `s.rfind(c)`: the last position holding the character `c`. -/
def rfind (s : Str) (c : Char) : Option Nat := scanLast (fun x => x == c) s 0

/-- The block "Extract name from filepath" that ends the constructor from a file. -/
def extractName (filepath : Str) : Except Fatal Str :=
  let lastSlash :=
    match find_last_of filepath "/\\".toList with
    | none => 0
    | some i => i + 1
  let count :=
    match rfind filepath '.' with
    | none => sizeSub filepath.length lastSlash
    | some lastDot => sizeSub lastDot lastSlash
  substr filepath lastSlash count

/-! ## The world around a shader program

The file system, the shader compiler (shaderc), the cross compiler (SPIRV-Cross) and the
graphics driver are not part of the repository.  The file system and the driver are a state
(`World`) that the pipeline threads through; the compiler, the cross compiler and the link
status of the driver are deterministic oracles (`Env`).  Every call that leaves the
repository is recorded in the log of the world. -/

/-- The contents of a file: its bytes. -/
abbrev Bytes := List Nat

/-- A `std::vector<uint32_t>`. -/
abbrev Words := List Nat

/-- The values of `shaderc_shader_kind` that the pipeline uses. -/
inductive ShaderKind where
  /-- The kind `shaderc_glsl_vertex_shader`. -/
  | glsl_vertex_shader
  /-- The kind `shaderc_glsl_fragment_shader`. -/
  | glsl_fragment_shader
  deriving DecidableEq, Repr

/-- The settings of a `shaderc::CompileOptions` that the pipeline touches. -/
structure CompileOptions where
  /-- The target environment is Vulkan 1.2 (otherwise OpenGL 4.5). -/
  targetVulkan : Bool
  /-- The optimisation level is `shaderc_optimization_level_performance`. -/
  optimizePerformance : Bool
  deriving DecidableEq, Repr

/-- A call that leaves the repository. -/
inductive Event where
  /-- The call `std::filesystem::create_directories`. -/
  | createDirectories (dir : Str)
  /-- A `std::ifstream` was constructed on `path`; `opened` tells whether it is open. -/
  | openRead (path : Str) (opened : Bool)
  /-- A `std::ofstream` was constructed on `path`; `opened` tells whether it is open. -/
  | openWrite (path : Str) (opened : Bool)
  /-- The call `shaderc::Compiler::CompileGlslToSpv`; `options` is `none` when the call
  passes no options. -/
  | compileGlslToSpv (source : Str) (kind : ShaderKind) (inputFileName : Str)
      (options : Option CompileOptions)
  /-- The call `spirv_cross::CompilerGLSL::compile` on a binary. -/
  | crossCompile (spirv : Words)
  /-- The call of `OpenGLShader::Reflect`, which only inspects and logs. -/
  | reflect (stage : GLenum) (spirv : Words)
  /-- The call `glCreateProgram`, with the name it returned. -/
  | glCreateProgram (program : Nat)
  /-- The call `glCreateShader`, with the name it returned. -/
  | glCreateShader (stage : GLenum) (shader : Nat)
  /-- The call `glShaderBinary`. -/
  | glShaderBinary (shader : Nat) (spirv : Words)
  /-- The call `glSpecializeShader`. -/
  | glSpecializeShader (shader : Nat)
  /-- The call `glAttachShader`. -/
  | glAttachShader (program shader : Nat)
  /-- The call `glLinkProgram`. -/
  | glLinkProgram (program : Nat)
  /-- The call `glDeleteProgram`. -/
  | glDeleteProgram (program : Nat)
  /-- The call `glDeleteShader`. -/
  | glDeleteShader (shader : Nat)
  /-- The call `glDetachShader`. -/
  | glDetachShader (program shader : Nat)
  /-- The call `glProgramBinary`: the format, and the buffer in its full stated length. -/
  | glProgramBinary (program binaryFormat : Nat) (binary : Bytes)
  /-- The call `glShaderSource`. -/
  | glShaderSource (shader : Nat) (source : Str)
  /-- The call `glCompileShader`. -/
  | glCompileShader (shader : Nat)
  /-- The call `glGetProgramBinary`. -/
  | glGetProgramBinary (program : Nat)
  deriving DecidableEq, Repr

/-- The tools outside the repository, as deterministic oracles, and the path conventions of
the platform. -/
structure Env where
  /-- The result of `shaderc::Compiler::CompileGlslToSpv`: an error message or a binary. -/
  compileGlslToSpv : Str → ShaderKind → Str → Option CompileOptions → Except Str Words
  /-- The result of `spirv_cross::CompilerGLSL::compile`. -/
  crossCompile : Words → Str
  /-- The link status the driver reports for a program with the given shader binaries. -/
  linkStatus : List (GLenum × Words) → Bool
  /-- The directory separators that `std::filesystem::path` recognises. -/
  isSeparator : Char → Bool
  /-- The separator that `std::filesystem::path::operator/` inserts. -/
  preferredSeparator : Char

/-- The state outside the shader object. -/
structure World where
  /-- The files that open for reading, with their contents. -/
  files : Str → Option Bytes
  /-- The paths that open for writing. -/
  writable : Str → Bool
  /-- The directories that exist. -/
  directories : List Str
  /-- The directories that `std::filesystem::create_directories` can create; on every other
  path the call throws. -/
  canCreate : Str → Bool
  /-- The next object name the driver hands out. -/
  nextName : Nat
  /-- The program objects that were created and not deleted. -/
  programs : List Nat
  /-- The shader objects that were created and not deleted. -/
  shaders : List Nat
  /-- The calls that left the repository, oldest first. -/
  log : List Event

/-- Append an event to the log. -/
def World.record (w : World) (e : Event) : World := { w with log := w.log ++ [e] }

/-- The statements `std::ofstream out(path, ...); if (out.is_open()) { out.write(...) }`:
when the path opens for writing the file has the bytes written, and opens for reading
from then on; otherwise nothing changes but the log. -/
def World.write (w : World) (path : Str) (bytes : Bytes) : World :=
  if w.writable path then
    { (w.record (.openWrite path true)) with
      files := fun q => if q = path then some bytes else w.files q }
  else w.record (.openWrite path false)

/-- The call `glCreateProgram()`: a fresh object name. -/
def World.glCreateProgram (w : World) : Nat × World :=
  (w.nextName,
    { (w.record (.glCreateProgram w.nextName)) with
      nextName := w.nextName + 1, programs := w.nextName :: w.programs })

/-- The call `glCreateShader(stage)`: a fresh object name. -/
def World.glCreateShader (w : World) (stage : GLenum) : Nat × World :=
  (w.nextName,
    { (w.record (.glCreateShader stage w.nextName)) with
      nextName := w.nextName + 1, shaders := w.nextName :: w.shaders })

/-- The call `glDeleteProgram(program)`. -/
def World.glDeleteProgram (w : World) (program : Nat) : World :=
  { (w.record (.glDeleteProgram program)) with programs := w.programs.erase program }

/-- The call `glDeleteShader(shader)`. -/
def World.glDeleteShader (w : World) (shader : Nat) : World :=
  { (w.record (.glDeleteShader shader)) with shaders := w.shaders.erase shader }

/-- The outcome of a step of the pipeline: its result, or the fatal error that ended the
run, and the world it leaves. -/
abbrev Outcome (α : Type) := Except Fatal α × World

/-- The bytes of a file read as 32-bit words, little-endian, as `data.resize(size /
sizeof(uint32_t)); in.read((char*)data.data(), size)` does when `size` is a multiple of
four: one word per four bytes.  (The loop bodies below apply it to such files only; on any
other file the `in.read` writes past the end of `data`.) -/
def wordsOfBytes : Bytes → Words
  | b0 :: b1 :: b2 :: b3 :: rest =>
    (b0 % 256 + 256 * (b1 % 256) + 65536 * (b2 % 256) + 16777216 * (b3 % 256))
      :: wordsOfBytes rest
  | _ => []

/-- The bytes `out.write((char*)data.data(), data.size() * sizeof(uint32_t))` writes: four
per word, little-endian. -/
def bytesOfWords : Words → Bytes
  | [] => []
  | x :: rest =>
    x % 256 :: x / 256 % 256 :: x / 65536 % 256 :: x / 16777216 % 256 :: bytesOfWords rest

/-! ## Cache paths -/

/-- The function `Utils::GetCacheDirectory`. -/
def GetCacheDirectory : Str := "assets/cache/shader/opengl".toList

/-- The function `Utils::GLShaderStageToShaderC`. -/
def GLShaderStageToShaderC (stage : GLenum) : Except Fatal ShaderKind :=
  if stage = GL_VERTEX_SHADER then .ok .glsl_vertex_shader
  else if stage = GL_FRAGMENT_SHADER then .ok .glsl_fragment_shader
  else .error .unknownStage

/-- The function `Utils::GLShaderStageCachedOpenGLFileExtension`. -/
def GLShaderStageCachedOpenGLFileExtension (stage : GLenum) : Except Fatal Str :=
  if stage = GL_VERTEX_SHADER then .ok ".cached_opengl.vert".toList
  else if stage = GL_FRAGMENT_SHADER then .ok ".cached_opengl.frag".toList
  else .error .unknownStage

/-- The function `Utils::GLShaderStageCachedVulkanFileExtension`. -/
def GLShaderStageCachedVulkanFileExtension (stage : GLenum) : Except Fatal Str :=
  if stage = GL_VERTEX_SHADER then .ok ".cached_vulkan.vert".toList
  else if stage = GL_FRAGMENT_SHADER then .ok ".cached_vulkan.frag".toList
  else .error .unknownStage

/-- The extension of the program cache of the vendor-fallback path (`CreateProgramAMD`). -/
def programCacheExtension : Str := ".cached_opengl.pgr".toList

/-- Modelled from the C++ standard library: `std::filesystem::path::filename`, the final
component of a path, which is the text after its last directory separator. -/
def filename (env : Env) (path : Str) : Str :=
  (path.reverse.takeWhile (fun c => !env.isSeparator c)).reverse

/-- Modelled from the C++ standard library: `std::filesystem::path::operator/` applied to a
directory without trailing separator and a name without root: the two joined by the
preferred separator. -/
def pathJoin (env : Env) (dir name : Str) : Str := dir ++ env.preferredSeparator :: name

/-- The expression `cacheDirectory / (shaderFilePath.filename().string() + extension)`
that the three cache users compute. -/
def cachePath (env : Env) (m_FilePath extension : Str) : Str :=
  pathJoin env GetCacheDirectory (filename env m_FilePath ++ extension)

/-- The path of the program cache that `CreateProgramAMD` computes. -/
def programCachePath (env : Env) (m_FilePath : Str) : Str :=
  cachePath env m_FilePath programCacheExtension

/-! ## The shader object and its pipeline -/

/-- The fields of an `OpenGLShader`. -/
structure OpenGLShader where
  /-- The handle `m_RendererID`; `none` while no statement has assigned it. -/
  m_RendererID : Option Nat
  /-- The field `m_FilePath`. -/
  m_FilePath : Str
  /-- The field `m_Name`. -/
  m_Name : Str
  /-- The field `m_VulkanSPIRV`. -/
  m_VulkanSPIRV : StageMap Words
  /-- The field `m_OpenGLSPIRV`. -/
  m_OpenGLSPIRV : StageMap Words
  /-- The field `m_OpenGLSourceCode`. -/
  m_OpenGLSourceCode : StageMap Str

/-- The function `Utils::CreateCacheDirectoryIfNeeded`: nothing to do when the directory
exists; otherwise `std::filesystem::create_directories` creates it, or throws. -/
def CreateCacheDirectoryIfNeeded (w : World) : Outcome Unit :=
  if GetCacheDirectory ∈ w.directories then (.ok (), w)
  else
    let w1 := w.record (.createDirectories GetCacheDirectory)
    if w.canCreate GetCacheDirectory then
      (.ok (), { w1 with directories := GetCacheDirectory :: w.directories })
    else (.error .filesystemError, w1)

/-- The method `OpenGLShader::ReadFile`: the contents of the file, or the empty string when the file
does not open. -/
def ReadFile (filepath : Str) (w : World) : Str × World :=
  match w.files filepath with
  | some bytes => (bytes.map Char.ofNat, w.record (.openRead filepath true))
  | none => ([], w.record (.openRead filepath false))

/-- The options `CompileOrGetVulkanBinaries` sets up and passes to the compiler. -/
def vulkanOptions : CompileOptions := { targetVulkan := true, optimizePerformance := true }

/-- The body of the loop over the stages in `CompileOrGetVulkanBinaries`. -/
def vulkanStage (env : Env) (m_FilePath : Str) (stage : GLenum) (source : Str)
    (shaderData : StageMap Words) (w : World) : Outcome (StageMap Words) :=
  match GLShaderStageCachedVulkanFileExtension stage with
  | .error e => (.error e, w)
  | .ok extension =>
    let cachedPath := cachePath env m_FilePath extension
    match w.files cachedPath with
    | some bytes =>
      let w1 := w.record (.openRead cachedPath true)
      if bytes.length % 4 = 0 then
        (.ok (StageMap.assign stage (wordsOfBytes bytes) shaderData), w1)
      else (.error .bufferOverflow, w1)
    | none =>
      let w1 := w.record (.openRead cachedPath false)
      match GLShaderStageToShaderC stage with
      | .error e => (.error e, w1)
      | .ok kind =>
        let w2 := w1.record (.compileGlslToSpv source kind m_FilePath (some vulkanOptions))
        match env.compileGlslToSpv source kind m_FilePath (some vulkanOptions) with
        | .error _ => (.error .compilationFailed, w2)
        | .ok module =>
          (.ok (StageMap.assign stage module shaderData),
            w2.write cachedPath (bytesOfWords module))

/-- The loop over the stages in `CompileOrGetVulkanBinaries`, in the order of the
association list (the iteration order of a `std::unordered_map` is unspecified). -/
def vulkanStages (env : Env) (m_FilePath : Str) :
    StageMap Str → StageMap Words → World → Outcome (StageMap Words)
  | [], shaderData, w => (.ok shaderData, w)
  | (stage, source) :: rest, shaderData, w =>
    match vulkanStage env m_FilePath stage source shaderData w with
    | (.error e, w') => (.error e, w')
    | (.ok shaderData', w') => vulkanStages env m_FilePath rest shaderData' w'

/-- The loop `for (auto&& [stage, data] : shaderData) Reflect(stage, data);`. -/
def reflectAll (shaderData : StageMap Words) (w : World) : World :=
  shaderData.foldl (fun w' entry => w'.record (.reflect entry.1 entry.2)) w

/-- The method `OpenGLShader::CompileOrGetVulkanBinaries`. -/
def CompileOrGetVulkanBinaries (env : Env) (self : OpenGLShader) (shaderSources : StageMap Str)
    (w : World) : Outcome OpenGLShader :=
  let w1 := w.glCreateProgram.2
  match vulkanStages env self.m_FilePath shaderSources [] w1 with
  | (.error e, w2) => (.error e, w2)
  | (.ok shaderData, w2) =>
    (.ok { self with m_VulkanSPIRV := shaderData }, reflectAll shaderData w2)

/-- The body of the loop over the stages in `CompileOrGetOpenGLBinaries`: the target
binaries and the translated sources so far, extended by one stage. -/
def openglStage (env : Env) (m_FilePath : Str) (stage : GLenum) (spirv : Words)
    (shaderData : StageMap Words) (sourceCode : StageMap Str) (w : World) :
    Outcome (StageMap Words × StageMap Str) :=
  match GLShaderStageCachedOpenGLFileExtension stage with
  | .error e => (.error e, w)
  | .ok extension =>
    let cachedPath := cachePath env m_FilePath extension
    match w.files cachedPath with
    | some bytes =>
      let w1 := w.record (.openRead cachedPath true)
      if bytes.length % 4 = 0 then
        (.ok (StageMap.assign stage (wordsOfBytes bytes) shaderData, sourceCode), w1)
      else (.error .bufferOverflow, w1)
    | none =>
      let w1 := (w.record (.openRead cachedPath false)).record (.crossCompile spirv)
      let source := env.crossCompile spirv
      let sourceCode' := StageMap.assign stage source sourceCode
      match GLShaderStageToShaderC stage with
      | .error e => (.error e, w1)
      | .ok kind =>
        let w2 := w1.record (.compileGlslToSpv source kind m_FilePath none)
        match env.compileGlslToSpv source kind m_FilePath none with
        | .error _ => (.error .compilationFailed, w2)
        | .ok module =>
          (.ok (StageMap.assign stage module shaderData, sourceCode'),
            w2.write cachedPath (bytesOfWords module))

/-- The loop over the stages in `CompileOrGetOpenGLBinaries`. -/
def openglStages (env : Env) (m_FilePath : Str) :
    StageMap Words → StageMap Words → StageMap Str → World →
      Outcome (StageMap Words × StageMap Str)
  | [], shaderData, sourceCode, w => (.ok (shaderData, sourceCode), w)
  | (stage, spirv) :: rest, shaderData, sourceCode, w =>
    match openglStage env m_FilePath stage spirv shaderData sourceCode w with
    | (.error e, w') => (.error e, w')
    | (.ok (shaderData', sourceCode'), w') =>
      openglStages env m_FilePath rest shaderData' sourceCode' w'

/-- The method `OpenGLShader::CompileOrGetOpenGLBinaries`. -/
def CompileOrGetOpenGLBinaries (env : Env) (self : OpenGLShader) (w : World) :
    Outcome OpenGLShader :=
  match openglStages env self.m_FilePath self.m_VulkanSPIRV [] [] w with
  | (.error e, w') => (.error e, w')
  | (.ok (shaderData, sourceCode), w') =>
    (.ok { self with m_OpenGLSPIRV := shaderData, m_OpenGLSourceCode := sourceCode }, w')

/-- The first loop of `CreateProgram`: one shader object per stage, loaded with the binary,
specialised and attached to the program; the names of the objects, in order. -/
def attachStages (program : Nat) : StageMap Words → List Nat → World → List Nat × World
  | [], shaderIDs, w => (shaderIDs, w)
  | (stage, spirv) :: rest, shaderIDs, w =>
    let (shaderID, w1) := w.glCreateShader stage
    let w2 := ((w1.record (.glShaderBinary shaderID spirv)).record
      (.glSpecializeShader shaderID)).record (.glAttachShader program shaderID)
    attachStages program rest (shaderIDs ++ [shaderID]) w2

/-- The loop `for (auto id : shaderIDs) glDeleteShader(id);` of the failure branch. -/
def deleteShaders (shaderIDs : List Nat) (w : World) : World :=
  shaderIDs.foldl (fun w' id => w'.glDeleteShader id) w

/-- The loop `for (auto id : shaderIDs) { glDetachShader(program, id); glDeleteShader(id); }`
that ends `CreateProgram`. -/
def detachShaders (program : Nat) (shaderIDs : List Nat) (w : World) : World :=
  shaderIDs.foldl (fun w' id => (w'.record (.glDetachShader program id)).glDeleteShader id) w

/-- The method `OpenGLShader::CreateProgram`. -/
def CreateProgram (env : Env) (self : OpenGLShader) (w : World) : OpenGLShader × World :=
  let (program, w1) := w.glCreateProgram
  let (shaderIDs, w2) := attachStages program self.m_OpenGLSPIRV [] w1
  let w3 := w2.record (.glLinkProgram program)
  let w4 :=
    if env.linkStatus self.m_OpenGLSPIRV then w3
    else deleteShaders shaderIDs (w3.glDeleteProgram program)
  let w5 := detachShaders program shaderIDs w4
  ({ self with m_RendererID := some program }, w5)

/-- The constructor `OpenGLShader::OpenGLShader(const std::string& filepath)`. -/
def OpenGLShader.fromFile (env : Env) (filepath : Str) (w : World) : Outcome OpenGLShader :=
  let self : OpenGLShader :=
    { m_RendererID := none, m_FilePath := filepath, m_Name := [], m_VulkanSPIRV := [],
      m_OpenGLSPIRV := [], m_OpenGLSourceCode := [] }
  match CreateCacheDirectoryIfNeeded w with
  | (.error e, w1) => (.error e, w1)
  | (.ok _, w1) =>
    let (source, w2) := ReadFile filepath w1
    match PreProcess source with
    | .error e => (.error e, w2)
    | .ok shaderSources =>
      match CompileOrGetVulkanBinaries env self shaderSources w2 with
      | (.error e, w3) => (.error e, w3)
      | (.ok self1, w3) =>
        match CompileOrGetOpenGLBinaries env self1 w3 with
        | (.error e, w4) => (.error e, w4)
        | (.ok self2, w4) =>
          let (self3, w5) := CreateProgram env self2 w4
          match extractName filepath with
          | .error e => (.error e, w5)
          | .ok name => (.ok { self3 with m_Name := name }, w5)

/-- The constructor `OpenGLShader::OpenGLShader(name, vertexSrc, fragmentSrc)`. -/
def OpenGLShader.fromSources (env : Env) (name vertexSrc fragmentSrc : Str) (w : World) :
    Outcome OpenGLShader :=
  let self : OpenGLShader :=
    { m_RendererID := none, m_FilePath := [], m_Name := name, m_VulkanSPIRV := [],
      m_OpenGLSPIRV := [], m_OpenGLSourceCode := [] }
  let sources : StageMap Str :=
    StageMap.assign GL_FRAGMENT_SHADER fragmentSrc
      (StageMap.assign GL_VERTEX_SHADER vertexSrc [])
  match CompileOrGetVulkanBinaries env self sources w with
  | (.error e, w1) => (.error e, w1)
  | (.ok self1, w1) =>
    match CompileOrGetOpenGLBinaries env self1 w1 with
    | (.error e, w2) => (.error e, w2)
    | (.ok self2, w2) =>
      let (self3, w3) := CreateProgram env self2 w2
      (.ok self3, w3)

/-! ## The vendor-fallback path of RAPIER

RAPIER's `OpenGLShader.cpp` repeats `PreProcess`, `CompileOrGetVulkanBinaries`,
`CompileOrGetOpenGLBinaries` and `CreateProgram` of DAGGer word for word and adds a second way
to build the program, taken when the vendor string of the driver contains "ATI". -/

/-- The answers of the driver that the vendor-fallback path asks for, as deterministic
oracles. -/
structure Driver where
  /-- The string `glGetString(GL_VENDOR)`. -/
  vendor : Str
  /-- The value of `GL_COMPILE_STATUS` after `glCompileShader` on a source of a stage. -/
  compileStatus : GLenum → Str → Bool
  /-- The value of `GL_LINK_STATUS` after `glLinkProgram` on shaders compiled from the given
  sources. -/
  linkStatusOfSources : List (GLenum × Str) → Bool
  /-- The value of `GL_LINK_STATUS` after `glProgramBinary` with a format and a buffer. -/
  linkStatusOfBinary : Nat → Bytes → Bool
  /-- The value of `GL_NUM_PROGRAM_BINARY_FORMATS`. -/
  numProgramBinaryFormats : Int
  /-- The format and the bytes that `glGetProgramBinary` hands out for a program linked from
  the given sources. -/
  programBinary : List (GLenum × Str) → Nat × Bytes

/-- The function `Utils::IsAmdGPU`: `strstr(vendor, "ATI") != nullptr`. -/
def IsAmdGPU (drv : Driver) : Bool := (find drv.vendor "ATI".toList 0).isSome

/-- The function `VerifyProgramLink`, given the link status the driver reports for the
program: on a failed link the program is deleted and the assertion fires. -/
def VerifyProgramLink (isLinked : Bool) (program : Nat) (w : World) : Outcome Bool :=
  if isLinked then (.ok true, w)
  else (.error .shaderLinkFailure, w.glDeleteProgram program)

/-- The bytes of the two `out.write` calls of `CreateProgramAMD`: the four bytes of the
`uint32_t format`, then the bytes of `shaderData`. -/
def programCacheBytes (format : Nat) (shaderData : Bytes) : Bytes :=
  bytesOfWords [format] ++ shaderData

/-- The two `in.read` calls of `CreateProgramAMD` on a file holding `bytes`, and the
arguments they leave for `glProgramBinary`.  The stream is opened at its end, so `size` is
the length of the whole file; `data` is created with `size` zero bytes; the first read
takes four bytes into `format`; the second asks for `size` bytes and stores the ones that
are left in the file at the front of `data` (none at all when the first read already hit
the end of the file). -/
def readProgramCache (bytes : Bytes) : Nat × Bytes :=
  let size := bytes.length
  let format :=
    match wordsOfBytes (bytes.take 4 ++ List.replicate (4 - size) 0) with
    | x :: _ => x
    | [] => 0
  let data :=
    if 4 ≤ size then bytes.drop 4 ++ List.replicate 4 0 else List.replicate size 0
  (format, data)

/-- The loop of `CompileOpenGLBinariesForAMD`, from the stage map on: `glShaderIDIndex` is
the running index and `glShadersIDs` the `std::array`, a slot being `none` until it is
written.  A write at an index the array does not have ends the run with
`Fatal.arrayOutOfBounds`. -/
def amdStages (env : Env) (drv : Driver) (program : Nat) :
    StageMap Words → Nat → List (Option Nat) → World → Outcome (List (Option Nat))
  | [], _, glShadersIDs, w => (.ok glShadersIDs, w)
  | (stage, spirv) :: rest, glShaderIDIndex, glShadersIDs, w =>
    let source := env.crossCompile spirv
    let w1 := w.record (.crossCompile spirv)
    let (shader, w2) := w1.glCreateShader stage
    let w3 := (w2.record (.glShaderSource shader source)).record (.glCompileShader shader)
    if drv.compileStatus stage source then
      let w4 := w3.record (.glAttachShader program shader)
      if glShaderIDIndex < glShadersIDs.length then
        amdStages env drv program rest (glShaderIDIndex + 1)
          (glShadersIDs.set glShaderIDIndex (some shader)) w4
      else (.error .arrayOutOfBounds, w4)
    else (.error .shaderCompilationFailure, w3.glDeleteShader shader)

/-- The method `OpenGLShader::CompileOpenGLBinariesForAMD`. -/
def CompileOpenGLBinariesForAMD (env : Env) (drv : Driver) (self : OpenGLShader)
    (program : Nat) (glShadersIDs : List (Option Nat)) (w : World) :
    Outcome (List (Option Nat)) :=
  amdStages env drv program self.m_VulkanSPIRV 0 glShadersIDs w

/-- The sources the vendor-fallback path hands to the driver: one per stage of the
intermediate binaries. -/
def amdSources (env : Env) (self : OpenGLShader) : List (GLenum × Str) :=
  self.m_VulkanSPIRV.map (fun entry => (entry.1, env.crossCompile entry.2))

/-- The loop `for (auto& id : glShadersIDs) glDetachShader(program, id);` over both slots of
the array; a slot that was never written holds an indeterminate value, taken as `0`. -/
def detachSlots (program : Nat) (glShadersIDs : List (Option Nat)) (w : World) : World :=
  glShadersIDs.foldl (fun w' id => w'.record (.glDetachShader program (id.getD 0))) w

/-- The method `OpenGLShader::CreateProgramAMD`: how the run ends, the shader object and the
world after it. -/
def CreateProgramAMD (env : Env) (drv : Driver) (self : OpenGLShader) (w : World) :
    Except Fatal Unit × OpenGLShader × World :=
  let (program, w1) := w.glCreateProgram
  let cachedPath := programCachePath env self.m_FilePath
  match w1.files cachedPath with
  | some bytes =>
    let w2 := w1.record (.openRead cachedPath true)
    let (format, data) := readProgramCache bytes
    let w3 := w2.record (.glProgramBinary program format data)
    match VerifyProgramLink (drv.linkStatusOfBinary format data) program w3 with
    | (.error e, w4) => (.error e, self, w4)
    | (.ok linked, w4) =>
      if !linked then (.ok (), self, w4)
      else (.ok (), { self with m_RendererID := some program }, w4)
  | none =>
    let w2 := w1.record (.openRead cachedPath false)
    match CompileOpenGLBinariesForAMD env drv self program [none, none] w2 with
    | (.error e, w3) => (.error e, self, w3)
    | (.ok glShadersIDs, w3) =>
      let w4 := w3.record (.glLinkProgram program)
      match VerifyProgramLink (drv.linkStatusOfSources (amdSources env self)) program w4 with
      | (.error e, w5) => (.error e, self, w5)
      | (.ok linked, w5) =>
        if linked then
          if 0 < drv.numProgramBinaryFormats then
            match CreateCacheDirectoryIfNeeded w5 with
            | (.error e, w6) => (.error e, self, w6)
            | (.ok _, w6) =>
              let (format, shaderData) := drv.programBinary (amdSources env self)
              let w7 := w6.record (.glGetProgramBinary program)
              let w8 := w7.write cachedPath (programCacheBytes format shaderData)
              (.ok (), { self with m_RendererID := some program },
                detachSlots program glShadersIDs w8)
          else (.error .noBinaryFormat, self, w5)
        else
          (.ok (), { self with m_RendererID := some program },
            detachSlots program glShadersIDs w5)

/-- RAPIER's constructor `OpenGLShader::OpenGLShader(const std::string& filepath)`. -/
def OpenGLShader.fromFileRAPIER (env : Env) (drv : Driver) (filepath : Str) (w : World) :
    Outcome OpenGLShader :=
  let self : OpenGLShader :=
    { m_RendererID := none, m_FilePath := filepath, m_Name := [], m_VulkanSPIRV := [],
      m_OpenGLSPIRV := [], m_OpenGLSourceCode := [] }
  match CreateCacheDirectoryIfNeeded w with
  | (.error e, w1) => (.error e, w1)
  | (.ok _, w1) =>
    let (source, w2) := ReadFile filepath w1
    match PreProcess source with
    | .error e => (.error e, w2)
    | .ok shaderSources =>
      match CompileOrGetVulkanBinaries env self shaderSources w2 with
      | (.error e, w3) => (.error e, w3)
      | (.ok self1, w3) =>
        if IsAmdGPU drv then
          match CreateProgramAMD env drv self1 w3 with
          | (.error e, _, w4) => (.error e, w4)
          | (.ok _, self2, w4) =>
            match extractName filepath with
            | .error e => (.error e, w4)
            | .ok name => (.ok { self2 with m_Name := name }, w4)
        else
          match CompileOrGetOpenGLBinaries env self1 w3 with
          | (.error e, w4) => (.error e, w4)
          | (.ok self2, w4) =>
            let (self3, w5) := CreateProgram env self2 w4
            match extractName filepath with
            | .error e => (.error e, w5)
            | .ok name => (.ok { self3 with m_Name := name }, w5)

/-! ## The cell multipliers of RAPIER's `SubTexture2D::CreateFromCoords` -/

/-- The conversion of a `float` that is not negative to `uint32_t`: the fraction is
dropped. -/
def toUint32 (q : ℚ) : Nat := ⌊q⌋₊ % 2 ^ 32

/-- The statements of `SubTexture2D::CreateFromCoords` that compute `AddX` and `AddY`, from
the two quotients after their conversion to `uint32_t`: `yOverX` is
`spriteSize.y / spriteSize.x` and `xOverY` is `spriteSize.x / spriteSize.y`.  The result is
the pair `(AddX, AddY)`, the two divisors of the texture coordinates. -/
def SubTexture2D.cellMultipliers (yOverX xOverY : Nat) : Nat × Nat :=
  let AddX := 1
  let AddY := yOverX
  if AddY = 0 then
    let AddX := xOverY
    if AddX = 0 then (1, 1) else (AddX, AddY)
  else (AddX, AddY)

/-- The pair `(AddX, AddY)` of `SubTexture2D::CreateFromCoords` for a sprite size
`(x, y)`.  The `float` division is taken as the exact quotient; the two agree whenever the
exact quotient is itself a `float`, as it is for the sizes of the instances. -/
def SubTexture2D.CreateFromCoords_Add (spriteSize : ℚ × ℚ) : Nat × Nat :=
  SubTexture2D.cellMultipliers (toUint32 (spriteSize.2 / spriteSize.1))
    (toUint32 (spriteSize.1 / spriteSize.2))

/-- The event is a call of the OpenGL driver. -/
def Event.isDriverCall : Event → Bool
  | .glCreateProgram _ => true
  | .glCreateShader _ _ => true
  | .glShaderBinary _ _ => true
  | .glSpecializeShader _ => true
  | .glAttachShader _ _ => true
  | .glLinkProgram _ => true
  | .glDeleteProgram _ => true
  | .glDeleteShader _ => true
  | .glDetachShader _ _ => true
  | .glProgramBinary _ _ _ => true
  | .glShaderSource _ _ => true
  | .glCompileShader _ => true
  | .glGetProgramBinary _ => true
  | _ => false

/-! ## Source texts of the instances -/

/-- The source text of the example scenario. -/
def exampleSource : Str := "#type vertex\nVOID_VERT\n#type fragment\nVOID_FRAG\n".toList

/-- A source text with a vertex marker and a fragment marker. -/
def twoStageSource : Str := "#type vertex\nV #\n\r\n#type pixel\r\nF\n".toList

/-- A source text whose second marker has no line terminator after it and whose first
marker names no stage. -/
def unterminatedSource : Str := "#type bogus\n#type vertex".toList

/-- A source text whose only marker has no line terminator after it. -/
def unterminatedSource' : Str := "#type vertex".toList

/-- A source text whose only marker is followed by a line terminator and nothing else. -/
def emptyLastBodySource : Str := "#type vertex\n".toList

/-- A source text whose vertex marker is followed by line terminators and the next marker. -/
def emptyBodySource : Str := "#type vertex\r\n\n#type fragment\nF".toList

/-- A source text with a marker token in the middle of a line. -/
def midLineSource : Str := "#type vertex\nfoo #type fragment\nbar".toList

/-- A source text whose only marker has nothing after the token on its line. -/
def namelessMarkerSource : Str := "#type\nvertex".toList

/-- A source text whose second marker names no stage. -/
def bogusStageSource : Str := "#type vertex\nV\n#type bogus\nX".toList

/-! ## A small world for the instances -/

/-- An environment for the instances: the compiler accepts every source but the empty one
and answers with the character codes of the source, the cross compiler answers with the
characters of the codes, every program links, and paths follow the Windows conventions. -/
def demoEnv : Env where
  compileGlslToSpv := fun source _ _ _ =>
    if source = [] then .error "empty".toList else .ok (source.map Char.toNat)
  crossCompile := fun spirv => spirv.map Char.ofNat
  linkStatus := fun _ => true
  isSeparator := fun c => c == '/' || c == '\\'
  preferredSeparator := '/'

/-- The path of the shader file of the instances. -/
def demoPath : Str := "assets/shaders/Texture.glsl".toList

/-- A world for the instances: one shader file, an empty cache, every path writable. -/
def demoWorld (source : Str) : World where
  files := fun p => if p = demoPath then some (source.map Char.toNat) else none
  writable := fun _ => true
  directories := []
  canCreate := fun _ => true
  nextName := 1
  programs := []
  shaders := []
  log := []

/-- A world for the instances in which the intermediate cache file of the vertex stage of
`demoPath` exists and holds nine bytes. -/
def demoCacheWorld : World where
  files := fun p =>
    if p = cachePath demoEnv demoPath ".cached_vulkan.vert".toList then
      some [1, 0, 0, 0, 2, 1, 0, 0, 9]
    else none
  writable := fun _ => true
  directories := [GetCacheDirectory]
  canCreate := fun _ => true
  nextName := 1
  programs := []
  shaders := []
  log := []

/-- A world for the instances in which the intermediate cache file of the vertex stage of
`demoPath` exists and holds two words. -/
def demoWordCacheWorld : World where
  files := fun p =>
    if p = cachePath demoEnv demoPath ".cached_vulkan.vert".toList then
      some [1, 0, 0, 0, 2, 1, 0, 0]
    else none
  writable := fun _ => true
  directories := [GetCacheDirectory]
  canCreate := fun _ => true
  nextName := 1
  programs := []
  shaders := []
  log := []

/-- A shader object for the instances, as the constructor from a file initialises it. -/
def demoShader : OpenGLShader where
  m_RendererID := none
  m_FilePath := demoPath
  m_Name := []
  m_VulkanSPIRV := []
  m_OpenGLSPIRV := []
  m_OpenGLSourceCode := []

/-- The environment of the instances, but with a driver that links no program. -/
def failingLinkEnv : Env := { demoEnv with linkStatus := fun _ => false }

/-- A shader object for the instances that holds a target binary for each stage. -/
def demoTargetShader : OpenGLShader :=
  { demoShader with
    m_OpenGLSPIRV := [(GL_VERTEX_SHADER, [7]), (GL_FRAGMENT_SHADER, [8])] }

/-- A driver for the instances: an ATI vendor string, every shader compiles, every program
links, and the binary of every program is the two bytes `7, 8` in the format `1`. -/
def demoDriver : Driver where
  vendor := "ATI Technologies Inc.".toList
  compileStatus := fun _ _ => true
  linkStatusOfSources := fun _ => true
  linkStatusOfBinary := fun _ _ => true
  numProgramBinaryFormats := 1
  programBinary := fun _ => (1, [7, 8])

/-- The driver of the instances, but one that links no program binary it is handed. -/
def rejectingDriver : Driver := { demoDriver with linkStatusOfBinary := fun _ _ => false }

/-- A shader object for the instances that holds an intermediate binary for each stage. -/
def demoVulkanShader : OpenGLShader :=
  { demoShader with
    m_VulkanSPIRV := [(GL_VERTEX_SHADER, [118]), (GL_FRAGMENT_SHADER, [102])] }

/-- A shader object for the instances that holds three intermediate binaries. -/
def threeStageShader : OpenGLShader :=
  { demoShader with
    m_VulkanSPIRV := [(GL_VERTEX_SHADER, [118]), (GL_FRAGMENT_SHADER, [102]), (0, [103])] }

/-- A world for the instances in which the program cache file of `demoPath` exists and holds
the format `1` and the two bytes `7, 8`. -/
def demoProgramCacheWorld : World where
  files := fun p =>
    if p = programCachePath demoEnv demoPath then some [1, 0, 0, 0, 7, 8] else none
  writable := fun _ => true
  directories := [GetCacheDirectory]
  canCreate := fun _ => true
  nextName := 1
  programs := []
  shaders := []
  log := []

/-- A world for the instances in which no path can be written and the cache holds the two
files of the vertex stage of `demoPath`: the intermediate binary `[1, 258]` and the target
binary `[3]`. -/
def vertexCacheWorld : World where
  files := fun p =>
    if p = cachePath demoEnv demoPath ".cached_vulkan.vert".toList then
      some [1, 0, 0, 0, 2, 1, 0, 0]
    else if p = cachePath demoEnv demoPath ".cached_opengl.vert".toList then
      some [3, 0, 0, 0]
    else none
  writable := fun _ => false
  directories := [GetCacheDirectory]
  canCreate := fun _ => true
  nextName := 1
  programs := []
  shaders := []
  log := []

/-! ## Vocabulary of the statements -/

/-- The file at the path, if it opens, holds whole 32-bit words: its size is a multiple of
four. -/
def World.AlignedAt (w : World) (p : Str) : Prop :=
  ∀ bytes, w.files p = some bytes → bytes.length % 4 = 0

/-- The events of the cache protocol of one stage: a call of the compiler for the compiler
kind of the stage, or an opening of the cache file of the stage, for reading or for
writing. -/
def Event.ofStage (kind : ShaderKind) (path : Str) (ev : Event) : Prop :=
  (∃ src name o, ev = .compileGlslToSpv src kind name o) ∨
    (∃ opened, ev = .openRead path opened) ∨ (∃ opened, ev = .openWrite path opened)

/-- The character `c` is a line terminator: carriage return or line feed. -/
def IsLineTerminator (c : Char) : Prop := c = '\r' ∨ c = '\n'

instance : DecidablePred IsLineTerminator := fun c => by
  unfold IsLineTerminator; exact inferInstance

/-- The marker token `#type` occurs in `s` at position `p`. -/
def MarkerAt (s : Str) (p : Nat) : Prop := typeToken <+: s.drop p

instance (s : Str) (p : Nat) : Decidable (MarkerAt s p) := by
  unfold MarkerAt; exact inferInstance

/-- The position `eol` holds the first line terminator of `s` at or after `p`. -/
def LineEnd (s : Str) (p eol : Nat) : Prop :=
  p ≤ eol ∧ (∃ c, s[eol]? = some c ∧ IsLineTerminator c) ∧
    ∀ (j : Nat) (c : Char), p ≤ j → j < eol → s[j]? = some c → ¬ IsLineTerminator c

/-- The position `nl` holds the first character of `s` at or after `eol` that is not a line
terminator. -/
def BodyStart (s : Str) (eol nl : Nat) : Prop :=
  eol ≤ nl ∧ (∃ c, s[nl]? = some c ∧ ¬ IsLineTerminator c) ∧
    ∀ (j : Nat) (c : Char), eol ≤ j → j < nl → s[j]? = some c → IsLineTerminator c

/-- The position `e` is where the first marker at or after `nl` starts, or the end of the
input when no marker starts at or after `nl`. -/
def BodyEnd (s : Str) (nl e : Nat) : Prop :=
  nl ≤ e ∧ (∀ q, nl ≤ q → q < e → ¬ MarkerAt s q) ∧ (MarkerAt s e ∨ e = s.length)

/-- The characters of `s` from position `a` up to, and without, position `b`. -/
def slice (s : Str) (a b : Nat) : Str := (s.drop a).take (b - a)

/-- The marker at position `p` of `s` opens a declaration line ending at `eol` whose stage
name, as `PreProcess` reads it, is recognised by `ShaderTypeFromString` as `k`. -/
def DeclaresAt (s : Str) (k : GLenum) (p eol : Nat) : Prop :=
  MarkerAt s p ∧ LineEnd s p eol ∧
    ∃ type, stageName s p eol = .ok type ∧ ShaderTypeFromString type = .ok k

/-- The marker at position `p` of `s` declares the stage `k`. -/
def Declares (s : Str) (k : GLenum) (p : Nat) : Prop := ∃ eol, DeclaresAt s k p eol

/-- A stage block of `s`: the marker at `p` declares stage `k` on a line that ends at `eol`,
the code of the block starts at `nl`, and it ends before `e`. -/
structure Block (s : Str) (k : GLenum) (p eol nl e : Nat) : Prop where
  /-- The declaration line. -/
  declares : DeclaresAt s k p eol
  /-- The body starts at the first character after the line that is no line terminator. -/
  bodyStart : BodyStart s eol nl
  /-- The body ends at the next marker or at the end of the input. -/
  bodyEnd : BodyEnd s nl e

/-- The facts one successful iteration of the loop of `PreProcess` establishes, named after
the local variables of the source. -/
structure Step (s : Str) (pos eol : Nat) (type : Str) (stage : GLenum) (nl : Nat)
    (body : Str) : Prop where
  /-- Line 181: `eol`. -/
  heol : find_first_of s lineTerminators pos = some eol
  /-- Line 184: `type`. -/
  hname : stageName s pos eol = .ok type
  /-- Line 185: the stage. -/
  hstage : ShaderTypeFromString type = .ok stage
  /-- Line 187: `nextLinePos`. -/
  hnl : find_first_not_of s lineTerminators eol = some nl
  /-- Line 191: the body stored. -/
  hbody : stageBody s nl (find s typeToken nl) = .ok body

/-- The position `q` lies before the loop position `pos` (every position does once the loop
position is `npos`). -/
def Before (q : Nat) (pos : Option Nat) : Prop := ∀ p, pos = some p → q < p

/-- The invariant of the loop of `PreProcess` at loop position `pos` with map `m`. -/
structure LoopInv (s : Str) (pos : Option Nat) (m : StageMap Str) : Prop where
  /-- The loop position is a marker. -/
  marker : ∀ p, pos = some p → MarkerAt s p
  /-- Every entry is the body of the last block of its stage seen so far. -/
  entries : ∀ k body, m.lookup k = some body → ∃ p eol nl e, Block s k p eol nl e ∧
    body = slice s nl e ∧ Before p pos ∧ ∀ p', p < p' → Before p' pos → ¬ Declares s k p'
  /-- Every marker seen so far opened a block whose stage has an entry. -/
  complete : ∀ q, Before q pos → MarkerAt s q →
    ∃ k eol nl e, Block s k q eol nl e ∧ k ∈ m.keys
  /-- No key occurs twice. -/
  nodup : m.keys.Nodup

/-- The loop of `PreProcess` stops with the fatal error `e` at the marker at position `p`:
the marker has no line terminator after it, or its stage name is not recognised, or nothing
but line terminators follows its declaration line. -/
def FailsAt (s : Str) (p : Nat) (e : Fatal) : Prop :=
  (e = .syntaxError ∧
      ∀ (j : Nat) (c : Char), p ≤ j → s[j]? = some c → ¬ IsLineTerminator c) ∨
    (e = .unknownShaderType ∧ ∃ eol type, LineEnd s p eol ∧ stageName s p eol = .ok type ∧
      ShaderTypeFromString type = .error .unknownShaderType) ∨
    (e = .syntaxError ∧ ∃ k eol, DeclaresAt s k p eol ∧
      ∀ (j : Nat) (c : Char), eol ≤ j → s[j]? = some c → IsLineTerminator c)

/-- A declaration line of the fragment stage under its alias `pixel`. -/
def pixelLine : Str := "#type pixel".toList

/-- A declaration line of the fragment stage. -/
def fragmentLine : Str := "#type fragment".toList

/-- The source `s2` arises from `s1` by replacing the eleven characters `#type pixel` at
position `N` by the fourteen characters `#type fragment`, seen character by character. -/
structure Patch (s1 s2 : Str) (N : Nat) : Prop where
  /-- The first source fits a `size_t`. -/
  len1 : s1.length < sizeMod
  /-- The second source fits a `size_t`. -/
  len2 : s2.length < sizeMod
  /-- The sources agree up to and with `#type `. -/
  agree : ∀ (j : Nat), j < N + 6 → s1[j]? = s2[j]?
  /-- The marker at `N`. -/
  marker : MarkerAt s1 N
  /-- No line terminator in `#type pixel`. -/
  line1 : ∀ (j : Nat) (c : Char), N ≤ j → j < N + 11 → s1[j]? = some c → ¬ IsLineTerminator c
  /-- No line terminator in `#type fragment`. -/
  line2 : ∀ (j : Nat) (c : Char), N ≤ j → j < N + 14 → s2[j]? = some c → ¬ IsLineTerminator c
  /-- The sources agree after the replaced characters. -/
  rest : ∀ (j : Nat), s1[N + 11 + j]? = s2[N + 14 + j]?

/-- The loop positions `q1` in `s1` and `q2` in `s2` correspond: the same marker at or before
`N`, or two positions with the same remainder. -/
def Related (s1 s2 : Str) (N q1 q2 : Nat) : Prop :=
  (q1 = q2 ∧ q1 ≤ N ∧ MarkerAt s1 q1) ∨ Tail s1 s2 q1 q2

/-! ## Facts about the string searches -/

theorem scanFrom_some {p : Char → Bool} {l : Str} {i j : Nat} (h : scanFrom p l i = some j) :
    i ≤ j ∧ (∃ c, l[j - i]? = some c ∧ p c = true) ∧
      ∀ k, k < j - i → ∀ c, l[k]? = some c → p c = false := by
  induction l generalizing i with
  | nil => simp [scanFrom] at h
  | cons a l ih =>
    unfold scanFrom at h
    by_cases hp : p a = true
    · simp only [hp, if_true, Option.some.injEq] at h
      subst h
      refine ⟨le_refl _, ⟨a, by simp, hp⟩, ?_⟩
      intro k hk
      omega
    · simp only [hp, if_false] at h
      obtain ⟨h1, ⟨c, hc, hpc⟩, h3⟩ := ih h
      have hji : j - i = (j - (i + 1)) + 1 := by omega
      refine ⟨by omega, ⟨c, ?_, hpc⟩, ?_⟩
      · rw [hji, List.getElem?_cons_succ]; exact hc
      · intro k hk c' hc'
        cases k with
        | zero =>
          simp only [List.getElem?_cons_zero, Option.some.injEq] at hc'
          subst hc'
          simpa using hp
        | succ k =>
          rw [List.getElem?_cons_succ] at hc'
          exact h3 k (by omega) c' hc'

theorem scanFrom_none {p : Char → Bool} {l : Str} {i : Nat} (h : scanFrom p l i = none) :
    ∀ (k : Nat) (c : Char), l[k]? = some c → p c = false := by
  induction l generalizing i with
  | nil => intro k c hc; simp at hc
  | cons a l ih =>
    unfold scanFrom at h
    by_cases hp : p a = true
    · simp [hp] at h
    · simp only [hp, if_false] at h
      intro k c hc
      cases k with
      | zero =>
        simp only [List.getElem?_cons_zero, Option.some.injEq] at hc
        subst hc
        simpa using hp
      | succ k =>
        rw [List.getElem?_cons_succ] at hc
        exact ih h k c hc

theorem scanTokenFrom_some {tok l : Str} {i j : Nat} (h : scanTokenFrom tok l i = some j) :
    i ≤ j ∧ tok <+: l.drop (j - i) ∧ j - i ≤ l.length ∧
      ∀ k, k < j - i → ¬ tok <+: l.drop k := by
  induction l generalizing i with
  | nil =>
    unfold scanTokenFrom at h
    by_cases ht : tok = []
    · simp only [ht, if_true, Option.some.injEq] at h
      subst h
      simp [ht]
    · simp [ht] at h
  | cons a l ih =>
    unfold scanTokenFrom at h
    by_cases hp : tok.isPrefixOf (a :: l) = true
    · simp only [hp, if_true, Option.some.injEq] at h
      subst h
      refine ⟨le_refl _, ?_, by simp, ?_⟩
      · simpa using (List.isPrefixOf_iff_prefix.mp hp)
      · intro k hk; omega
    · simp only [hp, if_false] at h
      obtain ⟨h1, h2, h3, h4⟩ := ih h
      have hji : j - i = (j - (i + 1)) + 1 := by omega
      refine ⟨by omega, ?_, ?_, ?_⟩
      · rw [hji, List.drop_succ_cons]; exact h2
      · rw [hji, List.length_cons]; omega
      · intro k hk
        cases k with
        | zero =>
          intro hpre
          exact hp (List.isPrefixOf_iff_prefix.mpr (by simpa using hpre))
        | succ k =>
          rw [List.drop_succ_cons]
          exact h4 k (by omega)

theorem scanTokenFrom_none {tok l : Str} {i : Nat} (h : scanTokenFrom tok l i = none) :
    ∀ k, ¬ tok <+: l.drop k := by
  induction l generalizing i with
  | nil =>
    unfold scanTokenFrom at h
    by_cases ht : tok = []
    · simp [ht] at h
    · intro k hpre
      simp only [List.drop_nil, List.prefix_nil] at hpre
      exact ht hpre
  | cons a l ih =>
    unfold scanTokenFrom at h
    by_cases hp : tok.isPrefixOf (a :: l) = true
    · simp [hp] at h
    · simp only [hp, if_false] at h
      intro k
      cases k with
      | zero =>
        intro hpre
        exact hp (List.isPrefixOf_iff_prefix.mpr (by simpa using hpre))
      | succ k =>
        rw [List.drop_succ_cons]
        exact ih h k

theorem contains_lineTerminators (c : Char) :
    lineTerminators.contains c = true ↔ IsLineTerminator c := by
  simp [lineTerminators, IsLineTerminator]

theorem find_first_of_some {s : Str} {p eol : Nat}
    (h : find_first_of s lineTerminators p = some eol) : LineEnd s p eol := by
  obtain ⟨h1, ⟨c, hc, hpc⟩, h3⟩ := scanFrom_some h
  refine ⟨h1, ⟨c, ?_, (contains_lineTerminators c).mp hpc⟩, ?_⟩
  · rw [List.getElem?_drop] at hc
    rwa [show p + (eol - p) = eol by omega] at hc
  · intro j c' hpj hje hc' hlt
    have := h3 (j - p) (by omega) c' (by
      rw [List.getElem?_drop, show p + (j - p) = j by omega]; exact hc')
    rw [(contains_lineTerminators c').mpr hlt] at this
    exact absurd this (by simp)

theorem find_first_of_none {s : Str} {p : Nat}
    (h : find_first_of s lineTerminators p = none) :
    ∀ (j : Nat) (c : Char), p ≤ j → s[j]? = some c → ¬ IsLineTerminator c := by
  intro j c hpj hc hlt
  have := scanFrom_none h (j - p) c (by
    rw [List.getElem?_drop, show p + (j - p) = j by omega]; exact hc)
  rw [(contains_lineTerminators c).mpr hlt] at this
  exact absurd this (by simp)

theorem find_first_not_of_some {s : Str} {eol nl : Nat}
    (h : find_first_not_of s lineTerminators eol = some nl) : BodyStart s eol nl := by
  obtain ⟨h1, ⟨c, hc, hpc⟩, h3⟩ := scanFrom_some h
  refine ⟨h1, ⟨c, ?_, ?_⟩, ?_⟩
  · rw [List.getElem?_drop] at hc
    rwa [show eol + (nl - eol) = nl by omega] at hc
  · intro hlt
    rw [(contains_lineTerminators c).mpr hlt] at hpc
    simp at hpc
  · intro j c' hpj hje hc'
    have := h3 (j - eol) (by omega) c' (by
      rw [List.getElem?_drop, show eol + (j - eol) = j by omega]; exact hc')
    apply (contains_lineTerminators c').mp
    simpa using this

theorem find_first_not_of_none {s : Str} {eol : Nat}
    (h : find_first_not_of s lineTerminators eol = none) :
    ∀ (j : Nat) (c : Char), eol ≤ j → s[j]? = some c → IsLineTerminator c := by
  intro j c hpj hc
  have := scanFrom_none h (j - eol) c (by
    rw [List.getElem?_drop, show eol + (j - eol) = j by omega]; exact hc)
  apply (contains_lineTerminators c).mp
  simpa using this

theorem find_some {s : Str} {nl e : Nat} (h : find s typeToken nl = some e) :
    nl ≤ e ∧ MarkerAt s e ∧ ∀ q, nl ≤ q → q < e → ¬ MarkerAt s q := by
  unfold find at h
  split at h
  · simp at h
  · obtain ⟨h1, h2, _, h4⟩ := scanTokenFrom_some h
    refine ⟨h1, ?_, ?_⟩
    · unfold MarkerAt
      rw [List.drop_drop] at h2
      rwa [show nl + (e - nl) = e by omega] at h2
    · intro q hq hqe hm
      apply h4 (q - nl) (by omega)
      unfold MarkerAt at hm
      rw [List.drop_drop]
      rwa [show nl + (q - nl) = q by omega]

theorem find_none {s : Str} {nl : Nat} (h : find s typeToken nl = none) :
    ∀ q, nl ≤ q → ¬ MarkerAt s q := by
  intro q hq hm
  unfold find at h
  split at h
  · rename_i hlt
    unfold MarkerAt at hm
    rw [List.drop_eq_nil_of_le (by omega)] at hm
    simp [typeToken] at hm
  · apply scanTokenFrom_none h (q - nl)
    unfold MarkerAt at hm
    rw [List.drop_drop]
    rwa [show nl + (q - nl) = q by omega]

/-! ## Facts about markers and lines -/

theorem sizeSub_of_le {a b : Nat} (h : b ≤ a) (ha : a < sizeMod) : sizeSub a b = a - b := by
  unfold sizeSub sizeMod at *
  omega

theorem sizeSub_succ {a : Nat} (ha : a < sizeMod) : sizeSub a (a + 1) = npos := by
  unfold sizeSub npos sizeMod at *
  omega

theorem MarkerAt.char_at {s : Str} {p : Nat} (h : MarkerAt s p) (i : Nat) (hi : i < 5) :
    s[p + i]? = typeToken[i]? := by
  obtain ⟨t, ht⟩ := h
  rw [← List.getElem?_drop, ← ht, List.getElem?_append_left (by simpa [typeToken] using hi)]

theorem MarkerAt.add_le_length {s : Str} {p : Nat} (h : MarkerAt s p) :
    p + 5 ≤ s.length := by
  have := List.IsPrefix.length_le h
  simp only [typeToken, List.length_drop] at this
  have h5 : "#type".toList.length = 5 := rfl
  omega

theorem MarkerAt.hash {s : Str} {p : Nat} (h : MarkerAt s p) : s[p]? = some '#' := by
  have := h.char_at 0 (by omega)
  simpa [typeToken] using this

theorem MarkerAt.not_terminator {s : Str} {p : Nat} (h : MarkerAt s p) (i : Nat) (hi : i < 5)
    (c : Char) (hc : s[p + i]? = some c) : ¬ IsLineTerminator c := by
  rw [h.char_at i hi] at hc
  have h5 : ∀ i, i < 5 → ∀ c, typeToken[i]? = some c → ¬ IsLineTerminator c := by decide
  exact h5 i hi c hc

theorem MarkerAt.not_overlap {s : Str} {p q : Nat} (hp : MarkerAt s p) (hq : MarkerAt s q)
    (hpq : p < q) : p + 5 ≤ q := by
  by_contra hlt
  have h1 := hp.char_at (q - p) (by omega)
  rw [show p + (q - p) = q by omega, hq.hash] at h1
  have h5 : ∀ i, i < 5 → 0 < i → typeToken[i]? ≠ some '#' := by decide
  exact h5 (q - p) (by omega) (by omega) h1.symm

theorem LineEnd.eol_lt_length {s : Str} {p eol : Nat} (h : LineEnd s p eol) : eol < s.length := by
  obtain ⟨_, ⟨c, hc, _⟩, _⟩ := h
  exact (List.getElem?_eq_some_iff.mp hc).1

theorem LineEnd.eol_unique {s : Str} {p e1 e2 : Nat} (h1 : LineEnd s p e1) (h2 : LineEnd s p e2) :
    e1 = e2 := by
  obtain ⟨a1, ⟨c1, b1, d1⟩, f1⟩ := h1
  obtain ⟨a2, ⟨c2, b2, d2⟩, f2⟩ := h2
  rcases Nat.lt_trichotomy e1 e2 with h | h | h
  · exact absurd d1 (f2 e1 c1 a1 h b1)
  · exact h
  · exact absurd d2 (f1 e2 c2 a2 h b2)

theorem LineEnd.marker_le {s : Str} {p eol : Nat} (h : LineEnd s p eol) (hm : MarkerAt s p) :
    p + 5 ≤ eol := by
  obtain ⟨a1, ⟨c1, b1, d1⟩, _⟩ := h
  by_contra hlt
  have := hm.not_terminator (eol - p) (by omega) c1 (by
    rw [show p + (eol - p) = eol by omega]; exact b1)
  exact this d1

theorem BodyStart.nl_lt_length {s : Str} {eol nl : Nat} (h : BodyStart s eol nl) :
    nl < s.length := by
  obtain ⟨_, ⟨c, hc, _⟩, _⟩ := h
  exact (List.getElem?_eq_some_iff.mp hc).1

theorem BodyStart.nl_unique {s : Str} {eol n1 n2 : Nat} (h1 : BodyStart s eol n1)
    (h2 : BodyStart s eol n2) : n1 = n2 := by
  obtain ⟨a1, ⟨c1, b1, d1⟩, f1⟩ := h1
  obtain ⟨a2, ⟨c2, b2, d2⟩, f2⟩ := h2
  rcases Nat.lt_trichotomy n1 n2 with h | h | h
  · exact absurd (f2 n1 c1 a1 h b1) d1
  · exact h
  · exact absurd (f1 n2 c2 a2 h b2) d2

theorem BodyEnd.end_unique {s : Str} {nl e1 e2 : Nat} (h1 : BodyEnd s nl e1)
    (h2 : BodyEnd s nl e2) : e1 = e2 := by
  obtain ⟨a1, b1, c1⟩ := h1
  obtain ⟨a2, b2, c2⟩ := h2
  rcases Nat.lt_trichotomy e1 e2 with h | h | h
  · rcases c1 with c1 | c1
    · exact absurd c1 (b2 e1 a1 h)
    · rcases c2 with c2 | c2
      · have := c2.add_le_length; omega
      · omega
  · exact h
  · rcases c2 with c2 | c2
    · exact absurd c2 (b1 e2 a2 h)
    · rcases c1 with c1 | c1
      · have := c1.add_le_length; omega
      · omega

theorem DeclaresAt.stage_unique {s : Str} {k1 k2 : GLenum} {p e1 e2 : Nat}
    (h1 : DeclaresAt s k1 p e1) (h2 : DeclaresAt s k2 p e2) : k1 = k2 ∧ e1 = e2 := by
  obtain ⟨_, l1, t1, n1, s1⟩ := h1
  obtain ⟨_, l2, t2, n2, s2⟩ := h2
  have he := l1.eol_unique l2
  subst he
  rw [n1] at n2
  cases n2
  rw [s1] at s2
  cases s2
  exact ⟨rfl, rfl⟩

/-! ## Facts about one iteration of the loop -/

theorem ShaderTypeFromString_ok {type : Str} {k : GLenum}
    (h : ShaderTypeFromString type = .ok k) :
    (type = "vertex".toList ∧ k = GL_VERTEX_SHADER) ∨
      ((type = "fragment".toList ∨ type = "pixel".toList) ∧ k = GL_FRAGMENT_SHADER) := by
  unfold ShaderTypeFromString at h
  split at h
  · cases h; left; exact ⟨‹_›, rfl⟩
  · split at h
    · cases h; right; exact ⟨‹_›, rfl⟩
    · cases h

theorem ShaderTypeFromString_chars {type : Str} {k : GLenum}
    (h : ShaderTypeFromString type = .ok k) :
    (∀ (i : Nat), type[i]? ≠ some '#') ∧ type[0]? ≠ some 't' := by
  rcases ShaderTypeFromString_ok h with ⟨rfl, _⟩ | ⟨rfl | rfl, _⟩
  · refine ⟨fun i => ?_, by decide⟩
    by_cases hi : i < 6
    · revert i; decide
    · rw [List.getElem?_eq_none (by simpa using hi)]; simp
  · refine ⟨fun i => ?_, by decide⟩
    by_cases hi : i < 8
    · revert i; decide
    · rw [List.getElem?_eq_none (by simpa using hi)]; simp
  · refine ⟨fun i => ?_, by decide⟩
    by_cases hi : i < 5
    · revert i; decide
    · rw [List.getElem?_eq_none (by simpa using hi)]; simp

theorem ShaderTypeFromString_stage {type : Str} {k : GLenum}
    (h : ShaderTypeFromString type = .ok k) : k = GL_VERTEX_SHADER ∨ k = GL_FRAGMENT_SHADER := by
  rcases ShaderTypeFromString_ok h with ⟨_, hk⟩ | ⟨_, hk⟩
  · exact Or.inl hk
  · exact Or.inr hk

theorem stageName_eq {s : Str} {p eol : Nat} (hlen : s.length < sizeMod)
    (hm : MarkerAt s p) (hl : LineEnd s p eol) :
    stageName s p eol =
      .ok (if p + 6 ≤ eol then slice s (p + 6) eol else s.drop (p + 6)) := by
  have h5 := hl.marker_le hm
  have hlt := hl.eol_lt_length
  have htl : typeTokenLength = 5 := rfl
  unfold stageName substr
  simp only [htl]
  rw [if_neg (by omega)]
  by_cases h6 : p + 6 ≤ eol
  · rw [if_pos h6, sizeSub_of_le h6 (by omega)]
    rfl
  · rw [if_neg h6]
    have : eol = p + 5 := by omega
    subst this
    rw [show p + 5 + 1 = p + 6 by omega, show p + 6 = (p + 5) + 1 by omega,
      sizeSub_succ (by omega)]
    congr 1
    apply List.take_of_length_le
    simp only [List.length_drop, npos]
    omega

theorem stageBody_eq {s : Str} {nl : Nat} (hlen : s.length < sizeMod) (hnl : nl < s.length)
    (pos : Option Nat) (hpos : ∀ e, pos = some e → nl ≤ e ∧ e ≤ s.length) :
    stageBody s nl pos = .ok (slice s nl (pos.getD s.length)) := by
  unfold stageBody substr
  cases pos with
  | none =>
    simp only [Option.getD_none]
    rw [if_neg (by omega)]
    congr 1
    unfold slice
    rw [List.take_of_length_le, List.take_of_length_le]
    · simp
    · simp only [List.length_drop, npos]; omega
  | some e =>
    obtain ⟨h1, h2⟩ := hpos e rfl
    simp only [Option.getD_some]
    rw [if_neg (by omega), sizeSub_of_le h1 (by omega)]
    rfl

theorem slice_char_at (s : Str) (a b i : Nat) (h : a + i < b) :
    (slice s a b)[i]? = s[a + i]? := by
  unfold slice
  rw [List.getElem?_take_of_lt (by omega), List.getElem?_drop]

/-- No marker starts strictly inside a declaration line that names a recognised stage. -/
theorem no_marker_in_line {s : Str} {k : GLenum} {p eol : Nat} (hlen : s.length < sizeMod)
    (hd : DeclaresAt s k p eol) : ∀ q, p < q → q < eol → ¬ MarkerAt s q := by
  intro q hpq hqe hq
  obtain ⟨hm, hl, type, hn, hs⟩ := hd
  have h5 := hm.not_overlap hq hpq
  have hq5 : q + 5 ≤ eol := by
    obtain ⟨_, ⟨c, hc, hcl⟩, _⟩ := hl
    by_contra hlt
    exact hq.not_terminator (eol - q) (by omega) c
      (by rw [show q + (eol - q) = eol by omega]; exact hc) hcl
  rw [stageName_eq hlen hm hl, if_pos (by omega)] at hn
  cases hn
  obtain ⟨hh, ht⟩ := ShaderTypeFromString_chars hs
  by_cases hq6 : q = p + 5
  · apply ht
    rw [slice_char_at s (p + 6) eol 0 (by omega)]
    have := hq.char_at 1 (by omega)
    rw [show p + 6 + 0 = q + 1 by omega, this]
    rfl
  · apply hh (q - (p + 6))
    rw [slice_char_at s (p + 6) eol _ (by omega), show p + 6 + (q - (p + 6)) = q by omega]
    exact hq.hash

/-- No marker starts strictly inside a declaration line that names a recognised stage, nor
inside the line terminators that follow it. -/
theorem no_marker_inside {s : Str} {k : GLenum} {p eol nl : Nat} (hlen : s.length < sizeMod)
    (hd : DeclaresAt s k p eol) (hb : BodyStart s eol nl) :
    ∀ q, p < q → q < nl → ¬ MarkerAt s q := by
  intro q hpq hqn hq
  by_cases hqe : eol ≤ q
  · have := hb.2.2 q '#' hqe hqn hq.hash
    exact absurd this (by decide)
  · exact no_marker_in_line hlen hd q hpq (by omega) hq

theorem Step.block {s : Str} {pos eol : Nat} {type : Str} {stage : GLenum} {nl : Nat}
    {body : Str} (hlen : s.length < sizeMod) (hm : MarkerAt s pos)
    (st : Step s pos eol type stage nl body) :
    Block s stage pos eol nl ((find s typeToken nl).getD s.length) ∧
      body = slice s nl ((find s typeToken nl).getD s.length) := by
  have hl := find_first_of_some st.heol
  have hb := find_first_not_of_some st.hnl
  have hpos : ∀ e, find s typeToken nl = some e → nl ≤ e ∧ e ≤ s.length := by
    intro e he
    obtain ⟨h1, h2, _⟩ := find_some he
    have := h2.add_le_length
    exact ⟨h1, by omega⟩
  have hbody := st.hbody
  rw [stageBody_eq hlen hb.nl_lt_length _ hpos] at hbody
  cases hbody
  refine ⟨⟨⟨hm, hl, type, st.hname, st.hstage⟩, hb, ?_⟩, rfl⟩
  cases hf : find s typeToken nl with
  | none =>
    simp only [Option.getD_none]
    have := hb.nl_lt_length
    refine ⟨by omega, ?_, Or.inr rfl⟩
    intro q hq _
    exact find_none hf q hq
  | some e =>
    simp only [Option.getD_some]
    obtain ⟨h1, h2, h3⟩ := find_some hf
    exact ⟨h1, h3, Or.inl h2⟩

/-- Induction over the successful runs of the loop of `PreProcess`: a property of the loop
state that every successful iteration preserves holds of the final state. -/
theorem PreProcessLoop_ok_induction {s : Str} (Inv : Option Nat → StageMap Str → Prop)
    (hstep : ∀ pos m eol type stage nl body, Inv (some pos) m →
      Step s pos eol type stage nl body →
      Inv (find s typeToken nl) (StageMap.assign stage body m)) :
    ∀ (fuel : Nat) (pos : Option Nat) (m m' : StageMap Str), Inv pos m →
      PreProcessLoop s fuel pos m = .ok m' → Inv none m' := by
  intro fuel
  induction fuel with
  | zero =>
    intro pos m m' hinv h
    cases pos with
    | none => simp only [PreProcessLoop] at h; cases h; exact hinv
    | some p => simp [PreProcessLoop] at h
  | succ fuel ih =>
    intro pos m m' hinv h
    cases pos with
    | none => simp only [PreProcessLoop] at h; cases h; exact hinv
    | some p =>
      simp only [PreProcessLoop] at h
      split at h
      · cases h
      · rename_i eol heol
        split at h
        · cases h
        · rename_i type hname
          split at h
          · cases h
          · rename_i stage hstage
            split at h
            · cases h
            · split at h
              · cases h
              · rename_i nl hnl
                split at h
                · cases h
                · rename_i body hbody
                  exact ih _ _ _ (hstep p m eol type stage nl body hinv
                    ⟨heol, hname, hstage, hnl, hbody⟩) h

/-! ## Facts about stage maps -/

theorem StageMap.lookup_assign_self {α : Type} (k : GLenum) (v : α) (m : StageMap α) :
    (StageMap.assign k v m).lookup k = some v := by
  induction m with
  | nil => simp [StageMap.assign, StageMap.lookup]
  | cons a m ih =>
    obtain ⟨k', v'⟩ := a
    by_cases h : k' = k
    · simp [StageMap.assign, StageMap.lookup, h]
    · simp [StageMap.assign, StageMap.lookup, h, ih]

theorem StageMap.lookup_assign_ne {α : Type} {k k' : GLenum} (v : α) (m : StageMap α)
    (hne : k' ≠ k) : (StageMap.assign k v m).lookup k' = m.lookup k' := by
  induction m with
  | nil => simp [StageMap.assign, StageMap.lookup, Ne.symm hne]
  | cons a m ih =>
    obtain ⟨k'', v''⟩ := a
    by_cases h : k'' = k
    · subst h
      simp [StageMap.assign, StageMap.lookup, Ne.symm hne]
    · by_cases h2 : k'' = k'
      · subst h2
        simp [StageMap.assign, StageMap.lookup, h]
      · simp [StageMap.assign, StageMap.lookup, h, h2, ih]

theorem StageMap.mem_keys_assign {α : Type} {k k' : GLenum} (v : α) (m : StageMap α) :
    k' ∈ (StageMap.assign k v m).keys ↔ k' = k ∨ k' ∈ m.keys := by
  induction m with
  | nil => simp [StageMap.assign, StageMap.keys]
  | cons a m ih =>
    obtain ⟨k'', v''⟩ := a
    by_cases h : k'' = k
    · subst h
      simp [StageMap.assign, StageMap.keys]
    · simp only [StageMap.keys] at ih
      simp only [StageMap.assign, h, if_false, StageMap.keys, List.map_cons, List.mem_cons, ih]
      tauto

theorem StageMap.nodup_keys_assign {α : Type} (k : GLenum) (v : α) (m : StageMap α)
    (h : m.keys.Nodup) : (StageMap.assign k v m).keys.Nodup := by
  induction m with
  | nil => simp [StageMap.assign, StageMap.keys]
  | cons a m ih =>
    obtain ⟨k'', v''⟩ := a
    simp only [StageMap.keys, List.map_cons, List.nodup_cons] at h
    by_cases hk : k'' = k
    · subst hk
      simpa [StageMap.assign, StageMap.keys] using h
    · have hmem := @StageMap.mem_keys_assign _ k k'' v m
      simp only [StageMap.assign, hk, if_false, StageMap.keys, List.map_cons, List.nodup_cons]
      refine ⟨?_, ih h.2⟩
      intro hin
      rcases hmem.mp hin with h1 | h1
      · exact hk h1
      · exact h.1 h1

theorem StageMap.mem_keys_iff {α : Type} (k : GLenum) (m : StageMap α) :
    k ∈ m.keys ↔ ∃ v, m.lookup k = some v := by
  induction m with
  | nil => simp [StageMap.keys, StageMap.lookup]
  | cons a m ih =>
    obtain ⟨k', v'⟩ := a
    simp only [StageMap.keys] at ih
    by_cases h : k' = k
    · simp [StageMap.keys, StageMap.lookup, h]
    · simp [StageMap.keys, StageMap.lookup, h, ih, Ne.symm h]

/-! ## The loop invariant -/

theorem no_marker_between {s : Str} {pos eol : Nat} {type : Str} {stage : GLenum} {nl : Nat}
    {body : Str} (hlen : s.length < sizeMod) (hm : MarkerAt s pos)
    (st : Step s pos eol type stage nl body) :
    ∀ q, pos < q → Before q (find s typeToken nl) → ¬ MarkerAt s q := by
  intro q hpq hbef hq
  have hblk := (st.block hlen hm).1
  by_cases hqn : q < nl
  · exact no_marker_inside hlen hblk.declares hblk.bodyStart q hpq hqn hq
  · cases hf : find s typeToken nl with
    | none => exact find_none hf q (by omega) hq
    | some e =>
      obtain ⟨_, _, h3⟩ := find_some hf
      exact h3 q (by omega) (hbef e hf) hq

theorem Step.pos_lt {s : Str} {pos eol : Nat} {type : Str} {stage : GLenum} {nl : Nat}
    {body : Str} (hm : MarkerAt s pos) (st : Step s pos eol type stage nl body) :
    Before pos (find s typeToken nl) := by
  intro e he
  have hl := (find_first_of_some st.heol).marker_le hm
  have hb := (find_first_not_of_some st.hnl).1
  have := (find_some he).1
  have hne : eol ≠ nl := by
    intro heq
    obtain ⟨_, ⟨c, hc, hcl⟩, _⟩ := find_first_of_some st.heol
    obtain ⟨_, ⟨c', hc', hcl'⟩, _⟩ := find_first_not_of_some st.hnl
    rw [heq, hc'] at hc
    cases hc
    exact hcl' hcl
  omega

theorem LoopInv.init (s : Str) : LoopInv s (find s typeToken 0) [] := by
  refine ⟨?_, ?_, ?_, ?_⟩
  · intro p hp
    exact (find_some hp).2.1
  · intro k body h
    simp [StageMap.lookup] at h
  · intro q hq hm
    cases hf : find s typeToken 0 with
    | none => exact absurd hm (find_none hf q (Nat.zero_le _))
    | some e => exact absurd hm ((find_some hf).2.2 q (Nat.zero_le _) (hq e hf))
  · simp [StageMap.keys]

theorem LoopInv.step {s : Str} (hlen : s.length < sizeMod) {pos : Nat} {m : StageMap Str}
    {eol : Nat} {type : Str} {stage : GLenum} {nl : Nat} {body : Str}
    (hinv : LoopInv s (some pos) m) (st : Step s pos eol type stage nl body) :
    LoopInv s (find s typeToken nl) (StageMap.assign stage body m) := by
  have hm := hinv.marker pos rfl
  obtain ⟨hblk, hbody⟩ := st.block hlen hm
  have hlt := st.pos_lt hm
  have hnone := no_marker_between hlen hm st
  refine ⟨?_, ?_, ?_, ?_⟩
  · intro p hp
    exact (find_some hp).2.1
  · intro k body' hk
    by_cases hks : k = stage
    · subst hks
      rw [StageMap.lookup_assign_self] at hk
      cases hk
      refine ⟨pos, eol, nl, _, hblk, hbody, hlt, ?_⟩
      intro p' hp' hbef hdec
      obtain ⟨_, hd⟩ := hdec
      exact hnone p' hp' hbef hd.1
    · rw [StageMap.lookup_assign_ne _ _ hks] at hk
      obtain ⟨p, eol', nl', e', hb', hbd', hbef', hlast'⟩ := hinv.entries k body' hk
      have hp := hbef' pos rfl
      refine ⟨p, eol', nl', e', hb', hbd', ?_, ?_⟩
      · intro e he
        have := hlt e he
        omega
      · intro p' hp' hbef hdec
        rcases Nat.lt_trichotomy p' pos with h | h | h
        · exact hlast' p' hp' (by intro x hx; cases hx; exact h) hdec
        · subst h
          obtain ⟨_, hd⟩ := hdec
          exact hks (hd.stage_unique hblk.declares).1
        · obtain ⟨_, hd⟩ := hdec
          exact hnone p' h hbef hd.1
  · intro q hbef hq
    rcases Nat.lt_trichotomy q pos with h | h | h
    · obtain ⟨k, eol', nl', e', hb', hk'⟩ :=
        hinv.complete q (by intro x hx; cases hx; exact h) hq
      exact ⟨k, eol', nl', e', hb', (StageMap.mem_keys_assign _ _).mpr (Or.inr hk')⟩
    · subst h
      exact ⟨stage, eol, nl, _, hblk, (StageMap.mem_keys_assign _ _).mpr (Or.inl rfl)⟩
    · exact absurd hq (hnone q h hbef)
  · exact StageMap.nodup_keys_assign _ _ _ hinv.nodup

/-- What a successful run of `PreProcess` establishes. -/
theorem PreProcess_ok_inv {s : Str} (hlen : s.length < sizeMod) {m : StageMap Str}
    (h : PreProcess s = .ok m) : LoopInv s none m :=
  PreProcessLoop_ok_induction (LoopInv s)
    (fun _ _ _ _ _ _ _ hinv st => hinv.step hlen st) _ _ _ _ (LoopInv.init s) h

/-! ## Failing runs -/

theorem stageName_ok {s : Str} {p eol : Nat} (hm : MarkerAt s p) (hl : LineEnd s p eol) :
    ∃ type, stageName s p eol = .ok type := by
  have h5 := hl.marker_le hm
  have hlt := hl.eol_lt_length
  have htl : typeTokenLength = 5 := rfl
  unfold stageName substr
  simp only [htl]
  rw [if_neg (by omega)]
  exact ⟨_, rfl⟩

theorem stageBody_ok {s : Str} {nl : Nat} (hnl : nl < s.length) (pos : Option Nat) :
    ∃ body, stageBody s nl pos = .ok body := by
  unfold stageBody substr
  cases pos with
  | none => simp only; rw [if_neg (by omega)]; exact ⟨_, rfl⟩
  | some e => simp only; rw [if_neg (by omega)]; exact ⟨_, rfl⟩

theorem ShaderTypeFromString_error {type : Str} {e : Fatal}
    (h : ShaderTypeFromString type = .error e) : e = .unknownShaderType := by
  unfold ShaderTypeFromString at h
  split at h
  · cases h
  · split at h
    · cases h
    · cases h; rfl

/-- A run of the loop with enough fuel that fails does so at a marker, in one of the three
ways of `FailsAt`; in particular it never runs out of fuel. -/
theorem PreProcessLoop_error {s : Str} :
    ∀ (fuel : Nat) (pos : Option Nat) (m : StageMap Str) (e : Fatal),
      (∀ p, pos = some p → MarkerAt s p ∧ s.length ≤ p + fuel) →
      PreProcessLoop s fuel pos m = .error e → ∃ p, MarkerAt s p ∧ FailsAt s p e := by
  intro fuel
  induction fuel with
  | zero =>
    intro pos m e hpre h
    cases pos with
    | none => simp [PreProcessLoop] at h
    | some p =>
      obtain ⟨hm, hf⟩ := hpre p rfl
      have := hm.add_le_length
      omega
  | succ fuel ih =>
    intro pos m e hpre h
    cases pos with
    | none => simp [PreProcessLoop] at h
    | some p =>
      obtain ⟨hm, hf⟩ := hpre p rfl
      simp only [PreProcessLoop] at h
      split at h
      · rename_i heol
        cases h
        exact ⟨p, hm, Or.inl ⟨rfl, find_first_of_none heol⟩⟩
      · rename_i eol heol
        have hl := find_first_of_some heol
        split at h
        · rename_i e' hname
          obtain ⟨type, ht⟩ := stageName_ok hm hl
          rw [ht] at hname
          cases hname
        · rename_i type hname
          split at h
          · rename_i e' hstage
            cases h
            have := ShaderTypeFromString_error hstage
            subst this
            exact ⟨p, hm, Or.inr (Or.inl ⟨rfl, eol, type, hl, hname, hstage⟩)⟩
          · rename_i stage hstage
            split at h
            · rename_i h0
              rcases ShaderTypeFromString_stage hstage with hk | hk
              · rw [hk] at h0; exact absurd h0 (by decide)
              · rw [hk] at h0; exact absurd h0 (by decide)
            · split at h
              · rename_i hnl
                cases h
                exact ⟨p, hm, Or.inr (Or.inr ⟨rfl, stage, eol, ⟨hm, hl, type, hname, hstage⟩,
                  find_first_not_of_none hnl⟩)⟩
              · rename_i nl hnl
                have hb := find_first_not_of_some hnl
                split at h
                · rename_i e' hbody
                  obtain ⟨body, hbd⟩ := stageBody_ok hb.nl_lt_length (find s typeToken nl)
                  rw [hbd] at hbody
                  cases hbody
                · rename_i body hbody
                  have st : Step s p eol type stage nl body :=
                    ⟨heol, hname, hstage, hnl, hbody⟩
                  refine ih _ _ e ?_ h
                  intro p' hp'
                  have hlt := st.pos_lt hm p' hp'
                  exact ⟨(find_some hp').2.1, by omega⟩

/-- A failing run of `PreProcess` fails at a marker, in one of the three ways of `FailsAt`. -/
theorem PreProcess_error {s : Str} {e : Fatal} (h : PreProcess s = .error e) :
    ∃ p, MarkerAt s p ∧ FailsAt s p e := by
  refine PreProcessLoop_error s.length (find s typeToken 0) [] e ?_ h
  intro p hp
  exact ⟨(find_some hp).2.1, by omega⟩

theorem FailsAt.error_kind {s : Str} {p : Nat} {e : Fatal} (h : FailsAt s p e) :
    e = .syntaxError ∨ e = .unknownShaderType := by
  rcases h with ⟨h, _⟩ | ⟨h, _⟩ | ⟨h, _⟩
  · exact Or.inl h
  · exact Or.inr h
  · exact Or.inl h

/-- A marker at which the loop fails opens no block. -/
theorem FailsAt.not_block {s : Str} {p : Nat} {e : Fatal} (h : FailsAt s p e)
    {k : GLenum} {eol nl b : Nat} (hb : Block s k p eol nl b) : False := by
  obtain ⟨⟨hm, hl, type, hn, hs⟩, hbs, _⟩ := hb
  rcases h with ⟨_, h⟩ | ⟨_, eol', type', hl', hn', hs'⟩ | ⟨_, k', eol', hd', h⟩
  · obtain ⟨h1, ⟨c, hc, hcl⟩, _⟩ := hl
    exact h eol c h1 hc hcl
  · have := hl.eol_unique hl'
    subst this
    rw [hn] at hn'
    cases hn'
    rw [hs] at hs'
    cases hs'
  · have := hl.eol_unique hd'.2.1
    subst this
    obtain ⟨h1, ⟨c, hc, hcl⟩, _⟩ := hbs
    exact hcl (h nl c h1 hc)

/-! ## The loop in terms of its body -/

theorem PreProcessLoop_succ (s : Str) (fuel pos : Nat) (m : StageMap Str) :
    PreProcessLoop s (fuel + 1) (some pos) m =
      match stepAt s pos with
      | .error e => .error e
      | .ok (stage, body, pos') => PreProcessLoop s fuel pos' (StageMap.assign stage body m) := by
  simp only [PreProcessLoop, stepAt]
  split
  · rfl
  · split
    · rfl
    · split
      · rfl
      · split
        · rfl
        · split
          · rfl
          · split
            · rfl
            · rfl

theorem stepAt_ok_step {s : Str} {pos : Nat} {stage : GLenum} {body : Str}
    {pos' : Option Nat} (h : stepAt s pos = .ok (stage, body, pos')) :
    ∃ eol type nl, Step s pos eol type stage nl body ∧ pos' = find s typeToken nl := by
  simp only [stepAt] at h
  split at h
  · cases h
  · rename_i eol heol
    split at h
    · cases h
    · rename_i type hname
      split at h
      · cases h
      · rename_i stage' hstage
        split at h
        · cases h
        · split at h
          · cases h
          · rename_i nl hnl
            split at h
            · cases h
            · rename_i body' hbody
              cases h
              exact ⟨eol, type, nl, ⟨heol, hname, hstage, hnl, hbody⟩, rfl⟩

theorem PreProcessLoop_none (s : Str) (fuel : Nat) (m : StageMap Str) :
    PreProcessLoop s fuel none m = .ok m := by
  cases fuel <;> rfl

/-- With enough fuel, more fuel does not change the result of the loop. -/
theorem PreProcessLoop_fuel {s : Str} (d : Nat) :
    ∀ (fuel : Nat) (pos : Option Nat) (m : StageMap Str),
      (∀ p, pos = some p → MarkerAt s p ∧ s.length ≤ p + fuel) →
      PreProcessLoop s (fuel + d) pos m = PreProcessLoop s fuel pos m := by
  intro fuel
  induction fuel with
  | zero =>
    intro pos m hpre
    cases pos with
    | none => rw [PreProcessLoop_none, PreProcessLoop_none]
    | some p =>
      obtain ⟨hm, hf⟩ := hpre p rfl
      have := hm.add_le_length
      omega
  | succ fuel ih =>
    intro pos m hpre
    cases pos with
    | none => rw [PreProcessLoop_none, PreProcessLoop_none]
    | some p =>
      obtain ⟨hm, hf⟩ := hpre p rfl
      rw [show fuel + 1 + d = (fuel + d) + 1 by omega, PreProcessLoop_succ, PreProcessLoop_succ]
      cases hst : stepAt s p with
      | error e => rfl
      | ok r =>
        obtain ⟨stage, body, pos'⟩ := r
        simp only
        apply ih
        intro p' hp'
        obtain ⟨eol, type, nl, st, hpos⟩ := stepAt_ok_step hst
        rw [hpos] at hp'
        have hlt := st.pos_lt hm p' hp'
        exact ⟨(find_some hp').2.1, by omega⟩

/-- Two runs of the loop, on two sources, whose bodies agree at related positions and keep
the positions related, give the same result. -/
theorem PreProcessLoop_sim {s1 s2 : Str} (R : Nat → Nat → Prop)
    (hstep : ∀ p1 p2, R p1 p2 → StepRel R (stepAt s1 p1) (stepAt s2 p2)) :
    ∀ (fuel p1 p2 : Nat) (m : StageMap Str), R p1 p2 →
      PreProcessLoop s1 fuel (some p1) m = PreProcessLoop s2 fuel (some p2) m := by
  intro fuel
  induction fuel with
  | zero => intro p1 p2 m _; rfl
  | succ fuel ih =>
    intro p1 p2 m hR
    rw [PreProcessLoop_succ, PreProcessLoop_succ]
    have h := hstep p1 p2 hR
    cases h1 : stepAt s1 p1 with
    | error e1 =>
      cases h2 : stepAt s2 p2 with
      | error e2 =>
        rw [h1, h2] at h
        simp only [StepRel] at h
        rw [h]
      | ok r2 =>
        rw [h1, h2] at h
        simp [StepRel] at h
    | ok r1 =>
      obtain ⟨k1, b1, n1⟩ := r1
      cases h2 : stepAt s2 p2 with
      | error e2 =>
        rw [h1, h2] at h
        cases n1 <;> simp [StepRel] at h
      | ok r2 =>
        obtain ⟨k2, b2, n2⟩ := r2
        rw [h1, h2] at h
        cases n1 with
        | none =>
          cases n2 with
          | none =>
            simp only [StepRel] at h
            obtain ⟨rfl, rfl⟩ := h
            simp only [PreProcessLoop_none]
          | some q2 => simp [StepRel] at h
        | some q1 =>
          cases n2 with
          | none => simp [StepRel] at h
          | some q2 =>
            simp only [StepRel] at h
            obtain ⟨rfl, rfl, hq⟩ := h
            simp only
            exact ih q1 q2 _ hq

/-! ## The searches determine, and are determined by, their specification -/

theorem find_first_of_eq_some {s : Str} {p eol : Nat} (h : LineEnd s p eol) :
    find_first_of s lineTerminators p = some eol := by
  cases hf : find_first_of s lineTerminators p with
  | none =>
    obtain ⟨h1, ⟨c, hc, hcl⟩, _⟩ := h
    exact absurd hcl (find_first_of_none hf eol c h1 hc)
  | some e => rw [(find_first_of_some hf).eol_unique h]

theorem find_first_of_eq_none {s : Str} {p : Nat}
    (h : ∀ (j : Nat) (c : Char), p ≤ j → s[j]? = some c → ¬ IsLineTerminator c) :
    find_first_of s lineTerminators p = none := by
  cases hf : find_first_of s lineTerminators p with
  | none => rfl
  | some e =>
    obtain ⟨h1, ⟨c, hc, hcl⟩, _⟩ := find_first_of_some hf
    exact absurd hcl (h e c h1 hc)

theorem find_first_not_of_eq_some {s : Str} {eol nl : Nat} (h : BodyStart s eol nl) :
    find_first_not_of s lineTerminators eol = some nl := by
  cases hf : find_first_not_of s lineTerminators eol with
  | none =>
    obtain ⟨h1, ⟨c, hc, hcl⟩, _⟩ := h
    exact absurd (find_first_not_of_none hf nl c h1 hc) hcl
  | some e => rw [(find_first_not_of_some hf).nl_unique h]

theorem find_eq_some {s : Str} {nl e : Nat} (h1 : nl ≤ e) (h2 : MarkerAt s e)
    (h3 : ∀ q, nl ≤ q → q < e → ¬ MarkerAt s q) : find s typeToken nl = some e := by
  cases hf : find s typeToken nl with
  | none => exact absurd h2 (find_none hf e h1)
  | some e' =>
    obtain ⟨g1, g2, g3⟩ := find_some hf
    rcases Nat.lt_trichotomy e e' with h | h | h
    · exact absurd h2 (g3 e h1 h)
    · rw [h]
    · exact absurd g2 (h3 e' g1 h)

/-! ## The loop body depends on the source from the marker on only -/

theorem scanFrom_add (p : Char → Bool) (l : Str) (i d : Nat) :
    scanFrom p l (i + d) = (scanFrom p l i).map (· + d) := by
  induction l generalizing i with
  | nil => rfl
  | cons a l ih =>
    unfold scanFrom
    split
    · rfl
    · rw [show i + d + 1 = (i + 1) + d by omega, ih]

theorem scanTokenFrom_add (tok l : Str) (i d : Nat) :
    scanTokenFrom tok l (i + d) = (scanTokenFrom tok l i).map (· + d) := by
  induction l generalizing i with
  | nil =>
    unfold scanTokenFrom
    split <;> rfl
  | cons a l ih =>
    unfold scanTokenFrom
    split
    · rfl
    · rw [show i + d + 1 = (i + 1) + d by omega, ih]

theorem find_first_of_drop (s set : Str) (p r : Nat) :
    find_first_of s set (r + p) = (find_first_of (s.drop p) set r).map (· + p) := by
  unfold find_first_of
  rw [List.drop_drop, scanFrom_add, Nat.add_comm p r]

theorem find_first_not_of_drop (s set : Str) (p r : Nat) :
    find_first_not_of s set (r + p) = (find_first_not_of (s.drop p) set r).map (· + p) := by
  unfold find_first_not_of
  rw [List.drop_drop, scanFrom_add, Nat.add_comm p r]

theorem find_drop (s tok : Str) (p r : Nat) (hp : p ≤ s.length) :
    find s tok (r + p) = (find (s.drop p) tok r).map (· + p) := by
  unfold find
  rw [List.length_drop]
  by_cases h : s.length < r + p
  · rw [if_pos h, if_pos (by omega)]; rfl
  · rw [if_neg h, if_neg (by omega), List.drop_drop, scanTokenFrom_add, Nat.add_comm p r]

theorem sizeSub_add (a b p : Nat) : sizeSub (a + p) (b + p) = sizeSub a b := by
  unfold sizeSub sizeMod
  omega

theorem substr_drop (s : Str) (p x n : Nat) (hp : p ≤ s.length) :
    substr s (x + p) n = substr (s.drop p) x n := by
  unfold substr
  rw [List.length_drop, List.drop_drop, Nat.add_comm p x]
  by_cases h : s.length < x + p
  · rw [if_pos h, if_pos (by omega)]
  · rw [if_neg h, if_neg (by omega)]

theorem stageName_drop (s : Str) (p e : Nat) (hp : p ≤ s.length) :
    stageName s p (e + p) = stageName (s.drop p) 0 e := by
  unfold stageName
  simp only
  rw [show p + typeTokenLength + 1 = (0 + typeTokenLength + 1) + p by omega, sizeSub_add,
    substr_drop _ _ _ _ hp]

theorem stageBody_drop (s : Str) (p nl : Nat) (n : Option Nat) (hp : p ≤ s.length) :
    stageBody s (nl + p) (n.map (· + p)) = stageBody (s.drop p) nl n := by
  unfold stageBody
  cases n with
  | none => simp only [Option.map_none']; exact substr_drop _ _ _ _ hp
  | some e => simp only [Option.map_some']; rw [sizeSub_add]; exact substr_drop _ _ _ _ hp

/-- Moving the next-marker position of an outcome of the loop body by `p`. -/
theorem stepAt_drop (s : Str) (p : Nat) (hp : p ≤ s.length) :
    stepAt s p = (stepAt (s.drop p) 0).map (fun r => (r.1, r.2.1, r.2.2.map (· + p))) := by
  unfold stepAt
  have h1 := find_first_of_drop s lineTerminators p 0
  rw [Nat.zero_add] at h1
  rw [h1]
  cases find_first_of (List.drop p s) lineTerminators 0 with
  | none => rfl
  | some eol =>
    simp only [Option.map_some']
    rw [stageName_drop s p eol hp]
    cases stageName (List.drop p s) 0 eol with
    | error e => rfl
    | ok type =>
      simp only
      cases ShaderTypeFromString type with
      | error e => rfl
      | ok stage =>
        simp only
        by_cases h0 : stage = 0
        · rw [if_pos h0, if_pos h0]; rfl
        · rw [if_neg h0, if_neg h0, find_first_not_of_drop]
          cases find_first_not_of (List.drop p s) lineTerminators eol with
          | none => rfl
          | some nl =>
            simp only [Option.map_some']
            rw [find_drop _ _ _ _ hp, stageBody_drop _ _ _ _ hp]
            cases stageBody (List.drop p s) nl (find (List.drop p s) typeToken nl) with
            | error e => rfl
            | ok body => rfl

theorem stepAt_of_step {s : Str} {pos eol : Nat} {type : Str} {stage : GLenum} {nl : Nat}
    {body : Str} (st : Step s pos eol type stage nl body) :
    stepAt s pos = .ok (stage, body, find s typeToken nl) := by
  unfold stepAt
  rw [st.heol]
  simp only
  rw [st.hname]
  simp only
  rw [st.hstage]
  simp only
  have h0 : stage ≠ 0 := by
    rcases ShaderTypeFromString_stage st.hstage with h | h <;> rw [h] <;> decide
  rw [if_neg h0, st.hnl]
  simp only
  rw [st.hbody]

theorem stepAt_no_eol {s : Str} {pos : Nat}
    (h : find_first_of s lineTerminators pos = none) : stepAt s pos = .error .syntaxError := by
  unfold stepAt
  rw [h]

theorem stepAt_bad_type {s : Str} {pos eol : Nat} {type : Str} {e : Fatal}
    (heol : find_first_of s lineTerminators pos = some eol)
    (hname : stageName s pos eol = .ok type) (hstage : ShaderTypeFromString type = .error e) :
    stepAt s pos = .error e := by
  unfold stepAt
  rw [heol]
  simp only
  rw [hname]
  simp only
  rw [hstage]

theorem stepAt_no_body {s : Str} {pos eol : Nat} {type : Str} {stage : GLenum}
    (heol : find_first_of s lineTerminators pos = some eol)
    (hname : stageName s pos eol = .ok type) (hstage : ShaderTypeFromString type = .ok stage)
    (hnl : find_first_not_of s lineTerminators eol = none) :
    stepAt s pos = .error .syntaxError := by
  unfold stepAt
  rw [heol]
  simp only
  rw [hname]
  simp only
  rw [hstage]
  simp only
  have h0 : stage ≠ 0 := by
    rcases ShaderTypeFromString_stage hstage with h | h <;> rw [h] <;> decide
  rw [if_neg h0, hnl]

/-- The loop body gives the same outcome on two sources with the same remainder. -/
theorem stepAt_tail {s1 s2 : Str} {p1 p2 : Nat} (R : Nat → Nat → Prop)
    (hR : ∀ q1 q2, Tail s1 s2 q1 q2 → R q1 q2) (h : Tail s1 s2 p1 p2) :
    StepRel R (stepAt s1 p1) (stepAt s2 p2) := by
  obtain ⟨h1, h2, h3⟩ := h
  rw [stepAt_drop s1 p1 h1, stepAt_drop s2 p2 h2, h3]
  cases hst : stepAt (List.drop p2 s2) 0 with
  | error e => simp [StepRel, Except.map]
  | ok r =>
    obtain ⟨k, body, n⟩ := r
    cases n with
    | none => simp [StepRel, Except.map]
    | some q =>
      simp only [StepRel, Except.map, Option.map_some', true_and]
      apply hR
      obtain ⟨eol, type, nl, st, hpos⟩ := stepAt_ok_step hst
      have hq := (find_some hpos.symm).2.1.add_le_length
      rw [List.length_drop] at hq
      refine ⟨?_, by omega, ?_⟩
      · have : (List.drop p1 s1).length = (List.drop p2 s2).length := by rw [h3]
        simp only [List.length_drop] at this
        omega
      · rw [Nat.add_comm q p1, Nat.add_comm q p2, ← List.drop_drop, ← List.drop_drop, h3]

/-! ## Replacing `#type pixel` by `#type fragment`: markers before the replaced one -/

theorem MarkerAt.of_chars {s : Str} {q : Nat}
    (h : ∀ i, i < 5 → s[q + i]? = typeToken[i]?) : MarkerAt s q := by
  unfold MarkerAt
  rw [List.prefix_iff_eq_take]
  apply List.ext_getElem?
  intro i
  have h5 : typeToken.length = 5 := rfl
  by_cases hi : i < 5
  · rw [h5, List.getElem?_take_of_lt hi, List.getElem?_drop, h i hi]
  · rw [h5, List.getElem?_eq_none (by omega), List.getElem?_eq_none]
    simp only [List.length_take]
    omega

theorem MarkerAt.congr {s1 s2 : Str} {q : Nat} (h : ∀ (j : Nat), j < q + 5 → s1[j]? = s2[j]?)
    (hm : MarkerAt s1 q) : MarkerAt s2 q := by
  apply MarkerAt.of_chars
  intro i hi
  rw [← h (q + i) (by omega)]
  exact hm.char_at i hi

theorem slice_congr {s1 s2 : Str} {a b : Nat} (h : ∀ (j : Nat), j < b → s1[j]? = s2[j]?) :
    slice s1 a b = slice s2 a b := by
  apply List.ext_getElem?
  intro i
  by_cases hi : a + i < b
  · rw [slice_char_at _ _ _ _ hi, slice_char_at _ _ _ _ hi, h _ hi]
  · rw [List.getElem?_eq_none, List.getElem?_eq_none]
    · simp only [slice, List.length_take]; omega
    · simp only [slice, List.length_take]; omega

theorem ShaderTypeFromString_hash {type : Str} {i : Nat} (h : type[i]? = some '#') :
    ShaderTypeFromString type = .error .unknownShaderType := by
  cases hs : ShaderTypeFromString type with
  | error e => rw [ShaderTypeFromString_error hs]
  | ok k => exact absurd h ((ShaderTypeFromString_chars hs).1 i)

theorem ShaderTypeFromString_t {type : Str} (h : type[0]? = some 't') :
    ShaderTypeFromString type = .error .unknownShaderType := by
  cases hs : ShaderTypeFromString type with
  | error e => rw [ShaderTypeFromString_error hs]
  | ok k => exact absurd h (ShaderTypeFromString_chars hs).2

theorem StepRel_error (R : Nat → Nat → Prop) (e : Fatal) :
    StepRel R (.error e) (.error e) := by
  simp [StepRel]

theorem Patch.marker2 {s1 s2 : Str} {N : Nat} (h : Patch s1 s2 N) : MarkerAt s2 N :=
  MarkerAt.congr (fun j hj => h.agree j (by omega)) h.marker

/-- The loop body at a marker before the replaced one gives the same outcome on both
sources. -/
theorem Patch.stepAt_before {s1 s2 : Str} {N : Nat} (h : Patch s1 s2 N) {p : Nat}
    (hpN : p < N) (hmp : MarkerAt s1 p) :
    StepRel (Related s1 s2 N) (stepAt s1 p) (stepAt s2 p) := by
  have hm2 := h.marker2
  have hp5 : p + 5 ≤ N := hmp.not_overlap h.marker hpN
  have hmp2 : MarkerAt s2 p := MarkerAt.congr (fun j hj => h.agree j (by omega)) hmp
  cases hf : find_first_of s1 lineTerminators p with
  | none =>
    have h1none := find_first_of_none hf
    have hf2 : find_first_of s2 lineTerminators p = none := by
      apply find_first_of_eq_none
      intro j c hj hc
      by_cases hjN : j < N
      · rw [← h.agree j (by omega)] at hc
        exact h1none j c hj hc
      · by_cases hj14 : j < N + 14
        · exact h.line2 j c (by omega) hj14 hc
        · have := h.rest (j - (N + 14))
          rw [show N + 14 + (j - (N + 14)) = j by omega] at this
          rw [← this] at hc
          exact h1none _ c (by omega) hc
    rw [stepAt_no_eol hf, stepAt_no_eol hf2]
    exact StepRel_error _ _
  | some eol =>
    have hl := find_first_of_some hf
    obtain ⟨hl1, ⟨c, hc, hcl⟩, hl3⟩ := id hl
    by_cases he : eol < N
    · have hl2 : LineEnd s2 p eol :=
        ⟨hl1, ⟨c, by rw [← h.agree eol (by omega)]; exact hc, hcl⟩,
          fun j c' hpj hje hc' => hl3 j c' hpj hje (by rw [h.agree j (by omega)]; exact hc')⟩
      have hf2 := find_first_of_eq_some hl2
      have hn1 := stageName_eq h.len1 hmp hl
      have hn2 := stageName_eq h.len2 hmp2 hl2
      by_cases h6 : p + 6 ≤ eol
      · rw [if_pos h6] at hn1 hn2
        have hsl : slice s2 (p + 6) eol = slice s1 (p + 6) eol :=
          slice_congr (fun j hj => (h.agree j (by omega)).symm)
        rw [hsl] at hn2
        cases hs : ShaderTypeFromString (slice s1 (p + 6) eol) with
        | error e =>
          rw [stepAt_bad_type hf hn1 hs, stepAt_bad_type hf2 hn2 hs]
          exact StepRel_error _ _
        | ok stage =>
          cases hnl : find_first_not_of s1 lineTerminators eol with
          | none =>
            exact absurd (find_first_not_of_none hnl N '#' (by omega) h.marker.hash)
              (by decide)
          | some nl =>
            have hb := find_first_not_of_some hnl
            obtain ⟨hb1, ⟨d, hd, hdl⟩, hb3⟩ := id hb
            have hnlN : nl ≤ N := by
              by_contra hgt
              exact absurd (hb3 N '#' (by omega) (by omega) h.marker.hash) (by decide)
            have hb2 : BodyStart s2 eol nl :=
              ⟨hb1, ⟨d, by rw [← h.agree nl (by omega)]; exact hd, hdl⟩,
                fun j c' h1 h2 hc' => hb3 j c' h1 h2 (by rw [h.agree j (by omega)]; exact hc')⟩
            have hnl2 := find_first_not_of_eq_some hb2
            cases hfd : find s1 typeToken nl with
            | none => exact absurd h.marker (find_none hfd N hnlN)
            | some e =>
              obtain ⟨g1, g2, g3⟩ := find_some hfd
              have heN : e ≤ N := by
                by_contra hgt
                exact g3 N hnlN (by omega) h.marker
              have hme2 : MarkerAt s2 e := by
                by_cases heq : e = N
                · rw [heq]; exact hm2
                · have := g2.not_overlap h.marker (by omega)
                  exact MarkerAt.congr (fun j hj => h.agree j (by omega)) g2
              have hfd2 : find s2 typeToken nl = some e := by
                apply find_eq_some g1 hme2
                intro q hq hqe hmq
                have := hmq.not_overlap hm2 (by omega)
                exact g3 q hq hqe
                  (MarkerAt.congr (fun j hj => (h.agree j (by omega)).symm) hmq)
              have hbd1 := stageBody_eq h.len1 hb.nl_lt_length (some e) (by
                intro e' he'
                cases he'
                have := g2.add_le_length
                exact ⟨g1, by omega⟩)
              have hbd2 := stageBody_eq h.len2 hb2.nl_lt_length (some e) (by
                intro e' he'
                cases he'
                have := hme2.add_le_length
                exact ⟨g1, by omega⟩)
              simp only [Option.getD_some] at hbd1 hbd2
              have hsl2 : slice s2 nl e = slice s1 nl e :=
                slice_congr (fun j hj => (h.agree j (by omega)).symm)
              rw [hsl2] at hbd2
              have st1 : Step s1 p eol _ stage nl (slice s1 nl e) :=
                ⟨hf, hn1, hs, hnl, by rw [hfd]; exact hbd1⟩
              have st2 : Step s2 p eol _ stage nl (slice s1 nl e) :=
                ⟨hf2, hn2, hs, hnl2, by rw [hfd2]; exact hbd2⟩
              rw [stepAt_of_step st1, stepAt_of_step st2, hfd, hfd2]
              exact ⟨rfl, rfl, Or.inl ⟨rfl, heN, g2⟩⟩
      · rw [if_neg h6] at hn1 hn2
        have h5 := hl.marker_le hmp
        have hs1 : ShaderTypeFromString (s1.drop (p + 6)) = .error .unknownShaderType := by
          apply @ShaderTypeFromString_hash _ (N - (p + 6))
          rw [List.getElem?_drop, show p + 6 + (N - (p + 6)) = N by omega]
          exact h.marker.hash
        have hs2 : ShaderTypeFromString (s2.drop (p + 6)) = .error .unknownShaderType := by
          apply @ShaderTypeFromString_hash _ (N - (p + 6))
          rw [List.getElem?_drop, show p + 6 + (N - (p + 6)) = N by omega]
          exact hm2.hash
        rw [stepAt_bad_type hf hn1 hs1, stepAt_bad_type hf2 hn2 hs2]
        exact StepRel_error _ _
    · have he11 : N + 11 ≤ eol := by
        by_contra hlt
        exact h.line1 eol c (by omega) (by omega) hc hcl
      have hl2 : LineEnd s2 p (eol + 3) := by
        refine ⟨by omega, ⟨c, ?_, hcl⟩, ?_⟩
        · have := h.rest (eol - (N + 11))
          rw [show N + 11 + (eol - (N + 11)) = eol by omega,
            show N + 14 + (eol - (N + 11)) = eol + 3 by omega] at this
          rw [← this]
          exact hc
        · intro j c' hpj hje hc'
          by_cases hjN : j < N
          · rw [← h.agree j (by omega)] at hc'
            exact hl3 j c' hpj (by omega) hc'
          · by_cases hj14 : j < N + 14
            · exact h.line2 j c' (by omega) hj14 hc'
            · have := h.rest (j - (N + 14))
              rw [show N + 14 + (j - (N + 14)) = j by omega] at this
              rw [← this] at hc'
              exact hl3 _ c' (by omega) (by omega) hc'
      have hf2 := find_first_of_eq_some hl2
      have hn1 := stageName_eq h.len1 hmp hl
      have hn2 := stageName_eq h.len2 hmp2 hl2
      rw [if_pos (by omega)] at hn1 hn2
      have hbad : ∀ (s : Str) (x : Nat), MarkerAt s N → N + 11 ≤ x →
          ShaderTypeFromString (slice s (p + 6) x) = .error .unknownShaderType := by
        intro s x hm hx
        by_cases hN : N = p + 5
        · apply ShaderTypeFromString_t
          rw [slice_char_at s (p + 6) x 0 (by omega), show p + 6 + 0 = N + 1 by omega,
            hm.char_at 1 (by omega)]
          rfl
        · apply @ShaderTypeFromString_hash _ (N - (p + 6))
          rw [slice_char_at s (p + 6) x _ (by omega), show p + 6 + (N - (p + 6)) = N by omega]
          exact hm.hash
      rw [stepAt_bad_type hf hn1 (hbad s1 eol h.marker he11),
        stepAt_bad_type hf2 hn2 (hbad s2 (eol + 3) hm2 (by omega))]
      exact StepRel_error _ _

/-! ## Replacing `#type pixel` by `#type fragment`: the replaced marker -/

theorem scanFrom_append_of_not (p : Char → Bool) (l1 l2 : Str) (i : Nat)
    (h : ∀ c ∈ l1, p c = false) : scanFrom p (l1 ++ l2) i = scanFrom p l2 (i + l1.length) := by
  induction l1 generalizing i with
  | nil => rfl
  | cons a l ih =>
    have ha := h a (List.mem_cons_self _ _)
    have hstep : scanFrom p (a :: (l ++ l2)) i = scanFrom p (l ++ l2) (i + 1) := by
      simp [scanFrom, ha]
    rw [List.cons_append, hstep, ih (i + 1) (fun c hc => h c (List.mem_cons_of_mem _ hc)),
      List.length_cons, show i + 1 + l.length = i + (l.length + 1) by omega]

/-- The loop body at the start of a source that begins with a declaration line `line`. -/
theorem stepAt_line (line b : Str) (hlen : (line ++ b).length < sizeMod)
    (h6 : 6 ≤ line.length) (hnt : ∀ c ∈ line, ¬ IsLineTerminator c) :
    stepAt (line ++ b) 0 =
      match find_first_of b lineTerminators 0 with
      | none => .error .syntaxError
      | some k =>
        match ShaderTypeFromString (line.drop 6 ++ b.take k) with
        | .error e => .error e
        | .ok stage =>
          match find_first_not_of b lineTerminators k with
          | none => .error .syntaxError
          | some nl =>
            match stageBody b nl (find b typeToken nl) with
            | .error e => .error e
            | .ok body => .ok (stage, body, (find b typeToken nl).map (· + line.length)) := by
  have hdrop : (line ++ b).drop line.length = b := List.drop_left _ _
  have hle : line.length ≤ (line ++ b).length := by simp
  have hfirst : find_first_of (line ++ b) lineTerminators 0
      = (find_first_of b lineTerminators 0).map (· + line.length) := by
    unfold find_first_of
    rw [List.drop_zero, List.drop_zero, scanFrom_append_of_not, scanFrom_add]
    intro c hc
    have := hnt c hc
    rw [← contains_lineTerminators] at this
    simpa using this
  unfold stepAt
  rw [hfirst]
  cases hk : find_first_of b lineTerminators 0 with
  | none => rfl
  | some k =>
    simp only [Option.map_some']
    have hkb : k < b.length := (find_first_of_some hk).eol_lt_length
    have hname : stageName (line ++ b) 0 (k + line.length)
        = .ok (line.drop 6 ++ b.take k) := by
      have htl : typeTokenLength = 5 := rfl
      unfold stageName substr
      simp only [htl, Nat.zero_add]
      simp only [List.length_append] at hlen ⊢
      rw [if_neg (by omega), sizeSub_of_le (by omega) (by omega),
        List.drop_append_of_le_length (by omega),
        show k + line.length - (5 + 1) = (line.drop 6).length + k by
          simp only [List.length_drop]; omega,
        List.take_append]
    rw [hname]
    simp only
    cases hs : ShaderTypeFromString (line.drop 6 ++ b.take k) with
    | error e => rfl
    | ok stage =>
      simp only
      have h0 : stage ≠ 0 := by
        rcases ShaderTypeFromString_stage hs with h | h <;> rw [h] <;> decide
      rw [if_neg h0, find_first_not_of_drop _ _ line.length k, hdrop]
      cases hnl : find_first_not_of b lineTerminators k with
      | none => rfl
      | some nl =>
        simp only [Option.map_some']
        rw [find_drop _ _ line.length nl hle, hdrop,
          stageBody_drop _ line.length nl _ hle, hdrop]

theorem ShaderTypeFromString_pixel (x : Str) :
    ShaderTypeFromString ("pixel".toList ++ x) = ShaderTypeFromString ("fragment".toList ++ x) := by
  cases x with
  | nil => rfl
  | cons c x =>
    have hp : ∀ y : Str, "pixel".toList ++ c :: x = y → y.head? = some 'p' := by
      intro y hy; rw [← hy]; rfl
    have hf : ∀ y : Str, "fragment".toList ++ c :: x = y → y.head? = some 'f' := by
      intro y hy; rw [← hy]; rfl
    have h1 : ShaderTypeFromString ("pixel".toList ++ c :: x) = .error .unknownShaderType := by
      unfold ShaderTypeFromString
      rw [if_neg (fun h => absurd (hp _ h) (by decide)),
        if_neg (by
          rintro (h | h)
          · exact absurd (hp _ h) (by decide)
          · have := congrArg List.length h
            simp only [List.length_append, List.length_cons] at this
            have h5 : "pixel".toList.length = 5 := rfl
            omega)]
    have h2 : ShaderTypeFromString ("fragment".toList ++ c :: x)
        = .error .unknownShaderType := by
      unfold ShaderTypeFromString
      rw [if_neg (fun h => absurd (hf _ h) (by decide)),
        if_neg (by
          rintro (h | h)
          · have := congrArg List.length h
            simp only [List.length_append, List.length_cons] at this
            have h5 : "fragment".toList.length = 8 := rfl
            omega
          · exact absurd (hf _ h) (by decide))]
    rw [h1, h2]

theorem getElem?_append3_left (a x b : Str) (j : Nat) (h : j < a.length) :
    (a ++ x ++ b)[j]? = a[j]? := by
  rw [List.append_assoc, List.getElem?_append_left h]

theorem getElem?_append3_mid (a x b : Str) (i : Nat) (h : i < x.length) :
    (a ++ x ++ b)[a.length + i]? = x[i]? := by
  rw [List.append_assoc, List.getElem?_append_right (by omega),
    show a.length + i - a.length = i by omega, List.getElem?_append_left h]

theorem getElem?_append3_right (a x b : Str) (i : Nat) :
    (a ++ x ++ b)[a.length + x.length + i]? = b[i]? := by
  rw [List.getElem?_append_right (by simp), List.length_append,
    show a.length + x.length + i - (a.length + x.length) = i by omega]

theorem Patch.of_append (a b : Str) (hlen : (a ++ fragmentLine ++ b).length < sizeMod) :
    Patch (a ++ pixelLine ++ b) (a ++ fragmentLine ++ b) a.length := by
  have hp : pixelLine.length = 11 := rfl
  have hf : fragmentLine.length = 14 := rfl
  simp only [List.length_append, hf] at hlen
  refine ⟨by simp only [List.length_append, hp]; omega,
    by simp only [List.length_append, hf]; omega, ?_, ?_, ?_, ?_, ?_⟩
  · intro j hj
    by_cases hja : j < a.length
    · rw [getElem?_append3_left _ _ _ _ hja, getElem?_append3_left _ _ _ _ hja]
    · have h6 : ∀ i, i < 6 → pixelLine[i]? = fragmentLine[i]? := by decide
      rw [show j = a.length + (j - a.length) by omega,
        getElem?_append3_mid _ _ _ _ (by omega), getElem?_append3_mid _ _ _ _ (by omega)]
      exact h6 _ (by omega)
  · unfold MarkerAt
    rw [List.append_assoc, List.drop_left]
    exact ⟨" pixel".toList ++ b, rfl⟩
  · intro j c h1 h2 hc
    rw [show j = a.length + (j - a.length) by omega,
      getElem?_append3_mid _ _ _ _ (by omega)] at hc
    have h11 : ∀ i, i < 11 → ∀ c, pixelLine[i]? = some c → ¬ IsLineTerminator c := by decide
    exact h11 _ (by omega) c hc
  · intro j c h1 h2 hc
    rw [show j = a.length + (j - a.length) by omega,
      getElem?_append3_mid _ _ _ _ (by omega)] at hc
    have h14 : ∀ i, i < 14 → ∀ c, fragmentLine[i]? = some c → ¬ IsLineTerminator c := by
      decide
    exact h14 _ (by omega) c hc
  · intro j
    have h1 := getElem?_append3_right a pixelLine b j
    have h2 := getElem?_append3_right a fragmentLine b j
    rw [hp] at h1
    rw [hf] at h2
    rw [h1, h2]

/-- The loop body at the replaced marker gives the same outcome on both sources. -/
theorem stepAt_replaced (a b : Str) (hlen : (a ++ fragmentLine ++ b).length < sizeMod) :
    StepRel (Related (a ++ pixelLine ++ b) (a ++ fragmentLine ++ b) a.length)
      (stepAt (a ++ pixelLine ++ b) a.length) (stepAt (a ++ fragmentLine ++ b) a.length) := by
  have hp : pixelLine.length = 11 := rfl
  have hf : fragmentLine.length = 14 := rfl
  have hlen' := hlen
  simp only [List.length_append, hf] at hlen'
  have hd1 : (a ++ pixelLine ++ b).drop a.length = pixelLine ++ b := by
    rw [List.append_assoc, List.drop_left]
  have hd2 : (a ++ fragmentLine ++ b).drop a.length = fragmentLine ++ b := by
    rw [List.append_assoc, List.drop_left]
  rw [stepAt_drop _ _ (by simp), stepAt_drop (a ++ fragmentLine ++ b) _ (by simp), hd1, hd2,
    stepAt_line pixelLine b (by simp only [List.length_append, hp]; omega) (by decide)
      (by decide),
    stepAt_line fragmentLine b (by simp only [List.length_append, hf]; omega) (by decide)
      (by decide)]
  cases hk : find_first_of b lineTerminators 0 with
  | none => exact StepRel_error _ _
  | some k =>
    simp only
    rw [show pixelLine.drop 6 = "pixel".toList from rfl,
      show fragmentLine.drop 6 = "fragment".toList from rfl, ShaderTypeFromString_pixel]
    cases hs : ShaderTypeFromString ("fragment".toList ++ b.take k) with
    | error e => exact StepRel_error _ _
    | ok stage =>
      simp only
      cases hnl : find_first_not_of b lineTerminators k with
      | none => exact StepRel_error _ _
      | some nl =>
        simp only
        cases hbody : stageBody b nl (find b typeToken nl) with
        | error e => exact StepRel_error _ _
        | ok body =>
          cases hfd : find b typeToken nl with
          | none => simp [StepRel, Except.map]
          | some r =>
            simp only [StepRel, Except.map, Option.map_some', true_and]
            right
            have hr := (find_some hfd).2.1.add_le_length
            refine ⟨by simp only [List.length_append, hp]; omega,
              by simp only [List.length_append, hf]; omega, ?_⟩
            rw [show r + pixelLine.length + a.length = (a ++ pixelLine).length + r by
                simp only [List.length_append]; omega,
              show r + fragmentLine.length + a.length = (a ++ fragmentLine).length + r by
                simp only [List.length_append]; omega,
              ← List.drop_drop, ← List.drop_drop, List.drop_left, List.drop_left]

/-- Replacing a declaration line `#type pixel` by `#type fragment` does not change the
result of `PreProcess`. -/
theorem PreProcess_pixel_eq_fragment (a b : Str)
    (hlen : (a ++ fragmentLine ++ b).length < sizeMod) :
    PreProcess (a ++ pixelLine ++ b) = PreProcess (a ++ fragmentLine ++ b) := by
  have hpatch := Patch.of_append a b hlen
  have hm2 := hpatch.marker2
  have hp : pixelLine.length = 11 := rfl
  have hf : fragmentLine.length = 14 := rfl
  cases hf1 : find (a ++ pixelLine ++ b) typeToken 0 with
  | none => exact absurd hpatch.marker (find_none hf1 a.length (Nat.zero_le _))
  | some p0 =>
    obtain ⟨_, g2, g3⟩ := find_some hf1
    have hp0 : p0 ≤ a.length := by
      by_contra hgt
      exact g3 a.length (Nat.zero_le _) (by omega) hpatch.marker
    have hm0 : MarkerAt (a ++ fragmentLine ++ b) p0 := by
      by_cases heq : p0 = a.length
      · rw [heq]; exact hm2
      · have := g2.not_overlap hpatch.marker (by omega)
        exact MarkerAt.congr (fun j hj => hpatch.agree j (by omega)) g2
    have hf2 : find (a ++ fragmentLine ++ b) typeToken 0 = some p0 := by
      apply find_eq_some (Nat.zero_le _) hm0
      intro q hq hqe hmq
      have := hmq.not_overlap hm2 (by omega)
      exact g3 q hq hqe (MarkerAt.congr (fun j hj => (hpatch.agree j (by omega)).symm) hmq)
    have hsim := PreProcessLoop_sim
      (Related (a ++ pixelLine ++ b) (a ++ fragmentLine ++ b) a.length) (by
        intro p1 p2 hR
        rcases hR with ⟨rfl, hle, hm⟩ | ht
        · by_cases heq : p1 = a.length
          · rw [heq]; exact stepAt_replaced a b hlen
          · exact hpatch.stepAt_before (by omega) hm
        · exact stepAt_tail _ (fun q1 q2 h => Or.inr h) ht)
      ((a ++ pixelLine ++ b).length + 3) p0 p0 [] (Or.inl ⟨rfl, hp0, g2⟩)
    have hfuel := @PreProcessLoop_fuel (a ++ pixelLine ++ b) 3 (a ++ pixelLine ++ b).length
      (some p0) [] (by
        intro p hp'
        cases hp'
        exact ⟨g2, by omega⟩)
    unfold PreProcess
    rw [hf1, hf2, ← hfuel, hsim]
    congr 1
    simp only [List.length_append, hp, hf]
    omega

/-! ## The first marker that opens no block -/

theorem stepAt_error {s : Str} {p : Nat} {e : Fatal} (hm : MarkerAt s p)
    (h : stepAt s p = .error e) : FailsAt s p e := by
  simp only [stepAt] at h
  split at h
  · rename_i heol
    cases h
    exact Or.inl ⟨rfl, find_first_of_none heol⟩
  · rename_i eol heol
    have hl := find_first_of_some heol
    split at h
    · rename_i e' hname
      obtain ⟨type, ht⟩ := stageName_ok hm hl
      rw [ht] at hname
      cases hname
    · rename_i type hname
      split at h
      · rename_i e' hstage
        cases h
        have := ShaderTypeFromString_error hstage
        subst this
        exact Or.inr (Or.inl ⟨rfl, eol, type, hl, hname, hstage⟩)
      · rename_i stage hstage
        split at h
        · rename_i h0
          rcases ShaderTypeFromString_stage hstage with hk | hk
          · rw [hk] at h0; exact absurd h0 (by decide)
          · rw [hk] at h0; exact absurd h0 (by decide)
        · split at h
          · rename_i hnl
            cases h
            exact Or.inr (Or.inr ⟨rfl, stage, eol, ⟨hm, hl, type, hname, hstage⟩,
              find_first_not_of_none hnl⟩)
          · rename_i nl hnl
            have hb := find_first_not_of_some hnl
            split at h
            · rename_i e' hbody
              obtain ⟨body, hbd⟩ := stageBody_ok hb.nl_lt_length (find s typeToken nl)
              rw [hbd] at hbody
              cases hbody
            · cases h

/-- A failing run of the loop fails at the first marker that opens no block. -/
theorem PreProcessLoop_error_first {s : Str} (hlen : s.length < sizeMod) :
    ∀ (fuel : Nat) (pos : Option Nat) (m : StageMap Str) (e : Fatal),
      LoopInv s pos m → (∀ p, pos = some p → s.length ≤ p + fuel) →
      PreProcessLoop s fuel pos m = .error e →
      ∃ p, MarkerAt s p ∧ FailsAt s p e ∧
        ∀ q, q < p → MarkerAt s q → ∃ k eol nl b, Block s k q eol nl b := by
  intro fuel
  induction fuel with
  | zero =>
    intro pos m e hinv hf h
    cases pos with
    | none => simp [PreProcessLoop] at h
    | some p =>
      have := (hinv.marker p rfl).add_le_length
      have := hf p rfl
      omega
  | succ fuel ih =>
    intro pos m e hinv hf h
    cases pos with
    | none => simp [PreProcessLoop] at h
    | some p =>
      have hm := hinv.marker p rfl
      rw [PreProcessLoop_succ] at h
      cases hst : stepAt s p with
      | error e' =>
        rw [hst] at h
        cases h
        refine ⟨p, hm, stepAt_error hm hst, ?_⟩
        intro q hq hmq
        obtain ⟨k, eol, nl, b, hb, _⟩ :=
          hinv.complete q (by intro x hx; cases hx; exact hq) hmq
        exact ⟨k, eol, nl, b, hb⟩
      | ok r =>
        obtain ⟨stage, body, pos'⟩ := r
        rw [hst] at h
        simp only at h
        obtain ⟨eol, type, nl, st, hpos⟩ := stepAt_ok_step hst
        subst hpos
        refine ih _ _ e (hinv.step hlen st) ?_ h
        intro p' hp'
        have := st.pos_lt hm p' hp'
        have := hf p rfl
        omega

/-- A failing run of `PreProcess` fails at the first marker that opens no block. -/
theorem PreProcess_error_first {s : Str} (hlen : s.length < sizeMod) {e : Fatal}
    (h : PreProcess s = .error e) :
    ∃ p, MarkerAt s p ∧ FailsAt s p e ∧
      ∀ q, q < p → MarkerAt s q → ∃ k eol nl b, Block s k q eol nl b :=
  PreProcessLoop_error_first hlen s.length (find s typeToken 0) [] e (LoopInv.init s)
    (fun p _ => by omega) h

/-- A source with a marker whose stage name is not recognised makes `PreProcess` fail with
the unknown-shader-type error. -/
theorem PreProcess_unknown_stage {s : Str} (hlen : s.length < sizeMod) {q eol : Nat}
    {type : Str} (hq : MarkerAt s q) (hl : LineEnd s q eol)
    (hn : stageName s q eol = .ok type)
    (ht : ShaderTypeFromString type = .error .unknownShaderType) :
    PreProcess s = .error .unknownShaderType := by
  have hbad : ∀ k eol' nl b, ¬ Block s k q eol' nl b := by
    intro k eol' nl b hb
    obtain ⟨_, hl', type', hn', hs'⟩ := hb.declares
    have := hl.eol_unique hl'
    subst this
    rw [hn] at hn'
    cases hn'
    rw [ht] at hs'
    cases hs'
  cases h : PreProcess s with
  | ok m =>
    obtain ⟨k, eol', nl, b, hb, _⟩ :=
      (PreProcess_ok_inv hlen h).complete q (by intro x hx; cases hx) hq
    exact absurd hb (hbad k eol' nl b)
  | error e =>
    obtain ⟨p, hp, hf, hfirst⟩ := PreProcess_error_first hlen h
    have hpq : p ≤ q := by
      by_contra hgt
      obtain ⟨k, eol', nl, b, hb⟩ := hfirst q (by omega) hq
      exact hbad k eol' nl b hb
    obtain ⟨hl1, ⟨c, hc, hcl⟩, _⟩ := id hl
    rcases hf with ⟨_, hno⟩ | ⟨rfl, _⟩ | ⟨_, k, eol', hd, hterm⟩
    · exact absurd hcl (hno eol c (by omega) hc)
    · rfl
    · exfalso
      rcases Nat.lt_or_eq_of_le hpq with hlt | heq
      · by_cases hqe : eol' ≤ q
        · exact absurd (hterm q '#' hqe hq.hash) (by decide)
        · exact no_marker_in_line hlen hd q hlt (by omega) hq
      · subst heq
        obtain ⟨_, hl', type', hn', hs'⟩ := hd
        have := hl.eol_unique hl'
        subst this
        rw [hn] at hn'
        cases hn'
        rw [ht] at hs'
        cases hs'

/-- The loop of `PreProcess` never runs out of the fuel `PreProcess` gives it, nor does
`substr` ever throw in it: a run ends with a map, with the syntax error or with the
unknown-shader-type error. -/
theorem PreProcess_terminates (s : Str) :
    (∃ m, PreProcess s = .ok m) ∨ PreProcess s = .error .syntaxError ∨
      PreProcess s = .error .unknownShaderType := by
  cases h : PreProcess s with
  | ok m => exact Or.inl ⟨m, rfl⟩
  | error e =>
    obtain ⟨p, _, hf⟩ := PreProcess_error h
    rcases hf.error_kind with rfl | rfl
    · exact Or.inr (Or.inl rfl)
    · exact Or.inr (Or.inr rfl)

/-! ## Consequences for blocks -/

/-- The body of a block ends at or before every later marker. -/
theorem Block.next_le {s : Str} {k : GLenum} {p eol nl e : Nat} (hlen : s.length < sizeMod)
    (hb : Block s k p eol nl e) {q : Nat} (hq : MarkerAt s q) (hpq : p < q) : e ≤ q := by
  by_contra hlt
  by_cases hqn : q < nl
  · exact no_marker_inside hlen hb.declares hb.bodyStart q hpq hqn hq
  · exact hb.bodyEnd.2.1 q (by omega) (by omega) hq

theorem Block.lt_bodyStart {s : Str} {k : GLenum} {p eol nl e : Nat}
    (hb : Block s k p eol nl e) : p + 5 < nl := by
  have h1 := hb.declares.2.1.marker_le hb.declares.1
  have h2 := hb.bodyStart.1
  have hne : eol ≠ nl := by
    intro heq
    obtain ⟨_, ⟨c, hc, hcl⟩, _⟩ := hb.declares.2.1
    obtain ⟨_, ⟨c', hc', hcl'⟩, _⟩ := hb.bodyStart
    rw [heq, hc'] at hc
    cases hc
    exact hcl' hcl
  omega

theorem Block.end_le_length {s : Str} {k : GLenum} {p eol nl e : Nat}
    (hb : Block s k p eol nl e) : nl ≤ e ∧ e ≤ s.length := by
  obtain ⟨h1, _, h3⟩ := hb.bodyEnd
  refine ⟨h1, ?_⟩
  rcases h3 with h3 | h3
  · have := h3.add_le_length; omega
  · omega

/-- The marker token does not occur inside a stretch of the source that ends where the next
marker starts. -/
theorem BodyEnd.no_token {s : Str} {nl e : Nat} (hb : BodyEnd s nl e) :
    ¬ typeToken <:+: slice s nl e := by
  rintro ⟨pre, suf, hps⟩
  obtain ⟨h1, h2, _⟩ := hb
  have hlen : (slice s nl e).length ≤ e - nl := by
    unfold slice; simp
  rw [← hps] at hlen
  simp only [List.length_append] at hlen
  have h5 : typeToken.length = 5 := rfl
  apply h2 (nl + pre.length) (by omega) (by omega)
  unfold MarkerAt
  have hpre : slice s nl e <+: s.drop nl := List.take_prefix _ _
  obtain ⟨r, hr⟩ := hpre
  rw [← List.drop_drop, ← hr, ← hps]
  simp [List.append_assoc]

/-- Reading a key that is in the map. -/
theorem LoopInv.stage_of_mem {s : Str} {m : StageMap Str} (hinv : LoopInv s none m)
    {k : GLenum} (hk : k ∈ m.keys) : k = GL_VERTEX_SHADER ∨ k = GL_FRAGMENT_SHADER := by
  obtain ⟨body, hb⟩ := (StageMap.mem_keys_iff k m).mp hk
  obtain ⟨p, eol, nl, e, hblk, _⟩ := hinv.entries k body hb
  obtain ⟨_, _, type, _, hs⟩ := hblk.declares
  exact ShaderTypeFromString_stage hs

theorem LoopInv.mem_of_declares {s : Str} {m : StageMap Str} (hinv : LoopInv s none m)
    {k : GLenum} {p : Nat} (hd : Declares s k p) : k ∈ m.keys := by
  obtain ⟨eol, hd⟩ := hd
  obtain ⟨k', eol', nl, e, hblk, hk⟩ := hinv.complete p (by intro x hx; cases hx) hd.1
  rw [(hd.stage_unique hblk.declares).1]
  exact hk

/-- The entry of a stage is the body of the block of its last declaration. -/
theorem LoopInv.lookup_of_last {s : Str} {m : StageMap Str} (hinv : LoopInv s none m)
    {k : GLenum} {p eol nl e : Nat} (hb : Block s k p eol nl e)
    (hlast : ∀ p', p < p' → ¬ Declares s k p') : m.lookup k = some (slice s nl e) := by
  have hk := hinv.mem_of_declares ⟨eol, hb.declares⟩
  obtain ⟨body, hbody⟩ := (StageMap.mem_keys_iff k m).mp hk
  obtain ⟨p', eol', nl', e', hb', hbd', _, hlast'⟩ := hinv.entries k body hbody
  have hpp : p = p' := by
    rcases Nat.lt_trichotomy p p' with h | h | h
    · exact absurd ⟨eol', hb'.declares⟩ (hlast p' h)
    · exact h
    · exact absurd ⟨eol, hb.declares⟩ (hlast' p h (by intro x hx; cases hx))
  subst hpp
  have he := (hb.declares.stage_unique hb'.declares).2
  subst he
  have hn := hb.bodyStart.nl_unique hb'.bodyStart
  subst hn
  have hee := hb.bodyEnd.end_unique hb'.bodyEnd
  subst hee
  rw [hbody, hbd']

/-- A source with a marker that opens no block makes `PreProcess` fail, with the syntax
error or with the unknown-shader-type error. -/
theorem PreProcess_fails_of_bad_marker {s : Str} (hlen : s.length < sizeMod) {q : Nat}
    (hq : MarkerAt s q) (hbad : ∀ k eol nl e, ¬ Block s k q eol nl e) :
    ∃ e p, PreProcess s = .error e ∧ MarkerAt s p ∧ FailsAt s p e := by
  cases h : PreProcess s with
  | error e =>
    obtain ⟨p, hp, hf⟩ := PreProcess_error h
    exact ⟨e, p, rfl, hp, hf⟩
  | ok m =>
    obtain ⟨k, eol, nl, e, hb, _⟩ :=
      (PreProcess_ok_inv hlen h).complete q (by intro x hx; cases hx) hq
    exact absurd hb (hbad k eol nl e)

/-- A source all of whose markers open a block makes `PreProcess` succeed. -/
theorem PreProcess_ok_of_blocks {s : Str}
    (hall : ∀ q, MarkerAt s q → ∃ k eol nl e, Block s k q eol nl e) :
    ∃ m, PreProcess s = .ok m := by
  cases h : PreProcess s with
  | ok m => exact ⟨m, rfl⟩
  | error e =>
    obtain ⟨p, hp, hf⟩ := PreProcess_error h
    obtain ⟨k, eol, nl, e', hb⟩ := hall p hp
    exact (hf.not_block hb).elim

/-! ## Facts about the backward searches and the program name -/

theorem scanLast_none_of_forall (p : Char → Bool) (l : Str) (i : Nat)
    (h : ∀ c ∈ l, p c = false) : scanLast p l i = none := by
  induction l generalizing i with
  | nil => rfl
  | cons a l ih =>
    unfold scanLast
    rw [ih (i + 1) (fun c hc => h c (List.mem_cons_of_mem _ hc)),
      h a (List.mem_cons_self _ _)]
    rfl

theorem scanLast_append (p : Char → Bool) (l1 l2 : Str) (i : Nat) :
    scanLast p (l1 ++ l2) i =
      match scanLast p l2 (i + l1.length) with
      | some j => some j
      | none => scanLast p l1 i := by
  induction l1 generalizing i with
  | nil =>
    simp only [List.nil_append, List.length_nil, Nat.add_zero]
    cases scanLast p l2 i <;> rfl
  | cons a l ih =>
    rw [List.cons_append]
    conv_lhs => unfold scanLast
    rw [ih (i + 1), List.length_cons, show i + 1 + l.length = i + (l.length + 1) by omega]
    cases scanLast p l2 (i + (l.length + 1)) with
    | some j => rfl
    | none =>
      simp only
      conv_rhs => unfold scanLast

theorem scanLast_lt {p : Char → Bool} {l : Str} {i j : Nat} (h : scanLast p l i = some j) :
    i ≤ j ∧ j < i + l.length := by
  induction l generalizing i with
  | nil => simp [scanLast] at h
  | cons a l ih =>
    unfold scanLast at h
    cases hs : scanLast p l (i + 1) with
    | some j' =>
      rw [hs] at h
      cases h
      have := ih hs
      simp only [List.length_cons]
      omega
    | none =>
      rw [hs] at h
      simp only at h
      split at h
      · cases h
        simp only [List.length_cons]
        omega
      · cases h

theorem scanLast_singleton (p : Char → Bool) (c : Char) (i : Nat) (h : p c = true) :
    scanLast p [c] i = some i := by
  simp [scanLast, h]

/-- The position `lastSlash` of the name block, for a path split into its directory part
and its final component. -/
theorem find_last_of_split (dir comp : Str)
    (hcomp : ∀ c ∈ comp, c ≠ '/' ∧ c ≠ '\\')
    (hdir : dir = [] ∨ ∃ d c, dir = d ++ [c] ∧ (c = '/' ∨ c = '\\')) :
    (match find_last_of (dir ++ comp) "/\\".toList with
      | none => 0
      | some i => i + 1) = dir.length := by
  have hnone : scanLast (fun c => "/\\".toList.contains c) comp (0 + dir.length) = none := by
    apply scanLast_none_of_forall
    intro c hc
    obtain ⟨h1, h2⟩ := hcomp c hc
    simp [h1, h2]
  unfold find_last_of
  rw [scanLast_append, hnone]
  simp only
  rcases hdir with rfl | ⟨d, c, rfl, hc⟩
  · rfl
  · have hsep : (fun c => "/\\".toList.contains c) c = true := by
      rcases hc with rfl | rfl <;> decide
    rw [scanLast_append, scanLast_singleton _ _ _ hsep]
    simp

theorem sizeSub_of_lt {a b : Nat} (h : a < b) (hb : b < sizeMod) :
    sizeSub a b = a + sizeMod - b := by
  unfold sizeSub sizeMod at *
  omega

/-- The name block on a path whose final component has a dot: the name is the component cut
before its last dot. -/
theorem extractName_stem (dir stem ext : Str)
    (hlen : (dir ++ stem ++ '.' :: ext).length < sizeMod)
    (hcomp : ∀ c ∈ stem ++ '.' :: ext, c ≠ '/' ∧ c ≠ '\\') (hext : '.' ∉ ext)
    (hdir : dir = [] ∨ ∃ d c, dir = d ++ [c] ∧ (c = '/' ∨ c = '\\')) :
    extractName (dir ++ stem ++ '.' :: ext) = .ok stem := by
  have hslash := find_last_of_split dir (stem ++ '.' :: ext) hcomp hdir
  rw [← List.append_assoc] at hslash
  have hdot : rfind (dir ++ stem ++ '.' :: ext) '.' = some (dir.length + stem.length) := by
    unfold rfind
    rw [scanLast_append]
    have hnone : scanLast (fun x => x == '.') ext (0 + (dir ++ stem).length + 1) = none := by
      apply scanLast_none_of_forall
      intro c hc
      have : c ≠ '.' := fun h => hext (h ▸ hc)
      simpa using this
    have : scanLast (fun x => x == '.') ('.' :: ext) (0 + (dir ++ stem).length)
        = some (0 + (dir ++ stem).length) := by
      conv_lhs => unfold scanLast
      rw [hnone]
      rfl
    rw [this]
    simp
  simp only [List.length_append, List.length_cons] at hlen
  unfold extractName
  simp only [hslash, hdot]
  unfold substr
  rw [if_neg (by simp only [List.length_append, List.length_cons]; omega),
    sizeSub_of_le (by omega) (by omega), show dir.length + stem.length - dir.length
      = stem.length by omega, List.append_assoc, List.drop_left, List.take_left]

/-- The name block on a path whose final component has no dot: the name is the component,
whether or not a directory has a dot. -/
theorem extractName_whole (dir comp : Str) (hlen : (dir ++ comp).length < sizeMod)
    (hcomp : ∀ c ∈ comp, c ≠ '/' ∧ c ≠ '\\') (hdot : '.' ∉ comp)
    (hdir : dir = [] ∨ ∃ d c, dir = d ++ [c] ∧ (c = '/' ∨ c = '\\')) :
    extractName (dir ++ comp) = .ok comp := by
  have hslash := find_last_of_split dir comp hcomp hdir
  have hnone : scanLast (fun x => x == '.') comp (0 + dir.length) = none := by
    apply scanLast_none_of_forall
    intro c hc
    have : c ≠ '.' := fun h => hdot (h ▸ hc)
    simpa using this
  have hr : rfind (dir ++ comp) '.' = scanLast (fun x => x == '.') dir 0 := by
    unfold rfind
    rw [scanLast_append, hnone]
  simp only [List.length_append] at hlen
  unfold extractName
  simp only [hslash, hr]
  unfold substr
  rw [if_neg (by simp only [List.length_append]; omega), List.drop_left]
  congr 1
  apply List.take_of_length_le
  cases hd : scanLast (fun x => x == '.') dir 0 with
  | none =>
    simp only [List.length_append]
    rw [sizeSub_of_le (by omega) (by omega)]
    omega
  | some d =>
    have := scanLast_lt hd
    simp only
    rw [sizeSub_of_lt (by omega) (by omega)]
    unfold sizeMod at *
    omega

/-- The constructor from a file, when it returns, has set the name to what the name block
extracts from the path. -/
theorem fromFile_name_eq {env : Env} {filepath : Str} {w w' : World} {self : OpenGLShader}
    (h : OpenGLShader.fromFile env filepath w = (.ok self, w')) :
    extractName filepath = .ok self.m_Name := by
  unfold OpenGLShader.fromFile at h
  split at h
  · cases h
  · simp only at h
    split at h
    · cases h
    · split at h
      · cases h
      · split at h
        · cases h
        · split at h
          · cases h
          · rename_i name hname
            simp only [Prod.mk.injEq, Except.ok.injEq] at h
            rw [hname, ← h.1]

/-! ## Facts about cache paths -/

theorem filename_split (env : Env) (dir comp : Str)
    (hcomp : ∀ c ∈ comp, env.isSeparator c = false)
    (hdir : dir = [] ∨ ∃ d c, dir = d ++ [c] ∧ env.isSeparator c = true) :
    filename env (dir ++ comp) = comp := by
  unfold filename
  rw [List.reverse_append, List.takeWhile_append_of_pos (by
    intro c hc
    rw [hcomp c (List.mem_reverse.mp hc)]
    rfl)]
  rcases hdir with rfl | ⟨d, c, rfl, hc⟩
  · simp
  · have hrev : (d ++ [c]).reverse = c :: d.reverse := by simp
    rw [hrev, List.takeWhile_cons_of_neg (by rw [hc]; simp)]
    simp

theorem cachePath_injective (env : Env) (filePath : Str) {e1 e2 : Str}
    (h : cachePath env filePath e1 = cachePath env filePath e2) : e1 = e2 := by
  unfold cachePath pathJoin at h
  have h1 := List.append_cancel_left h
  simp only [List.cons.injEq, true_and] at h1
  exact List.append_cancel_left h1

theorem vulkanStage_log (env : Env) (filePath : Str) (stage : GLenum) (source : Str)
    (shaderData : StageMap Words) (w : World) {extension : Str}
    (hext : GLShaderStageCachedVulkanFileExtension stage = .ok extension) :
    ∃ opened rest, (vulkanStage env filePath stage source shaderData w).2.log
      = w.log ++ Event.openRead (cachePath env filePath extension) opened :: rest := by
  unfold vulkanStage
  rw [hext]
  simp only
  split
  · split
    · exact ⟨true, [], rfl⟩
    · exact ⟨true, [], rfl⟩
  · split
    · exact ⟨false, [], rfl⟩
    · split
      · exact ⟨false, _, by simp only [World.record, List.append_assoc]; rfl⟩
      · refine ⟨false, ?_⟩
        unfold World.write
        split
        · exact ⟨_, by simp only [World.record, List.append_assoc]; rfl⟩
        · exact ⟨_, by simp only [World.record, List.append_assoc]; rfl⟩

theorem openglStage_log (env : Env) (filePath : Str) (stage : GLenum) (spirv : Words)
    (shaderData : StageMap Words) (sourceCode : StageMap Str) (w : World) {extension : Str}
    (hext : GLShaderStageCachedOpenGLFileExtension stage = .ok extension) :
    ∃ opened rest, (openglStage env filePath stage spirv shaderData sourceCode w).2.log
      = w.log ++ Event.openRead (cachePath env filePath extension) opened :: rest := by
  unfold openglStage
  rw [hext]
  simp only
  split
  · split
    · exact ⟨true, [], rfl⟩
    · exact ⟨true, [], rfl⟩
  · split
    · exact ⟨false, _, by simp only [World.record, List.append_assoc]; rfl⟩
    · split
      · exact ⟨false, _, by simp only [World.record, List.append_assoc]; rfl⟩
      · refine ⟨false, ?_⟩
        unfold World.write
        split
        · exact ⟨_, by simp only [World.record, List.append_assoc]; rfl⟩
        · exact ⟨_, by simp only [World.record, List.append_assoc]; rfl⟩

/-! ## Facts about the intermediate compile -/

theorem wordsOfBytes_length : ∀ (bytes : Bytes), (wordsOfBytes bytes).length = bytes.length / 4
  | [] => by simp [wordsOfBytes]
  | [_] => by simp [wordsOfBytes]
  | [_, _] => by simp [wordsOfBytes]
  | [_, _, _] => by simp [wordsOfBytes]
  | _ :: _ :: _ :: _ :: rest => by
    simp only [wordsOfBytes, List.length_cons, wordsOfBytes_length rest]
    omega

theorem vulkanExtension_injective {k1 k2 : GLenum} {e : Str}
    (h1 : GLShaderStageCachedVulkanFileExtension k1 = .ok e)
    (h2 : GLShaderStageCachedVulkanFileExtension k2 = .ok e) : k1 = k2 := by
  unfold GLShaderStageCachedVulkanFileExtension at h1 h2
  split at h1
  · split at h2
    · rw [‹k1 = _›, ‹k2 = _›]
    · split at h2
      · cases h1; cases h2
      · cases h2
  · split at h1
    · split at h2
      · cases h1; cases h2
      · split at h2
        · rw [‹k1 = _›, ‹k2 = _›]
        · cases h2
    · cases h1

theorem shaderKind_injective {k1 k2 : GLenum} {kind : ShaderKind}
    (h1 : GLShaderStageToShaderC k1 = .ok kind) (h2 : GLShaderStageToShaderC k2 = .ok kind) :
    k1 = k2 := by
  unfold GLShaderStageToShaderC at h1 h2
  split at h1
  · split at h2
    · rw [‹k1 = _›, ‹k2 = _›]
    · split at h2
      · cases h1; cases h2
      · cases h2
  · split at h1
    · split at h2
      · cases h1; cases h2
      · split at h2
        · rw [‹k1 = _›, ‹k2 = _›]
        · cases h2
    · cases h1

/-- The loop body on a stage whose cache file opens and holds whole words: the binary is the
file read as words, and the only call is the opening of the file. -/
theorem vulkanStage_hit (env : Env) (filePath : Str) (stage : GLenum) (source : Str)
    (shaderData : StageMap Words) (w : World) {extension : Str} {bytes : Bytes}
    (hext : GLShaderStageCachedVulkanFileExtension stage = .ok extension)
    (hopen : w.files (cachePath env filePath extension) = some bytes)
    (halign : bytes.length % 4 = 0) :
    vulkanStage env filePath stage source shaderData w
      = (.ok (StageMap.assign stage (wordsOfBytes bytes) shaderData),
          w.record (.openRead (cachePath env filePath extension) true)) := by
  unfold vulkanStage
  rw [hext]
  simp only
  rw [hopen]
  simp only [if_pos halign]

/-- The loop body on a stage whose cache file opens and does not hold whole words: the read
writes past the end of the buffer. -/
theorem vulkanStage_overflow (env : Env) (filePath : Str) (stage : GLenum) (source : Str)
    (shaderData : StageMap Words) (w : World) {extension : Str} {bytes : Bytes}
    (hext : GLShaderStageCachedVulkanFileExtension stage = .ok extension)
    (hopen : w.files (cachePath env filePath extension) = some bytes)
    (halign : bytes.length % 4 ≠ 0) :
    vulkanStage env filePath stage source shaderData w
      = (.error .bufferOverflow,
          w.record (.openRead (cachePath env filePath extension) true)) := by
  unfold vulkanStage
  rw [hext]
  simp only
  rw [hopen]
  simp only [if_neg halign]

/-- The loop body on another stage leaves the cache file of a stage as it is, does not touch
the binary of the stage, and does not call the compiler for the kind of the stage. -/
theorem vulkanStage_other (env : Env) (filePath : Str) {stage k : GLenum} (source : Str)
    (shaderData : StageMap Words) (w : World) {extension : Str} {kind : ShaderKind}
    (hext : GLShaderStageCachedVulkanFileExtension stage = .ok extension)
    (hkind : GLShaderStageToShaderC stage = .ok kind) (hne : k ≠ stage) :
    (vulkanStage env filePath k source shaderData w).2.files (cachePath env filePath extension)
        = w.files (cachePath env filePath extension) ∧
      (∀ shaderData', (vulkanStage env filePath k source shaderData w).1 = .ok shaderData' →
        StageMap.lookup stage shaderData' = StageMap.lookup stage shaderData) ∧
      (∀ src name o, Event.compileGlslToSpv src kind name o
          ∈ (vulkanStage env filePath k source shaderData w).2.log →
        Event.compileGlslToSpv src kind name o ∈ w.log) := by
  unfold vulkanStage
  cases hk : GLShaderStageCachedVulkanFileExtension k with
  | error e =>
    dsimp only
    exact ⟨rfl, fun _ h => absurd h (by simp), fun _ _ _ h => h⟩
  | ok ext' =>
    have hpath : cachePath env filePath extension ≠ cachePath env filePath ext' := by
      intro h
      have := cachePath_injective env filePath h
      subst this
      exact hne (vulkanExtension_injective hk hext)
    dsimp only
    cases hf : w.files (cachePath env filePath ext') with
    | some bytes =>
      dsimp only
      split
      · refine ⟨rfl, ?_, ?_⟩
        · intro d hd
          simp only [Except.ok.injEq] at hd
          rw [← hd]
          exact StageMap.lookup_assign_ne _ _ (Ne.symm hne)
        · intro src name o hmem
          simpa [World.record] using hmem
      · refine ⟨rfl, fun _ h => absurd h (by simp), ?_⟩
        intro src name o hmem
        simpa [World.record] using hmem
    | none =>
      dsimp only
      cases hkk : GLShaderStageToShaderC k with
      | error e =>
        dsimp only
        refine ⟨rfl, fun _ h => absurd h (by simp), ?_⟩
        intro src name o hmem
        simpa [World.record] using hmem
      | ok kind' =>
        have hkind' : kind' ≠ kind := by
          intro h
          subst h
          exact hne (shaderKind_injective hkk hkind)
        dsimp only
        cases hc : env.compileGlslToSpv source kind' filePath (some vulkanOptions) with
        | error msg =>
          dsimp only
          refine ⟨rfl, fun _ h => absurd h (by simp), ?_⟩
          intro src name o hmem
          simp only [World.record, List.mem_append, List.mem_singleton,
            Event.compileGlslToSpv.injEq, reduceCtorEq, or_false] at hmem
          rcases hmem with hmem | hmem
          · exact hmem
          · exact absurd hmem.2.1.symm hkind'
        | ok module =>
          dsimp only
          refine ⟨?_, ?_, ?_⟩
          · simp only [World.write]
            split
            · simp only [if_neg hpath]
              rfl
            · rfl
          · intro d hd
            simp only [Except.ok.injEq] at hd
            rw [← hd]
            exact StageMap.lookup_assign_ne _ _ (Ne.symm hne)
          · intro src name o hmem
            simp only [World.write] at hmem
            split at hmem <;>
              simp only [World.record, List.mem_append, List.mem_singleton,
                Event.compileGlslToSpv.injEq, reduceCtorEq, or_false] at hmem
            · rcases hmem with hmem | hmem
              · exact hmem
              · exact absurd hmem.2.1.symm hkind'
            · rcases hmem with hmem | hmem
              · exact hmem
              · exact absurd hmem.2.1.symm hkind'

/-- The loop over stages other than `stage` leaves the cache file of `stage` as it is, does
not touch the binary of `stage`, and does not call the compiler for the kind of `stage`. -/
theorem vulkanStages_others (env : Env) (filePath : Str) {stage : GLenum} {extension : Str}
    {kind : ShaderKind} (hext : GLShaderStageCachedVulkanFileExtension stage = .ok extension)
    (hkind : GLShaderStageToShaderC stage = .ok kind) :
    ∀ (rest : StageMap Str) (shaderData : StageMap Words) (w : World), stage ∉ rest.keys →
      (vulkanStages env filePath rest shaderData w).2.files (cachePath env filePath extension)
          = w.files (cachePath env filePath extension) ∧
        (∀ shaderData', (vulkanStages env filePath rest shaderData w).1 = .ok shaderData' →
          StageMap.lookup stage shaderData' = StageMap.lookup stage shaderData) ∧
        (∀ src name o, Event.compileGlslToSpv src kind name o
            ∈ (vulkanStages env filePath rest shaderData w).2.log →
          Event.compileGlslToSpv src kind name o ∈ w.log) := by
  intro rest
  induction rest with
  | nil =>
    intro shaderData w _
    refine ⟨rfl, ?_, fun _ _ _ h => h⟩
    intro d hd
    simp only [vulkanStages, Except.ok.injEq] at hd
    rw [hd]
  | cons a rest ih =>
    intro shaderData w hnot
    obtain ⟨k, v⟩ := a
    simp only [StageMap.keys, List.map_cons, List.mem_cons, not_or] at hnot
    have hne : k ≠ stage := fun h => hnot.1 h.symm
    have ho := vulkanStage_other env filePath v shaderData w hext hkind hne
    unfold vulkanStages
    cases hout : vulkanStage env filePath k v shaderData w with
    | mk r1 w1 =>
      rw [hout] at ho
      cases r1 with
      | error e =>
        dsimp only
        exact ⟨ho.1, fun _ h => absurd h (by simp), ho.2.2⟩
      | ok d1 =>
        dsimp only
        have hi := ih d1 w1 hnot.2
        refine ⟨hi.1.trans ho.1, ?_, ?_⟩
        · intro d hd
          rw [hi.2.1 d hd]
          exact ho.2.1 d1 rfl
        · intro src name o hmem
          exact ho.2.2 src name o (hi.2.2 src name o hmem)

/-- The loop over the stages, when the cache file of `stage` opens: the binary of `stage` is
the file read as words and the compiler is not called for the kind of `stage`. -/
theorem vulkanStages_hit (env : Env) (filePath : Str) {stage : GLenum} {extension : Str}
    {kind : ShaderKind} {bytes : Bytes}
    (hext : GLShaderStageCachedVulkanFileExtension stage = .ok extension)
    (hkind : GLShaderStageToShaderC stage = .ok kind) :
    ∀ (sources : StageMap Str) (shaderData : StageMap Words) (w : World),
      sources.keys.Nodup → stage ∈ sources.keys →
      w.files (cachePath env filePath extension) = some bytes →
      ∀ shaderData' w', vulkanStages env filePath sources shaderData w = (.ok shaderData', w') →
        StageMap.lookup stage shaderData' = some (wordsOfBytes bytes) ∧
          ∀ src name o, Event.compileGlslToSpv src kind name o ∈ w'.log →
            Event.compileGlslToSpv src kind name o ∈ w.log := by
  intro sources
  induction sources with
  | nil =>
    intro shaderData w _ hmem
    simp [StageMap.keys] at hmem
  | cons a rest ih =>
    intro shaderData w hnodup hmem hopen d' w' hrun
    obtain ⟨k, v⟩ := a
    simp only [StageMap.keys, List.map_cons, List.nodup_cons, List.mem_cons] at hnodup hmem
    unfold vulkanStages at hrun
    by_cases hk : k = stage
    · subst hk
      by_cases halign : bytes.length % 4 = 0
      swap
      · rw [vulkanStage_overflow env filePath k v shaderData w hext hopen halign] at hrun
        cases hrun
      rw [vulkanStage_hit env filePath k v shaderData w hext hopen halign] at hrun
      dsimp only at hrun
      have ho := vulkanStages_others env filePath hext hkind rest
        (StageMap.assign k (wordsOfBytes bytes) shaderData)
        (w.record (.openRead (cachePath env filePath extension) true)) hnodup.1
      rw [hrun] at ho
      refine ⟨?_, ?_⟩
      · rw [ho.2.1 d' rfl, StageMap.lookup_assign_self]
      · intro src name o hm
        have := ho.2.2 src name o hm
        simpa [World.record] using this
    · have hin : stage ∈ StageMap.keys rest := by
        rcases hmem with h | h
        · exact absurd h.symm hk
        · exact h
      have ho := vulkanStage_other env filePath v shaderData w hext hkind hk
      cases hout : vulkanStage env filePath k v shaderData w with
      | mk r1 w1 =>
        rw [hout] at ho hrun
        cases r1 with
        | error e =>
          dsimp only at hrun
          cases hrun
        | ok d1 =>
          dsimp only at hrun
          have hi := ih d1 w1 hnodup.2 hin (ho.1.trans hopen) d' w' hrun
          exact ⟨hi.1, fun src name o hm => ho.2.2 src name o (hi.2 src name o hm)⟩

/-- The loop body gives the same outcome whatever the source text of a stage whose cache
file opens. -/
theorem vulkanStage_source_irrelevant (env : Env) (filePath : Str) (stage : GLenum)
    (src1 src2 : Str) (shaderData : StageMap Words) (w : World) {extension : Str}
    {bytes : Bytes} (hext : GLShaderStageCachedVulkanFileExtension stage = .ok extension)
    (hopen : w.files (cachePath env filePath extension) = some bytes) :
    vulkanStage env filePath stage src1 shaderData w
      = vulkanStage env filePath stage src2 shaderData w := by
  by_cases halign : bytes.length % 4 = 0
  · rw [vulkanStage_hit env filePath stage src1 shaderData w hext hopen halign,
      vulkanStage_hit env filePath stage src2 shaderData w hext hopen halign]
  · rw [vulkanStage_overflow env filePath stage src1 shaderData w hext hopen halign,
      vulkanStage_overflow env filePath stage src2 shaderData w hext hopen halign]

/-- The loop over the stages gives the same outcome whatever the source text of a stage
whose cache file opens. -/
theorem vulkanStages_source_irrelevant (env : Env) (filePath : Str) {stage : GLenum}
    {extension : Str} {kind : ShaderKind} {bytes : Bytes} (src1 src2 : Str)
    (hext : GLShaderStageCachedVulkanFileExtension stage = .ok extension)
    (hkind : GLShaderStageToShaderC stage = .ok kind) :
    ∀ (sources : StageMap Str) (shaderData : StageMap Words) (w : World),
      w.files (cachePath env filePath extension) = some bytes →
      vulkanStages env filePath (StageMap.assign stage src1 sources) shaderData w
        = vulkanStages env filePath (StageMap.assign stage src2 sources) shaderData w := by
  intro sources
  induction sources with
  | nil =>
    intro shaderData w hopen
    simp only [StageMap.assign, vulkanStages]
    rw [vulkanStage_source_irrelevant env filePath stage src1 src2 shaderData w hext hopen]
  | cons a rest ih =>
    intro shaderData w hopen
    obtain ⟨k, v⟩ := a
    by_cases hk : k = stage
    · simp only [StageMap.assign, if_pos hk, vulkanStages]
      rw [vulkanStage_source_irrelevant env filePath stage src1 src2 shaderData w hext hopen]
    · simp only [StageMap.assign, if_neg hk, vulkanStages]
      have ho := vulkanStage_other env filePath v shaderData w hext hkind hk
      cases hout : vulkanStage env filePath k v shaderData w with
      | mk r1 w1 =>
        rw [hout] at ho
        cases r1 with
        | error e => rfl
        | ok d1 =>
          dsimp only
          exact ih d1 w1 (ho.1.trans hopen)

theorem reflectAll_log (shaderData : StageMap Words) :
    ∀ (w : World) (ev : Event), ev ∈ (reflectAll shaderData w).log →
      ev ∈ w.log ∨ ∃ stage spirv, ev = .reflect stage spirv := by
  induction shaderData with
  | nil => intro w ev h; exact Or.inl h
  | cons a rest ih =>
    intro w ev h
    unfold reflectAll at h
    rw [List.foldl_cons] at h
    rcases ih _ ev h with h1 | h1
    · simp only [World.record, List.mem_append, List.mem_singleton] at h1
      rcases h1 with h1 | h1
      · exact Or.inl h1
      · exact Or.inr ⟨_, _, h1⟩
    · exact Or.inr h1

/-! ## Facts about the cell multipliers -/

theorem toUint32_of_lt_one {q : ℚ} (h : q < 1) : toUint32 q = 0 := by
  unfold toUint32
  rw [Nat.floor_eq_zero.2 h]
  rfl

theorem toUint32_natCast {n : Nat} (h : n < 2 ^ 32) : toUint32 (n : ℚ) = n := by
  unfold toUint32
  rw [Nat.floor_natCast]
  exact Nat.mod_eq_of_lt h

theorem cellMultipliers_AddX_pos (yOverX xOverY : Nat) :
    1 ≤ (SubTexture2D.cellMultipliers yOverX xOverY).1 := by
  unfold SubTexture2D.cellMultipliers
  dsimp only
  split
  · split
    · exact le_refl _
    · omega
  · exact le_refl _

theorem cellMultipliers_AddY_eq_zero_iff (yOverX xOverY : Nat) :
    (SubTexture2D.cellMultipliers yOverX xOverY).2 = 0 ↔ yOverX = 0 ∧ xOverY ≠ 0 := by
  unfold SubTexture2D.cellMultipliers
  dsimp only
  split
  · split
    · simp [*]
    · simp [*]
  · simp [*]

/-- A sprite that is wider than high, and less than `2 ^ 32` times so: `AddY` is `0`. -/
theorem CreateFromCoords_Add_of_wide {x y : ℚ} (hy : 0 < y) (hlt : y < x)
    (hbig : x / y < 2 ^ 32) : (SubTexture2D.CreateFromCoords_Add (x, y)).2 = 0 := by
  unfold SubTexture2D.CreateFromCoords_Add
  rw [cellMultipliers_AddY_eq_zero_iff]
  have hx : 0 < x := lt_trans hy hlt
  refine ⟨toUint32_of_lt_one ((div_lt_one hx).2 hlt), ?_⟩
  dsimp only
  unfold toUint32
  have h1 : 1 ≤ ⌊x / y⌋₊ := Nat.le_floor (by
    rw [Nat.cast_one]
    exact (one_le_div hy).2 (le_of_lt hlt))
  have h2 : ⌊x / y⌋₊ < 2 ^ 32 := by
    have := (Nat.floor_lt (le_of_lt (div_pos hx hy))).2 (by
      have hc : ((2 ^ 32 : Nat) : ℚ) = 2 ^ 32 := by norm_num
      rw [hc]
      exact hbig)
    exact this
  rw [Nat.mod_eq_of_lt h2]
  omega

/-! ## Facts about the driver objects -/

theorem count_foldl_erase (a : Nat) : ∀ (ids l : List Nat),
    List.count a (ids.foldl List.erase l) = List.count a l - List.count a ids := by
  intro ids
  induction ids with
  | nil => intro l; simp
  | cons b ids ih =>
    intro l
    rw [List.foldl_cons, ih, List.count_erase, List.count_cons]
    by_cases h : b = a
    · subst h
      simp only [beq_self_eq_true, if_true]
      omega
    · have h2 : (a == b) = false := by simpa using fun h3 => h h3.symm
      have h3 : (b == a) = false := by simpa using h
      simp [h2, h3]

theorem deleteShaders_fields (shaderIDs : List Nat) : ∀ (w : World),
    (deleteShaders shaderIDs w).shaders = shaderIDs.foldl List.erase w.shaders ∧
      (deleteShaders shaderIDs w).programs = w.programs ∧
      (deleteShaders shaderIDs w).log
        = w.log ++ shaderIDs.map (fun id => Event.glDeleteShader id) := by
  induction shaderIDs with
  | nil => intro w; simp [deleteShaders]
  | cons id rest ih =>
    intro w
    have h := ih (w.glDeleteShader id)
    unfold deleteShaders at h ⊢
    rw [List.foldl_cons]
    refine ⟨h.1, h.2.1, ?_⟩
    rw [h.2.2]
    simp [World.glDeleteShader, World.record]

theorem detachShaders_fields (program : Nat) (shaderIDs : List Nat) : ∀ (w : World),
    (detachShaders program shaderIDs w).shaders = shaderIDs.foldl List.erase w.shaders ∧
      (detachShaders program shaderIDs w).programs = w.programs ∧
      (detachShaders program shaderIDs w).log
        = w.log ++ (shaderIDs.map (fun id =>
            [Event.glDetachShader program id, Event.glDeleteShader id])).flatten := by
  induction shaderIDs with
  | nil => intro w; simp [detachShaders]
  | cons id rest ih =>
    intro w
    have h := ih ((w.record (.glDetachShader program id)).glDeleteShader id)
    unfold detachShaders at h ⊢
    rw [List.foldl_cons]
    refine ⟨h.1, h.2.1, ?_⟩
    rw [h.2.2]
    simp [World.glDeleteShader, World.record]

/-- The first loop of `CreateProgram` creates the shader objects named `nextName`,
`nextName + 1`, ... in turn. -/
theorem attachStages_fields (program : Nat) : ∀ (m : StageMap Words) (ids : List Nat)
    (w : World),
    (attachStages program m ids w).1 = ids ++ List.range' w.nextName m.length ∧
      (attachStages program m ids w).2.shaders
        = (List.range' w.nextName m.length).reverse ++ w.shaders ∧
      (attachStages program m ids w).2.programs = w.programs ∧
      (∃ rest, (attachStages program m ids w).2.log = w.log ++ rest) ∧
      (∀ stage id, Event.glCreateShader stage id ∈ (attachStages program m ids w).2.log →
        Event.glCreateShader stage id ∈ w.log ∨ id ∈ List.range' w.nextName m.length) := by
  intro m
  induction m with
  | nil => intro ids w; simp [attachStages]
  | cons a rest ih =>
    intro ids w
    obtain ⟨stage, spirv⟩ := a
    unfold attachStages
    simp only [World.glCreateShader]
    have h := ih (ids ++ [w.nextName])
      ((({ (w.record (.glCreateShader stage w.nextName)) with
          nextName := w.nextName + 1, shaders := w.nextName :: w.shaders } : World).record
        (.glShaderBinary w.nextName spirv)).record (.glSpecializeShader w.nextName)
        |>.record (.glAttachShader program w.nextName))
    simp only [World.record] at h ⊢
    refine ⟨?_, ?_, h.2.2.1, ?_, ?_⟩
    · rw [h.1]
      simp [List.range'_succ]
    · rw [h.2.1]
      simp [List.range'_succ]
    · obtain ⟨rest', hrest⟩ := h.2.2.2.1
      exact ⟨_, by rw [hrest]; simp only [List.append_assoc]; rfl⟩
    · intro stage' id hmem
      rcases h.2.2.2.2 stage' id hmem with h1 | h1
      · simp only [List.mem_append, List.mem_singleton, Event.glCreateShader.injEq,
          reduceCtorEq, or_false] at h1
        rcases h1 with h1 | h1
        · exact Or.inl h1
        · right
          rw [h1.2]
          simp [List.range'_succ]
      · right
        simp only [List.length_cons, List.range'_succ, List.mem_cons]
        exact Or.inr h1

theorem CreateProgram_fields (env : Env) (self : OpenGLShader) (w : World) :
    ∃ ids w3, ids = List.range' (w.nextName + 1) self.m_OpenGLSPIRV.length ∧
      w3.programs = w.nextName :: w.programs ∧
      w3.shaders = ids.reverse ++ w.shaders ∧
      (∃ rest, w3.log = w.log ++ Event.glCreateProgram w.nextName :: rest) ∧
      (∀ stage id, Event.glCreateShader stage id ∈ w3.log →
        Event.glCreateShader stage id ∈ w.log ∨ id ∈ ids) ∧
      CreateProgram env self w = ({ self with m_RendererID := some w.nextName },
        detachShaders w.nextName ids
          (if env.linkStatus self.m_OpenGLSPIRV then w3
            else deleteShaders ids (w3.glDeleteProgram w.nextName))) := by
  have h := attachStages_fields w.nextName self.m_OpenGLSPIRV [] w.glCreateProgram.2
  have hids : (attachStages w.nextName self.m_OpenGLSPIRV [] w.glCreateProgram.2).1
      = List.range' (w.nextName + 1) self.m_OpenGLSPIRV.length := by
    rw [h.1]
    rfl
  refine ⟨List.range' (w.nextName + 1) self.m_OpenGLSPIRV.length,
    (attachStages w.nextName self.m_OpenGLSPIRV [] w.glCreateProgram.2).2.record
      (.glLinkProgram w.nextName), rfl, ?_, ?_, ?_, ?_, ?_⟩
  · simp only [World.record]
    rw [h.2.2.1]
    rfl
  · simp only [World.record]
    rw [h.2.1]
    rfl
  · obtain ⟨rest', hrest⟩ := h.2.2.2.1
    refine ⟨rest' ++ [Event.glLinkProgram w.nextName], ?_⟩
    simp only [World.record]
    rw [hrest]
    simp [World.glCreateProgram, World.record]
  · intro stage id hmem
    simp only [World.record, List.mem_append, List.mem_singleton, reduceCtorEq, or_false]
      at hmem
    rcases h.2.2.2.2 stage id hmem with h1 | h1
    · simp only [World.glCreateProgram, World.record, List.mem_append, List.mem_singleton,
        reduceCtorEq, or_false] at h1
      exact Or.inl h1
    · exact Or.inr h1
  · rw [← hids]
    rfl

/-! ## Facts about the vendor-fallback path -/

theorem wordsOfBytes_bytesOfWords : ∀ (ws : Words), (∀ x ∈ ws, x < 2 ^ 32) →
    wordsOfBytes (bytesOfWords ws) = ws
  | [], _ => by simp [bytesOfWords, wordsOfBytes]
  | x :: rest, h => by
    have hx : x < 2 ^ 32 := h x (List.mem_cons_self _ _)
    have ih := wordsOfBytes_bytesOfWords rest (fun y hy => h y (List.mem_cons_of_mem _ hy))
    simp only [bytesOfWords, wordsOfBytes, ih, List.cons.injEq, and_true]
    omega

/-- Reading back what `CreateProgramAMD` wrote: the format comes back in its low 32 bits,
and the buffer is the program binary followed by four zero bytes. -/
theorem readProgramCache_programCacheBytes (format : Nat) (shaderData : Bytes) :
    readProgramCache (programCacheBytes format shaderData)
      = (format % 2 ^ 32, shaderData ++ [0, 0, 0, 0]) := by
  unfold readProgramCache programCacheBytes
  simp only [bytesOfWords, List.cons_append, List.nil_append, List.length_cons, List.take,
    List.drop]
  have h4 : 4 ≤ shaderData.length + 1 + 1 + 1 + 1 := by omega
  rw [if_pos h4]
  have h0 : 4 - (shaderData.length + 1 + 1 + 1 + 1) = 0 := by omega
  rw [h0]
  simp only [List.replicate, List.append_nil, wordsOfBytes, Prod.mk.injEq, and_true]
  refine ⟨?_, rfl⟩
  show format % 256 % 256 + 256 * (format / 256 % 256 % 256)
    + 65536 * (format / 65536 % 256 % 256) + 16777216 * (format / 16777216 % 256 % 256)
    = format % 2 ^ 32
  omega

/-- The loop of `CompileOpenGLBinariesForAMD` stays inside the array when the stages that
are left fit behind the running index. -/
theorem amdStages_in_bounds (env : Env) (drv : Driver) (program : Nat) :
    ∀ (m : StageMap Words) (idx : Nat) (ids : List (Option Nat)) (w : World),
      idx + m.length ≤ ids.length →
      (amdStages env drv program m idx ids w).1 ≠ .error .arrayOutOfBounds := by
  intro m
  induction m with
  | nil => intro idx ids w _; simp [amdStages]
  | cons a rest ih =>
    intro idx ids w hle
    obtain ⟨stage, spirv⟩ := a
    simp only [List.length_cons] at hle
    unfold amdStages
    dsimp only
    split
    · rw [if_pos (by omega)]
      exact ih _ _ _ (by rw [List.length_set]; omega)
    · simp

/-- With three stages the loop does write past the second slot. -/
theorem amdStages_three_stages :
    (CompileOpenGLBinariesForAMD demoEnv demoDriver threeStageShader 1 [none, none]
      (demoWorld [])).1 = .error .arrayOutOfBounds := rfl

theorem StageMap.length_assign_le {α : Type} (k : GLenum) (v : α) (m : StageMap α) :
    (StageMap.assign k v m).length ≤ m.length + 1 := by
  induction m with
  | nil => simp [StageMap.assign]
  | cons a m ih =>
    obtain ⟨k', v'⟩ := a
    by_cases h : k' = k
    · simp [StageMap.assign, h]
    · simp only [StageMap.assign, if_neg h, List.length_cons]
      omega

/-- A successful run of the loop body stores a binary under the stage. -/
theorem vulkanStage_ok_assign {env : Env} {filePath : Str} {stage : GLenum} {source : Str}
    {shaderData shaderData' : StageMap Words} {w w' : World}
    (h : vulkanStage env filePath stage source shaderData w = (.ok shaderData', w')) :
    ∃ module, shaderData' = StageMap.assign stage module shaderData := by
  unfold vulkanStage at h
  cases hk : GLShaderStageCachedVulkanFileExtension stage with
  | error e => rw [hk] at h; cases h
  | ok ext =>
    rw [hk] at h
    dsimp only at h
    cases hf : w.files (cachePath env filePath ext) with
    | some bytes =>
      rw [hf] at h
      dsimp only at h
      split at h
      · cases h
        exact ⟨_, rfl⟩
      · cases h
    | none =>
      rw [hf] at h
      dsimp only at h
      cases hkk : GLShaderStageToShaderC stage with
      | error e => rw [hkk] at h; cases h
      | ok kind =>
        rw [hkk] at h
        dsimp only at h
        cases hc : env.compileGlslToSpv source kind filePath (some vulkanOptions) with
        | error msg => rw [hc] at h; cases h
        | ok module =>
          rw [hc] at h
          cases h
          exact ⟨_, rfl⟩

theorem vulkanStages_length_le (env : Env) (filePath : Str) :
    ∀ (sources : StageMap Str) (shaderData shaderData' : StageMap Words) (w w' : World),
      vulkanStages env filePath sources shaderData w = (.ok shaderData', w') →
      shaderData'.length ≤ shaderData.length + sources.length := by
  intro sources
  induction sources with
  | nil =>
    intro d d' w w' h
    simp only [vulkanStages, Prod.mk.injEq, Except.ok.injEq] at h
    rw [← h.1]
    exact Nat.le_add_right _ _
  | cons a rest ih =>
    intro d d' w w' h
    obtain ⟨k, v⟩ := a
    unfold vulkanStages at h
    cases hout : vulkanStage env filePath k v d w with
    | mk r1 w1 =>
      rw [hout] at h
      cases r1 with
      | error e => cases h
      | ok d1 =>
        dsimp only at h
        obtain ⟨module, hd1⟩ := vulkanStage_ok_assign hout
        have h1 := ih d1 d' w1 w' h
        have h2 := StageMap.length_assign_le k module d
        rw [← hd1] at h2
        simp only [List.length_cons]
        omega

/-- A list without repetition whose members are the vertex or the fragment stage has at
most two members. -/
theorem length_le_two_of_stages {l : List GLenum} (hnodup : l.Nodup)
    (hmem : ∀ k ∈ l, k = GL_VERTEX_SHADER ∨ k = GL_FRAGMENT_SHADER) : l.length ≤ 2 := by
  have hsub : l ⊆ [GL_VERTEX_SHADER, GL_FRAGMENT_SHADER] := by
    intro k hk
    rcases hmem k hk with h | h <;> simp [h]
  exact (List.subperm_of_subset hnodup hsub).length_le

theorem CompileOrGetVulkanBinaries_length_le {env : Env} {self self' : OpenGLShader}
    {sources : StageMap Str} {w w' : World}
    (h : CompileOrGetVulkanBinaries env self sources w = (.ok self', w')) :
    self'.m_VulkanSPIRV.length ≤ sources.length := by
  unfold CompileOrGetVulkanBinaries at h
  dsimp only at h
  cases hout : vulkanStages env self.m_FilePath sources [] w.glCreateProgram.2 with
  | mk r1 w1 =>
    rw [hout] at h
    cases r1 with
    | error e => cases h
    | ok d1 =>
      dsimp only at h
      simp only [Prod.mk.injEq, Except.ok.injEq] at h
      rw [← h.1]
      have := vulkanStages_length_le env self.m_FilePath sources [] d1 _ _ hout
      simpa using this

theorem CreateCacheDirectoryIfNeeded_error {w : World} {e : Fatal}
    (h : (CreateCacheDirectoryIfNeeded w).1 = .error e) : e = .filesystemError := by
  unfold CreateCacheDirectoryIfNeeded at h
  split at h
  · cases h
  · dsimp only at h
    split at h
    · cases h
    · simp only [Except.error.injEq] at h
      exact h.symm

/-- The fatal ends of `CreateProgramAMD`: a link failure, a driver without binary formats,
a cache directory that cannot be created, or a fatal end of
`CompileOpenGLBinariesForAMD`. -/
theorem CreateProgramAMD_error (env : Env) (drv : Driver) (self : OpenGLShader) (w : World)
    {e : Fatal} (h : (CreateProgramAMD env drv self w).1 = .error e) :
    e = .shaderLinkFailure ∨ e = .noBinaryFormat ∨ e = .filesystemError ∨
      ∃ w0, (CompileOpenGLBinariesForAMD env drv self w.nextName [none, none] w0).1
        = .error e := by
  unfold CreateProgramAMD at h
  dsimp only at h
  cases hf : w.glCreateProgram.2.files (programCachePath env self.m_FilePath) with
  | some bytes =>
    rw [hf] at h
    dsimp only at h
    by_cases hl : drv.linkStatusOfBinary (readProgramCache bytes).1 (readProgramCache bytes).2
        = true
    · simp [VerifyProgramLink, hl] at h
    · simp only [VerifyProgramLink, if_neg hl, Except.error.injEq] at h
      exact Or.inl h.symm
  | none =>
    rw [hf] at h
    dsimp only at h
    cases hout : CompileOpenGLBinariesForAMD env drv self w.glCreateProgram.1 [none, none]
        (w.glCreateProgram.2.record (.openRead (programCachePath env self.m_FilePath) false)) with
    | mk r1 w1 =>
      rw [hout] at h
      cases r1 with
      | error e1 =>
        dsimp only at h
        simp only [Except.error.injEq] at h
        subst h
        exact Or.inr (Or.inr (Or.inr ⟨_, by
          have := congrArg Prod.fst hout
          exact this⟩))
      | ok ids =>
        dsimp only at h
        by_cases hl : drv.linkStatusOfSources (amdSources env self) = true
        · simp only [VerifyProgramLink, if_pos hl] at h
          by_cases hn : 0 < drv.numProgramBinaryFormats
          · simp only [if_pos hn, if_true] at h
            cases hc : CreateCacheDirectoryIfNeeded
                (w1.record (Event.glLinkProgram w.glCreateProgram.1)) with
            | mk r6 w6 =>
              rw [hc] at h
              cases r6 with
              | error e6 =>
                simp only [Except.error.injEq] at h
                rw [← h]
                exact Or.inr (Or.inr (Or.inl (CreateCacheDirectoryIfNeeded_error
                  (by rw [hc]))))
              | ok u => simp at h
          · simp only [if_neg hn, if_true, Except.error.injEq] at h
            exact Or.inr (Or.inl h.symm)
        · simp only [VerifyProgramLink, if_neg hl, Except.error.injEq] at h
          exact Or.inl h.symm

theorem CreateProgramAMD_in_bounds (env : Env) (drv : Driver) (self : OpenGLShader) (w : World)
    (hlen : self.m_VulkanSPIRV.length ≤ 2) :
    (CreateProgramAMD env drv self w).1 ≠ .error .arrayOutOfBounds := by
  intro h
  rcases CreateProgramAMD_error env drv self w h with h1 | h1 | h1 | ⟨w0, h1⟩
  · cases h1
  · cases h1
  · cases h1
  · exact amdStages_in_bounds env drv w.nextName self.m_VulkanSPIRV 0 [none, none] w0
      (by simp only [List.length_cons, List.length_nil]; omega) h1

/-! ## Facts about the cache files of the two compile loops -/

theorem World.write_writable (w : World) (path : Str) (bytes : Bytes) :
    (w.write path bytes).writable = w.writable := by
  unfold World.write
  split <;> rfl

theorem World.write_files_self {w : World} {path : Str} (bytes : Bytes)
    (h : w.writable path = true) : (w.write path bytes).files path = some bytes := by
  unfold World.write
  rw [if_pos h]
  simp

theorem World.write_files_ne (w : World) {path p : Str} (bytes : Bytes) (h : p ≠ path) :
    (w.write path bytes).files p = w.files p := by
  unfold World.write
  split
  · simp only [if_neg h]
  · rfl

theorem World.write_files_unwritable {w : World} {path : Str} (bytes : Bytes)
    (h : w.writable path = false) : (w.write path bytes).files = w.files := by
  unfold World.write
  rw [if_neg (by rw [h]; simp)]
  rfl

theorem bytesOfWords_length : ∀ (ws : Words), (bytesOfWords ws).length = 4 * ws.length
  | [] => rfl
  | _ :: rest => by
    simp only [bytesOfWords, List.length_cons, bytesOfWords_length rest]
    omega

theorem bytesOfWords_aligned (ws : Words) : (bytesOfWords ws).length % 4 = 0 := by
  rw [bytesOfWords_length]
  omega

theorem World.write_files_some (w : World) (path : Str) (bytes : Bytes) {p : Str} {b : Bytes}
    (h : w.files p = some b) : ∃ b', (w.write path bytes).files p = some b' := by
  unfold World.write
  split
  · by_cases hp : p = path
    · exact ⟨bytes, by simp [hp]⟩
    · exact ⟨b, by simp only [if_neg hp]; exact h⟩
  · exact ⟨b, h⟩

/-- A write of whole words leaves every file that held whole words holding whole words. -/
theorem World.write_alignedAt (w : World) (path : Str) {bytes : Bytes} {p : Str}
    (hbytes : bytes.length % 4 = 0) (h : w.AlignedAt p) : (w.write path bytes).AlignedAt p := by
  intro b hb
  unfold World.write at hb
  split at hb
  · by_cases hp : p = path
    · simp only [hp, if_true, Option.some.injEq] at hb
      rw [← hb]
      exact hbytes
    · simp only [if_neg hp] at hb
      exact h b hb
  · exact h b hb

/-- The loop body leaves every file that holds whole words holding whole words. -/
theorem vulkanStage_alignedAt (env : Env) (filePath : Str) (k : GLenum) (source : Str)
    (shaderData : StageMap Words) (w : World) {p : Str} (h : w.AlignedAt p) :
    (vulkanStage env filePath k source shaderData w).2.AlignedAt p := by
  unfold vulkanStage
  cases hk : GLShaderStageCachedVulkanFileExtension k with
  | error e => exact h
  | ok ext =>
    dsimp only
    cases hf : w.files (cachePath env filePath ext) with
    | some bytes =>
      dsimp only
      split
      · exact h
      · exact h
    | none =>
      dsimp only
      cases hkk : GLShaderStageToShaderC k with
      | error e => exact h
      | ok kind =>
        dsimp only
        cases hc : env.compileGlslToSpv source kind filePath (some vulkanOptions) with
        | error msg => exact h
        | ok module => exact World.write_alignedAt _ _ (bytesOfWords_aligned _) h

theorem vulkanStages_alignedAt (env : Env) (filePath : Str) :
    ∀ (sources : StageMap Str) (shaderData : StageMap Words) (w : World) {p : Str},
      w.AlignedAt p → (vulkanStages env filePath sources shaderData w).2.AlignedAt p := by
  intro sources
  induction sources with
  | nil => intro d w p h; exact h
  | cons a rest ih =>
    intro d w p h
    obtain ⟨k, v⟩ := a
    have hs := vulkanStage_alignedAt env filePath k v d w h
    unfold vulkanStages
    cases hout : vulkanStage env filePath k v d w with
    | mk r1 w1 =>
      rw [hout] at hs
      cases r1 with
      | error e => exact hs
      | ok d1 => exact ih d1 w1 hs

theorem World.write_log (w : World) (path : Str) (bytes : Bytes) :
    (w.write path bytes).log = w.log ++ [Event.openWrite path (w.writable path)] := by
  unfold World.write
  split
  · rename_i h
    simp [World.record, h]
  · rename_i h
    simp only [Bool.not_eq_true] at h
    simp [World.record, h]

/-- The loop body on a stage whose cache file does not open and whose source compiles: the
binary is the module of the compiler, and the module is written to the cache file. -/
theorem vulkanStage_miss (env : Env) (filePath : Str) (stage : GLenum) (source : Str)
    (shaderData : StageMap Words) (w : World) {extension : Str} {kind : ShaderKind}
    {module : Words}
    (hext : GLShaderStageCachedVulkanFileExtension stage = .ok extension)
    (hkind : GLShaderStageToShaderC stage = .ok kind)
    (hempty : w.files (cachePath env filePath extension) = none)
    (hcompile : env.compileGlslToSpv source kind filePath (some vulkanOptions) = .ok module) :
    vulkanStage env filePath stage source shaderData w
      = (.ok (StageMap.assign stage module shaderData),
          ((w.record (.openRead (cachePath env filePath extension) false)).record
            (.compileGlslToSpv source kind filePath (some vulkanOptions))).write
              (cachePath env filePath extension) (bytesOfWords module)) := by
  unfold vulkanStage
  rw [hext]
  dsimp only
  rw [hempty]
  dsimp only
  rw [hkind]
  dsimp only
  rw [hcompile]

/-- The loop body on a stage whose cache file does not open and whose source the compiler
rejects: the run ends after the call of the compiler. -/
theorem vulkanStage_reject (env : Env) (filePath : Str) (stage : GLenum) (source : Str)
    (shaderData : StageMap Words) (w : World) {extension : Str} {kind : ShaderKind}
    {msg : Str}
    (hext : GLShaderStageCachedVulkanFileExtension stage = .ok extension)
    (hkind : GLShaderStageToShaderC stage = .ok kind)
    (hempty : w.files (cachePath env filePath extension) = none)
    (hcompile : env.compileGlslToSpv source kind filePath (some vulkanOptions) = .error msg) :
    vulkanStage env filePath stage source shaderData w
      = (.error .compilationFailed,
          (w.record (.openRead (cachePath env filePath extension) false)).record
            (.compileGlslToSpv source kind filePath (some vulkanOptions))) := by
  unfold vulkanStage
  rw [hext]
  dsimp only
  rw [hempty]
  dsimp only
  rw [hkind]
  dsimp only
  rw [hcompile]

/-- What the loop body leaves alone: the permissions, the files other than its own cache
file, the existence of files, every file when its own cache file cannot be written; and
the calls it can make. -/
theorem vulkanStage_frame (env : Env) (filePath : Str) (k : GLenum) (source : Str)
    (shaderData : StageMap Words) (w : World) :
    (vulkanStage env filePath k source shaderData w).2.writable = w.writable ∧
      (∀ p, (∀ ext, GLShaderStageCachedVulkanFileExtension k = .ok ext →
          p ≠ cachePath env filePath ext) →
        (vulkanStage env filePath k source shaderData w).2.files p = w.files p) ∧
      (∀ p b, w.files p = some b →
        ∃ b', (vulkanStage env filePath k source shaderData w).2.files p = some b') ∧
      ((∀ ext, GLShaderStageCachedVulkanFileExtension k = .ok ext →
          w.writable (cachePath env filePath ext) = false) →
        (vulkanStage env filePath k source shaderData w).2.files = w.files) ∧
      (∀ ev ∈ (vulkanStage env filePath k source shaderData w).2.log, ev ∈ w.log ∨
        (∃ ext o, GLShaderStageCachedVulkanFileExtension k = .ok ext ∧
          ev = .openRead (cachePath env filePath ext) o) ∨
        (∃ kind, GLShaderStageToShaderC k = .ok kind ∧
          ev = .compileGlslToSpv source kind filePath (some vulkanOptions)) ∨
        (∃ ext o, GLShaderStageCachedVulkanFileExtension k = .ok ext ∧
          ev = .openWrite (cachePath env filePath ext) o)) := by
  unfold vulkanStage
  cases hk : GLShaderStageCachedVulkanFileExtension k with
  | error e =>
    dsimp only
    exact ⟨rfl, fun _ _ => rfl, fun p b h => ⟨b, h⟩, fun _ => rfl, fun ev h => Or.inl h⟩
  | ok ext' =>
    dsimp only
    cases hf : w.files (cachePath env filePath ext') with
    | some bytes =>
      dsimp only
      have hev : ∀ ev ∈ (w.record (.openRead (cachePath env filePath ext') true)).log,
          ev ∈ w.log ∨
          (∃ ext o, Except.ok ext' = (.ok ext : Except Fatal Str) ∧
            ev = .openRead (cachePath env filePath ext) o) ∨
          (∃ kind, GLShaderStageToShaderC k = .ok kind ∧
            ev = .compileGlslToSpv source kind filePath (some vulkanOptions)) ∨
          (∃ ext o, Except.ok ext' = (.ok ext : Except Fatal Str) ∧
            ev = .openWrite (cachePath env filePath ext) o) := by
        intro ev hev
        simp only [World.record, List.mem_append, List.mem_singleton] at hev
        rcases hev with hev | hev
        · exact Or.inl hev
        · exact Or.inr (Or.inl ⟨ext', true, rfl, hev⟩)
      split
      · exact ⟨rfl, fun _ _ => rfl, fun p b h => ⟨b, h⟩, fun _ => rfl, hev⟩
      · exact ⟨rfl, fun _ _ => rfl, fun p b h => ⟨b, h⟩, fun _ => rfl, hev⟩
    | none =>
      dsimp only
      cases hkk : GLShaderStageToShaderC k with
      | error e =>
        dsimp only
        refine ⟨rfl, fun _ _ => rfl, fun p b h => ⟨b, h⟩, fun _ => rfl, ?_⟩
        intro ev hev
        simp only [World.record, List.mem_append, List.mem_singleton] at hev
        rcases hev with hev | hev
        · exact Or.inl hev
        · exact Or.inr (Or.inl ⟨ext', false, rfl, hev⟩)
      | ok kind' =>
        dsimp only
        cases hc : env.compileGlslToSpv source kind' filePath (some vulkanOptions) with
        | error msg =>
          dsimp only
          refine ⟨rfl, fun _ _ => rfl, fun p b h => ⟨b, h⟩, fun _ => rfl, ?_⟩
          intro ev hev
          simp only [World.record, List.mem_append, List.mem_singleton] at hev
          rcases hev with (hev | hev) | hev
          · exact Or.inl hev
          · exact Or.inr (Or.inl ⟨ext', false, rfl, hev⟩)
          · exact Or.inr (Or.inr (Or.inl ⟨kind', rfl, hev⟩))
        | ok module =>
          dsimp only
          refine ⟨World.write_writable _ _ _, ?_, ?_, ?_, ?_⟩
          · intro p hp
            rw [World.write_files_ne _ _ (hp ext' rfl)]
            rfl
          · intro p b h
            exact World.write_files_some _ _ _ h
          · intro hw
            refine (World.write_files_unwritable _ ?_).trans rfl
            exact hw ext' rfl
          · intro ev hev
            rw [World.write_log] at hev
            simp only [World.record, List.mem_append, List.mem_singleton] at hev
            rcases hev with ((hev | hev) | hev) | hev
            · exact Or.inl hev
            · exact Or.inr (Or.inl ⟨ext', false, rfl, hev⟩)
            · exact Or.inr (Or.inr (Or.inl ⟨kind', rfl, hev⟩))
            · exact Or.inr (Or.inr (Or.inr ⟨ext', _, rfl, hev⟩))
/-- What the loop over the stages leaves alone, and the calls it can make. -/
theorem vulkanStages_frame (env : Env) (filePath : Str) :
    ∀ (sources : StageMap Str) (shaderData : StageMap Words) (w : World),
      (vulkanStages env filePath sources shaderData w).2.writable = w.writable ∧
        (∀ p, (∀ k ∈ sources.keys, ∀ ext, GLShaderStageCachedVulkanFileExtension k = .ok ext →
            p ≠ cachePath env filePath ext) →
          (vulkanStages env filePath sources shaderData w).2.files p = w.files p) ∧
        (∀ p b, w.files p = some b →
          ∃ b', (vulkanStages env filePath sources shaderData w).2.files p = some b') ∧
        ((∀ k ∈ sources.keys, ∀ ext, GLShaderStageCachedVulkanFileExtension k = .ok ext →
            w.writable (cachePath env filePath ext) = false) →
          (vulkanStages env filePath sources shaderData w).2.files = w.files) ∧
        (∀ ev ∈ (vulkanStages env filePath sources shaderData w).2.log, ev ∈ w.log ∨
          (∃ p o, ev = .openRead p o) ∨
          (∃ src kind, ev = .compileGlslToSpv src kind filePath (some vulkanOptions)) ∨
          (∃ k ∈ sources.keys, ∃ ext o, GLShaderStageCachedVulkanFileExtension k = .ok ext ∧
            ev = .openWrite (cachePath env filePath ext) o)) := by
  intro sources
  induction sources with
  | nil =>
    intro d w
    exact ⟨rfl, fun _ _ => rfl, fun p b h => ⟨b, h⟩, fun _ => rfl, fun ev h => Or.inl h⟩
  | cons a rest ih =>
    intro d w
    obtain ⟨k, v⟩ := a
    have hs := vulkanStage_frame env filePath k v d w
    unfold vulkanStages
    cases hout : vulkanStage env filePath k v d w with
    | mk r1 w1 =>
      rw [hout] at hs
      have hev1 : ∀ ev ∈ w1.log, ev ∈ w.log ∨
          (∃ p o, ev = .openRead p o) ∨
          (∃ src kind, ev = .compileGlslToSpv src kind filePath (some vulkanOptions)) ∨
          (∃ k' ∈ StageMap.keys ((k, v) :: rest), ∃ ext o,
            GLShaderStageCachedVulkanFileExtension k' = .ok ext ∧
            ev = .openWrite (cachePath env filePath ext) o) := by
        intro ev hev
        rcases hs.2.2.2.2 ev hev with h | ⟨ext, o, _, h⟩ | ⟨kind, _, h⟩ | ⟨ext, o, hx, h⟩
        · exact Or.inl h
        · exact Or.inr (Or.inl ⟨_, o, h⟩)
        · exact Or.inr (Or.inr (Or.inl ⟨v, kind, h⟩))
        · exact Or.inr (Or.inr (Or.inr ⟨k, by simp [StageMap.keys], ext, o, hx, h⟩))
      have hfr1 : ∀ p, (∀ k' ∈ StageMap.keys ((k, v) :: rest), ∀ ext,
          GLShaderStageCachedVulkanFileExtension k' = .ok ext →
            p ≠ cachePath env filePath ext) → w1.files p = w.files p :=
        fun p hp => hs.2.1 p (fun ext hx => hp k (by simp [StageMap.keys]) ext hx)
      have hun1 : (∀ k' ∈ StageMap.keys ((k, v) :: rest), ∀ ext,
          GLShaderStageCachedVulkanFileExtension k' = .ok ext →
            w.writable (cachePath env filePath ext) = false) → w1.files = w.files :=
        fun hw => hs.2.2.2.1 (fun ext hx => hw k (by simp [StageMap.keys]) ext hx)
      cases r1 with
      | error e =>
        dsimp only
        exact ⟨hs.1, hfr1, hs.2.2.1, hun1, hev1⟩
      | ok d1 =>
        dsimp only
        have hi := ih d1 w1
        refine ⟨hi.1.trans hs.1, ?_, ?_, ?_, ?_⟩
        · intro p hp
          rw [hi.2.1 p (fun k' hk' => hp k' (by
            simp only [StageMap.keys, List.map_cons, List.mem_cons]
            exact Or.inr hk')), hfr1 p hp]
        · intro p b h
          obtain ⟨b1, h1⟩ := hs.2.2.1 p b h
          exact hi.2.2.1 p b1 h1
        · intro hw
          rw [hi.2.2.2.1 (fun k' hk' ext hx => by
            rw [hs.1]
            exact hw k' (by
              simp only [StageMap.keys, List.map_cons, List.mem_cons]
              exact Or.inr hk') ext hx), hun1 hw]
        · intro ev hev
          rcases hi.2.2.2.2 ev hev with h | h | h | ⟨k', hk', ext, o, hx, h⟩
          · exact hev1 ev h
          · exact Or.inr (Or.inl h)
          · exact Or.inr (Or.inr (Or.inl h))
          · exact Or.inr (Or.inr (Or.inr ⟨k', by
              simp only [StageMap.keys, List.map_cons, List.mem_cons]
              exact Or.inr hk', ext, o, hx, h⟩))

theorem vulkanStage_log_mono (env : Env) (filePath : Str) (k : GLenum) (source : Str)
    (shaderData : StageMap Words) (w : World) :
    ∀ ev ∈ w.log, ev ∈ (vulkanStage env filePath k source shaderData w).2.log := by
  intro ev hev
  cases hk : GLShaderStageCachedVulkanFileExtension k with
  | error e =>
    unfold vulkanStage
    rw [hk]
    exact hev
  | ok ext =>
    obtain ⟨opened, rest, h⟩ := vulkanStage_log env filePath k source shaderData w hk
    rw [h]
    exact List.mem_append_left _ hev

theorem vulkanStages_log_mono (env : Env) (filePath : Str) :
    ∀ (sources : StageMap Str) (shaderData : StageMap Words) (w : World),
      ∀ ev ∈ w.log, ev ∈ (vulkanStages env filePath sources shaderData w).2.log := by
  intro sources
  induction sources with
  | nil => intro d w ev hev; exact hev
  | cons a rest ih =>
    intro d w ev hev
    obtain ⟨k, v⟩ := a
    have hs := vulkanStage_log_mono env filePath k v d w ev hev
    unfold vulkanStages
    cases hout : vulkanStage env filePath k v d w with
    | mk r1 w1 =>
      rw [hout] at hs
      cases r1 with
      | error e => exact hs
      | ok d1 => exact ih d1 w1 ev hs

/-- Two stages with a cache extension each have different cache files. -/
theorem vulkanPath_ne (env : Env) (filePath : Str) {stage k : GLenum} {extension : Str}
    (hext : GLShaderStageCachedVulkanFileExtension stage = .ok extension) (hne : k ≠ stage) :
    ∀ ext, GLShaderStageCachedVulkanFileExtension k = .ok ext →
      cachePath env filePath extension ≠ cachePath env filePath ext := by
  intro ext hk h
  have := cachePath_injective env filePath h
  subst this
  exact hne (vulkanExtension_injective hk hext)

/-- An entry of a map without repeated keys whose key is the first key is the first
entry. -/
theorem StageMap.eq_of_mem_of_nodup {α : Type} {k : GLenum} {v v0 : α} {rest : StageMap α}
    (hnot : k ∉ StageMap.keys rest) (hmem : (k, v) ∈ (k, v0) :: rest) : v = v0 := by
  rcases List.mem_cons.1 hmem with h | h
  · exact (Prod.mk.inj h).2
  · exact absurd (List.mem_map_of_mem Prod.fst h) hnot

/-- The loop over the stages, when the cache file of `stage` does not open and the source of
`stage` compiles: the binary of `stage` is the module of the compiler, and the cache file
holds the module afterwards if it can be written and is still absent if it cannot. -/
theorem vulkanStages_miss (env : Env) (filePath : Str) {stage : GLenum} {extension : Str}
    {kind : ShaderKind} {source : Str} {module : Words}
    (hext : GLShaderStageCachedVulkanFileExtension stage = .ok extension)
    (hkind : GLShaderStageToShaderC stage = .ok kind)
    (hcompile : env.compileGlslToSpv source kind filePath (some vulkanOptions) = .ok module) :
    ∀ (sources : StageMap Str) (shaderData : StageMap Words) (w : World),
      sources.keys.Nodup → (stage, source) ∈ sources →
      w.files (cachePath env filePath extension) = none →
      ∀ shaderData' w', vulkanStages env filePath sources shaderData w = (.ok shaderData', w') →
        StageMap.lookup stage shaderData' = some module ∧
          (w.writable (cachePath env filePath extension) = true →
            w'.files (cachePath env filePath extension) = some (bytesOfWords module)) ∧
          (w.writable (cachePath env filePath extension) = false →
            w'.files (cachePath env filePath extension) = none) ∧
          Event.compileGlslToSpv source kind filePath (some vulkanOptions) ∈ w'.log := by
  intro sources
  induction sources with
  | nil =>
    intro shaderData w _ hmem
    simp at hmem
  | cons a rest ih =>
    intro shaderData w hnodup hmem hempty d' w' hrun
    obtain ⟨k, v⟩ := a
    simp only [StageMap.keys, List.map_cons, List.nodup_cons] at hnodup
    unfold vulkanStages at hrun
    by_cases hk : k = stage
    · subst hk
      have hv : source = v := StageMap.eq_of_mem_of_nodup hnodup.1 hmem
      subst hv
      rw [vulkanStage_miss env filePath k source shaderData w hext hkind hempty hcompile]
        at hrun
      dsimp only at hrun
      have ho := vulkanStages_others env filePath hext hkind rest
        (StageMap.assign k module shaderData)
        (((w.record (.openRead (cachePath env filePath extension) false)).record
          (.compileGlslToSpv source kind filePath (some vulkanOptions))).write
            (cachePath env filePath extension) (bytesOfWords module)) hnodup.1
      have hmono := vulkanStages_log_mono env filePath rest
        (StageMap.assign k module shaderData)
        (((w.record (.openRead (cachePath env filePath extension) false)).record
          (.compileGlslToSpv source kind filePath (some vulkanOptions))).write
            (cachePath env filePath extension) (bytesOfWords module))
      have hfr := vulkanStages_frame env filePath rest
        (StageMap.assign k module shaderData)
        (((w.record (.openRead (cachePath env filePath extension) false)).record
          (.compileGlslToSpv source kind filePath (some vulkanOptions))).write
            (cachePath env filePath extension) (bytesOfWords module))
      rw [hrun] at ho hfr hmono
      refine ⟨?_, ?_, ?_, ?_⟩
      · rw [ho.2.1 d' rfl, StageMap.lookup_assign_self]
      · intro hw
        rw [ho.1]
        exact World.write_files_self _ hw
      · intro hw
        rw [ho.1]
        have := World.write_files_unwritable
          (w := (w.record (.openRead (cachePath env filePath extension) false)).record
            (.compileGlslToSpv source kind filePath (some vulkanOptions)))
          (bytesOfWords module) hw
        rw [this]
        exact hempty
      · apply hmono
        rw [World.write_log]
        simp [World.record]
    · have hin : (stage, source) ∈ rest := by
        rcases List.mem_cons.1 hmem with h | h
        · exact absurd (Prod.mk.inj h).1.symm hk
        · exact h
      have hs := vulkanStage_frame env filePath k v shaderData w
      cases hout : vulkanStage env filePath k v shaderData w with
      | mk r1 w1 =>
        rw [hout] at hs hrun
        cases r1 with
        | error e =>
          dsimp only at hrun
          cases hrun
        | ok d1 =>
          dsimp only at hrun
          have hpath := hs.2.1 _ (vulkanPath_ne env filePath hext hk)
          have hi := ih d1 w1 hnodup.2 hin (hpath.trans hempty) d' w' hrun
          rw [hs.1] at hi
          exact hi
/-- A path that can be served (the file opens and holds whole words, or it does not open
and the source compiles) can still be served in a later world that kept the files that
existed and the property of holding whole words. -/
theorem served_mono {w w' : World} {p : Str} {compiles : Prop}
    (hsome : ∀ b, w.files p = some b → ∃ b', w'.files p = some b')
    (halign : w.AlignedAt p → w'.AlignedAt p)
    (h : (∃ bytes, w.files p = some bytes ∧ bytes.length % 4 = 0) ∨
      (w.files p = none ∧ compiles)) :
    (∃ bytes, w'.files p = some bytes ∧ bytes.length % 4 = 0) ∨
      (w'.files p = none ∧ compiles) := by
  rcases h with ⟨bytes, hb, ha⟩ | ⟨hn, hc⟩
  · obtain ⟨b', hb'⟩ := hsome bytes hb
    have hw : w.AlignedAt p := by
      intro b h1
      rw [hb] at h1
      cases h1
      exact ha
    exact Or.inl ⟨b', hb', halign hw b' hb'⟩
  · have hw : w.AlignedAt p := by
      intro b h1
      rw [hn] at h1
      cases h1
    cases hf : w'.files p with
    | none => exact Or.inr ⟨rfl, hc⟩
    | some b' => exact Or.inl ⟨b', rfl, halign hw b' hf⟩

/-- The loop over the stages returns when every stage can be served: it has a cache
extension and a compiler kind, and its cache file opens and holds whole words or does not
open while its source compiles. -/
theorem vulkanStages_ok (env : Env) (filePath : Str) :
    ∀ (sources : StageMap Str) (shaderData : StageMap Words) (w : World),
      (∀ k src, (k, src) ∈ sources → ∃ ext kind,
        GLShaderStageCachedVulkanFileExtension k = .ok ext ∧
        GLShaderStageToShaderC k = .ok kind ∧
        ((∃ bytes, w.files (cachePath env filePath ext) = some bytes ∧
            bytes.length % 4 = 0) ∨
          (w.files (cachePath env filePath ext) = none ∧
            ∃ module, env.compileGlslToSpv src kind filePath (some vulkanOptions)
              = .ok module))) →
      ∃ shaderData' w', vulkanStages env filePath sources shaderData w
        = (.ok shaderData', w') := by
  intro sources
  induction sources with
  | nil => intro d w _; exact ⟨d, w, rfl⟩
  | cons a rest ih =>
    intro d w hserve
    obtain ⟨k, v⟩ := a
    obtain ⟨ext, kind, hext, hkind, hcase⟩ := hserve k v (List.mem_cons_self _ _)
    have hs := vulkanStage_frame env filePath k v d w
    have hstep : ∃ d1 w1, vulkanStage env filePath k v d w = (.ok d1, w1) := by
      rcases hcase with ⟨bytes, hb, ha⟩ | ⟨hn, module, hc⟩
      · exact ⟨_, _, vulkanStage_hit env filePath k v d w hext hb ha⟩
      · exact ⟨_, _, vulkanStage_miss env filePath k v d w hext hkind hn hc⟩
    obtain ⟨d1, w1, hstep⟩ := hstep
    have hal : ∀ {p : Str}, w.AlignedAt p → w1.AlignedAt p := by
      intro p hp
      have := vulkanStage_alignedAt env filePath k v d w hp
      rw [hstep] at this
      exact this
    rw [hstep] at hs
    unfold vulkanStages
    rw [hstep]
    dsimp only
    apply ih d1 w1
    intro k' src' hmem'
    obtain ⟨ext', kind', hext', hkind', hcase'⟩ := hserve k' src' (List.mem_cons_of_mem _ hmem')
    exact ⟨ext', kind', hext', hkind', served_mono (hs.2.2.1 _) hal hcase'⟩

/-- The loop over the stages, when the cache file of `stage` does not open and the compiler
rejects the source of `stage`: the run ends fatally, the cache file of `stage` is still
absent and was not opened for writing. -/
theorem vulkanStages_reject (env : Env) (filePath : Str) {stage : GLenum} {extension : Str}
    {kind : ShaderKind} {source : Str} {msg : Str}
    (hext : GLShaderStageCachedVulkanFileExtension stage = .ok extension)
    (hkind : GLShaderStageToShaderC stage = .ok kind)
    (hcompile : env.compileGlslToSpv source kind filePath (some vulkanOptions) = .error msg) :
    ∀ (sources : StageMap Str) (shaderData : StageMap Words) (w : World),
      sources.keys.Nodup → (stage, source) ∈ sources →
      w.files (cachePath env filePath extension) = none →
      ∃ e w', vulkanStages env filePath sources shaderData w = (.error e, w') ∧
        w'.files (cachePath env filePath extension) = none ∧
        ∀ o, Event.openWrite (cachePath env filePath extension) o ∈ w'.log →
          Event.openWrite (cachePath env filePath extension) o ∈ w.log := by
  intro sources
  induction sources with
  | nil =>
    intro shaderData w _ hmem
    simp at hmem
  | cons a rest ih =>
    intro shaderData w hnodup hmem hempty
    obtain ⟨k, v⟩ := a
    simp only [StageMap.keys, List.map_cons, List.nodup_cons] at hnodup
    unfold vulkanStages
    by_cases hk : k = stage
    · subst hk
      have hv : source = v := StageMap.eq_of_mem_of_nodup hnodup.1 hmem
      subst hv
      rw [vulkanStage_reject env filePath k source shaderData w hext hkind hempty hcompile]
      dsimp only
      refine ⟨_, _, rfl, hempty, ?_⟩
      intro o ho
      simpa [World.record] using ho
    · have hin : (stage, source) ∈ rest := by
        rcases List.mem_cons.1 hmem with h | h
        · exact absurd (Prod.mk.inj h).1.symm hk
        · exact h
      have hs := vulkanStage_frame env filePath k v shaderData w
      have hpath := vulkanPath_ne env filePath hext hk
      cases hout : vulkanStage env filePath k v shaderData w with
      | mk r1 w1 =>
        rw [hout] at hs
        have hwrite : ∀ o, Event.openWrite (cachePath env filePath extension) o ∈ w1.log →
            Event.openWrite (cachePath env filePath extension) o ∈ w.log := by
          intro o ho
          rcases hs.2.2.2.2 _ ho with h | ⟨ext, o', _, h⟩ | ⟨kind', _, h⟩ | ⟨ext, o', hx, h⟩
          · exact h
          · cases h
          · cases h
          · simp only [Event.openWrite.injEq] at h
            exact absurd h.1 (hpath ext hx)
        cases r1 with
        | error e =>
          dsimp only
          exact ⟨e, w1, rfl, (hs.2.1 _ hpath).trans hempty, hwrite⟩
        | ok d1 =>
          dsimp only
          obtain ⟨e, w', hrun, hfile, hw'⟩ :=
            ih d1 w1 hnodup.2 hin ((hs.2.1 _ hpath).trans hempty)
          exact ⟨e, w', hrun, hfile, fun o ho => hwrite o (hw' o ho)⟩

theorem reflectAll_frame (shaderData : StageMap Words) : ∀ (w : World),
    (reflectAll shaderData w).files = w.files ∧
      (reflectAll shaderData w).writable = w.writable ∧
      ∀ ev ∈ w.log, ev ∈ (reflectAll shaderData w).log := by
  induction shaderData with
  | nil => intro w; exact ⟨rfl, rfl, fun _ h => h⟩
  | cons a rest ih =>
    intro w
    have h := ih (w.record (.reflect a.1 a.2))
    unfold reflectAll at h ⊢
    rw [List.foldl_cons]
    refine ⟨h.1, h.2.1, fun ev hev => h.2.2 ev ?_⟩
    simp [World.record, hev]

theorem CompileOrGetVulkanBinaries_of_ok {env : Env} {self : OpenGLShader}
    {sources : StageMap Str} {w : World} {shaderData : StageMap Words} {w2 : World}
    (h : vulkanStages env self.m_FilePath sources [] w.glCreateProgram.2
      = (.ok shaderData, w2)) :
    CompileOrGetVulkanBinaries env self sources w
      = (.ok { self with m_VulkanSPIRV := shaderData }, reflectAll shaderData w2) := by
  unfold CompileOrGetVulkanBinaries
  dsimp only
  rw [h]

theorem CompileOrGetVulkanBinaries_of_error {env : Env} {self : OpenGLShader}
    {sources : StageMap Str} {w : World} {e : Fatal} {w2 : World}
    (h : vulkanStages env self.m_FilePath sources [] w.glCreateProgram.2 = (.error e, w2)) :
    CompileOrGetVulkanBinaries env self sources w = (.error e, w2) := by
  unfold CompileOrGetVulkanBinaries
  dsimp only
  rw [h]

theorem CompileOrGetVulkanBinaries_ok_inv {env : Env} {self self' : OpenGLShader}
    {sources : StageMap Str} {w w' : World}
    (h : CompileOrGetVulkanBinaries env self sources w = (.ok self', w')) :
    ∃ shaderData w2, vulkanStages env self.m_FilePath sources [] w.glCreateProgram.2
        = (.ok shaderData, w2) ∧
      self' = { self with m_VulkanSPIRV := shaderData } ∧ w' = reflectAll shaderData w2 := by
  unfold CompileOrGetVulkanBinaries at h
  dsimp only at h
  cases hout : vulkanStages env self.m_FilePath sources [] w.glCreateProgram.2 with
  | mk r1 w1 =>
    rw [hout] at h
    cases r1 with
    | error e => cases h
    | ok d1 =>
      dsimp only at h
      simp only [Prod.mk.injEq, Except.ok.injEq] at h
      exact ⟨d1, w1, rfl, h.1.symm, h.2.symm⟩

/-! ## Facts about the target compile -/

theorem openglExtension_injective {k1 k2 : GLenum} {e : Str}
    (h1 : GLShaderStageCachedOpenGLFileExtension k1 = .ok e)
    (h2 : GLShaderStageCachedOpenGLFileExtension k2 = .ok e) : k1 = k2 := by
  unfold GLShaderStageCachedOpenGLFileExtension at h1 h2
  split at h1
  · split at h2
    · rw [‹k1 = _›, ‹k2 = _›]
    · split at h2
      · cases h1; cases h2
      · cases h2
  · split at h1
    · split at h2
      · cases h1; cases h2
      · split at h2
        · rw [‹k1 = _›, ‹k2 = _›]
        · cases h2
    · cases h1

/-- No intermediate cache file is a target cache file. -/
theorem vulkanExtension_ne_opengl {k1 k2 : GLenum} {e1 e2 : Str}
    (h1 : GLShaderStageCachedVulkanFileExtension k1 = .ok e1)
    (h2 : GLShaderStageCachedOpenGLFileExtension k2 = .ok e2) : e1 ≠ e2 := by
  unfold GLShaderStageCachedVulkanFileExtension at h1
  unfold GLShaderStageCachedOpenGLFileExtension at h2
  split at h1 <;> split at h2
  · cases h1; cases h2; decide
  · split at h2
    · cases h1; cases h2; decide
    · cases h2
  · split at h1
    · cases h1; cases h2; decide
    · cases h1
  · split at h1
    · split at h2
      · cases h1; cases h2; decide
      · cases h2
    · cases h1

theorem openglPath_ne (env : Env) (filePath : Str) {stage k : GLenum} {extension : Str}
    (hext : GLShaderStageCachedOpenGLFileExtension stage = .ok extension) (hne : k ≠ stage) :
    ∀ ext, GLShaderStageCachedOpenGLFileExtension k = .ok ext →
      cachePath env filePath extension ≠ cachePath env filePath ext := by
  intro ext hk h
  have := cachePath_injective env filePath h
  subst this
  exact hne (openglExtension_injective hk hext)

/-- The loop body on a stage whose cache file opens and holds whole words: the binary is the
file read as words, and the only call is the opening of the file. -/
theorem openglStage_hit (env : Env) (filePath : Str) (stage : GLenum) (spirv : Words)
    (shaderData : StageMap Words) (sourceCode : StageMap Str) (w : World) {extension : Str}
    {bytes : Bytes}
    (hext : GLShaderStageCachedOpenGLFileExtension stage = .ok extension)
    (hopen : w.files (cachePath env filePath extension) = some bytes)
    (halign : bytes.length % 4 = 0) :
    openglStage env filePath stage spirv shaderData sourceCode w
      = (.ok (StageMap.assign stage (wordsOfBytes bytes) shaderData, sourceCode),
          w.record (.openRead (cachePath env filePath extension) true)) := by
  unfold openglStage
  rw [hext]
  simp only
  rw [hopen]
  simp only [if_pos halign]

/-- The loop body on a stage whose cache file opens and does not hold whole words: the read
writes past the end of the buffer. -/
theorem openglStage_overflow (env : Env) (filePath : Str) (stage : GLenum) (spirv : Words)
    (shaderData : StageMap Words) (sourceCode : StageMap Str) (w : World) {extension : Str}
    {bytes : Bytes}
    (hext : GLShaderStageCachedOpenGLFileExtension stage = .ok extension)
    (hopen : w.files (cachePath env filePath extension) = some bytes)
    (halign : bytes.length % 4 ≠ 0) :
    openglStage env filePath stage spirv shaderData sourceCode w
      = (.error .bufferOverflow,
          w.record (.openRead (cachePath env filePath extension) true)) := by
  unfold openglStage
  rw [hext]
  simp only
  rw [hopen]
  simp only [if_neg halign]

/-- The loop body on a stage whose cache file does not open and whose translated source
compiles: the binary is the module of the compiler, and the module is written to the cache
file. -/
theorem openglStage_miss (env : Env) (filePath : Str) (stage : GLenum) (spirv : Words)
    (shaderData : StageMap Words) (sourceCode : StageMap Str) (w : World) {extension : Str}
    {kind : ShaderKind} {module : Words}
    (hext : GLShaderStageCachedOpenGLFileExtension stage = .ok extension)
    (hkind : GLShaderStageToShaderC stage = .ok kind)
    (hempty : w.files (cachePath env filePath extension) = none)
    (hcompile : env.compileGlslToSpv (env.crossCompile spirv) kind filePath none
      = .ok module) :
    openglStage env filePath stage spirv shaderData sourceCode w
      = (.ok (StageMap.assign stage module shaderData,
            StageMap.assign stage (env.crossCompile spirv) sourceCode),
          (((w.record (.openRead (cachePath env filePath extension) false)).record
            (.crossCompile spirv)).record
            (.compileGlslToSpv (env.crossCompile spirv) kind filePath none)).write
              (cachePath env filePath extension) (bytesOfWords module)) := by
  unfold openglStage
  rw [hext]
  dsimp only
  rw [hempty]
  dsimp only
  rw [hkind]
  dsimp only
  rw [hcompile]

/-- What the loop body of the target compile leaves alone, and the calls it can make. -/
theorem openglStage_frame (env : Env) (filePath : Str) (k : GLenum) (spirv : Words)
    (shaderData : StageMap Words) (sourceCode : StageMap Str) (w : World) :
    (openglStage env filePath k spirv shaderData sourceCode w).2.writable = w.writable ∧
      (∀ p, (∀ ext, GLShaderStageCachedOpenGLFileExtension k = .ok ext →
          p ≠ cachePath env filePath ext) →
        (openglStage env filePath k spirv shaderData sourceCode w).2.files p = w.files p) ∧
      (∀ p b, w.files p = some b →
        ∃ b', (openglStage env filePath k spirv shaderData sourceCode w).2.files p
          = some b') ∧
      ((∀ ext, GLShaderStageCachedOpenGLFileExtension k = .ok ext →
          w.writable (cachePath env filePath ext) = false) →
        (openglStage env filePath k spirv shaderData sourceCode w).2.files = w.files) ∧
      (∀ ev ∈ (openglStage env filePath k spirv shaderData sourceCode w).2.log, ev ∈ w.log ∨
        (∃ ext o, GLShaderStageCachedOpenGLFileExtension k = .ok ext ∧
          ev = .openRead (cachePath env filePath ext) o) ∨
        ev = .crossCompile spirv ∨
        (∃ kind, GLShaderStageToShaderC k = .ok kind ∧
          ev = .compileGlslToSpv (env.crossCompile spirv) kind filePath none) ∨
        (∃ ext o, GLShaderStageCachedOpenGLFileExtension k = .ok ext ∧
          ev = .openWrite (cachePath env filePath ext) o)) ∧
      (∀ ev ∈ w.log, ev ∈ (openglStage env filePath k spirv shaderData sourceCode w).2.log) ∧
      (∀ stage r, stage ≠ k →
        (openglStage env filePath k spirv shaderData sourceCode w).1 = .ok r →
        StageMap.lookup stage r.1 = StageMap.lookup stage shaderData) := by
  unfold openglStage
  cases hk : GLShaderStageCachedOpenGLFileExtension k with
  | error e =>
    dsimp only
    exact ⟨rfl, fun _ _ => rfl, fun p b h => ⟨b, h⟩, fun _ => rfl, fun ev h => Or.inl h,
      fun ev h => h, fun _ _ _ h => absurd h (by simp)⟩
  | ok ext' =>
    dsimp only
    cases hf : w.files (cachePath env filePath ext') with
    | some bytes =>
      dsimp only
      have hev : ∀ ev ∈ (w.record (.openRead (cachePath env filePath ext') true)).log,
          ev ∈ w.log ∨
          (∃ ext o, Except.ok ext' = (.ok ext : Except Fatal Str) ∧
            ev = .openRead (cachePath env filePath ext) o) ∨
          ev = .crossCompile spirv ∨
          (∃ kind, GLShaderStageToShaderC k = .ok kind ∧
            ev = .compileGlslToSpv (env.crossCompile spirv) kind filePath none) ∨
          (∃ ext o, Except.ok ext' = (.ok ext : Except Fatal Str) ∧
            ev = .openWrite (cachePath env filePath ext) o) := by
        intro ev hev
        simp only [World.record, List.mem_append, List.mem_singleton] at hev
        rcases hev with hev | hev
        · exact Or.inl hev
        · exact Or.inr (Or.inl ⟨ext', true, rfl, hev⟩)
      have hmono : ∀ ev ∈ w.log,
          ev ∈ (w.record (.openRead (cachePath env filePath ext') true)).log := by
        intro ev hev
        simp [World.record, hev]
      split
      · refine ⟨rfl, fun _ _ => rfl, fun p b h => ⟨b, h⟩, fun _ => rfl, hev, hmono, ?_⟩
        intro stage r hne hr
        simp only [Except.ok.injEq] at hr
        rw [← hr]
        exact StageMap.lookup_assign_ne _ _ hne
      · exact ⟨rfl, fun _ _ => rfl, fun p b h => ⟨b, h⟩, fun _ => rfl, hev, hmono,
          fun _ _ _ h => absurd h (by simp)⟩
    | none =>
      dsimp only
      cases hkk : GLShaderStageToShaderC k with
      | error e =>
        dsimp only
        refine ⟨rfl, fun _ _ => rfl, fun p b h => ⟨b, h⟩, fun _ => rfl, ?_, ?_,
          fun _ _ _ h => absurd h (by simp)⟩
        · intro ev hev
          simp only [World.record, List.mem_append, List.mem_singleton] at hev
          rcases hev with (hev | hev) | hev
          · exact Or.inl hev
          · exact Or.inr (Or.inl ⟨ext', false, rfl, hev⟩)
          · exact Or.inr (Or.inr (Or.inl hev))
        · intro ev hev
          simp [World.record, hev]
      | ok kind' =>
        dsimp only
        cases hc : env.compileGlslToSpv (env.crossCompile spirv) kind' filePath none with
        | error msg =>
          dsimp only
          refine ⟨rfl, fun _ _ => rfl, fun p b h => ⟨b, h⟩, fun _ => rfl, ?_, ?_,
            fun _ _ _ h => absurd h (by simp)⟩
          · intro ev hev
            simp only [World.record, List.mem_append, List.mem_singleton] at hev
            rcases hev with ((hev | hev) | hev) | hev
            · exact Or.inl hev
            · exact Or.inr (Or.inl ⟨ext', false, rfl, hev⟩)
            · exact Or.inr (Or.inr (Or.inl hev))
            · exact Or.inr (Or.inr (Or.inr (Or.inl ⟨kind', rfl, hev⟩)))
          · intro ev hev
            simp [World.record, hev]
        | ok module =>
          dsimp only
          refine ⟨World.write_writable _ _ _, ?_, ?_, ?_, ?_, ?_, ?_⟩
          · intro p hp
            rw [World.write_files_ne _ _ (hp ext' rfl)]
            rfl
          · intro p b h
            exact World.write_files_some _ _ _ h
          · intro hw
            refine (World.write_files_unwritable _ ?_).trans rfl
            exact hw ext' rfl
          · intro ev hev
            rw [World.write_log] at hev
            simp only [World.record, List.mem_append, List.mem_singleton] at hev
            rcases hev with (((hev | hev) | hev) | hev) | hev
            · exact Or.inl hev
            · exact Or.inr (Or.inl ⟨ext', false, rfl, hev⟩)
            · exact Or.inr (Or.inr (Or.inl hev))
            · exact Or.inr (Or.inr (Or.inr (Or.inl ⟨kind', rfl, hev⟩)))
            · exact Or.inr (Or.inr (Or.inr (Or.inr ⟨ext', _, rfl, hev⟩)))
          · intro ev hev
            rw [World.write_log]
            simp [World.record, hev]
          · intro stage r hne hr
            simp only [Except.ok.injEq] at hr
            rw [← hr]
            exact StageMap.lookup_assign_ne _ _ hne
/-- What the loop of the target compile leaves alone, and the calls it can make. -/
theorem openglStages_frame (env : Env) (filePath : Str) :
    ∀ (m : StageMap Words) (shaderData : StageMap Words) (sourceCode : StageMap Str)
      (w : World),
      (openglStages env filePath m shaderData sourceCode w).2.writable = w.writable ∧
        (∀ p, (∀ k ∈ m.keys, ∀ ext, GLShaderStageCachedOpenGLFileExtension k = .ok ext →
            p ≠ cachePath env filePath ext) →
          (openglStages env filePath m shaderData sourceCode w).2.files p = w.files p) ∧
        (∀ p b, w.files p = some b →
          ∃ b', (openglStages env filePath m shaderData sourceCode w).2.files p = some b') ∧
        ((∀ k ∈ m.keys, ∀ ext, GLShaderStageCachedOpenGLFileExtension k = .ok ext →
            w.writable (cachePath env filePath ext) = false) →
          (openglStages env filePath m shaderData sourceCode w).2.files = w.files) ∧
        (∀ ev ∈ w.log, ev ∈ (openglStages env filePath m shaderData sourceCode w).2.log) ∧
        (∀ stage r, stage ∉ m.keys →
          (openglStages env filePath m shaderData sourceCode w).1 = .ok r →
          StageMap.lookup stage r.1 = StageMap.lookup stage shaderData) := by
  intro m
  induction m with
  | nil =>
    intro d sc w
    refine ⟨rfl, fun _ _ => rfl, fun p b h => ⟨b, h⟩, fun _ => rfl, fun ev h => h, ?_⟩
    intro stage r _ hr
    simp only [openglStages, Except.ok.injEq] at hr
    rw [← hr]
  | cons a rest ih =>
    intro d sc w
    obtain ⟨k, v⟩ := a
    have hs := openglStage_frame env filePath k v d sc w
    unfold openglStages
    cases hout : openglStage env filePath k v d sc w with
    | mk r1 w1 =>
      rw [hout] at hs
      have hfr1 : ∀ p, (∀ k' ∈ StageMap.keys ((k, v) :: rest), ∀ ext,
          GLShaderStageCachedOpenGLFileExtension k' = .ok ext →
            p ≠ cachePath env filePath ext) → w1.files p = w.files p :=
        fun p hp => hs.2.1 p (fun ext hx => hp k (by simp [StageMap.keys]) ext hx)
      have hun1 : (∀ k' ∈ StageMap.keys ((k, v) :: rest), ∀ ext,
          GLShaderStageCachedOpenGLFileExtension k' = .ok ext →
            w.writable (cachePath env filePath ext) = false) → w1.files = w.files :=
        fun hw => hs.2.2.2.1 (fun ext hx => hw k (by simp [StageMap.keys]) ext hx)
      cases r1 with
      | error e =>
        dsimp only
        exact ⟨hs.1, hfr1, hs.2.2.1, hun1, hs.2.2.2.2.2.1, fun _ _ _ h => absurd h (by simp)⟩
      | ok d1 =>
        obtain ⟨d1, sc1⟩ := d1
        dsimp only
        have hi := ih d1 sc1 w1
        refine ⟨hi.1.trans hs.1, ?_, ?_, ?_, ?_, ?_⟩
        · intro p hp
          rw [hi.2.1 p (fun k' hk' => hp k' (by
            simp only [StageMap.keys, List.map_cons, List.mem_cons]
            exact Or.inr hk')), hfr1 p hp]
        · intro p b h
          obtain ⟨b1, h1⟩ := hs.2.2.1 p b h
          exact hi.2.2.1 p b1 h1
        · intro hw
          rw [hi.2.2.2.1 (fun k' hk' ext hx => by
            rw [hs.1]
            exact hw k' (by
              simp only [StageMap.keys, List.map_cons, List.mem_cons]
              exact Or.inr hk') ext hx), hun1 hw]
        · intro ev hev
          exact hi.2.2.2.2.1 ev (hs.2.2.2.2.2.1 ev hev)
        · intro stage r hnot hr
          simp only [StageMap.keys, List.map_cons, List.mem_cons, not_or] at hnot
          rw [hi.2.2.2.2.2 stage r hnot.2 hr]
          exact hs.2.2.2.2.2.2 stage (d1, sc1) hnot.1 rfl

/-- The calls of the loop of the target compile: file opens, cross compiles, compiler calls
without options, and writes of the cache files of its stages. -/
theorem openglStages_events (env : Env) (filePath : Str) :
    ∀ (m : StageMap Words) (shaderData : StageMap Words) (sourceCode : StageMap Str)
      (w : World),
      ∀ ev ∈ (openglStages env filePath m shaderData sourceCode w).2.log, ev ∈ w.log ∨
        (∃ p o, ev = .openRead p o) ∨ (∃ sp, ev = .crossCompile sp) ∨
        (∃ k ∈ m.keys, ∃ src kind, GLShaderStageToShaderC k = .ok kind ∧
          ev = .compileGlslToSpv src kind filePath none) ∨
        (∃ k ∈ m.keys, ∃ ext o, GLShaderStageCachedOpenGLFileExtension k = .ok ext ∧
          ev = .openWrite (cachePath env filePath ext) o) := by
  intro m
  induction m with
  | nil => intro d sc w ev h; exact Or.inl h
  | cons a rest ih =>
    intro d sc w
    obtain ⟨k, v⟩ := a
    have hs := (openglStage_frame env filePath k v d sc w).2.2.2.2.1
    unfold openglStages
    cases hout : openglStage env filePath k v d sc w with
    | mk r1 w1 =>
      rw [hout] at hs
      have hev1 : ∀ ev ∈ w1.log, ev ∈ w.log ∨
          (∃ p o, ev = .openRead p o) ∨ (∃ sp, ev = .crossCompile sp) ∨
          (∃ k' ∈ StageMap.keys ((k, v) :: rest), ∃ src kind,
            GLShaderStageToShaderC k' = .ok kind ∧
            ev = .compileGlslToSpv src kind filePath none) ∨
          (∃ k' ∈ StageMap.keys ((k, v) :: rest), ∃ ext o,
            GLShaderStageCachedOpenGLFileExtension k' = .ok ext ∧
            ev = .openWrite (cachePath env filePath ext) o) := by
        intro ev hev
        rcases hs ev hev with h | ⟨ext, o, _, h⟩ | h | ⟨kind, hk, h⟩ | ⟨ext, o, hx, h⟩
        · exact Or.inl h
        · exact Or.inr (Or.inl ⟨_, o, h⟩)
        · exact Or.inr (Or.inr (Or.inl ⟨_, h⟩))
        · exact Or.inr (Or.inr (Or.inr (Or.inl
            ⟨k, by simp [StageMap.keys], _, kind, hk, h⟩)))
        · exact Or.inr (Or.inr (Or.inr (Or.inr ⟨k, by simp [StageMap.keys], ext, o, hx, h⟩)))
      cases r1 with
      | error e => exact hev1
      | ok d1 =>
        obtain ⟨d1, sc1⟩ := d1
        dsimp only
        intro ev hev
        rcases ih d1 sc1 w1 ev hev with h | h | h | ⟨k', hk', src, kind, hx, h⟩ |
          ⟨k', hk', ext, o, hx, h⟩
        · exact hev1 ev h
        · exact Or.inr (Or.inl h)
        · exact Or.inr (Or.inr (Or.inl h))
        · exact Or.inr (Or.inr (Or.inr (Or.inl ⟨k', by
            simp only [StageMap.keys, List.map_cons, List.mem_cons]
            exact Or.inr hk', src, kind, hx, h⟩)))
        · exact Or.inr (Or.inr (Or.inr (Or.inr ⟨k', by
            simp only [StageMap.keys, List.map_cons, List.mem_cons]
            exact Or.inr hk', ext, o, hx, h⟩)))

/-- The loop of the target compile, when the cache file of `stage` opens: the binary of
`stage` is the file read as words. -/
theorem openglStages_hit (env : Env) (filePath : Str) {stage : GLenum} {extension : Str}
    {bytes : Bytes} (hext : GLShaderStageCachedOpenGLFileExtension stage = .ok extension) :
    ∀ (m : StageMap Words) (shaderData : StageMap Words) (sourceCode : StageMap Str)
      (w : World), m.keys.Nodup → stage ∈ m.keys →
      w.files (cachePath env filePath extension) = some bytes →
      ∀ r w', openglStages env filePath m shaderData sourceCode w = (.ok r, w') →
        StageMap.lookup stage r.1 = some (wordsOfBytes bytes) := by
  intro m
  induction m with
  | nil =>
    intro d sc w _ hmem
    simp [StageMap.keys] at hmem
  | cons a rest ih =>
    intro d sc w hnodup hmem hopen r w' hrun
    obtain ⟨k, v⟩ := a
    simp only [StageMap.keys, List.map_cons, List.nodup_cons, List.mem_cons] at hnodup hmem
    unfold openglStages at hrun
    by_cases hk : k = stage
    · subst hk
      by_cases halign : bytes.length % 4 = 0
      swap
      · rw [openglStage_overflow env filePath k v d sc w hext hopen halign] at hrun
        cases hrun
      rw [openglStage_hit env filePath k v d sc w hext hopen halign] at hrun
      dsimp only at hrun
      have hfr := (openglStages_frame env filePath rest
        (StageMap.assign k (wordsOfBytes bytes) d) sc
        (w.record (.openRead (cachePath env filePath extension) true))).2.2.2.2.2
      rw [hrun] at hfr
      rw [hfr k r hnodup.1 rfl, StageMap.lookup_assign_self]
    · have hin : stage ∈ StageMap.keys rest := by
        rcases hmem with h | h
        · exact absurd h.symm hk
        · exact h
      have hs := openglStage_frame env filePath k v d sc w
      cases hout : openglStage env filePath k v d sc w with
      | mk r1 w1 =>
        rw [hout] at hs hrun
        cases r1 with
        | error e =>
          dsimp only at hrun
          cases hrun
        | ok d1 =>
          obtain ⟨d1, sc1⟩ := d1
          dsimp only at hrun
          exact ih d1 sc1 w1 hnodup.2 hin
            ((hs.2.1 _ (openglPath_ne env filePath hext hk)).trans hopen) r w' hrun

/-- The loop of the target compile, when the cache file of `stage` does not open and the
translated source of `stage` compiles: the binary of `stage` is the module of the compiler,
and the cache file holds the module afterwards if it can be written and is still absent if
it cannot. -/
theorem openglStages_miss (env : Env) (filePath : Str) {stage : GLenum} {extension : Str}
    {kind : ShaderKind} {spirv : Words} {module : Words}
    (hext : GLShaderStageCachedOpenGLFileExtension stage = .ok extension)
    (hkind : GLShaderStageToShaderC stage = .ok kind)
    (hcompile : env.compileGlslToSpv (env.crossCompile spirv) kind filePath none
      = .ok module) :
    ∀ (m : StageMap Words) (shaderData : StageMap Words) (sourceCode : StageMap Str)
      (w : World), m.keys.Nodup → (stage, spirv) ∈ m →
      w.files (cachePath env filePath extension) = none →
      ∀ r w', openglStages env filePath m shaderData sourceCode w = (.ok r, w') →
        StageMap.lookup stage r.1 = some module ∧
          (w.writable (cachePath env filePath extension) = true →
            w'.files (cachePath env filePath extension) = some (bytesOfWords module)) ∧
          (w.writable (cachePath env filePath extension) = false →
            w'.files (cachePath env filePath extension) = none) := by
  intro m
  induction m with
  | nil =>
    intro d sc w _ hmem
    simp at hmem
  | cons a rest ih =>
    intro d sc w hnodup hmem hempty r w' hrun
    obtain ⟨k, v⟩ := a
    simp only [StageMap.keys, List.map_cons, List.nodup_cons] at hnodup
    unfold openglStages at hrun
    by_cases hk : k = stage
    · subst hk
      have hv : spirv = v := StageMap.eq_of_mem_of_nodup hnodup.1 hmem
      subst hv
      rw [openglStage_miss env filePath k spirv d sc w hext hkind hempty hcompile] at hrun
      dsimp only at hrun
      have hfr := openglStages_frame env filePath rest
        (StageMap.assign k module d) (StageMap.assign k (env.crossCompile spirv) sc)
        ((((w.record (.openRead (cachePath env filePath extension) false)).record
            (.crossCompile spirv)).record
            (.compileGlslToSpv (env.crossCompile spirv) kind filePath none)).write
              (cachePath env filePath extension) (bytesOfWords module))
      rw [hrun] at hfr
      have hfile := hfr.2.1 (cachePath env filePath extension) (fun k' hk' ext hx =>
        openglPath_ne env filePath hext (fun h => hnodup.1 (h ▸ hk')) ext hx)
      refine ⟨?_, ?_, ?_⟩
      · rw [hfr.2.2.2.2.2 k r hnodup.1 rfl, StageMap.lookup_assign_self]
      · intro hw
        rw [hfile]
        exact World.write_files_self _ hw
      · intro hw
        rw [hfile]
        have := World.write_files_unwritable
          (w := ((w.record (.openRead (cachePath env filePath extension) false)).record
            (.crossCompile spirv)).record
            (.compileGlslToSpv (env.crossCompile spirv) kind filePath none))
          (bytesOfWords module) hw
        rw [this]
        exact hempty
    · have hin : (stage, spirv) ∈ rest := by
        rcases List.mem_cons.1 hmem with h | h
        · exact absurd (Prod.mk.inj h).1.symm hk
        · exact h
      have hs := openglStage_frame env filePath k v d sc w
      cases hout : openglStage env filePath k v d sc w with
      | mk r1 w1 =>
        rw [hout] at hs hrun
        cases r1 with
        | error e =>
          dsimp only at hrun
          cases hrun
        | ok d1 =>
          obtain ⟨d1, sc1⟩ := d1
          dsimp only at hrun
          have hpath := hs.2.1 _ (openglPath_ne env filePath hext hk)
          have hi := ih d1 sc1 w1 hnodup.2 hin (hpath.trans hempty) r w' hrun
          rw [hs.1] at hi
          exact hi

/-- The loop body of the target compile leaves every file that holds whole words holding
whole words. -/
theorem openglStage_alignedAt (env : Env) (filePath : Str) (k : GLenum) (spirv : Words)
    (shaderData : StageMap Words) (sourceCode : StageMap Str) (w : World) {p : Str}
    (h : w.AlignedAt p) :
    (openglStage env filePath k spirv shaderData sourceCode w).2.AlignedAt p := by
  unfold openglStage
  cases hk : GLShaderStageCachedOpenGLFileExtension k with
  | error e => exact h
  | ok ext =>
    dsimp only
    cases hf : w.files (cachePath env filePath ext) with
    | some bytes =>
      dsimp only
      split
      · exact h
      · exact h
    | none =>
      dsimp only
      cases hkk : GLShaderStageToShaderC k with
      | error e => exact h
      | ok kind =>
        dsimp only
        cases hc : env.compileGlslToSpv (env.crossCompile spirv) kind filePath none with
        | error msg => exact h
        | ok module => exact World.write_alignedAt _ _ (bytesOfWords_aligned _) h

theorem openglStages_alignedAt (env : Env) (filePath : Str) :
    ∀ (m : StageMap Words) (shaderData : StageMap Words) (sourceCode : StageMap Str)
      (w : World) {p : Str},
      w.AlignedAt p →
        (openglStages env filePath m shaderData sourceCode w).2.AlignedAt p := by
  intro m
  induction m with
  | nil => intro d sc w p h; exact h
  | cons a rest ih =>
    intro d sc w p h
    obtain ⟨k, v⟩ := a
    have hs := openglStage_alignedAt env filePath k v d sc w h
    unfold openglStages
    cases hout : openglStage env filePath k v d sc w with
    | mk r1 w1 =>
      rw [hout] at hs
      cases r1 with
      | error e => exact hs
      | ok d1 =>
        obtain ⟨d1, sc1⟩ := d1
        exact ih d1 sc1 w1 hs

/-- The loop of the target compile returns when every stage can be served: it has a cache
extension and a compiler kind, and its cache file opens and holds whole words or does not
open while its translated source compiles. -/
theorem openglStages_ok (env : Env) (filePath : Str) :
    ∀ (m : StageMap Words) (shaderData : StageMap Words) (sourceCode : StageMap Str)
      (w : World),
      (∀ k spirv, (k, spirv) ∈ m → ∃ ext kind,
        GLShaderStageCachedOpenGLFileExtension k = .ok ext ∧
        GLShaderStageToShaderC k = .ok kind ∧
        ((∃ bytes, w.files (cachePath env filePath ext) = some bytes ∧
            bytes.length % 4 = 0) ∨
          (w.files (cachePath env filePath ext) = none ∧
            ∃ module, env.compileGlslToSpv (env.crossCompile spirv) kind filePath none
              = .ok module))) →
      ∃ r w', openglStages env filePath m shaderData sourceCode w = (.ok r, w') := by
  intro m
  induction m with
  | nil => intro d sc w _; exact ⟨(d, sc), w, rfl⟩
  | cons a rest ih =>
    intro d sc w hserve
    obtain ⟨k, v⟩ := a
    obtain ⟨ext, kind, hext, hkind, hcase⟩ := hserve k v (List.mem_cons_self _ _)
    have hs := openglStage_frame env filePath k v d sc w
    have hstep : ∃ r1 w1, openglStage env filePath k v d sc w = (.ok r1, w1) := by
      rcases hcase with ⟨bytes, hb, ha⟩ | ⟨hn, module, hc⟩
      · exact ⟨_, _, openglStage_hit env filePath k v d sc w hext hb ha⟩
      · exact ⟨_, _, openglStage_miss env filePath k v d sc w hext hkind hn hc⟩
    obtain ⟨⟨d1, sc1⟩, w1, hstep⟩ := hstep
    have hal : ∀ {p : Str}, w.AlignedAt p → w1.AlignedAt p := by
      intro p hp
      have := openglStage_alignedAt env filePath k v d sc w hp
      rw [hstep] at this
      exact this
    rw [hstep] at hs
    unfold openglStages
    rw [hstep]
    dsimp only
    apply ih d1 sc1 w1
    intro k' sp' hmem'
    obtain ⟨ext', kind', hext', hkind', hcase'⟩ := hserve k' sp' (List.mem_cons_of_mem _ hmem')
    exact ⟨ext', kind', hext', hkind', served_mono (hs.2.2.1 _) hal hcase'⟩

theorem CompileOrGetOpenGLBinaries_of_ok {env : Env} {self : OpenGLShader} {w : World}
    {r : StageMap Words × StageMap Str} {w' : World}
    (h : openglStages env self.m_FilePath self.m_VulkanSPIRV [] [] w = (.ok r, w')) :
    CompileOrGetOpenGLBinaries env self w
      = (.ok { self with m_OpenGLSPIRV := r.1, m_OpenGLSourceCode := r.2 }, w') := by
  unfold CompileOrGetOpenGLBinaries
  rw [h]

/-! ## Facts about the keys of the binaries -/

theorem StageMap.lookup_of_mem {α : Type} {k : GLenum} {v : α} :
    ∀ {m : StageMap α}, m.keys.Nodup → (k, v) ∈ m → m.lookup k = some v := by
  intro m
  induction m with
  | nil => intro _ h; simp at h
  | cons a rest ih =>
    intro hnodup hmem
    obtain ⟨k', v'⟩ := a
    simp only [StageMap.keys, List.map_cons, List.nodup_cons] at hnodup
    rcases List.mem_cons.1 hmem with h | h
    · cases h
      simp [StageMap.lookup]
    · have hne : k' ≠ k := by
        intro hk
        subst hk
        exact hnodup.1 (List.mem_map_of_mem Prod.fst h)
      simp only [StageMap.lookup, if_neg hne]
      exact ih hnodup.2 h

theorem StageMap.mem_of_lookup {α : Type} {k : GLenum} {v : α} :
    ∀ {m : StageMap α}, m.lookup k = some v → (k, v) ∈ m := by
  intro m
  induction m with
  | nil => intro h; simp [StageMap.lookup] at h
  | cons a rest ih =>
    intro h
    obtain ⟨k', v'⟩ := a
    by_cases hk : k' = k
    · simp only [StageMap.lookup, if_pos hk, Option.some.injEq] at h
      rw [hk, h]
      exact List.mem_cons_self _ _
    · simp only [StageMap.lookup, if_neg hk] at h
      exact List.mem_cons_of_mem _ (ih h)

/-- The binaries the loop over the stages returns: no key twice, and no key that is neither
a key of the binaries it started with nor a stage of the sources. -/
theorem vulkanStages_keys (env : Env) (filePath : Str) :
    ∀ (sources : StageMap Str) (shaderData shaderData' : StageMap Words) (w w' : World),
      vulkanStages env filePath sources shaderData w = (.ok shaderData', w') →
      (shaderData.keys.Nodup → shaderData'.keys.Nodup) ∧
        ∀ k ∈ shaderData'.keys, k ∈ shaderData.keys ∨ k ∈ sources.keys := by
  intro sources
  induction sources with
  | nil =>
    intro d d' w w' h
    simp only [vulkanStages, Prod.mk.injEq, Except.ok.injEq] at h
    rw [← h.1]
    exact ⟨fun h => h, fun k hk => Or.inl hk⟩
  | cons a rest ih =>
    intro d d' w w' h
    obtain ⟨k, v⟩ := a
    unfold vulkanStages at h
    cases hout : vulkanStage env filePath k v d w with
    | mk r1 w1 =>
      rw [hout] at h
      cases r1 with
      | error e => cases h
      | ok d1 =>
        dsimp only at h
        obtain ⟨module, hd1⟩ := vulkanStage_ok_assign hout
        have hi := ih d1 d' w1 w' h
        refine ⟨fun hn => hi.1 (by rw [hd1]; exact StageMap.nodup_keys_assign _ _ _ hn), ?_⟩
        intro k' hk'
        rcases hi.2 k' hk' with h1 | h1
        · rw [hd1, StageMap.mem_keys_assign] at h1
          rcases h1 with h1 | h1
          · right
            rw [h1]
            simp [StageMap.keys]
          · exact Or.inl h1
        · right
          simp only [StageMap.keys, List.map_cons, List.mem_cons]
          exact Or.inr h1

theorem StageMap.exists_of_mem_keys {α : Type} {k : GLenum} {m : StageMap α}
    (h : k ∈ m.keys) : ∃ v, (k, v) ∈ m := by
  simp only [StageMap.keys, List.mem_map] at h
  obtain ⟨⟨k', v⟩, hmem, hk⟩ := h
  exact ⟨v, by rw [← hk]; exact hmem⟩

/-! ## Facts about runs that share a cache -/

theorem attachStages_frame (program : Nat) : ∀ (m : StageMap Words) (ids : List Nat)
    (w : World),
    (attachStages program m ids w).2.files = w.files ∧
      (attachStages program m ids w).2.writable = w.writable ∧
      ∀ ev ∈ (attachStages program m ids w).2.log, ev ∈ w.log ∨ ev.isDriverCall = true := by
  intro m
  induction m with
  | nil => intro ids w; exact ⟨rfl, rfl, fun ev h => Or.inl h⟩
  | cons a rest ih =>
    intro ids w
    obtain ⟨stage, spirv⟩ := a
    unfold attachStages
    simp only [World.glCreateShader]
    have h := ih (ids ++ [w.nextName])
      ((({ (w.record (.glCreateShader stage w.nextName)) with
          nextName := w.nextName + 1, shaders := w.nextName :: w.shaders } : World).record
        (.glShaderBinary w.nextName spirv)).record (.glSpecializeShader w.nextName)
        |>.record (.glAttachShader program w.nextName))
    refine ⟨h.1, h.2.1, ?_⟩
    intro ev hev
    rcases h.2.2 ev hev with h1 | h1
    · simp only [World.record, List.mem_append, List.mem_singleton] at h1
      rcases h1 with (((h1 | h1) | h1) | h1) | h1
      · exact Or.inl h1
      all_goals exact Or.inr (by rw [h1]; rfl)
    · exact Or.inr h1

theorem deleteShaders_frame (shaderIDs : List Nat) : ∀ (w : World),
    (deleteShaders shaderIDs w).files = w.files ∧
      (deleteShaders shaderIDs w).writable = w.writable ∧
      ∀ ev ∈ (deleteShaders shaderIDs w).log, ev ∈ w.log ∨ ev.isDriverCall = true := by
  induction shaderIDs with
  | nil => intro w; exact ⟨rfl, rfl, fun ev h => Or.inl h⟩
  | cons id rest ih =>
    intro w
    have h := ih (w.glDeleteShader id)
    unfold deleteShaders at h ⊢
    rw [List.foldl_cons]
    refine ⟨h.1, h.2.1, ?_⟩
    intro ev hev
    rcases h.2.2 ev hev with h1 | h1
    · simp only [World.glDeleteShader, World.record, List.mem_append,
        List.mem_singleton] at h1
      rcases h1 with h1 | h1
      · exact Or.inl h1
      · exact Or.inr (by rw [h1]; rfl)
    · exact Or.inr h1

theorem detachShaders_frame (program : Nat) (shaderIDs : List Nat) : ∀ (w : World),
    (detachShaders program shaderIDs w).files = w.files ∧
      (detachShaders program shaderIDs w).writable = w.writable ∧
      ∀ ev ∈ (detachShaders program shaderIDs w).log,
        ev ∈ w.log ∨ ev.isDriverCall = true := by
  induction shaderIDs with
  | nil => intro w; exact ⟨rfl, rfl, fun ev h => Or.inl h⟩
  | cons id rest ih =>
    intro w
    have h := ih ((w.record (.glDetachShader program id)).glDeleteShader id)
    unfold detachShaders at h ⊢
    rw [List.foldl_cons]
    refine ⟨h.1, h.2.1, ?_⟩
    intro ev hev
    rcases h.2.2 ev hev with h1 | h1
    · simp only [World.glDeleteShader, World.record, List.mem_append,
        List.mem_singleton] at h1
      rcases h1 with (h1 | h1) | h1
      · exact Or.inl h1
      all_goals exact Or.inr (by rw [h1]; rfl)
    · exact Or.inr h1

/-- The method `CreateProgram` touches no file and calls nothing but the driver; the shader
object keeps its binaries. -/
theorem CreateProgram_frame (env : Env) (self : OpenGLShader) (w : World) :
    (CreateProgram env self w).2.files = w.files ∧
      (CreateProgram env self w).2.writable = w.writable ∧
      (CreateProgram env self w).1.m_VulkanSPIRV = self.m_VulkanSPIRV ∧
      (CreateProgram env self w).1.m_OpenGLSPIRV = self.m_OpenGLSPIRV ∧
      ∀ ev ∈ (CreateProgram env self w).2.log, ev ∈ w.log ∨ ev.isDriverCall = true := by
  have ha := attachStages_frame w.nextName self.m_OpenGLSPIRV [] w.glCreateProgram.2
  unfold CreateProgram
  dsimp only
  have hev3 : ∀ ev ∈ ((attachStages w.glCreateProgram.1 self.m_OpenGLSPIRV []
      w.glCreateProgram.2).2.record (.glLinkProgram w.glCreateProgram.1)).log,
      ev ∈ w.log ∨ ev.isDriverCall = true := by
    intro ev hev
    simp only [World.record, List.mem_append, List.mem_singleton] at hev
    rcases hev with hev | hev
    · rcases ha.2.2 ev hev with h1 | h1
      · simp only [World.glCreateProgram, World.record, List.mem_append,
          List.mem_singleton] at h1
        rcases h1 with h1 | h1
        · exact Or.inl h1
        · exact Or.inr (by rw [h1]; rfl)
      · exact Or.inr h1
    · exact Or.inr (by rw [hev]; rfl)
  have hd := detachShaders_frame w.glCreateProgram.1
    (attachStages w.glCreateProgram.1 self.m_OpenGLSPIRV [] w.glCreateProgram.2).1
  split
  · refine ⟨(hd _).1.trans ha.1, (hd _).2.1.trans ha.2.1, rfl, rfl, ?_⟩
    intro ev hev
    rcases (hd _).2.2 ev hev with h1 | h1
    · exact hev3 ev h1
    · exact Or.inr h1
  · have hdel := deleteShaders_frame
      (attachStages w.glCreateProgram.1 self.m_OpenGLSPIRV [] w.glCreateProgram.2).1
      (((attachStages w.glCreateProgram.1 self.m_OpenGLSPIRV [] w.glCreateProgram.2).2.record
        (.glLinkProgram w.glCreateProgram.1)).glDeleteProgram w.glCreateProgram.1)
    refine ⟨(hd _).1.trans (hdel.1.trans ha.1), (hd _).2.1.trans (hdel.2.1.trans ha.2.1),
      rfl, rfl, ?_⟩
    intro ev hev
    rcases (hd _).2.2 ev hev with h1 | h1
    · rcases hdel.2.2 ev h1 with h2 | h2
      · simp only [World.glDeleteProgram] at h2
        change ev ∈ (((attachStages w.glCreateProgram.1 self.m_OpenGLSPIRV []
          w.glCreateProgram.2).2.record (.glLinkProgram w.glCreateProgram.1)).record
            (.glDeleteProgram w.glCreateProgram.1)).log at h2
        simp only [World.record, List.mem_append, List.mem_singleton] at h2
        rcases h2 with h2 | h2
        · exact hev3 ev (by simpa [World.record] using h2)
        · exact Or.inr (by rw [h2]; rfl)
      · exact Or.inr h2
    · exact Or.inr h1

/-- The loop over the stages when every cache file opens: the run returns and calls nothing
but the opening of the files, which it leaves as they are. -/
theorem vulkanStages_all_hit (env : Env) (filePath : Str) :
    ∀ (sources : StageMap Str) (shaderData : StageMap Words) (w : World),
      (∀ k ∈ sources.keys, ∃ ext bytes, GLShaderStageCachedVulkanFileExtension k = .ok ext ∧
        w.files (cachePath env filePath ext) = some bytes ∧
        bytes.length % 4 = 0) →
      ∃ shaderData' w', vulkanStages env filePath sources shaderData w
          = (.ok shaderData', w') ∧
        w'.files = w.files ∧ w'.writable = w.writable ∧
        ∀ ev ∈ w'.log, ev ∈ w.log ∨ ∃ p, ev = .openRead p true := by
  intro sources
  induction sources with
  | nil => intro d w _; exact ⟨d, w, rfl, rfl, rfl, fun ev h => Or.inl h⟩
  | cons a rest ih =>
    intro d w hall
    obtain ⟨k, v⟩ := a
    obtain ⟨ext, bytes, hext, hopen, halign⟩ := hall k (by simp [StageMap.keys])
    unfold vulkanStages
    rw [vulkanStage_hit env filePath k v d w hext hopen halign]
    dsimp only
    obtain ⟨d', w', hrun, hf, hwr, hev⟩ := ih (StageMap.assign k (wordsOfBytes bytes) d)
      (w.record (.openRead (cachePath env filePath ext) true)) (fun k' hk' =>
        hall k' (by
          simp only [StageMap.keys, List.map_cons, List.mem_cons]
          exact Or.inr hk'))
    refine ⟨d', w', hrun, hf, hwr, ?_⟩
    intro ev hmem
    rcases hev ev hmem with h | h
    · simp only [World.record, List.mem_append, List.mem_singleton] at h
      rcases h with h | h
      · exact Or.inl h
      · exact Or.inr ⟨_, h⟩
    · exact Or.inr h

/-- The loop of the target compile when every cache file opens: the run returns and calls
nothing but the opening of the files, which it leaves as they are. -/
theorem openglStages_all_hit (env : Env) (filePath : Str) :
    ∀ (m : StageMap Words) (shaderData : StageMap Words) (sourceCode : StageMap Str)
      (w : World),
      (∀ k ∈ m.keys, ∃ ext bytes, GLShaderStageCachedOpenGLFileExtension k = .ok ext ∧
        w.files (cachePath env filePath ext) = some bytes ∧
        bytes.length % 4 = 0) →
      ∃ r w', openglStages env filePath m shaderData sourceCode w = (.ok r, w') ∧
        w'.files = w.files ∧ w'.writable = w.writable ∧
        ∀ ev ∈ w'.log, ev ∈ w.log ∨ ∃ p, ev = .openRead p true := by
  intro m
  induction m with
  | nil => intro d sc w _; exact ⟨(d, sc), w, rfl, rfl, rfl, fun ev h => Or.inl h⟩
  | cons a rest ih =>
    intro d sc w hall
    obtain ⟨k, v⟩ := a
    obtain ⟨ext, bytes, hext, hopen, halign⟩ := hall k (by simp [StageMap.keys])
    unfold openglStages
    rw [openglStage_hit env filePath k v d sc w hext hopen halign]
    dsimp only
    obtain ⟨r, w', hrun, hf, hwr, hev⟩ := ih (StageMap.assign k (wordsOfBytes bytes) d) sc
      (w.record (.openRead (cachePath env filePath ext) true)) (fun k' hk' =>
        hall k' (by
          simp only [StageMap.keys, List.map_cons, List.mem_cons]
          exact Or.inr hk'))
    refine ⟨r, w', hrun, hf, hwr, ?_⟩
    intro ev hmem
    rcases hev ev hmem with h | h
    · simp only [World.record, List.mem_append, List.mem_singleton] at h
      rcases h with h | h
      · exact Or.inl h
      · exact Or.inr ⟨_, h⟩
    · exact Or.inr h

theorem vulkanPath_ne_openglPath (env : Env) (filePath : Str) {k1 k2 : GLenum} {e1 e2 : Str}
    (h1 : GLShaderStageCachedVulkanFileExtension k1 = .ok e1)
    (h2 : GLShaderStageCachedOpenGLFileExtension k2 = .ok e2) :
    cachePath env filePath e1 ≠ cachePath env filePath e2 :=
  fun h => vulkanExtension_ne_opengl h1 h2 (cachePath_injective env filePath h)

theorem fromSources_sources (vertexSrc fragmentSrc : Str) :
    StageMap.assign GL_FRAGMENT_SHADER fragmentSrc
        (StageMap.assign GL_VERTEX_SHADER vertexSrc [])
      = [(GL_VERTEX_SHADER, vertexSrc), (GL_FRAGMENT_SHADER, fragmentSrc)] := rfl

theorem CreateProgram_filePath (env : Env) (self : OpenGLShader) (w : World) :
    (CreateProgram env self w).1.m_FilePath = self.m_FilePath := by
  unfold CreateProgram
  rfl

/-- The constructor from sources is the three steps in a row. -/
theorem fromSources_of_ok {env : Env} {name vertexSrc fragmentSrc : Str} {w : World}
    {d : StageMap Words} {w2 : World} {r : StageMap Words × StageMap Str} {w3 : World}
    (h1 : vulkanStages env []
      [(GL_VERTEX_SHADER, vertexSrc), (GL_FRAGMENT_SHADER, fragmentSrc)] []
      w.glCreateProgram.2 = (.ok d, w2))
    (h2 : openglStages env [] d [] [] (reflectAll d w2) = (.ok r, w3)) :
    ∃ self1 w1, OpenGLShader.fromSources env name vertexSrc fragmentSrc w = (.ok self1, w1) ∧
      self1.m_VulkanSPIRV = d ∧ self1.m_OpenGLSPIRV = r.1 ∧
      w1.files = w3.files ∧ w1.writable = w3.writable ∧
      (∀ ev ∈ w1.log, ev ∈ w3.log ∨ ev.isDriverCall = true) ∧ self1.m_FilePath = [] := by
  have hA := @CompileOrGetVulkanBinaries_of_ok env
    { m_RendererID := none, m_FilePath := [], m_Name := name, m_VulkanSPIRV := [],
      m_OpenGLSPIRV := [], m_OpenGLSourceCode := [] } _ w d w2 h1
  have hB := @CompileOrGetOpenGLBinaries_of_ok env
    { m_RendererID := none, m_FilePath := [], m_Name := name, m_VulkanSPIRV := d,
      m_OpenGLSPIRV := [], m_OpenGLSourceCode := [] } (reflectAll d w2) r w3 h2
  have hC := CreateProgram_frame env
    { m_RendererID := none, m_FilePath := [], m_Name := name, m_VulkanSPIRV := d,
      m_OpenGLSPIRV := r.1, m_OpenGLSourceCode := r.2 } w3
  refine ⟨_, _, ?_, hC.2.2.1, hC.2.2.2.1, hC.1, hC.2.1, hC.2.2.2.2,
    CreateProgram_filePath env _ w3⟩
  unfold OpenGLShader.fromSources
  dsimp only
  rw [fromSources_sources, hA]
  dsimp only
  rw [hB]

/-- A construction from sources in a world that holds all four cache files: the binaries
are the files read as words, whatever the sources, and the run calls neither the compiler
nor the cross compiler. -/
theorem fromSources_from_cache (env : Env) (name vertexSrc fragmentSrc : Str) (w : World)
    {bVV bVF bGV bGF : Bytes}
    (hVV : w.files (cachePath env [] ".cached_vulkan.vert".toList) = some bVV)
    (hVF : w.files (cachePath env [] ".cached_vulkan.frag".toList) = some bVF)
    (hGV : w.files (cachePath env [] ".cached_opengl.vert".toList) = some bGV)
    (hGF : w.files (cachePath env [] ".cached_opengl.frag".toList) = some bGF)
    (haVV : bVV.length % 4 = 0) (haVF : bVF.length % 4 = 0)
    (haGV : bGV.length % 4 = 0) (haGF : bGF.length % 4 = 0) :
    ∃ self2 w2, OpenGLShader.fromSources env name vertexSrc fragmentSrc w = (.ok self2, w2) ∧
      self2.m_VulkanSPIRV.lookup GL_VERTEX_SHADER = some (wordsOfBytes bVV) ∧
      self2.m_VulkanSPIRV.lookup GL_FRAGMENT_SHADER = some (wordsOfBytes bVF) ∧
      self2.m_OpenGLSPIRV.lookup GL_VERTEX_SHADER = some (wordsOfBytes bGV) ∧
      self2.m_OpenGLSPIRV.lookup GL_FRAGMENT_SHADER = some (wordsOfBytes bGF) ∧
      ∀ ev ∈ w2.log, ev ∈ w.log ∨ ev.isDriverCall = true ∨ (∃ p, ev = .openRead p true) ∨
        ∃ stage spirv, ev = .reflect stage spirv := by
  have hnodup : StageMap.keys
      [(GL_VERTEX_SHADER, vertexSrc), (GL_FRAGMENT_SHADER, fragmentSrc)] |>.Nodup := by
    show [GL_VERTEX_SHADER, GL_FRAGMENT_SHADER].Nodup
    decide
  have hkeysV : ∀ k ∈ StageMap.keys
      [(GL_VERTEX_SHADER, vertexSrc), (GL_FRAGMENT_SHADER, fragmentSrc)],
      ∃ ext bytes, GLShaderStageCachedVulkanFileExtension k = .ok ext ∧
        w.glCreateProgram.2.files (cachePath env [] ext) = some bytes ∧
        bytes.length % 4 = 0 := by
    intro k hk
    simp only [StageMap.keys, List.map_cons, List.map_nil, List.mem_cons, List.mem_singleton,
      List.not_mem_nil, or_false] at hk
    rcases hk with rfl | rfl
    · exact ⟨_, _, rfl, hVV, haVV⟩
    · exact ⟨_, _, rfl, hVF, haVF⟩
  obtain ⟨d2, w3, hrun, hf3, _, hev3⟩ := vulkanStages_all_hit env []
    [(GL_VERTEX_SHADER, vertexSrc), (GL_FRAGMENT_SHADER, fragmentSrc)] []
    w.glCreateProgram.2 hkeysV
  have hhitV := (@vulkanStages_hit env [] GL_VERTEX_SHADER _ _ _ rfl rfl _ []
    w.glCreateProgram.2 hnodup (by simp [StageMap.keys]) hVV d2 w3 hrun).1
  have hhitF := (@vulkanStages_hit env [] GL_FRAGMENT_SHADER _ _ _ rfl rfl _ []
    w.glCreateProgram.2 hnodup (by simp [StageMap.keys]) hVF d2 w3 hrun).1
  have hkeys := vulkanStages_keys env [] _ [] d2 _ _ hrun
  have hnodup2 : (StageMap.keys d2).Nodup := hkeys.1 (by simp [StageMap.keys])
  have hrefl := reflectAll_frame d2 w3
  have hfC : (reflectAll d2 w3).files = w.files := hrefl.1.trans hf3
  have hkeysG : ∀ k ∈ StageMap.keys d2,
      ∃ ext bytes, GLShaderStageCachedOpenGLFileExtension k = .ok ext ∧
        (reflectAll d2 w3).files (cachePath env [] ext) = some bytes ∧
        bytes.length % 4 = 0 := by
    intro k hk
    rcases hkeys.2 k hk with h | h
    · simp [StageMap.keys] at h
    · simp only [StageMap.keys, List.map_cons, List.map_nil, List.mem_cons,
        List.mem_singleton, List.not_mem_nil, or_false] at h
      rw [hfC]
      rcases h with rfl | rfl
      · exact ⟨_, _, rfl, hGV, haGV⟩
      · exact ⟨_, _, rfl, hGF, haGF⟩
  obtain ⟨r2, w4, hrunG, _, _, hev4⟩ := openglStages_all_hit env [] d2 [] []
    (reflectAll d2 w3) hkeysG
  have hhitGV := @openglStages_hit env [] GL_VERTEX_SHADER _ _ rfl d2 [] []
    (reflectAll d2 w3) hnodup2 ((StageMap.mem_keys_iff _ _).2 ⟨_, hhitV⟩)
    (by rw [hfC]; exact hGV) r2 w4 hrunG
  have hhitGF := @openglStages_hit env [] GL_FRAGMENT_SHADER _ _ rfl d2 [] []
    (reflectAll d2 w3) hnodup2 ((StageMap.mem_keys_iff _ _).2 ⟨_, hhitF⟩)
    (by rw [hfC]; exact hGF) r2 w4 hrunG
  obtain ⟨self2, w2, hfrom, hv, hg, _, _, hev, _⟩ :=
    @fromSources_of_ok env name vertexSrc fragmentSrc w d2 w3 r2 w4 hrun hrunG
  refine ⟨self2, w2, hfrom, by rw [hv]; exact hhitV, by rw [hv]; exact hhitF,
    by rw [hg]; exact hhitGV, by rw [hg]; exact hhitGF, ?_⟩
  intro ev hmem
  rcases hev ev hmem with h | h
  · rcases hev4 ev h with h | h
    · rcases reflectAll_log d2 w3 ev h with h | h
      · rcases hev3 ev h with h | h
        · simp only [World.glCreateProgram, World.record, List.mem_append,
            List.mem_singleton] at h
          rcases h with h | h
          · exact Or.inl h
          · exact Or.inr (Or.inl (by rw [h]; rfl))
        · exact Or.inr (Or.inr (Or.inl h))
      · exact Or.inr (Or.inr (Or.inr h))
    · exact Or.inr (Or.inr (Or.inl h))
  · exact Or.inr (Or.inl h)

/-- A construction from sources in a world whose four cache files are absent and can be
written, with sources that compile: the binaries are the modules of the compiler, and the
four cache files hold them afterwards. -/
theorem fromSources_populates (env : Env) (name vertexSrc fragmentSrc : Str) (w : World)
    {WV WF TV TF : Words}
    (hWV : env.compileGlslToSpv vertexSrc .glsl_vertex_shader [] (some vulkanOptions)
      = .ok WV)
    (hWF : env.compileGlslToSpv fragmentSrc .glsl_fragment_shader [] (some vulkanOptions)
      = .ok WF)
    (hTV : env.compileGlslToSpv (env.crossCompile WV) .glsl_vertex_shader [] none = .ok TV)
    (hTF : env.compileGlslToSpv (env.crossCompile WF) .glsl_fragment_shader [] none
      = .ok TF)
    (hempty : ∀ ext ∈ [".cached_vulkan.vert".toList, ".cached_vulkan.frag".toList,
        ".cached_opengl.vert".toList, ".cached_opengl.frag".toList],
      w.files (cachePath env [] ext) = none ∧ w.writable (cachePath env [] ext) = true) :
    ∃ self1 w1, OpenGLShader.fromSources env name vertexSrc fragmentSrc w = (.ok self1, w1) ∧
      self1.m_FilePath = [] ∧
      self1.m_VulkanSPIRV.lookup GL_VERTEX_SHADER = some WV ∧
      self1.m_VulkanSPIRV.lookup GL_FRAGMENT_SHADER = some WF ∧
      self1.m_OpenGLSPIRV.lookup GL_VERTEX_SHADER = some TV ∧
      self1.m_OpenGLSPIRV.lookup GL_FRAGMENT_SHADER = some TF ∧
      w1.files (cachePath env [] ".cached_vulkan.vert".toList) = some (bytesOfWords WV) ∧
      w1.files (cachePath env [] ".cached_vulkan.frag".toList) = some (bytesOfWords WF) ∧
      w1.files (cachePath env [] ".cached_opengl.vert".toList) = some (bytesOfWords TV) ∧
      w1.files (cachePath env [] ".cached_opengl.frag".toList) = some (bytesOfWords TF) := by
  have hVV := hempty ".cached_vulkan.vert".toList (by simp)
  have hVF := hempty ".cached_vulkan.frag".toList (by simp)
  have hGV := hempty ".cached_opengl.vert".toList (by simp)
  have hGF := hempty ".cached_opengl.frag".toList (by simp)
  have hnodup : (StageMap.keys
      [(GL_VERTEX_SHADER, vertexSrc), (GL_FRAGMENT_SHADER, fragmentSrc)]).Nodup := by
    show [GL_VERTEX_SHADER, GL_FRAGMENT_SHADER].Nodup
    decide
  -- the intermediate compile
  obtain ⟨dA, wA, hrunA⟩ := vulkanStages_ok env []
    [(GL_VERTEX_SHADER, vertexSrc), (GL_FRAGMENT_SHADER, fragmentSrc)] []
    w.glCreateProgram.2 (by
      intro k src hks
      simp only [List.mem_cons, Prod.mk.injEq, List.mem_singleton, List.not_mem_nil,
        or_false] at hks
      rcases hks with ⟨rfl, rfl⟩ | ⟨rfl, rfl⟩
      · exact ⟨_, _, rfl, rfl, Or.inr ⟨hVV.1, _, hWV⟩⟩
      · exact ⟨_, _, rfl, rfl, Or.inr ⟨hVF.1, _, hWF⟩⟩)
  have hmV := @vulkanStages_miss env [] GL_VERTEX_SHADER _ _ _ _ rfl rfl hWV _ []
    w.glCreateProgram.2 hnodup (by simp) hVV.1 dA wA hrunA
  have hmF := @vulkanStages_miss env [] GL_FRAGMENT_SHADER _ _ _ _ rfl rfl hWF _ []
    w.glCreateProgram.2 hnodup (by simp) hVF.1 dA wA hrunA
  have hfrA := vulkanStages_frame env []
    [(GL_VERTEX_SHADER, vertexSrc), (GL_FRAGMENT_SHADER, fragmentSrc)] []
    w.glCreateProgram.2
  rw [hrunA] at hfrA
  have hkeys := vulkanStages_keys env [] _ [] dA _ _ hrunA
  have hnodupA : (StageMap.keys dA).Nodup := hkeys.1 (by simp [StageMap.keys])
  have hrefl := reflectAll_frame dA wA
  have hwrR : (reflectAll dA wA).writable = w.writable := hrefl.2.1.trans hfrA.1
  have hother : ∀ {k : GLenum} {extG : Str},
      GLShaderStageCachedOpenGLFileExtension k = .ok extG →
      (reflectAll dA wA).files (cachePath env [] extG) = w.files (cachePath env [] extG) := by
    intro k extG hx
    rw [hrefl.1]
    exact hfrA.2.1 _ (fun k' _ ext hx' => (vulkanPath_ne_openglPath env [] hx' hx).symm)
  -- the entries of the intermediate binaries
  have hentry : ∀ k spirv, (k, spirv) ∈ dA →
      (k = GL_VERTEX_SHADER ∧ spirv = WV) ∨ (k = GL_FRAGMENT_SHADER ∧ spirv = WF) := by
    intro k spirv hmem
    have h2 := StageMap.lookup_of_mem hnodupA hmem
    rcases hkeys.2 k (List.mem_map_of_mem Prod.fst hmem) with h | h
    · simp [StageMap.keys] at h
    · simp only [StageMap.keys, List.map_cons, List.map_nil, List.mem_cons,
        List.mem_singleton, List.not_mem_nil, or_false] at h
      rcases h with rfl | rfl
      · rw [hmV.1] at h2
        cases h2
        exact Or.inl ⟨rfl, rfl⟩
      · rw [hmF.1] at h2
        cases h2
        exact Or.inr ⟨rfl, rfl⟩
  -- the target compile
  obtain ⟨r, wB, hrunB⟩ := openglStages_ok env [] dA [] [] (reflectAll dA wA) (by
    intro k spirv hmem
    rcases hentry k spirv hmem with ⟨rfl, rfl⟩ | ⟨rfl, rfl⟩
    · exact ⟨_, _, rfl, rfl, Or.inr ⟨(hother (k := GL_VERTEX_SHADER) rfl).trans hGV.1, _, hTV⟩⟩
    · exact ⟨_, _, rfl, rfl,
        Or.inr ⟨(hother (k := GL_FRAGMENT_SHADER) rfl).trans hGF.1, _, hTF⟩⟩)
  have hgV := @openglStages_miss env [] GL_VERTEX_SHADER _ _ _ _ rfl rfl hTV dA [] []
    (reflectAll dA wA) hnodupA (StageMap.mem_of_lookup hmV.1)
    ((hother (k := GL_VERTEX_SHADER) rfl).trans hGV.1) r wB hrunB
  have hgF := @openglStages_miss env [] GL_FRAGMENT_SHADER _ _ _ _ rfl rfl hTF dA [] []
    (reflectAll dA wA) hnodupA (StageMap.mem_of_lookup hmF.1)
    ((hother (k := GL_FRAGMENT_SHADER) rfl).trans hGF.1) r wB hrunB
  have hfrB := openglStages_frame env [] dA [] [] (reflectAll dA wA)
  rw [hrunB] at hfrB
  have hkeep : ∀ {k : GLenum} {extV : Str},
      GLShaderStageCachedVulkanFileExtension k = .ok extV →
      wB.files (cachePath env [] extV) = wA.files (cachePath env [] extV) := by
    intro k extV hx
    rw [← hrefl.1]
    exact hfrB.2.1 _ (fun k' _ ext hx' => vulkanPath_ne_openglPath env [] hx hx')
  obtain ⟨self1, w1, hfrom, hv, hg, hf1, _, _, hpath⟩ :=
    @fromSources_of_ok env name vertexSrc fragmentSrc w dA wA r wB hrunA hrunB
  refine ⟨self1, w1, hfrom, hpath, by rw [hv]; exact hmV.1, by rw [hv]; exact hmF.1,
    by rw [hg]; exact hgV.1, by rw [hg]; exact hgF.1, ?_, ?_, ?_, ?_⟩
  · rw [hf1, hkeep (k := GL_VERTEX_SHADER) rfl]
    exact hmV.2.1 hVV.2
  · rw [hf1, hkeep (k := GL_FRAGMENT_SHADER) rfl]
    exact hmF.2.1 hVF.2
  · rw [hf1]
    exact hgV.2.1 (by rw [hwrR]; exact hGV.2)
  · rw [hf1]
    exact hgF.2.1 (by rw [hwrR]; exact hGF.2)

/-! ## Cache idempotence of the target compile -/

/-- Cache idempotence of the target compile: with the target cache file of a stage absent
and writable and every stage servable, `CompileOrGetOpenGLBinaries` returns with the module
`T` of the compiler as the target binary of the stage and leaves the bytes of `T` in the
cache file; a second run returns with the same binary, read from the file. -/
theorem CompileOrGetOpenGLBinaries_cache_idempotent (env : Env) (self : OpenGLShader)
    (w : World) (stage : GLenum) (spirv : Words) (extension : Str) (kind : ShaderKind)
    (T : Words)
    (hnodup : self.m_VulkanSPIRV.keys.Nodup) (hmem : (stage, spirv) ∈ self.m_VulkanSPIRV)
    (hext : GLShaderStageCachedOpenGLFileExtension stage = .ok extension)
    (hkind : GLShaderStageToShaderC stage = .ok kind)
    (hcompile : env.compileGlslToSpv (env.crossCompile spirv) kind self.m_FilePath none
      = .ok T)
    (hbits : ∀ x ∈ T, x < 2 ^ 32)
    (hempty : w.files (cachePath env self.m_FilePath extension) = none)
    (hwritable : w.writable (cachePath env self.m_FilePath extension) = true)
    (hserve : ∀ k sp, (k, sp) ∈ self.m_VulkanSPIRV → ∃ ext kd,
      GLShaderStageCachedOpenGLFileExtension k = .ok ext ∧
      GLShaderStageToShaderC k = .ok kd ∧
      ((∃ bytes, w.files (cachePath env self.m_FilePath ext) = some bytes ∧
          bytes.length % 4 = 0) ∨
        (w.files (cachePath env self.m_FilePath ext) = none ∧
          ∃ module, env.compileGlslToSpv (env.crossCompile sp) kd self.m_FilePath none
            = .ok module))) :
    ∃ self1 w1, CompileOrGetOpenGLBinaries env self w = (.ok self1, w1) ∧
      self1.m_OpenGLSPIRV.lookup stage = some T ∧
      w1.files (cachePath env self.m_FilePath extension) = some (bytesOfWords T) ∧
      ∃ self2 w2, CompileOrGetOpenGLBinaries env self1 w1 = (.ok self2, w2) ∧
        self2.m_OpenGLSPIRV.lookup stage = some (wordsOfBytes (bytesOfWords T)) ∧
        self2.m_OpenGLSPIRV.lookup stage = some T := by
  obtain ⟨r, w1, hrun1⟩ := openglStages_ok env self.m_FilePath self.m_VulkanSPIRV [] [] w
    hserve
  have hmiss := openglStages_miss env self.m_FilePath hext hkind hcompile
    self.m_VulkanSPIRV [] [] w hnodup hmem hempty r w1 hrun1
  have hfr := openglStages_frame env self.m_FilePath self.m_VulkanSPIRV [] [] w
  rw [hrun1] at hfr
  have hfile := hmiss.2.1 hwritable
  refine ⟨_, w1, CompileOrGetOpenGLBinaries_of_ok hrun1, hmiss.1, hfile, ?_⟩
  obtain ⟨r2, w2, hrun2⟩ := openglStages_ok env self.m_FilePath self.m_VulkanSPIRV [] [] w1
    (fun k sp hks => by
      obtain ⟨ext, kd, hx, hkd, hcase⟩ := hserve k sp hks
      refine ⟨ext, kd, hx, hkd, served_mono (hfr.2.2.1 _) (fun hp => ?_) hcase⟩
      have := openglStages_alignedAt env self.m_FilePath self.m_VulkanSPIRV [] [] w hp
      rw [hrun1] at this
      exact this)
  have hhit := openglStages_hit env self.m_FilePath hext self.m_VulkanSPIRV [] [] w1 hnodup
    (List.mem_map_of_mem Prod.fst hmem) hfile r2 w2 hrun2
  have hrun2' := @CompileOrGetOpenGLBinaries_of_ok env
    { self with m_OpenGLSPIRV := r.1, m_OpenGLSourceCode := r.2 } w1 r2 w2 hrun2
  exact ⟨_, w2, hrun2', hhit, by rw [← wordsOfBytes_bytesOfWords T hbits]; exact hhit⟩

/-! ## The fatal ends of the compile loops -/

theorem GLShaderStageCachedVulkanFileExtension_error {k : GLenum} {e : Fatal}
    (h : GLShaderStageCachedVulkanFileExtension k = .error e) : e = .unknownStage := by
  unfold GLShaderStageCachedVulkanFileExtension at h
  split at h
  · cases h
  · split at h
    · cases h
    · cases h
      rfl

theorem GLShaderStageCachedOpenGLFileExtension_error {k : GLenum} {e : Fatal}
    (h : GLShaderStageCachedOpenGLFileExtension k = .error e) : e = .unknownStage := by
  unfold GLShaderStageCachedOpenGLFileExtension at h
  split at h
  · cases h
  · split at h
    · cases h
    · cases h
      rfl

theorem GLShaderStageToShaderC_error {k : GLenum} {e : Fatal}
    (h : GLShaderStageToShaderC k = .error e) : e = .unknownStage := by
  unfold GLShaderStageToShaderC at h
  split at h
  · cases h
  · split at h
    · cases h
    · cases h
      rfl

theorem vulkanStage_error {env : Env} {filePath : Str} {k : GLenum} {source : Str}
    {shaderData : StageMap Words} {w : World} {e : Fatal}
    (h : (vulkanStage env filePath k source shaderData w).1 = .error e) :
    e = .unknownStage ∨ e = .compilationFailed ∨ e = .bufferOverflow := by
  unfold vulkanStage at h
  cases hk : GLShaderStageCachedVulkanFileExtension k with
  | error e1 =>
    rw [hk] at h
    simp only [Except.error.injEq] at h
    rw [← h]
    exact Or.inl (GLShaderStageCachedVulkanFileExtension_error hk)
  | ok ext =>
    rw [hk] at h
    dsimp only at h
    cases hf : w.files (cachePath env filePath ext) with
    | some bytes =>
      rw [hf] at h
      dsimp only at h
      split at h
      · cases h
      · simp only [Except.error.injEq] at h
        exact Or.inr (Or.inr h.symm)
    | none =>
      rw [hf] at h
      dsimp only at h
      cases hkk : GLShaderStageToShaderC k with
      | error e1 =>
        rw [hkk] at h
        simp only [Except.error.injEq] at h
        rw [← h]
        exact Or.inl (GLShaderStageToShaderC_error hkk)
      | ok kind =>
        rw [hkk] at h
        dsimp only at h
        cases hc : env.compileGlslToSpv source kind filePath (some vulkanOptions) with
        | error msg =>
          rw [hc] at h
          simp only [Except.error.injEq] at h
          exact Or.inr (Or.inl h.symm)
        | ok module => rw [hc] at h; cases h

theorem vulkanStages_error (env : Env) (filePath : Str) :
    ∀ (sources : StageMap Str) (shaderData : StageMap Words) (w : World) (e : Fatal),
      (vulkanStages env filePath sources shaderData w).1 = .error e →
      e = .unknownStage ∨ e = .compilationFailed ∨ e = .bufferOverflow := by
  intro sources
  induction sources with
  | nil => intro d w e h; cases h
  | cons a rest ih =>
    intro d w e h
    obtain ⟨k, v⟩ := a
    unfold vulkanStages at h
    cases hout : vulkanStage env filePath k v d w with
    | mk r1 w1 =>
      rw [hout] at h
      cases r1 with
      | error e1 =>
        apply @vulkanStage_error env filePath k v d w
        rw [hout]
        exact h
      | ok d1 => exact ih d1 w1 e h

theorem openglStage_error {env : Env} {filePath : Str} {k : GLenum} {spirv : Words}
    {shaderData : StageMap Words} {sourceCode : StageMap Str} {w : World} {e : Fatal}
    (h : (openglStage env filePath k spirv shaderData sourceCode w).1 = .error e) :
    e = .unknownStage ∨ e = .compilationFailed ∨ e = .bufferOverflow := by
  unfold openglStage at h
  cases hk : GLShaderStageCachedOpenGLFileExtension k with
  | error e1 =>
    rw [hk] at h
    simp only [Except.error.injEq] at h
    rw [← h]
    exact Or.inl (GLShaderStageCachedOpenGLFileExtension_error hk)
  | ok ext =>
    rw [hk] at h
    dsimp only at h
    cases hf : w.files (cachePath env filePath ext) with
    | some bytes =>
      rw [hf] at h
      dsimp only at h
      split at h
      · cases h
      · simp only [Except.error.injEq] at h
        exact Or.inr (Or.inr h.symm)
    | none =>
      rw [hf] at h
      dsimp only at h
      cases hkk : GLShaderStageToShaderC k with
      | error e1 =>
        rw [hkk] at h
        simp only [Except.error.injEq] at h
        rw [← h]
        exact Or.inl (GLShaderStageToShaderC_error hkk)
      | ok kind =>
        rw [hkk] at h
        dsimp only at h
        cases hc : env.compileGlslToSpv (env.crossCompile spirv) kind filePath none with
        | error msg =>
          rw [hc] at h
          simp only [Except.error.injEq] at h
          exact Or.inr (Or.inl h.symm)
        | ok module => rw [hc] at h; cases h

theorem openglStages_error (env : Env) (filePath : Str) :
    ∀ (m : StageMap Words) (shaderData : StageMap Words) (sourceCode : StageMap Str)
      (w : World) (e : Fatal),
      (openglStages env filePath m shaderData sourceCode w).1 = .error e →
      e = .unknownStage ∨ e = .compilationFailed ∨ e = .bufferOverflow := by
  intro m
  induction m with
  | nil => intro d sc w e h; cases h
  | cons a rest ih =>
    intro d sc w e h
    obtain ⟨k, v⟩ := a
    unfold openglStages at h
    cases hout : openglStage env filePath k v d sc w with
    | mk r1 w1 =>
      rw [hout] at h
      cases r1 with
      | error e1 =>
        apply @openglStage_error env filePath k v d sc w
        rw [hout]
        exact h
      | ok d1 =>
        obtain ⟨d1, sc1⟩ := d1
        exact ih d1 sc1 w1 e h

theorem extractName_error {filepath : Str} {e : Fatal} (h : extractName filepath = .error e) :
    e = .outOfRange := by
  unfold extractName substr at h
  dsimp only at h
  split at h
  · cases h
    rfl
  · cases h

/-- RAPIER's constructor from a file never writes past the second slot of the array of
shader ids. -/
theorem fromFileRAPIER_in_bounds (env : Env) (drv : Driver) (filepath : Str) (w : World)
    (hlen : ∀ w1, CreateCacheDirectoryIfNeeded w = (.ok (), w1) →
      (ReadFile filepath w1).1.length < sizeMod) :
    (OpenGLShader.fromFileRAPIER env drv filepath w).1 ≠ .error .arrayOutOfBounds := by
  unfold OpenGLShader.fromFileRAPIER
  dsimp only
  cases hdir : CreateCacheDirectoryIfNeeded w with
  | mk r0 w1 =>
  cases r0 with
  | error e =>
    dsimp only
    rw [@CreateCacheDirectoryIfNeeded_error w e (by rw [hdir])]
    simp
  | ok u =>
  dsimp only
  have hlen := hlen w1 hdir
  cases hpre : PreProcess (ReadFile filepath w1).1 with
  | error e =>
    dsimp only
    obtain ⟨p, _, hf⟩ := PreProcess_error hpre
    rcases hf.error_kind with rfl | rfl <;> simp
  | ok m =>
    dsimp only
    have hinv := PreProcess_ok_inv hlen hpre
    have hm : m.length ≤ 2 := by
      have := length_le_two_of_stages hinv.nodup (fun k hk => hinv.stage_of_mem hk)
      simpa [StageMap.keys] using this
    cases hV : CompileOrGetVulkanBinaries env
        { m_RendererID := none, m_FilePath := filepath, m_Name := [], m_VulkanSPIRV := [],
          m_OpenGLSPIRV := [], m_OpenGLSourceCode := [] } m
        (ReadFile filepath w1).2 with
    | mk r1 w3 =>
      cases r1 with
      | error e =>
        dsimp only
        have herr : e = .unknownStage ∨ e = .compilationFailed ∨ e = .bufferOverflow := by
          unfold CompileOrGetVulkanBinaries at hV
          dsimp only at hV
          split at hV
          · rename_i e' w' hrun
            simp only [Prod.mk.injEq, Except.error.injEq] at hV
            rw [← hV.1]
            exact vulkanStages_error env filepath m [] _ e' (by rw [hrun])
          · cases hV
        rcases herr with rfl | rfl | rfl <;> simp
      | ok self1 =>
        dsimp only
        have hle : self1.m_VulkanSPIRV.length ≤ 2 :=
          le_trans (CompileOrGetVulkanBinaries_length_le hV) hm
        split
        · have hb := CreateProgramAMD_in_bounds env drv self1 w3 hle
          cases hA : CreateProgramAMD env drv self1 w3 with
          | mk r2 rest =>
            obtain ⟨self2, w4⟩ := rest
            rw [hA] at hb
            cases r2 with
            | error e =>
              dsimp only
              intro hc
              apply hb
              simp only [Except.error.injEq] at hc
              rw [hc]
            | ok u =>
              dsimp only
              cases hn : extractName filepath with
              | error e =>
                dsimp only
                rw [extractName_error hn]
                simp
              | ok name => simp
        · cases hG : CompileOrGetOpenGLBinaries env self1 w3 with
          | mk r2 w4 =>
            cases r2 with
            | error e =>
              dsimp only
              have herr : e = .unknownStage ∨ e = .compilationFailed ∨ e = .bufferOverflow := by
                unfold CompileOrGetOpenGLBinaries at hG
                split at hG
                · rename_i e' w' hrun
                  simp only [Prod.mk.injEq, Except.error.injEq] at hG
                  rw [← hG.1]
                  exact openglStages_error env self1.m_FilePath self1.m_VulkanSPIRV [] [] _ e'
                    (by rw [hrun])
                · cases hG
              rcases herr with rfl | rfl | rfl <;> simp
            | ok self2 =>
              dsimp only
              cases hn : extractName filepath with
              | error e =>
                dsimp only
                rw [extractName_error hn]
                simp
              | ok name => simp

/-- RAPIER's constructor on the example scenario, with an ATI driver: the handle is the
second program object (the first one is the one `CompileOrGetVulkanBinaries` creates and
never uses), and the name is the base name of the file. -/
theorem fromFileRAPIER_example :
    (OpenGLShader.fromFileRAPIER demoEnv demoDriver demoPath
      (demoWorld exampleSource)).1.map (fun self => (self.m_RendererID, self.m_Name))
      = .ok (some 2, "Texture".toList) := rfl

/-- A run of the loop that returns has found whole words in every cache file it opened. -/
theorem vulkanStages_hit_aligned (env : Env) (filePath : Str) {stage : GLenum}
    {extension : Str} {bytes : Bytes}
    (hext : GLShaderStageCachedVulkanFileExtension stage = .ok extension) :
    ∀ (sources : StageMap Str) (shaderData : StageMap Words) (w : World),
      sources.keys.Nodup → stage ∈ sources.keys →
      w.files (cachePath env filePath extension) = some bytes →
      ∀ shaderData' w', vulkanStages env filePath sources shaderData w = (.ok shaderData', w') →
        bytes.length % 4 = 0 := by
  intro sources
  induction sources with
  | nil =>
    intro shaderData w _ hmem
    simp [StageMap.keys] at hmem
  | cons a rest ih =>
    intro shaderData w hnodup hmem hopen d' w' hrun
    obtain ⟨k, v⟩ := a
    simp only [StageMap.keys, List.map_cons, List.nodup_cons, List.mem_cons] at hnodup hmem
    unfold vulkanStages at hrun
    by_cases hk : k = stage
    · subst hk
      by_contra halign
      rw [vulkanStage_overflow env filePath k v shaderData w hext hopen halign] at hrun
      cases hrun
    · have hin : stage ∈ StageMap.keys rest := by
        rcases hmem with h | h
        · exact absurd h.symm hk
        · exact h
      have hs := vulkanStage_frame env filePath k v shaderData w
      cases hout : vulkanStage env filePath k v shaderData w with
      | mk r1 w1 =>
        rw [hout] at hs hrun
        cases r1 with
        | error e =>
          dsimp only at hrun
          cases hrun
        | ok d1 =>
          dsimp only at hrun
          have hpath := hs.2.1 _ (vulkanPath_ne env filePath hext hk)
          exact ih d1 w1 hnodup.2 hin (hpath.trans hopen) d' w' hrun

/-! ## The calls of the compile loops, in order -/

theorem Event.ofStage_openRead (kind : ShaderKind) (path p : Str) (o : Bool) :
    (Event.openRead p o).ofStage kind path ↔ p = path := by
  unfold Event.ofStage
  constructor
  · rintro (⟨_, _, _, h⟩ | ⟨_, h⟩ | ⟨_, h⟩)
    · cases h
    · cases h
      rfl
    · cases h
  · rintro rfl
    exact Or.inr (Or.inl ⟨o, rfl⟩)

theorem Event.ofStage_openWrite (kind : ShaderKind) (path p : Str) (o : Bool) :
    (Event.openWrite p o).ofStage kind path ↔ p = path := by
  unfold Event.ofStage
  constructor
  · rintro (⟨_, _, _, h⟩ | ⟨_, h⟩ | ⟨_, h⟩)
    · cases h
    · cases h
    · cases h
      rfl
  · rintro rfl
    exact Or.inr (Or.inr ⟨o, rfl⟩)

theorem Event.ofStage_compileGlslToSpv (kind : ShaderKind) (path src : Str) (k : ShaderKind)
    (name : Str) (o : Option CompileOptions) :
    (Event.compileGlslToSpv src k name o).ofStage kind path ↔ k = kind := by
  unfold Event.ofStage
  constructor
  · rintro (⟨_, _, _, h⟩ | ⟨_, h⟩ | ⟨_, h⟩)
    · cases h
      rfl
    · cases h
    · cases h
  · rintro rfl
    exact Or.inl ⟨src, name, o, rfl⟩

theorem Event.not_ofStage_reflect (kind : ShaderKind) (path : Str) (stage : GLenum)
    (spirv : Words) : ¬ (Event.reflect stage spirv).ofStage kind path := by
  unfold Event.ofStage
  rintro (⟨_, _, _, h⟩ | ⟨_, h⟩ | ⟨_, h⟩) <;> cases h

theorem Event.not_ofStage_glCreateProgram (kind : ShaderKind) (path : Str) (n : Nat) :
    ¬ (Event.glCreateProgram n).ofStage kind path := by
  unfold Event.ofStage
  rintro (⟨_, _, _, h⟩ | ⟨_, h⟩ | ⟨_, h⟩) <;> cases h

theorem Event.not_ofStage_crossCompile (kind : ShaderKind) (path : Str) (spirv : Words) :
    ¬ (Event.crossCompile spirv).ofStage kind path := by
  unfold Event.ofStage
  rintro (⟨_, _, _, h⟩ | ⟨_, h⟩ | ⟨_, h⟩) <;> cases h

/-- The calls of `Reflect` that the loop over the binaries adds to the log. -/
theorem reflectAll_log_eq (shaderData : StageMap Words) : ∀ (w : World),
    (reflectAll shaderData w).log
      = w.log ++ shaderData.map (fun entry => Event.reflect entry.1 entry.2) := by
  induction shaderData with
  | nil => intro w; simp [reflectAll]
  | cons a rest ih =>
    intro w
    have h := ih (w.record (.reflect a.1 a.2))
    unfold reflectAll at h ⊢
    rw [List.foldl_cons, h]
    simp [World.record]

/-- The loop body on another stage adds no event of the cache protocol of a stage. -/
theorem vulkanStage_added_other (env : Env) (filePath : Str) {stage k : GLenum}
    (source : Str) (shaderData : StageMap Words) (w : World) {extension : Str}
    {kind : ShaderKind} (hext : GLShaderStageCachedVulkanFileExtension stage = .ok extension)
    (hkind : GLShaderStageToShaderC stage = .ok kind) (hne : k ≠ stage) :
    ∃ added, (vulkanStage env filePath k source shaderData w).2.log = w.log ++ added ∧
      ∀ ev ∈ added, ¬ ev.ofStage kind (cachePath env filePath extension) := by
  unfold vulkanStage
  cases hk : GLShaderStageCachedVulkanFileExtension k with
  | error e => exact ⟨[], by simp, by simp⟩
  | ok ext' =>
    have hpath : cachePath env filePath ext' ≠ cachePath env filePath extension := by
      intro h
      have := cachePath_injective env filePath h
      subst this
      exact hne (vulkanExtension_injective hk hext)
    dsimp only
    cases hf : w.files (cachePath env filePath ext') with
    | some bytes =>
      dsimp only
      split <;>
        exact ⟨[.openRead (cachePath env filePath ext') true], rfl, by
          simp [Event.ofStage_openRead, hpath]⟩
    | none =>
      dsimp only
      cases hkk : GLShaderStageToShaderC k with
      | error e =>
        exact ⟨[.openRead (cachePath env filePath ext') false], rfl, by
          simp [Event.ofStage_openRead, hpath]⟩
      | ok kind' =>
        have hkind' : kind' ≠ kind := by
          intro h
          subst h
          exact hne (shaderKind_injective hkk hkind)
        dsimp only
        cases hc : env.compileGlslToSpv source kind' filePath (some vulkanOptions) with
        | error msg =>
          exact ⟨[.openRead (cachePath env filePath ext') false,
            .compileGlslToSpv source kind' filePath (some vulkanOptions)],
            by simp [World.record], by
              simp [Event.ofStage_openRead, Event.ofStage_compileGlslToSpv, hpath, hkind']⟩
        | ok module =>
          refine ⟨[.openRead (cachePath env filePath ext') false,
            .compileGlslToSpv source kind' filePath (some vulkanOptions),
            .openWrite (cachePath env filePath ext') (w.writable (cachePath env filePath ext'))],
            ?_, by
              simp [Event.ofStage_openRead, Event.ofStage_compileGlslToSpv,
                Event.ofStage_openWrite, hpath, hkind']⟩
          dsimp only
          rw [World.write_log]
          simp [World.record]

/-- The loop over stages other than `stage` adds no event of the cache protocol of
`stage`. -/
theorem vulkanStages_added_others (env : Env) (filePath : Str) {stage : GLenum}
    {extension : Str} {kind : ShaderKind}
    (hext : GLShaderStageCachedVulkanFileExtension stage = .ok extension)
    (hkind : GLShaderStageToShaderC stage = .ok kind) :
    ∀ (rest : StageMap Str) (shaderData : StageMap Words) (w : World), stage ∉ rest.keys →
      ∃ added, (vulkanStages env filePath rest shaderData w).2.log = w.log ++ added ∧
        ∀ ev ∈ added, ¬ ev.ofStage kind (cachePath env filePath extension) := by
  intro rest
  induction rest with
  | nil => intro d w _; exact ⟨[], by simp [vulkanStages], by simp⟩
  | cons a rest ih =>
    intro d w hnot
    obtain ⟨k, v⟩ := a
    simp only [StageMap.keys, List.map_cons, List.mem_cons, not_or] at hnot
    have hne : k ≠ stage := fun h => hnot.1 h.symm
    obtain ⟨a1, h1, hn1⟩ := vulkanStage_added_other env filePath v d w hext hkind hne
    unfold vulkanStages
    cases hout : vulkanStage env filePath k v d w with
    | mk r1 w1 =>
      rw [hout] at h1
      cases r1 with
      | error e => exact ⟨a1, h1, hn1⟩
      | ok d1 =>
        dsimp only
        obtain ⟨a2, h2, hn2⟩ := ih d1 w1 hnot.2
        refine ⟨a1 ++ a2, ?_, ?_⟩
        · rw [h2]
          dsimp only at h1
          rw [h1, List.append_assoc]
        · intro ev hev
          rcases List.mem_append.1 hev with h | h
          · exact hn1 ev h
          · exact hn2 ev h

/-- The calls of the loop over the stages for a stage whose cache file opens, in a run that
returns: the opening of the file and nothing else. -/
theorem vulkanStages_added_hit (env : Env) (filePath : Str) {stage : GLenum}
    {extension : Str} {kind : ShaderKind} {bytes : Bytes}
    (hext : GLShaderStageCachedVulkanFileExtension stage = .ok extension)
    (hkind : GLShaderStageToShaderC stage = .ok kind) :
    ∀ (sources : StageMap Str) (shaderData : StageMap Words) (w : World),
      sources.keys.Nodup → stage ∈ sources.keys →
      w.files (cachePath env filePath extension) = some bytes →
      ∀ shaderData' w', vulkanStages env filePath sources shaderData w = (.ok shaderData', w') →
        ∃ before after,
          w'.log = w.log ++ before
            ++ Event.openRead (cachePath env filePath extension) true :: after ∧
          ∀ ev ∈ before ++ after, ¬ ev.ofStage kind (cachePath env filePath extension) := by
  intro sources
  induction sources with
  | nil =>
    intro shaderData w _ hmem
    simp [StageMap.keys] at hmem
  | cons a rest ih =>
    intro shaderData w hnodup hmem hopen d' w' hrun
    obtain ⟨k, v⟩ := a
    simp only [StageMap.keys, List.map_cons, List.nodup_cons, List.mem_cons] at hnodup hmem
    unfold vulkanStages at hrun
    by_cases hk : k = stage
    · subst hk
      by_cases halign : bytes.length % 4 = 0
      swap
      · rw [vulkanStage_overflow env filePath k v shaderData w hext hopen halign] at hrun
        cases hrun
      rw [vulkanStage_hit env filePath k v shaderData w hext hopen halign] at hrun
      dsimp only at hrun
      obtain ⟨a2, h2, hn2⟩ := vulkanStages_added_others env filePath hext hkind rest
        (StageMap.assign k (wordsOfBytes bytes) shaderData)
        (w.record (.openRead (cachePath env filePath extension) true)) hnodup.1
      rw [hrun] at h2
      refine ⟨[], a2, ?_, by simpa using hn2⟩
      rw [h2]
      simp [World.record]
    · have hin : stage ∈ StageMap.keys rest := by
        rcases hmem with h | h
        · exact absurd h.symm hk
        · exact h
      have ho := vulkanStage_other env filePath v shaderData w hext hkind hk
      obtain ⟨a1, h1, hn1⟩ := vulkanStage_added_other env filePath v shaderData w hext hkind hk
      cases hout : vulkanStage env filePath k v shaderData w with
      | mk r1 w1 =>
        rw [hout] at ho hrun h1
        cases r1 with
        | error e =>
          dsimp only at hrun
          cases hrun
        | ok d1 =>
          dsimp only at hrun h1
          obtain ⟨b, a2, h2, hn2⟩ := ih d1 w1 hnodup.2 hin (ho.1.trans hopen) d' w' hrun
          refine ⟨a1 ++ b, a2, ?_, ?_⟩
          · rw [h2, h1]
            simp only [List.append_assoc]
          · intro ev hev
            simp only [List.mem_append] at hev
            rcases hev with (h | h) | h
            · exact hn1 ev h
            · exact hn2 ev (List.mem_append.2 (Or.inl h))
            · exact hn2 ev (List.mem_append.2 (Or.inr h))

/-- The calls of the loop over the stages for a stage whose cache file does not open and
whose source compiles, in a run that returns: the failed opening of the file, the call of
the compiler, the opening of the file for writing, and nothing else. -/
theorem vulkanStages_added_miss (env : Env) (filePath : Str) {stage : GLenum}
    {extension : Str} {kind : ShaderKind} {source : Str} {module : Words}
    (hext : GLShaderStageCachedVulkanFileExtension stage = .ok extension)
    (hkind : GLShaderStageToShaderC stage = .ok kind)
    (hcompile : env.compileGlslToSpv source kind filePath (some vulkanOptions) = .ok module) :
    ∀ (sources : StageMap Str) (shaderData : StageMap Words) (w : World),
      sources.keys.Nodup → (stage, source) ∈ sources →
      w.files (cachePath env filePath extension) = none →
      ∀ shaderData' w', vulkanStages env filePath sources shaderData w = (.ok shaderData', w') →
        ∃ before after,
          w'.log = w.log ++ before
            ++ [Event.openRead (cachePath env filePath extension) false,
                Event.compileGlslToSpv source kind filePath (some vulkanOptions),
                Event.openWrite (cachePath env filePath extension)
                  (w.writable (cachePath env filePath extension))] ++ after ∧
          ∀ ev ∈ before ++ after, ¬ ev.ofStage kind (cachePath env filePath extension) := by
  intro sources
  induction sources with
  | nil =>
    intro shaderData w _ hmem
    simp at hmem
  | cons a rest ih =>
    intro shaderData w hnodup hmem hempty d' w' hrun
    obtain ⟨k, v⟩ := a
    simp only [StageMap.keys, List.map_cons, List.nodup_cons] at hnodup
    unfold vulkanStages at hrun
    by_cases hk : k = stage
    · subst hk
      have hv : source = v := StageMap.eq_of_mem_of_nodup hnodup.1 hmem
      subst hv
      rw [vulkanStage_miss env filePath k source shaderData w hext hkind hempty hcompile] at hrun
      dsimp only at hrun
      obtain ⟨a2, h2, hn2⟩ := vulkanStages_added_others env filePath hext hkind rest
        (StageMap.assign k module shaderData)
        (((w.record (.openRead (cachePath env filePath extension) false)).record
            (.compileGlslToSpv source kind filePath (some vulkanOptions))).write
              (cachePath env filePath extension) (bytesOfWords module)) hnodup.1
      rw [hrun] at h2
      refine ⟨[], a2, ?_, by simpa using hn2⟩
      rw [h2, World.write_log]
      simp [World.record]
    · have hin : (stage, source) ∈ rest := by
        rcases List.mem_cons.1 hmem with h | h
        · exact absurd (Prod.mk.inj h).1.symm hk
        · exact h
      have ho := vulkanStage_other env filePath v shaderData w hext hkind hk
      have hfr := vulkanStage_frame env filePath k v shaderData w
      obtain ⟨a1, h1, hn1⟩ := vulkanStage_added_other env filePath v shaderData w hext hkind hk
      cases hout : vulkanStage env filePath k v shaderData w with
      | mk r1 w1 =>
        rw [hout] at ho hrun h1 hfr
        cases r1 with
        | error e =>
          dsimp only at hrun
          cases hrun
        | ok d1 =>
          dsimp only at hrun h1 hfr
          obtain ⟨b, a2, h2, hn2⟩ := ih d1 w1 hnodup.2 hin (ho.1.trans hempty) d' w' hrun
          refine ⟨a1 ++ b, a2, ?_, ?_⟩
          · rw [h2, h1, hfr.1]
            simp only [List.append_assoc]
          · intro ev hev
            simp only [List.mem_append] at hev
            rcases hev with (h | h) | h
            · exact hn1 ev h
            · exact hn2 ev (List.mem_append.2 (Or.inl h))
            · exact hn2 ev (List.mem_append.2 (Or.inr h))

/-- A run of the loop over the stages leaves a cache file that opens as it is. -/
theorem vulkanStages_hit_file (env : Env) (filePath : Str) {stage : GLenum}
    {extension : Str} {bytes : Bytes}
    (hext : GLShaderStageCachedVulkanFileExtension stage = .ok extension) :
    ∀ (sources : StageMap Str) (shaderData : StageMap Words) (w : World),
      sources.keys.Nodup → stage ∈ sources.keys →
      w.files (cachePath env filePath extension) = some bytes →
      ∀ shaderData' w', vulkanStages env filePath sources shaderData w = (.ok shaderData', w') →
        w'.files (cachePath env filePath extension) = some bytes := by
  intro sources
  induction sources with
  | nil =>
    intro shaderData w _ hmem
    simp [StageMap.keys] at hmem
  | cons a rest ih =>
    intro shaderData w hnodup hmem hopen d' w' hrun
    obtain ⟨k, v⟩ := a
    simp only [StageMap.keys, List.map_cons, List.nodup_cons, List.mem_cons] at hnodup hmem
    unfold vulkanStages at hrun
    by_cases hk : k = stage
    · subst hk
      by_cases halign : bytes.length % 4 = 0
      swap
      · rw [vulkanStage_overflow env filePath k v shaderData w hext hopen halign] at hrun
        cases hrun
      rw [vulkanStage_hit env filePath k v shaderData w hext hopen halign] at hrun
      dsimp only at hrun
      have hfr := vulkanStages_frame env filePath rest
        (StageMap.assign k (wordsOfBytes bytes) shaderData)
        (w.record (.openRead (cachePath env filePath extension) true))
      rw [hrun] at hfr
      rw [hfr.2.1 _ (fun k' hk' ext hx' =>
        vulkanPath_ne env filePath hext (fun h => hnodup.1 (h ▸ hk')) ext hx')]
      exact hopen
    · have hin : stage ∈ StageMap.keys rest := by
        rcases hmem with h | h
        · exact absurd h.symm hk
        · exact h
      have hs := vulkanStage_frame env filePath k v shaderData w
      cases hout : vulkanStage env filePath k v shaderData w with
      | mk r1 w1 =>
        rw [hout] at hs hrun
        cases r1 with
        | error e =>
          dsimp only at hrun
          cases hrun
        | ok d1 =>
          dsimp only at hrun
          have hpath := hs.2.1 _ (vulkanPath_ne env filePath hext hk)
          exact ih d1 w1 hnodup.2 hin (hpath.trans hopen) d' w' hrun

/-! ## Runs in worlds that differ in what can be written -/

/-- A write in two worlds that agree, off the paths in `D`, on the files and on what can be
written leaves them agreeing on the files off those paths. -/
theorem World.write_files_agree {w w' : World} {D : Str → Prop} (path : Str) (bytes : Bytes)
    (hfiles : ∀ p, ¬ D p → w'.files p = w.files p)
    (hwr : ∀ p, ¬ D p → w'.writable p = w.writable p) :
    ∀ p, ¬ D p → (w'.write path bytes).files p = (w.write path bytes).files p := by
  intro p hp
  by_cases h : p = path
  · subst h
    unfold World.write
    rw [hwr p hp]
    split
    · simp
    · exact hfiles p hp
  · rw [World.write_files_ne _ _ h, World.write_files_ne _ _ h]
    exact hfiles p hp

/-- The loop body in two worlds that agree on the cache file of the stage and, off the paths
in `D`, on the files and on what can be written: the same outcome, and the worlds it leaves
agree on the files off those paths. -/
theorem vulkanStage_sim (env : Env) (filePath : Str) (k : GLenum) (source : Str)
    (shaderData : StageMap Words) (w w' : World) (D : Str → Prop)
    (hk : ∀ ext, GLShaderStageCachedVulkanFileExtension k = .ok ext →
      w'.files (cachePath env filePath ext) = w.files (cachePath env filePath ext))
    (hfiles : ∀ p, ¬ D p → w'.files p = w.files p)
    (hwr : ∀ p, ¬ D p → w'.writable p = w.writable p) :
    (vulkanStage env filePath k source shaderData w').1
        = (vulkanStage env filePath k source shaderData w).1 ∧
      ∀ p, ¬ D p → (vulkanStage env filePath k source shaderData w').2.files p
        = (vulkanStage env filePath k source shaderData w).2.files p := by
  unfold vulkanStage
  cases hx : GLShaderStageCachedVulkanFileExtension k with
  | error e => exact ⟨rfl, hfiles⟩
  | ok ext =>
    dsimp only
    rw [hk ext hx]
    cases hf : w.files (cachePath env filePath ext) with
    | some bytes =>
      dsimp only
      split
      · exact ⟨rfl, hfiles⟩
      · exact ⟨rfl, hfiles⟩
    | none =>
      dsimp only
      cases hkk : GLShaderStageToShaderC k with
      | error e => exact ⟨rfl, hfiles⟩
      | ok kind =>
        dsimp only
        cases hc : env.compileGlslToSpv source kind filePath (some vulkanOptions) with
        | error msg => exact ⟨rfl, hfiles⟩
        | ok module =>
          exact ⟨rfl, World.write_files_agree _ _ hfiles hwr⟩

/-- The loop over the stages in two worlds that agree on the cache files of the stages and,
off the paths in `D`, on the files and on what can be written: the same outcome, and the
worlds it leaves agree on the files off those paths. -/
theorem vulkanStages_sim (env : Env) (filePath : Str) (D : Str → Prop) :
    ∀ (sources : StageMap Str) (shaderData : StageMap Words) (w w' : World),
      sources.keys.Nodup →
      (∀ k ∈ sources.keys, ∀ ext, GLShaderStageCachedVulkanFileExtension k = .ok ext →
        w'.files (cachePath env filePath ext) = w.files (cachePath env filePath ext)) →
      (∀ p, ¬ D p → w'.files p = w.files p) →
      (∀ p, ¬ D p → w'.writable p = w.writable p) →
      (vulkanStages env filePath sources shaderData w').1
          = (vulkanStages env filePath sources shaderData w).1 ∧
        ∀ p, ¬ D p → (vulkanStages env filePath sources shaderData w').2.files p
          = (vulkanStages env filePath sources shaderData w).2.files p := by
  intro sources
  induction sources with
  | nil => intro d w w' _ _ hfiles _; exact ⟨rfl, hfiles⟩
  | cons a rest ih =>
    intro d w w' hnodup hk hfiles hwr
    obtain ⟨k, v⟩ := a
    simp only [StageMap.keys, List.map_cons, List.nodup_cons] at hnodup
    have hsim := vulkanStage_sim env filePath k v d w w' D
      (fun ext hx => hk k (by simp [StageMap.keys]) ext hx) hfiles hwr
    have hs := vulkanStage_frame env filePath k v d w
    have hs' := vulkanStage_frame env filePath k v d w'
    unfold vulkanStages
    cases hout : vulkanStage env filePath k v d w with
    | mk r1 w1 =>
      cases hout' : vulkanStage env filePath k v d w' with
      | mk r1' w1' =>
        rw [hout, hout'] at hsim
        rw [hout] at hs
        rw [hout'] at hs'
        dsimp only at hsim hs hs'
        obtain ⟨hr, hf1⟩ := hsim
        subst hr
        cases r1' with
        | error e => exact ⟨rfl, hf1⟩
        | ok d1 =>
          dsimp only
          apply ih d1 w1 w1' hnodup.2 _ hf1
          · intro p hp
            rw [hs.1, hs'.1]
            exact hwr p hp
          · intro k' hk' ext hx
            have hne : k ≠ k' := fun h => hnodup.1 (h ▸ hk')
            have hmem : k' ∈ StageMap.keys ((k, v) :: rest) := by
              simp only [StageMap.keys, List.map_cons, List.mem_cons]
              exact Or.inr hk'
            have hp := vulkanPath_ne env filePath hx hne
            rw [hs.2.1 _ hp, hs'.2.1 _ hp]
            exact hk k' hmem ext hx

theorem openglStage_sim (env : Env) (filePath : Str) (k : GLenum) (spirv : Words)
    (shaderData : StageMap Words) (sourceCode : StageMap Str) (w w' : World)
    (D : Str → Prop)
    (hk : ∀ ext, GLShaderStageCachedOpenGLFileExtension k = .ok ext →
      w'.files (cachePath env filePath ext) = w.files (cachePath env filePath ext))
    (hfiles : ∀ p, ¬ D p → w'.files p = w.files p)
    (hwr : ∀ p, ¬ D p → w'.writable p = w.writable p) :
    (openglStage env filePath k spirv shaderData sourceCode w').1
        = (openglStage env filePath k spirv shaderData sourceCode w).1 ∧
      ∀ p, ¬ D p → (openglStage env filePath k spirv shaderData sourceCode w').2.files p
        = (openglStage env filePath k spirv shaderData sourceCode w).2.files p := by
  unfold openglStage
  cases hx : GLShaderStageCachedOpenGLFileExtension k with
  | error e => exact ⟨rfl, hfiles⟩
  | ok ext =>
    dsimp only
    rw [hk ext hx]
    cases hf : w.files (cachePath env filePath ext) with
    | some bytes =>
      dsimp only
      split
      · exact ⟨rfl, hfiles⟩
      · exact ⟨rfl, hfiles⟩
    | none =>
      dsimp only
      cases hkk : GLShaderStageToShaderC k with
      | error e => exact ⟨rfl, hfiles⟩
      | ok kind =>
        dsimp only
        cases hc : env.compileGlslToSpv (env.crossCompile spirv) kind filePath none with
        | error msg => exact ⟨rfl, hfiles⟩
        | ok module =>
          exact ⟨rfl, World.write_files_agree _ _ hfiles hwr⟩

theorem openglStages_sim (env : Env) (filePath : Str) (D : Str → Prop) :
    ∀ (m : StageMap Words) (shaderData : StageMap Words) (sourceCode : StageMap Str)
      (w w' : World), m.keys.Nodup →
      (∀ k ∈ m.keys, ∀ ext, GLShaderStageCachedOpenGLFileExtension k = .ok ext →
        w'.files (cachePath env filePath ext) = w.files (cachePath env filePath ext)) →
      (∀ p, ¬ D p → w'.files p = w.files p) →
      (∀ p, ¬ D p → w'.writable p = w.writable p) →
      (openglStages env filePath m shaderData sourceCode w').1
          = (openglStages env filePath m shaderData sourceCode w).1 ∧
        ∀ p, ¬ D p → (openglStages env filePath m shaderData sourceCode w').2.files p
          = (openglStages env filePath m shaderData sourceCode w).2.files p := by
  intro m
  induction m with
  | nil => intro d sc w w' _ _ hfiles _; exact ⟨rfl, hfiles⟩
  | cons a rest ih =>
    intro d sc w w' hnodup hk hfiles hwr
    obtain ⟨k, v⟩ := a
    simp only [StageMap.keys, List.map_cons, List.nodup_cons] at hnodup
    have hsim := openglStage_sim env filePath k v d sc w w' D
      (fun ext hx => hk k (by simp [StageMap.keys]) ext hx) hfiles hwr
    have hs := openglStage_frame env filePath k v d sc w
    have hs' := openglStage_frame env filePath k v d sc w'
    unfold openglStages
    cases hout : openglStage env filePath k v d sc w with
    | mk r1 w1 =>
      cases hout' : openglStage env filePath k v d sc w' with
      | mk r1' w1' =>
        rw [hout, hout'] at hsim
        rw [hout] at hs
        rw [hout'] at hs'
        dsimp only at hsim hs hs'
        obtain ⟨hr, hf1⟩ := hsim
        subst hr
        cases r1' with
        | error e => exact ⟨rfl, hf1⟩
        | ok d1 =>
          obtain ⟨d1, sc1⟩ := d1
          dsimp only
          apply ih d1 sc1 w1 w1' hnodup.2 _ hf1
          · intro p hp
            rw [hs.1, hs'.1]
            exact hwr p hp
          · intro k' hk' ext hx
            have hne : k ≠ k' := fun h => hnodup.1 (h ▸ hk')
            have hmem : k' ∈ StageMap.keys ((k, v) :: rest) := by
              simp only [StageMap.keys, List.map_cons, List.mem_cons]
              exact Or.inr hk'
            have hp := openglPath_ne env filePath hx hne
            rw [hs.2.1 _ hp, hs'.2.1 _ hp]
            exact hk k' hmem ext hx

/-- The loop body of the target compile on another stage adds no event of the cache protocol
of a stage. -/
theorem openglStage_added_other (env : Env) (filePath : Str) {stage k : GLenum}
    (spirv : Words) (shaderData : StageMap Words) (sourceCode : StageMap Str) (w : World)
    {extension : Str} {kind : ShaderKind}
    (hext : GLShaderStageCachedOpenGLFileExtension stage = .ok extension)
    (hkind : GLShaderStageToShaderC stage = .ok kind) (hne : k ≠ stage) :
    ∃ added, (openglStage env filePath k spirv shaderData sourceCode w).2.log
        = w.log ++ added ∧
      ∀ ev ∈ added, ¬ ev.ofStage kind (cachePath env filePath extension) := by
  unfold openglStage
  cases hk : GLShaderStageCachedOpenGLFileExtension k with
  | error e => exact ⟨[], by simp, by simp⟩
  | ok ext' =>
    have hpath : cachePath env filePath ext' ≠ cachePath env filePath extension := by
      intro h
      have := cachePath_injective env filePath h
      subst this
      exact hne (openglExtension_injective hk hext)
    dsimp only
    cases hf : w.files (cachePath env filePath ext') with
    | some bytes =>
      dsimp only
      split <;>
        exact ⟨[.openRead (cachePath env filePath ext') true], rfl, by
          simp [Event.ofStage_openRead, hpath]⟩
    | none =>
      dsimp only
      cases hkk : GLShaderStageToShaderC k with
      | error e =>
        exact ⟨[.openRead (cachePath env filePath ext') false, .crossCompile spirv],
          by simp [World.record], by
            simp [Event.ofStage_openRead, Event.not_ofStage_crossCompile, hpath]⟩
      | ok kind' =>
        have hkind' : kind' ≠ kind := by
          intro h
          subst h
          exact hne (shaderKind_injective hkk hkind)
        dsimp only
        cases hc : env.compileGlslToSpv (env.crossCompile spirv) kind' filePath none with
        | error msg =>
          exact ⟨[.openRead (cachePath env filePath ext') false, .crossCompile spirv,
            .compileGlslToSpv (env.crossCompile spirv) kind' filePath none],
            by simp [World.record], by
              simp [Event.ofStage_openRead, Event.ofStage_compileGlslToSpv,
                Event.not_ofStage_crossCompile, hpath, hkind']⟩
        | ok module =>
          refine ⟨[.openRead (cachePath env filePath ext') false, .crossCompile spirv,
            .compileGlslToSpv (env.crossCompile spirv) kind' filePath none,
            .openWrite (cachePath env filePath ext') (w.writable (cachePath env filePath ext'))],
            ?_, by
              simp [Event.ofStage_openRead, Event.ofStage_compileGlslToSpv,
                Event.ofStage_openWrite, Event.not_ofStage_crossCompile, hpath, hkind']⟩
          dsimp only
          rw [World.write_log]
          simp [World.record]

theorem openglStages_added_others (env : Env) (filePath : Str) {stage : GLenum}
    {extension : Str} {kind : ShaderKind}
    (hext : GLShaderStageCachedOpenGLFileExtension stage = .ok extension)
    (hkind : GLShaderStageToShaderC stage = .ok kind) :
    ∀ (rest : StageMap Words) (shaderData : StageMap Words) (sourceCode : StageMap Str)
      (w : World), stage ∉ rest.keys →
      ∃ added, (openglStages env filePath rest shaderData sourceCode w).2.log
          = w.log ++ added ∧
        ∀ ev ∈ added, ¬ ev.ofStage kind (cachePath env filePath extension) := by
  intro rest
  induction rest with
  | nil => intro d sc w _; exact ⟨[], by simp [openglStages], by simp⟩
  | cons a rest ih =>
    intro d sc w hnot
    obtain ⟨k, v⟩ := a
    simp only [StageMap.keys, List.map_cons, List.mem_cons, not_or] at hnot
    have hne : k ≠ stage := fun h => hnot.1 h.symm
    obtain ⟨a1, h1, hn1⟩ := openglStage_added_other env filePath v d sc w hext hkind hne
    unfold openglStages
    cases hout : openglStage env filePath k v d sc w with
    | mk r1 w1 =>
      rw [hout] at h1
      cases r1 with
      | error e => exact ⟨a1, h1, hn1⟩
      | ok d1 =>
        obtain ⟨d1, sc1⟩ := d1
        dsimp only
        obtain ⟨a2, h2, hn2⟩ := ih d1 sc1 w1 hnot.2
        refine ⟨a1 ++ a2, ?_, ?_⟩
        · rw [h2]
          dsimp only at h1
          rw [h1, List.append_assoc]
        · intro ev hev
          rcases List.mem_append.1 hev with h | h
          · exact hn1 ev h
          · exact hn2 ev h

/-- The calls of the loop of the target compile for a stage whose cache file does not open
and whose translated source compiles, in a run that returns: the failed opening of the file,
the call of the cross compiler, the call of the compiler, the opening of the file for
writing, and nothing else. -/
theorem openglStages_added_miss (env : Env) (filePath : Str) {stage : GLenum}
    {extension : Str} {kind : ShaderKind} {spirv : Words} {module : Words}
    (hext : GLShaderStageCachedOpenGLFileExtension stage = .ok extension)
    (hkind : GLShaderStageToShaderC stage = .ok kind)
    (hcompile : env.compileGlslToSpv (env.crossCompile spirv) kind filePath none
      = .ok module) :
    ∀ (m : StageMap Words) (shaderData : StageMap Words) (sourceCode : StageMap Str)
      (w : World), m.keys.Nodup → (stage, spirv) ∈ m →
      w.files (cachePath env filePath extension) = none →
      ∀ r w', openglStages env filePath m shaderData sourceCode w = (.ok r, w') →
        ∃ before after,
          w'.log = w.log ++ before
            ++ [Event.openRead (cachePath env filePath extension) false,
                Event.crossCompile spirv,
                Event.compileGlslToSpv (env.crossCompile spirv) kind filePath none,
                Event.openWrite (cachePath env filePath extension)
                  (w.writable (cachePath env filePath extension))] ++ after ∧
          ∀ ev ∈ before ++ after, ¬ ev.ofStage kind (cachePath env filePath extension) := by
  intro m
  induction m with
  | nil =>
    intro d sc w _ hmem
    simp at hmem
  | cons a rest ih =>
    intro d sc w hnodup hmem hempty r w' hrun
    obtain ⟨k, v⟩ := a
    simp only [StageMap.keys, List.map_cons, List.nodup_cons] at hnodup
    unfold openglStages at hrun
    by_cases hk : k = stage
    · subst hk
      have hv : spirv = v := StageMap.eq_of_mem_of_nodup hnodup.1 hmem
      subst hv
      rw [openglStage_miss env filePath k spirv d sc w hext hkind hempty hcompile] at hrun
      dsimp only at hrun
      obtain ⟨a2, h2, hn2⟩ := openglStages_added_others env filePath hext hkind rest
        (StageMap.assign k module d) (StageMap.assign k (env.crossCompile spirv) sc)
        ((((w.record (.openRead (cachePath env filePath extension) false)).record
            (.crossCompile spirv)).record
            (.compileGlslToSpv (env.crossCompile spirv) kind filePath none)).write
              (cachePath env filePath extension) (bytesOfWords module)) hnodup.1
      rw [hrun] at h2
      refine ⟨[], a2, ?_, by simpa using hn2⟩
      rw [h2, World.write_log]
      simp [World.record]
    · have hin : (stage, spirv) ∈ rest := by
        rcases List.mem_cons.1 hmem with h | h
        · exact absurd (Prod.mk.inj h).1.symm hk
        · exact h
      have hfr := openglStage_frame env filePath k v d sc w
      obtain ⟨a1, h1, hn1⟩ := openglStage_added_other env filePath v d sc w hext hkind hk
      cases hout : openglStage env filePath k v d sc w with
      | mk r1 w1 =>
        rw [hout] at hrun h1 hfr
        cases r1 with
        | error e =>
          dsimp only at hrun
          cases hrun
        | ok d1 =>
          obtain ⟨d1, sc1⟩ := d1
          dsimp only at hrun h1 hfr
          have hpath := hfr.2.1 _ (openglPath_ne env filePath hext hk)
          obtain ⟨b, a2, h2, hn2⟩ := ih d1 sc1 w1 hnodup.2 hin (hpath.trans hempty) r w' hrun
          refine ⟨a1 ++ b, a2, ?_, ?_⟩
          · rw [h2, h1, hfr.1]
            simp only [List.append_assoc]
          · intro ev hev
            simp only [List.mem_append] at hev
            rcases hev with (h | h) | h
            · exact hn1 ev h
            · exact hn2 ev (List.mem_append.2 (Or.inl h))
            · exact hn2 ev (List.mem_append.2 (Or.inr h))

/-! ## Main results -/

/-- C2. On every source text with a vertex marker and a fragment marker on which
`PreProcess` succeeds, the result has exactly two entries, keyed vertex and fragment; the
two bodies are the characters of two disjoint ranges `[a, b)` and `[c, d)` of the source,
and neither body contains the marker token. -/
theorem PreProcess_vertex_and_fragment (s : Str) (hlen : s.length < sizeMod)
    (m : StageMap Str) (h : PreProcess s = .ok m) (pv pf : Nat)
    (hv : Declares s GL_VERTEX_SHADER pv) (hf : Declares s GL_FRAGMENT_SHADER pf) :
    m.length = 2 ∧ (∀ k, k ∈ m.keys ↔ k = GL_VERTEX_SHADER ∨ k = GL_FRAGMENT_SHADER) ∧
      ∃ a b c d, m.lookup GL_VERTEX_SHADER = some (slice s a b) ∧
        m.lookup GL_FRAGMENT_SHADER = some (slice s c d) ∧
        a ≤ b ∧ b ≤ s.length ∧ c ≤ d ∧ d ≤ s.length ∧ (b ≤ c ∨ d ≤ a) ∧
        ¬ typeToken <:+: slice s a b ∧ ¬ typeToken <:+: slice s c d := by
  have hinv := PreProcess_ok_inv hlen h
  have hkv := hinv.mem_of_declares hv
  have hkf := hinv.mem_of_declares hf
  have hkeys : ∀ k, k ∈ m.keys ↔ k = GL_VERTEX_SHADER ∨ k = GL_FRAGMENT_SHADER := by
    intro k
    constructor
    · exact hinv.stage_of_mem
    · rintro (rfl | rfl)
      · exact hkv
      · exact hkf
  have hperm : m.keys.Perm [GL_VERTEX_SHADER, GL_FRAGMENT_SHADER] :=
    (List.perm_ext_iff_of_nodup hinv.nodup (by decide)).mpr (by
      intro k; rw [hkeys k]; simp)
  have hlen2 : m.length = 2 := by
    have := hperm.length_eq
    simpa [StageMap.keys] using this
  obtain ⟨vbody, hvb⟩ := (StageMap.mem_keys_iff _ m).mp hkv
  obtain ⟨fbody, hfb⟩ := (StageMap.mem_keys_iff _ m).mp hkf
  obtain ⟨p1, eol1, a, b, hb1, hbd1, _, _⟩ := hinv.entries _ _ hvb
  obtain ⟨p2, eol2, c, d, hb2, hbd2, _, _⟩ := hinv.entries _ _ hfb
  subst hbd1 hbd2
  refine ⟨hlen2, hkeys, a, b, c, d, hvb, hfb, hb1.end_le_length.1, hb1.end_le_length.2,
    hb2.end_le_length.1, hb2.end_le_length.2, ?_, hb1.bodyEnd.no_token, hb2.bodyEnd.no_token⟩
  rcases Nat.lt_trichotomy p1 p2 with hlt | heq | hlt
  · have := hb1.next_le hlen hb2.declares.1 hlt
    have := hb2.lt_bodyStart
    left; omega
  · subst heq
    have := (hb1.declares.stage_unique hb2.declares).1
    exact absurd this (by decide)
  · have := hb2.next_le hlen hb1.declares.1 hlt
    have := hb1.lt_bodyStart
    right; omega

/-- An instance of C2: a source text with a `vertex` and a `pixel` marker. -/
theorem PreProcess_vertex_and_fragment_witness :
    PreProcess twoStageSource
        = .ok [(GL_VERTEX_SHADER, "V #\n\r\n".toList), (GL_FRAGMENT_SHADER, "F\n".toList)] ∧
      ([(GL_VERTEX_SHADER, "V #\n\r\n".toList),
          (GL_FRAGMENT_SHADER, "F\n".toList)] : StageMap Str).length = 2 :=
  ⟨rfl, (PreProcess_vertex_and_fragment twoStageSource (by decide) _ rfl 0 19
    ⟨12, by decide, find_first_of_some (p := 0) rfl, _, rfl, rfl⟩
    ⟨30, by decide, find_first_of_some (p := 19) rfl, _, rfl, rfl⟩).1⟩

/-- What the constructor from a file does when the text that `PreProcess` takes as the stage
name of a marker is not one of `vertex`, `fragment`, `pixel`, once the cache directory is
there: it fails with the configuration error that `PreProcess` raises (the assertion
"Unknown shader type!"), and it leaves the world as reading the file left it: apart from
creating the cache directory and opening the source file no call left the repository (no
compiler, translator or linker call), no file changed and no driver object was created. -/
theorem fromFile_unknown_stage_fails (env : Env) (w w1 : World) (filepath source : Str)
    (hdir : CreateCacheDirectoryIfNeeded w = (.ok (), w1))
    (hsrc : (ReadFile filepath w1).1 = source)
    (hlen : source.length < sizeMod) (q eol : Nat) (type : Str)
    (hq : MarkerAt source q) (hl : LineEnd source q eol)
    (hn : stageName source q eol = .ok type)
    (h1 : type ≠ "vertex".toList) (h2 : type ≠ "fragment".toList)
    (h3 : type ≠ "pixel".toList) :
    PreProcess source = .error .unknownShaderType ∧
      (OpenGLShader.fromFile env filepath w).1 = .error .unknownShaderType ∧
      (OpenGLShader.fromFile env filepath w).2 = (ReadFile filepath w1).2 ∧
      (∀ ev ∈ (OpenGLShader.fromFile env filepath w).2.log,
        ev ∈ w.log ∨ ev = .createDirectories GetCacheDirectory ∨
          ∃ opened, ev = .openRead filepath opened) ∧
      (OpenGLShader.fromFile env filepath w).2.files = w.files ∧
      (OpenGLShader.fromFile env filepath w).2.programs = w.programs ∧
      (OpenGLShader.fromFile env filepath w).2.shaders = w.shaders := by
  have hpre : PreProcess source = .error .unknownShaderType := by
    apply PreProcess_unknown_stage hlen hq hl hn
    unfold ShaderTypeFromString
    rw [if_neg h1, if_neg (by rintro (h | h); exact h2 h; exact h3 h)]
  have hrun : OpenGLShader.fromFile env filepath w
      = (.error .unknownShaderType, (ReadFile filepath w1).2) := by
    unfold OpenGLShader.fromFile
    simp only [hdir, hsrc, hpre]
  rw [hrun]
  have hw1 : w1 = w ∨ w1 = { w.record (.createDirectories GetCacheDirectory) with
      directories := GetCacheDirectory :: w.directories } := by
    unfold CreateCacheDirectoryIfNeeded at hdir
    split at hdir
    · simp only [Prod.mk.injEq, true_and] at hdir
      exact Or.inl hdir.symm
    · dsimp only at hdir
      split at hdir
      · simp only [Prod.mk.injEq, true_and] at hdir
        exact Or.inr hdir.symm
      · cases hdir
  refine ⟨hpre, rfl, rfl, ?_, ?_, ?_, ?_⟩
  · intro ev hev
    unfold ReadFile at hev
    rcases hw1 with rfl | rfl <;> split at hev <;>
      simp only [World.record, List.mem_append, List.mem_singleton] at hev
    · rcases hev with hev | hev
      · exact Or.inl hev
      · exact Or.inr (Or.inr ⟨true, hev⟩)
    · rcases hev with hev | hev
      · exact Or.inl hev
      · exact Or.inr (Or.inr ⟨false, hev⟩)
    · rcases hev with (hev | hev) | hev
      · exact Or.inl hev
      · exact Or.inr (Or.inl hev)
      · exact Or.inr (Or.inr ⟨true, hev⟩)
    · rcases hev with (hev | hev) | hev
      · exact Or.inl hev
      · exact Or.inr (Or.inl hev)
      · exact Or.inr (Or.inr ⟨false, hev⟩)
  · unfold ReadFile
    rcases hw1 with rfl | rfl <;> split <;> rfl
  · unfold ReadFile
    rcases hw1 with rfl | rfl <;> split <;> rfl
  · unfold ReadFile
    rcases hw1 with rfl | rfl <;> split <;> rfl

/-- A shader file whose second marker reads `#type bogus`. -/
theorem fromFile_unknown_stage_fails_example :
    (OpenGLShader.fromFile demoEnv demoPath (demoWorld bogusStageSource)).1
        = .error .unknownShaderType ∧
      (OpenGLShader.fromFile demoEnv demoPath (demoWorld bogusStageSource)).2.log
        = [.createDirectories GetCacheDirectory, .openRead demoPath true] :=
  ⟨(fromFile_unknown_stage_fails demoEnv (demoWorld bogusStageSource) _ demoPath
      bogusStageSource rfl rfl (by decide) 15 26 "bogus".toList (by decide)
      (find_first_of_some (p := 15) rfl) rfl (by decide) (by decide) (by decide)).2.1, rfl⟩

/-- The constructor from a file ends with the error of `std::filesystem` when the cache
directory is missing and cannot be created; the source file is not opened. -/
theorem fromFile_without_cache_directory (env : Env) (filepath : Str) (w : World)
    (hmissing : GetCacheDirectory ∉ w.directories)
    (hcreate : w.canCreate GetCacheDirectory = false) :
    OpenGLShader.fromFile env filepath w
      = (.error .filesystemError, w.record (.createDirectories GetCacheDirectory)) := by
  unfold OpenGLShader.fromFile CreateCacheDirectoryIfNeeded
  simp [hmissing, hcreate]

/-- C3. The code departs from the claim on the source text `namelessMarkerSource`, a file
that reads `#type`, a line feed and `vertex`.  The declaration line of its only marker ends
right after the token, at position 5, so the marker names no stage, let alone one of
`vertex`, `fragment`, `pixel`.  But `PreProcess` starts the name at `begin = 6`, past the
end of the line, the unsigned length `eol - begin` wraps around, and `substr` takes the
next line, `vertex`, as the name.  `PreProcess` therefore does not fail: it returns a vertex
stage whose body is `vertex`, and the constructor from a file goes on, calls the compiler on
that body, writes the cache file and links a program. -/
theorem fromFile_nameless_marker_compiles :
    find_first_of namelessMarkerSource lineTerminators 0 = some 5 ∧
      stageName namelessMarkerSource 0 5 = .ok "vertex".toList ∧
      PreProcess namelessMarkerSource = .ok [(GL_VERTEX_SHADER, "vertex".toList)] ∧
      (OpenGLShader.fromFile demoEnv demoPath (demoWorld namelessMarkerSource)).1.map
          (fun self => (self.m_RendererID, self.m_VulkanSPIRV))
        = .ok (some 2, [(GL_VERTEX_SHADER, [118, 101, 114, 116, 101, 120])]) ∧
      (OpenGLShader.fromFile demoEnv demoPath (demoWorld namelessMarkerSource)).2.log.take 6
        = [.createDirectories GetCacheDirectory, .openRead demoPath true, .glCreateProgram 1,
            .openRead (cachePath demoEnv demoPath ".cached_vulkan.vert".toList) false,
            .compileGlslToSpv "vertex".toList .glsl_vertex_shader demoPath
              (some vulkanOptions),
            .openWrite (cachePath demoEnv demoPath ".cached_vulkan.vert".toList) true] ∧
      Event.glLinkProgram 2
        ∈ (OpenGLShader.fromFile demoEnv demoPath (demoWorld namelessMarkerSource)).2.log :=
  ⟨rfl, rfl, rfl, rfl, rfl, by decide⟩

/-- C4, as stated, fails: the marker at position 12 of `unterminatedSource` has no line
terminator after it, and `PreProcess` stops with the assertion "Unknown shader type!", not
with the syntax error. -/
theorem PreProcess_unterminated_not_always_syntaxError :
    MarkerAt unterminatedSource 12 ∧
      (∀ c ∈ unterminatedSource.drop 12, ¬ IsLineTerminator c) ∧
      PreProcess unterminatedSource = .error .unknownShaderType ∧
      PreProcess unterminatedSource ≠ .error .syntaxError :=
  ⟨by decide, by decide, rfl, by intro h; cases h⟩

/-- C4, amended. On every source text in which a marker has no line terminator anywhere
after it, `PreProcess` fails and returns no map: with the syntax error, unless an earlier
marker names an unrecognised stage, in which case it fails with the unknown-shader-type
error. -/
theorem PreProcess_unterminated_marker (s : Str) (hlen : s.length < sizeMod) (q : Nat)
    (hq : MarkerAt s q)
    (hno : ∀ (j : Nat) (c : Char), q ≤ j → s[j]? = some c → ¬ IsLineTerminator c) :
    PreProcess s = .error .syntaxError ∨
      (PreProcess s = .error .unknownShaderType ∧
        ∃ p eol type, p < q ∧ MarkerAt s p ∧ LineEnd s p eol ∧
          stageName s p eol = .ok type ∧
          ShaderTypeFromString type = .error .unknownShaderType) := by
  have hbad : ∀ k eol nl e, ¬ Block s k q eol nl e := by
    intro k eol nl e hb
    obtain ⟨h1, ⟨c, hc, hcl⟩, _⟩ := hb.declares.2.1
    exact hno eol c h1 hc hcl
  obtain ⟨e, p, he, hp, hf⟩ := PreProcess_fails_of_bad_marker hlen hq hbad
  rcases hf with ⟨rfl, _⟩ | ⟨rfl, eol, type, hl, hn, hs⟩ | ⟨rfl, _⟩
  · exact Or.inl he
  · refine Or.inr ⟨he, p, eol, type, ?_, hp, hl, hn, hs⟩
    obtain ⟨h1, ⟨c, hc, hcl⟩, _⟩ := hl
    by_contra hlt
    exact hno eol c (by omega) hc hcl
  · exact Or.inl he

/-- An instance of C4, amended: a lone marker without line terminator. -/
theorem PreProcess_unterminated_marker_witness :
    PreProcess unterminatedSource' = .error .syntaxError ∨
      (PreProcess unterminatedSource' = .error .unknownShaderType ∧
        ∃ p eol type, p < 0 ∧ MarkerAt unterminatedSource' p ∧
          LineEnd unterminatedSource' p eol ∧
          stageName unterminatedSource' p eol = .ok type ∧
          ShaderTypeFromString type = .error .unknownShaderType) :=
  PreProcess_unterminated_marker unterminatedSource' (by decide) 0 (by decide)
    (find_first_of_none (p := 0) rfl)

/-- C5, as stated, fails: the declaration line of the recognised marker of
`emptyLastBodySource` is followed by nothing but a line terminator up to the end of the
input, and `PreProcess` stops with the syntax error. -/
theorem PreProcess_empty_last_body_fails :
    Declares emptyLastBodySource GL_VERTEX_SHADER 0 ∧
      (∀ c ∈ emptyLastBodySource.drop 12, IsLineTerminator c) ∧
      PreProcess emptyLastBodySource = .error .syntaxError :=
  ⟨⟨12, by decide, find_first_of_some (p := 0) rfl, _, rfl, rfl⟩, by decide, rfl⟩

/-- C5, amended. A marker whose body region is empty because the next marker follows is
legal: on every source text all of whose markers open a block (each is terminated, names a
recognised stage and is followed by some character that is no line terminator),
`PreProcess` succeeds, and a stage whose last declaration line is followed by nothing but
line terminators up to the next marker is mapped to the empty string.  A recognised marker
whose declaration line is followed by nothing but line terminators up to the end of the
input makes `PreProcess` fail: with the syntax error, unless an earlier marker names an
unrecognised stage. -/
theorem PreProcess_empty_body (s : Str) (hlen : s.length < sizeMod) :
    ((∀ q, MarkerAt s q → ∃ k eol nl e, Block s k q eol nl e) →
      ∃ m, PreProcess s = .ok m ∧
        ∀ k p eol nl, DeclaresAt s k p eol → BodyStart s eol nl → MarkerAt s nl →
          (∀ p', p < p' → ¬ Declares s k p') → m.lookup k = some []) ∧
    (∀ k p eol, DeclaresAt s k p eol →
      (∀ (j : Nat) (c : Char), eol ≤ j → s[j]? = some c → IsLineTerminator c) →
      PreProcess s = .error .syntaxError ∨
        (PreProcess s = .error .unknownShaderType ∧
          ∃ p' eol' type, p' < p ∧ MarkerAt s p' ∧ LineEnd s p' eol' ∧
            stageName s p' eol' = .ok type ∧
            ShaderTypeFromString type = .error .unknownShaderType)) := by
  constructor
  · intro hall
    obtain ⟨m, hm⟩ := PreProcess_ok_of_blocks hall
    refine ⟨m, hm, ?_⟩
    intro k p eol nl hd hbs hnext hlast
    have hb : Block s k p eol nl nl :=
      ⟨hd, hbs, le_refl _, fun q h1 h2 => by omega, Or.inl hnext⟩
    have := (PreProcess_ok_inv hlen hm).lookup_of_last hb hlast
    simpa [slice] using this
  · intro k p eol hd hterm
    have hbad : ∀ k' eol' nl e, ¬ Block s k' p eol' nl e := by
      intro k' eol' nl e hb
      have he := (hd.stage_unique hb.declares).2
      subst he
      obtain ⟨h1, ⟨c, hc, hcl⟩, _⟩ := hb.bodyStart
      exact hcl (hterm nl c h1 hc)
    obtain ⟨e, p', he, hp', hf⟩ := PreProcess_fails_of_bad_marker hlen hd.1 hbad
    rcases hf with ⟨rfl, _⟩ | ⟨rfl, eol', type, hl, hn, hs⟩ | ⟨rfl, _⟩
    · exact Or.inl he
    · refine Or.inr ⟨he, p', eol', type, ?_, hp', hl, hn, hs⟩
      rcases Nat.lt_trichotomy p' p with h | h | h
      · exact h
      · subst h
        have he' := hl.eol_unique hd.2.1
        subst he'
        obtain ⟨_, _, type', hn', hs'⟩ := hd
        rw [hn] at hn'
        cases hn'
        rw [hs] at hs'
        cases hs'
      · by_cases hpe : eol ≤ p'
        · exact absurd (hterm p' '#' hpe hp'.hash) (by decide)
        · exact absurd hp' (no_marker_in_line hlen hd p' h (by omega))
    · exact Or.inl he

/-- An instance of C5, amended: the vertex stage of `emptyBodySource` has an empty body. -/
theorem PreProcess_empty_body_witness :
    ∃ m, PreProcess emptyBodySource = .ok m ∧ m.lookup GL_VERTEX_SHADER = some [] := by
  have hlen : emptyBodySource.length < sizeMod := by decide
  have hok : PreProcess emptyBodySource
      = .ok [(GL_VERTEX_SHADER, []), (GL_FRAGMENT_SHADER, "F".toList)] := rfl
  obtain ⟨m, hm, hempty⟩ := (PreProcess_empty_body emptyBodySource hlen).1 (fun q hq => by
    obtain ⟨k, eol, nl, e, hb, _⟩ :=
      (PreProcess_ok_inv hlen hok).complete q (by intro x hx; cases hx) hq
    exact ⟨k, eol, nl, e, hb⟩)
  refine ⟨m, hm, hempty GL_VERTEX_SHADER 0 12 15
    ⟨by decide, find_first_of_some (p := 0) rfl, _, rfl, rfl⟩
    (@find_first_not_of_some emptyBodySource 12 15 rfl) (by decide) ?_⟩
  intro p' hp' hdec
  obtain ⟨eol', hd⟩ := hdec
  have h15 : p' = 15 := by
    have h1 := hd.1.add_le_length
    have h2 : emptyBodySource.length = 31 := rfl
    have h3 : ∀ q, q < 27 → 0 < q → q ≠ 15 → ¬ MarkerAt emptyBodySource q := by decide
    by_contra hne
    exact h3 p' (by omega) hp' hne hd.1
  subst h15
  have he : eol' = 29 := hd.2.1.eol_unique (find_first_of_some (p := 15) rfl)
  subst he
  obtain ⟨_, _, type, hn, hs⟩ := hd
  have hn' : stageName emptyBodySource 15 29 = .ok "fragment".toList := rfl
  rw [hn'] at hn
  cases hn
  have hs' : ShaderTypeFromString "fragment".toList = .ok GL_FRAGMENT_SHADER := rfl
  rw [hs'] at hs
  cases hs

/-- C6. The code departs from the claim on `midLineSource`: the marker token at position 17
is preceded by `foo ` on its line, and yet it opens the fragment block and ends the vertex
body.  `PreProcess` looks for the token with `find` and never tests whether the position it
gets is the start of a line, although its comments call that position the start of the
shader type declaration line. -/
theorem PreProcess_midline_marker_opens_block :
    MarkerAt midLineSource 17 ∧ slice midLineSource 13 17 = "foo ".toList ∧
      PreProcess midLineSource
        = .ok [(GL_VERTEX_SHADER, "foo ".toList), (GL_FRAGMENT_SHADER, "bar".toList)] :=
  ⟨by decide, rfl, rfl⟩

/-- What `PreProcess` does with the marker token: it treats every occurrence as a stage
marker, wherever it stands on its line.  On every source text on which `PreProcess`
succeeds, every occurrence of the token opens a stage block whose stage has an entry in
the result, and no stage body contains the token. -/
theorem PreProcess_every_occurrence_is_marker (s : Str) (hlen : s.length < sizeMod)
    (m : StageMap Str) (h : PreProcess s = .ok m) :
    (∀ q, MarkerAt s q → ∃ k eol nl e, Block s k q eol nl e ∧ k ∈ m.keys) ∧
      (∀ k body, m.lookup k = some body → ¬ typeToken <:+: body) := by
  have hinv := PreProcess_ok_inv hlen h
  refine ⟨fun q hq => hinv.complete q (by intro x hx; cases hx) hq, ?_⟩
  intro k body hk
  obtain ⟨p, eol, nl, e, hb, hbd, _⟩ := hinv.entries k body hk
  rw [hbd]
  exact hb.bodyEnd.no_token

/-- The marker in the middle of a line of `midLineSource` opens a block. -/
theorem PreProcess_every_occurrence_is_marker_example :
    ∃ k eol nl e, Block midLineSource k 17 eol nl e ∧
      k ∈ StageMap.keys [(GL_VERTEX_SHADER, "foo ".toList),
        (GL_FRAGMENT_SHADER, "bar".toList)] :=
  (PreProcess_every_occurrence_is_marker midLineSource (by decide) _ rfl).1 17 (by decide)

/-- C7. `ShaderTypeFromString` returns the vertex stage exactly for `vertex` and the
fragment stage exactly for `fragment` and `pixel`, and fails for every other string;
consequently, on every source text, replacing a declaration line `#type pixel` by
`#type fragment` does not change what `PreProcess` returns. -/
theorem ShaderTypeFromString_pixel_is_fragment :
    (∀ type : Str,
      (ShaderTypeFromString type = .ok GL_VERTEX_SHADER ↔ type = "vertex".toList) ∧
      (ShaderTypeFromString type = .ok GL_FRAGMENT_SHADER ↔
        (type = "fragment".toList ∨ type = "pixel".toList)) ∧
      (type ≠ "vertex".toList → type ≠ "fragment".toList → type ≠ "pixel".toList →
        ShaderTypeFromString type = .error .unknownShaderType)) ∧
    (∀ a b : Str, (a ++ fragmentLine ++ b).length < sizeMod →
      PreProcess (a ++ pixelLine ++ b) = PreProcess (a ++ fragmentLine ++ b)) := by
  refine ⟨fun type => ⟨⟨fun h => ?_, fun h => ?_⟩, ⟨fun h => ?_, fun h => ?_⟩, fun h1 h2 h3 => ?_⟩,
    PreProcess_pixel_eq_fragment⟩
  · rcases ShaderTypeFromString_ok h with ⟨ht, _⟩ | ⟨_, hk⟩
    · exact ht
    · exact absurd hk (by decide)
  · rw [h]; rfl
  · rcases ShaderTypeFromString_ok h with ⟨_, hk⟩ | ⟨ht, _⟩
    · exact absurd hk (by decide)
    · exact ht
  · rcases h with h | h <;> rw [h] <;> rfl
  · unfold ShaderTypeFromString
    rw [if_neg h1, if_neg (by rintro (h | h); exact h2 h; exact h3 h)]

/-- An instance of C7: a two-stage source text whose fragment stage is declared as `pixel`. -/
theorem ShaderTypeFromString_pixel_is_fragment_witness :
    PreProcess ("#type vertex\nV\n".toList ++ pixelLine ++ "\nF\n".toList)
        = PreProcess ("#type vertex\nV\n".toList ++ fragmentLine ++ "\nF\n".toList) ∧
      PreProcess ("#type vertex\nV\n".toList ++ fragmentLine ++ "\nF\n".toList)
        = .ok [(GL_VERTEX_SHADER, "V\n".toList), (GL_FRAGMENT_SHADER, "F\n".toList)] :=
  ⟨ShaderTypeFromString_pixel_is_fragment.2 _ _ (by decide), rfl⟩

/-- C8. For every file path, the constructor from a file sets the program name to the base
name of the path, stripped of directory and extension: with the path split into a directory
part `dir` (empty, or ending in `/` or `\`) and a final component without `/` and `\`, the
name is the final component cut before its last dot, and the whole final component when it
has no dot (also when a directory has one, where `lastDot - lastSlash` wraps modulo
`2 ^ 64`). -/
theorem fromFile_name_is_base_name (env : Env) (w : World) (filepath : Str)
    (hlen : filepath.length < sizeMod) (dir : Str)
    (hdir : dir = [] ∨ ∃ d c, dir = d ++ [c] ∧ (c = '/' ∨ c = '\\')) :
    (∀ stem ext, filepath = dir ++ stem ++ '.' :: ext →
      (∀ c ∈ stem ++ '.' :: ext, c ≠ '/' ∧ c ≠ '\\') → '.' ∉ ext →
      extractName filepath = .ok stem ∧
        ∀ self w', OpenGLShader.fromFile env filepath w = (.ok self, w') →
          self.m_Name = stem) ∧
    (∀ comp, filepath = dir ++ comp → (∀ c ∈ comp, c ≠ '/' ∧ c ≠ '\\') → '.' ∉ comp →
      extractName filepath = .ok comp ∧
        ∀ self w', OpenGLShader.fromFile env filepath w = (.ok self, w') →
          self.m_Name = comp) := by
  constructor
  · intro stem ext hp hcomp hext
    subst hp
    have hname := extractName_stem dir stem ext hlen hcomp hext hdir
    refine ⟨hname, fun self w' h => ?_⟩
    have := fromFile_name_eq h
    rw [hname] at this
    cases this
    rfl
  · intro comp hp hcomp hdot
    subst hp
    have hname := extractName_whole dir comp hlen hcomp hdot hdir
    refine ⟨hname, fun self w' h => ?_⟩
    have := fromFile_name_eq h
    rw [hname] at this
    cases this
    rfl

/-- The example of C8: the path `assets/shaders/Texture.glsl` gives the name `Texture`, in a
run of the constructor that returns. -/
theorem fromFile_name_is_base_name_witness :
    (extractName demoPath = .ok "Texture".toList ∧
      ∀ self w', OpenGLShader.fromFile demoEnv demoPath (demoWorld exampleSource)
        = (.ok self, w') → self.m_Name = "Texture".toList) ∧
    (OpenGLShader.fromFile demoEnv demoPath (demoWorld exampleSource)).1.map
        (fun self => self.m_Name) = .ok "Texture".toList ∧
    extractName "a.b/c".toList = .ok "c".toList :=
  ⟨(fromFile_name_is_base_name demoEnv (demoWorld exampleSource) demoPath (by decide)
      "assets/shaders/".toList (Or.inr ⟨"assets/shaders".toList, '/', rfl, Or.inl rfl⟩)).1
      "Texture".toList "glsl".toList rfl (by decide) (by decide),
    rfl, rfl⟩

/-- C9. For every source file path, the cache file a stage opens is the cache directory
`assets/cache/shader/opengl` joined with the final component of the path followed by
`.cached_vulkan.vert` / `.cached_vulkan.frag` (intermediate binaries), `.cached_opengl.vert`
/ `.cached_opengl.frag` (target binaries), and the program cache of the vendor-fallback path
is the same with `.cached_opengl.pgr`; the five cache paths of one source file are pairwise
distinct. -/
theorem cache_paths_of_source_file (env : Env) (filePath : Str) :
    (∀ extension, cachePath env filePath extension
      = "assets/cache/shader/opengl".toList
        ++ env.preferredSeparator :: (filename env filePath ++ extension)) ∧
    (∀ dir comp, filePath = dir ++ comp → (∀ c ∈ comp, env.isSeparator c = false) →
      (dir = [] ∨ ∃ d c, dir = d ++ [c] ∧ env.isSeparator c = true) →
      filename env filePath = comp) ∧
    (∀ source shaderData w,
      (∃ opened rest, (vulkanStage env filePath GL_VERTEX_SHADER source shaderData w).2.log
        = w.log ++ Event.openRead (cachePath env filePath ".cached_vulkan.vert".toList) opened
          :: rest) ∧
      (∃ opened rest, (vulkanStage env filePath GL_FRAGMENT_SHADER source shaderData w).2.log
        = w.log ++ Event.openRead (cachePath env filePath ".cached_vulkan.frag".toList) opened
          :: rest)) ∧
    (∀ spirv shaderData sourceCode w,
      (∃ opened rest,
        (openglStage env filePath GL_VERTEX_SHADER spirv shaderData sourceCode w).2.log
          = w.log ++ Event.openRead (cachePath env filePath ".cached_opengl.vert".toList)
            opened :: rest) ∧
      (∃ opened rest,
        (openglStage env filePath GL_FRAGMENT_SHADER spirv shaderData sourceCode w).2.log
          = w.log ++ Event.openRead (cachePath env filePath ".cached_opengl.frag".toList)
            opened :: rest)) ∧
    programCachePath env filePath = cachePath env filePath ".cached_opengl.pgr".toList ∧
    [cachePath env filePath ".cached_vulkan.vert".toList,
      cachePath env filePath ".cached_vulkan.frag".toList,
      cachePath env filePath ".cached_opengl.vert".toList,
      cachePath env filePath ".cached_opengl.frag".toList,
      programCachePath env filePath].Nodup := by
  refine ⟨fun _ => rfl, ?_, ?_, ?_, rfl, ?_⟩
  · intro dir comp hp hcomp hdir
    subst hp
    exact filename_split env dir comp hcomp hdir
  · intro source shaderData w
    exact ⟨vulkanStage_log env filePath _ source shaderData w rfl,
      vulkanStage_log env filePath _ source shaderData w rfl⟩
  · intro spirv shaderData sourceCode w
    exact ⟨openglStage_log env filePath _ spirv shaderData sourceCode w rfl,
      openglStage_log env filePath _ spirv shaderData sourceCode w rfl⟩
  · have hne : ∀ e1 e2 : Str, e1 ≠ e2 → cachePath env filePath e1 ≠ cachePath env filePath e2 :=
      fun e1 e2 h heq => h (cachePath_injective env filePath heq)
    unfold programCachePath programCacheExtension
    simp only [List.nodup_cons, List.mem_cons, List.mem_singleton, List.not_mem_nil,
      List.nodup_nil, not_or, and_true, not_false_eq_true]
    refine ⟨⟨?_, ?_, ?_, ?_⟩, ⟨?_, ?_, ?_⟩, ⟨?_, ?_⟩, ?_⟩ <;> exact hne _ _ (by decide)

/-- An instance of C9: the five cache paths of `assets/shaders/Texture.glsl`. -/
theorem cache_paths_of_source_file_witness :
    [cachePath demoEnv demoPath ".cached_vulkan.vert".toList,
      cachePath demoEnv demoPath ".cached_vulkan.frag".toList,
      cachePath demoEnv demoPath ".cached_opengl.vert".toList,
      cachePath demoEnv demoPath ".cached_opengl.frag".toList,
      programCachePath demoEnv demoPath].Nodup ∧
    programCachePath demoEnv demoPath
      = "assets/cache/shader/opengl/Texture.glsl.cached_opengl.pgr".toList :=
  ⟨(cache_paths_of_source_file demoEnv demoPath).2.2.2.2.2, rfl⟩

/-- What `CompileOrGetVulkanBinaries` does for a stage whose intermediate cache file opens
and holds whole words, that is, has a size that is a multiple of four: it does not call the
compiler for that stage, and the binary of the stage is the contents of the file read as
32-bit words, `size / 4` of them, whatever the bytes are.  And whatever the size of the
file, the outcome is the same for any two source texts of that stage. -/
theorem CompileOrGetVulkanBinaries_cache_hit (env : Env) (self : OpenGLShader) (w : World)
    (stage : GLenum) (extension : Str) (kind : ShaderKind) (bytes : Bytes)
    (hext : GLShaderStageCachedVulkanFileExtension stage = .ok extension)
    (hkind : GLShaderStageToShaderC stage = .ok kind)
    (hopen : w.files (cachePath env self.m_FilePath extension) = some bytes) :
    (bytes.length % 4 = 0 →
      ∀ source shaderData w0, w0.files (cachePath env self.m_FilePath extension) = some bytes →
        vulkanStage env self.m_FilePath stage source shaderData w0
          = (.ok (StageMap.assign stage (wordsOfBytes bytes) shaderData),
              w0.record (.openRead (cachePath env self.m_FilePath extension) true))) ∧
    (wordsOfBytes bytes).length = bytes.length / 4 ∧
    (∀ sources self' w', (StageMap.keys sources).Nodup → stage ∈ StageMap.keys sources →
      CompileOrGetVulkanBinaries env self sources w = (.ok self', w') →
      bytes.length % 4 = 0 ∧
        StageMap.lookup stage self'.m_VulkanSPIRV = some (wordsOfBytes bytes) ∧
        ∀ src name o, Event.compileGlslToSpv src kind name o ∈ w'.log →
          Event.compileGlslToSpv src kind name o ∈ w.log) ∧
    (∀ sources src1 src2,
      CompileOrGetVulkanBinaries env self (StageMap.assign stage src1 sources) w
        = CompileOrGetVulkanBinaries env self (StageMap.assign stage src2 sources) w) := by
  refine ⟨fun halign source shaderData w0 h0 =>
      vulkanStage_hit env self.m_FilePath stage source shaderData w0 hext h0 halign,
    wordsOfBytes_length bytes, ?_, ?_⟩
  · intro sources self' w' hnodup hmem hrun
    unfold CompileOrGetVulkanBinaries at hrun
    dsimp only at hrun
    cases hout : vulkanStages env self.m_FilePath sources [] w.glCreateProgram.2 with
    | mk r1 w1 =>
      rw [hout] at hrun
      cases r1 with
      | error e => cases hrun
      | ok d1 =>
        dsimp only at hrun
        simp only [Prod.mk.injEq, Except.ok.injEq] at hrun
        obtain ⟨hself, hw⟩ := hrun
        have hi := vulkanStages_hit env self.m_FilePath hext hkind sources []
          w.glCreateProgram.2 hnodup hmem hopen d1 w1 hout
        have hal := vulkanStages_hit_aligned env self.m_FilePath hext sources []
          w.glCreateProgram.2 hnodup hmem hopen d1 w1 hout
        refine ⟨hal, by rw [← hself]; exact hi.1, ?_⟩
        intro src name o hm
        rw [← hw] at hm
        rcases reflectAll_log d1 w1 _ hm with h1 | ⟨_, _, h1⟩
        · have := hi.2 src name o h1
          simpa [World.glCreateProgram, World.record] using this
        · cases h1
  · intro sources src1 src2
    unfold CompileOrGetVulkanBinaries
    dsimp only
    rw [vulkanStages_source_irrelevant env self.m_FilePath src1 src2 hext hkind sources []
      w.glCreateProgram.2 hopen]

/-- The vertex cache file of `demoWordCacheWorld` holds eight bytes, the vertex binary is
their two words, and the vertex source text does not matter. -/
theorem CompileOrGetVulkanBinaries_cache_hit_example :
    (CompileOrGetVulkanBinaries demoEnv demoShader
        [(GL_VERTEX_SHADER, "V".toList), (GL_FRAGMENT_SHADER, "F".toList)]
        demoWordCacheWorld).1.map (fun self => self.m_VulkanSPIRV)
        = .ok [(GL_VERTEX_SHADER, [1, 258]), (GL_FRAGMENT_SHADER, [70])] ∧
    CompileOrGetVulkanBinaries demoEnv demoShader
        (StageMap.assign GL_VERTEX_SHADER "V".toList [(GL_FRAGMENT_SHADER, "F".toList)])
        demoWordCacheWorld
      = CompileOrGetVulkanBinaries demoEnv demoShader
        (StageMap.assign GL_VERTEX_SHADER "other".toList [(GL_FRAGMENT_SHADER, "F".toList)])
        demoWordCacheWorld :=
  ⟨rfl, (CompileOrGetVulkanBinaries_cache_hit demoEnv demoShader demoWordCacheWorld
    GL_VERTEX_SHADER ".cached_vulkan.vert".toList .glsl_vertex_shader
    [1, 0, 0, 0, 2, 1, 0, 0] rfl rfl rfl).2.2.2 _ _ _⟩

/-- C10. The code departs from the claim on a cache file whose size is no multiple of four.
In `demoCacheWorld` the intermediate cache file of the vertex stage holds nine bytes, and
the claim gives the stage the `9 / 4 = 2` words of the first eight bytes.  The code sizes
the buffer to those two words, eight bytes, and then reads all nine bytes of the file into
it (`data.resize(size / sizeof(uint32_t)); in.read((char*)data.data(), size)`): the read
writes past the end of the buffer.  The run opens the file, calls no compiler, and ends
there without a binary for any stage. -/
theorem CompileOrGetVulkanBinaries_misaligned_cache_overflows :
    demoCacheWorld.files (cachePath demoEnv demoPath ".cached_vulkan.vert".toList)
        = some [1, 0, 0, 0, 2, 1, 0, 0, 9] ∧
      vulkanStage demoEnv demoPath GL_VERTEX_SHADER "V".toList [] demoCacheWorld
        = (.error .bufferOverflow, demoCacheWorld.record
            (.openRead (cachePath demoEnv demoPath ".cached_vulkan.vert".toList) true)) ∧
      (CompileOrGetVulkanBinaries demoEnv demoShader
          [(GL_VERTEX_SHADER, "V".toList), (GL_FRAGMENT_SHADER, "F".toList)]
          demoCacheWorld).1 = .error .bufferOverflow ∧
      (CompileOrGetVulkanBinaries demoEnv demoShader
          [(GL_VERTEX_SHADER, "V".toList), (GL_FRAGMENT_SHADER, "F".toList)]
          demoCacheWorld).2.log
        = [.glCreateProgram 1,
            .openRead (cachePath demoEnv demoPath ".cached_vulkan.vert".toList) true] :=
  ⟨rfl, rfl, rfl, rfl⟩

/-- C11. Cache idempotence of the intermediate compile.  Take a stage of the source map
whose source compiles to the module `W` (a sequence of 32-bit words) and whose cache file is
absent and can be written, in a run in which every stage can be served (its cache file opens
and holds whole words, or it does not open and the source compiles).  Then
`CompileOrGetVulkanBinaries` returns, the binary of the stage is `W`, the cache file holds
the bytes of `W` afterwards, and the calls the run made for the stage are, in this order,
the failed opening of the cache file, the call of the compiler on the source, and the
opening of the file for writing.  A second run on the world the first run left returns as
well, the binary of the stage is again `W`, and the only call this run makes for the stage
is the opening of the cache file, which succeeds: among the calls it adds to the log there
is no call of the compiler for the kind of the stage and no opening of the file for
writing.  Reading the bytes written from `W` as words gives `W`. -/
theorem CompileOrGetVulkanBinaries_cache_idempotent (env : Env) (self : OpenGLShader)
    (w : World) (sources : StageMap Str) (stage : GLenum) (source extension : Str)
    (kind : ShaderKind) (W : Words)
    (hnodup : sources.keys.Nodup) (hmem : (stage, source) ∈ sources)
    (hext : GLShaderStageCachedVulkanFileExtension stage = .ok extension)
    (hkind : GLShaderStageToShaderC stage = .ok kind)
    (hcompile : env.compileGlslToSpv source kind self.m_FilePath (some vulkanOptions) = .ok W)
    (hbits : ∀ x ∈ W, x < 2 ^ 32)
    (hempty : w.files (cachePath env self.m_FilePath extension) = none)
    (hwritable : w.writable (cachePath env self.m_FilePath extension) = true)
    (hserve : ∀ k src, (k, src) ∈ sources → ∃ ext kd,
      GLShaderStageCachedVulkanFileExtension k = .ok ext ∧
      GLShaderStageToShaderC k = .ok kd ∧
      ((∃ bytes, w.files (cachePath env self.m_FilePath ext) = some bytes ∧
          bytes.length % 4 = 0) ∨
        (w.files (cachePath env self.m_FilePath ext) = none ∧
          ∃ module, env.compileGlslToSpv src kd self.m_FilePath (some vulkanOptions)
            = .ok module))) :
    wordsOfBytes (bytesOfWords W) = W ∧
      ∃ self1 w1, CompileOrGetVulkanBinaries env self sources w = (.ok self1, w1) ∧
        self1.m_VulkanSPIRV.lookup stage = some W ∧
        w1.files (cachePath env self.m_FilePath extension) = some (bytesOfWords W) ∧
        (∃ before after,
          w1.log = w.log ++ before
            ++ [Event.openRead (cachePath env self.m_FilePath extension) false,
                Event.compileGlslToSpv source kind self.m_FilePath (some vulkanOptions),
                Event.openWrite (cachePath env self.m_FilePath extension) true] ++ after ∧
          ∀ ev ∈ before ++ after,
            ¬ ev.ofStage kind (cachePath env self.m_FilePath extension)) ∧
        ∃ self2 w2, CompileOrGetVulkanBinaries env self1 sources w1 = (.ok self2, w2) ∧
          self2.m_VulkanSPIRV.lookup stage = some (wordsOfBytes (bytesOfWords W)) ∧
          self2.m_VulkanSPIRV.lookup stage = some W ∧
          w2.files (cachePath env self.m_FilePath extension) = some (bytesOfWords W) ∧
          ∃ before after,
            w2.log = w1.log ++ before
              ++ Event.openRead (cachePath env self.m_FilePath extension) true :: after ∧
            ∀ ev ∈ before ++ after,
              ¬ ev.ofStage kind (cachePath env self.m_FilePath extension) := by
  have hround := wordsOfBytes_bytesOfWords W hbits
  refine ⟨hround, ?_⟩
  obtain ⟨d1, w2, hrun1⟩ := vulkanStages_ok env self.m_FilePath sources []
    w.glCreateProgram.2 hserve
  have hmiss := vulkanStages_miss env self.m_FilePath hext hkind hcompile sources []
    w.glCreateProgram.2 hnodup hmem hempty d1 w2 hrun1
  obtain ⟨b1, a1, hlog1, hn1⟩ := vulkanStages_added_miss env self.m_FilePath hext hkind
    hcompile sources [] w.glCreateProgram.2 hnodup hmem hempty d1 w2 hrun1
  have hfr1 := vulkanStages_frame env self.m_FilePath sources [] w.glCreateProgram.2
  rw [hrun1] at hfr1
  have hrefl := reflectAll_frame d1 w2
  have hfile1 : (reflectAll d1 w2).files (cachePath env self.m_FilePath extension)
      = some (bytesOfWords W) := by
    rw [hrefl.1]
    exact hmiss.2.1 hwritable
  have hwr : w.glCreateProgram.2.writable (cachePath env self.m_FilePath extension) = true :=
    hwritable
  refine ⟨_, _, CompileOrGetVulkanBinaries_of_ok hrun1, hmiss.1, hfile1, ?_, ?_⟩
  · refine ⟨Event.glCreateProgram w.nextName :: b1,
      a1 ++ d1.map (fun entry => Event.reflect entry.1 entry.2), ?_, ?_⟩
    · rw [reflectAll_log_eq, hlog1, hwr]
      simp [World.glCreateProgram, World.record]
    · intro ev hev
      simp only [List.mem_append, List.mem_cons, List.mem_map] at hev
      rcases hev with (rfl | h) | h | ⟨entry, _, rfl⟩
      · exact Event.not_ofStage_glCreateProgram _ _ _
      · exact hn1 ev (List.mem_append.2 (Or.inl h))
      · exact hn1 ev (List.mem_append.2 (Or.inr h))
      · exact Event.not_ofStage_reflect _ _ _ _
  have hserve2 : ∀ k src, (k, src) ∈ sources → ∃ ext kd,
      GLShaderStageCachedVulkanFileExtension k = .ok ext ∧
      GLShaderStageToShaderC k = .ok kd ∧
      ((∃ bytes, (reflectAll d1 w2).glCreateProgram.2.files
          (cachePath env self.m_FilePath ext) = some bytes ∧ bytes.length % 4 = 0) ∨
        ((reflectAll d1 w2).glCreateProgram.2.files
            (cachePath env self.m_FilePath ext) = none ∧
          ∃ module, env.compileGlslToSpv src kd self.m_FilePath (some vulkanOptions)
            = .ok module)) := by
    intro k src hks
    obtain ⟨ext, kd, hx, hkd, hcase⟩ := hserve k src hks
    refine ⟨ext, kd, hx, hkd, @served_mono w (reflectAll d1 w2).glCreateProgram.2 _ _
      (fun b hb => ?_) (fun hp => ?_) hcase⟩
    · obtain ⟨b', hb'⟩ := hfr1.2.2.1 _ b hb
      exact ⟨b', by
        show (reflectAll d1 w2).files (cachePath env self.m_FilePath ext) = some b'
        rw [hrefl.1]
        exact hb'⟩
    · have hal := vulkanStages_alignedAt env self.m_FilePath sources []
        w.glCreateProgram.2 (p := cachePath env self.m_FilePath ext) hp
      rw [hrun1] at hal
      intro b hb
      apply hal b
      rw [← hrefl.1]
      exact hb
  obtain ⟨d2, w3, hrun2⟩ := vulkanStages_ok env self.m_FilePath sources []
    (reflectAll d1 w2).glCreateProgram.2 hserve2
  have hhit := vulkanStages_hit env self.m_FilePath hext hkind sources []
    (reflectAll d1 w2).glCreateProgram.2 hnodup
    (List.mem_map_of_mem Prod.fst hmem) hfile1 d2 w3 hrun2
  obtain ⟨b2, a2, hlog2, hn2⟩ := vulkanStages_added_hit env self.m_FilePath hext hkind
    sources [] (reflectAll d1 w2).glCreateProgram.2 hnodup
    (List.mem_map_of_mem Prod.fst hmem) hfile1 d2 w3 hrun2
  have hkeep := vulkanStages_hit_file env self.m_FilePath hext sources []
    (reflectAll d1 w2).glCreateProgram.2 hnodup
    (List.mem_map_of_mem Prod.fst hmem) hfile1 d2 w3 hrun2
  have hrun2' : CompileOrGetVulkanBinaries env { self with m_VulkanSPIRV := d1 } sources
      (reflectAll d1 w2)
      = (.ok { self with m_VulkanSPIRV := d2 }, reflectAll d2 w3) :=
    CompileOrGetVulkanBinaries_of_ok hrun2
  refine ⟨_, _, hrun2', hhit.1, by rw [← hround]; exact hhit.1, ?_, ?_⟩
  · rw [(reflectAll_frame d2 w3).1]
    exact hkeep
  · refine ⟨Event.glCreateProgram (reflectAll d1 w2).nextName :: b2,
      a2 ++ d2.map (fun entry => Event.reflect entry.1 entry.2), ?_, ?_⟩
    · rw [reflectAll_log_eq d2, hlog2]
      simp [World.glCreateProgram, World.record]
    · intro ev hev
      simp only [List.mem_append, List.mem_cons, List.mem_map] at hev
      rcases hev with (rfl | h) | h | ⟨entry, _, rfl⟩
      · exact Event.not_ofStage_glCreateProgram _ _ _
      · exact hn2 ev (List.mem_append.2 (Or.inl h))
      · exact hn2 ev (List.mem_append.2 (Or.inr h))
      · exact Event.not_ofStage_reflect _ _ _ _

/-- An instance of C11 in the empty cache of `demoWorld`: the first run compiles both stages
and writes both cache files; the second run, on the world the first run left, opens the two
files and calls no compiler. -/
theorem CompileOrGetVulkanBinaries_cache_idempotent_witness :
    (CompileOrGetVulkanBinaries demoEnv demoShader
        [(GL_VERTEX_SHADER, "V".toList), (GL_FRAGMENT_SHADER, "F".toList)]
        (demoWorld [])).1.map (fun self => self.m_VulkanSPIRV)
      = .ok [(GL_VERTEX_SHADER, [86]), (GL_FRAGMENT_SHADER, [70])] ∧
    (CompileOrGetVulkanBinaries demoEnv demoShader
        [(GL_VERTEX_SHADER, "V".toList), (GL_FRAGMENT_SHADER, "F".toList)]
        (demoWorld [])).2.log
      = [.glCreateProgram 1,
          .openRead (cachePath demoEnv demoPath ".cached_vulkan.vert".toList) false,
          .compileGlslToSpv "V".toList .glsl_vertex_shader demoPath (some vulkanOptions),
          .openWrite (cachePath demoEnv demoPath ".cached_vulkan.vert".toList) true,
          .openRead (cachePath demoEnv demoPath ".cached_vulkan.frag".toList) false,
          .compileGlslToSpv "F".toList .glsl_fragment_shader demoPath (some vulkanOptions),
          .openWrite (cachePath demoEnv demoPath ".cached_vulkan.frag".toList) true,
          .reflect GL_VERTEX_SHADER [86], .reflect GL_FRAGMENT_SHADER [70]] ∧
    (CompileOrGetVulkanBinaries demoEnv
        { demoShader with
          m_VulkanSPIRV := [(GL_VERTEX_SHADER, [86]), (GL_FRAGMENT_SHADER, [70])] }
        [(GL_VERTEX_SHADER, "V".toList), (GL_FRAGMENT_SHADER, "F".toList)]
        (CompileOrGetVulkanBinaries demoEnv demoShader
          [(GL_VERTEX_SHADER, "V".toList), (GL_FRAGMENT_SHADER, "F".toList)]
          (demoWorld [])).2).2.log.drop 9
      = [.glCreateProgram 2,
          .openRead (cachePath demoEnv demoPath ".cached_vulkan.vert".toList) true,
          .openRead (cachePath demoEnv demoPath ".cached_vulkan.frag".toList) true,
          .reflect GL_VERTEX_SHADER [86], .reflect GL_FRAGMENT_SHADER [70]] ∧
    wordsOfBytes (bytesOfWords [86]) = [86] ∧
    ∃ self1 w1, CompileOrGetVulkanBinaries demoEnv demoShader
        [(GL_VERTEX_SHADER, "V".toList), (GL_FRAGMENT_SHADER, "F".toList)] (demoWorld [])
          = (.ok self1, w1) ∧
      self1.m_VulkanSPIRV.lookup GL_VERTEX_SHADER = some [86] ∧
      w1.files (cachePath demoEnv demoPath ".cached_vulkan.vert".toList)
        = some [86, 0, 0, 0] ∧
      (∃ before after,
        w1.log = (demoWorld []).log ++ before
          ++ [Event.openRead (cachePath demoEnv demoPath ".cached_vulkan.vert".toList) false,
              Event.compileGlslToSpv "V".toList .glsl_vertex_shader demoPath
                (some vulkanOptions),
              Event.openWrite (cachePath demoEnv demoPath ".cached_vulkan.vert".toList) true]
          ++ after ∧
        ∀ ev ∈ before ++ after, ¬ ev.ofStage .glsl_vertex_shader
          (cachePath demoEnv demoPath ".cached_vulkan.vert".toList)) ∧
      ∃ self2 w2, CompileOrGetVulkanBinaries demoEnv self1
          [(GL_VERTEX_SHADER, "V".toList), (GL_FRAGMENT_SHADER, "F".toList)] w1
            = (.ok self2, w2) ∧
        self2.m_VulkanSPIRV.lookup GL_VERTEX_SHADER = some (wordsOfBytes [86, 0, 0, 0]) ∧
        self2.m_VulkanSPIRV.lookup GL_VERTEX_SHADER = some [86] ∧
        w2.files (cachePath demoEnv demoPath ".cached_vulkan.vert".toList)
          = some [86, 0, 0, 0] ∧
        ∃ before after,
          w2.log = w1.log ++ before
            ++ Event.openRead (cachePath demoEnv demoPath ".cached_vulkan.vert".toList) true
              :: after ∧
          ∀ ev ∈ before ++ after, ¬ ev.ofStage .glsl_vertex_shader
            (cachePath demoEnv demoPath ".cached_vulkan.vert".toList) :=
  ⟨rfl, rfl, rfl,
    CompileOrGetVulkanBinaries_cache_idempotent demoEnv demoShader (demoWorld [])
    [(GL_VERTEX_SHADER, "V".toList), (GL_FRAGMENT_SHADER, "F".toList)] GL_VERTEX_SHADER
    "V".toList ".cached_vulkan.vert".toList .glsl_vertex_shader [86] (by decide)
    (by simp) rfl rfl rfl (by decide) rfl rfl
    (by
      intro k src hks
      simp only [List.mem_cons, Prod.mk.injEq, List.mem_singleton, List.not_mem_nil,
        or_false] at hks
      rcases hks with ⟨rfl, rfl⟩ | ⟨rfl, rfl⟩
      · exact ⟨_, _, rfl, rfl, Or.inr ⟨rfl, _, rfl⟩⟩
      · exact ⟨_, _, rfl, rfl, Or.inr ⟨rfl, _, rfl⟩⟩)⟩

/-- C12. A cache file that can be opened neither for reading nor for writing costs a stage
nothing but the cache.  Take a stage with compiler kind `kind`.

For `CompileOrGetVulkanBinaries`: when the intermediate cache file of the stage is absent
and cannot be written, the source of the stage compiles to `module`, and every stage of the
source map can be served (its cache file opens and holds whole words, or it does not open
and the source compiles), the method returns, the binary of the stage is `module`, the cache
file is still absent, and the calls made for the stage are the failed opening of the file,
the call of the compiler and the failed opening of the file for writing.  In every world
with the same files, whatever can be written there, the method returns the same shader
object; and when that world differs from the first one at most in whether the cache file of
the stage can be written, it leaves the same files except, at most, that cache file.

For `CompileOrGetOpenGLBinaries`: the same, with the target cache file of the stage, the
intermediate binary `spirv` of the stage in the place of the source, and `module` the
output of the compiler for the translation of `spirv`. -/
theorem compile_with_unusable_cache (env : Env) (stage : GLenum) (kind : ShaderKind)
    (hkind : GLShaderStageToShaderC stage = .ok kind) :
    (∀ (self : OpenGLShader) (sources : StageMap Str) (w : World) (source extension : Str)
      (module : Words),
      sources.keys.Nodup → (stage, source) ∈ sources →
      GLShaderStageCachedVulkanFileExtension stage = .ok extension →
      w.files (cachePath env self.m_FilePath extension) = none →
      w.writable (cachePath env self.m_FilePath extension) = false →
      env.compileGlslToSpv source kind self.m_FilePath (some vulkanOptions) = .ok module →
      (∀ k src, (k, src) ∈ sources → ∃ ext kd,
        GLShaderStageCachedVulkanFileExtension k = .ok ext ∧
        GLShaderStageToShaderC k = .ok kd ∧
        ((∃ bytes, w.files (cachePath env self.m_FilePath ext) = some bytes ∧
            bytes.length % 4 = 0) ∨
          (w.files (cachePath env self.m_FilePath ext) = none ∧
            ∃ module', env.compileGlslToSpv src kd self.m_FilePath (some vulkanOptions)
              = .ok module'))) →
      ∃ self1 w1, CompileOrGetVulkanBinaries env self sources w = (.ok self1, w1) ∧
        self1.m_VulkanSPIRV.lookup stage = some module ∧
        w1.files (cachePath env self.m_FilePath extension) = none ∧
        (∃ before after,
          w1.log = w.log ++ before
            ++ [Event.openRead (cachePath env self.m_FilePath extension) false,
                Event.compileGlslToSpv source kind self.m_FilePath (some vulkanOptions),
                Event.openWrite (cachePath env self.m_FilePath extension) false] ++ after ∧
          ∀ ev ∈ before ++ after,
            ¬ ev.ofStage kind (cachePath env self.m_FilePath extension)) ∧
        ∀ w' : World, w'.files = w.files →
          ∃ w1', CompileOrGetVulkanBinaries env self sources w' = (.ok self1, w1') ∧
            ((∀ p, p ≠ cachePath env self.m_FilePath extension →
                w'.writable p = w.writable p) →
              ∀ p, p ≠ cachePath env self.m_FilePath extension →
                w1'.files p = w1.files p)) ∧
    (∀ (self : OpenGLShader) (w : World) (spirv : Words) (extension : Str) (module : Words),
      self.m_VulkanSPIRV.keys.Nodup → (stage, spirv) ∈ self.m_VulkanSPIRV →
      GLShaderStageCachedOpenGLFileExtension stage = .ok extension →
      w.files (cachePath env self.m_FilePath extension) = none →
      w.writable (cachePath env self.m_FilePath extension) = false →
      env.compileGlslToSpv (env.crossCompile spirv) kind self.m_FilePath none = .ok module →
      (∀ k sp, (k, sp) ∈ self.m_VulkanSPIRV → ∃ ext kd,
        GLShaderStageCachedOpenGLFileExtension k = .ok ext ∧
        GLShaderStageToShaderC k = .ok kd ∧
        ((∃ bytes, w.files (cachePath env self.m_FilePath ext) = some bytes ∧
            bytes.length % 4 = 0) ∨
          (w.files (cachePath env self.m_FilePath ext) = none ∧
            ∃ module', env.compileGlslToSpv (env.crossCompile sp) kd self.m_FilePath none
              = .ok module'))) →
      ∃ self2 w2, CompileOrGetOpenGLBinaries env self w = (.ok self2, w2) ∧
        self2.m_OpenGLSPIRV.lookup stage = some module ∧
        w2.files (cachePath env self.m_FilePath extension) = none ∧
        (∃ before after,
          w2.log = w.log ++ before
            ++ [Event.openRead (cachePath env self.m_FilePath extension) false,
                Event.crossCompile spirv,
                Event.compileGlslToSpv (env.crossCompile spirv) kind self.m_FilePath none,
                Event.openWrite (cachePath env self.m_FilePath extension) false] ++ after ∧
          ∀ ev ∈ before ++ after,
            ¬ ev.ofStage kind (cachePath env self.m_FilePath extension)) ∧
        ∀ w' : World, w'.files = w.files →
          ∃ w2', CompileOrGetOpenGLBinaries env self w' = (.ok self2, w2') ∧
            ((∀ p, p ≠ cachePath env self.m_FilePath extension →
                w'.writable p = w.writable p) →
              ∀ p, p ≠ cachePath env self.m_FilePath extension →
                w2'.files p = w2.files p)) := by
  constructor
  · intro self sources w source extension module hnodup hmem hext hnone hro hcompile hserve
    obtain ⟨d1, w2, hrun1⟩ := vulkanStages_ok env self.m_FilePath sources []
      w.glCreateProgram.2 hserve
    have hmiss := vulkanStages_miss env self.m_FilePath hext hkind hcompile sources []
      w.glCreateProgram.2 hnodup hmem hnone d1 w2 hrun1
    obtain ⟨b1, a1, hlog1, hn1⟩ := vulkanStages_added_miss env self.m_FilePath hext hkind
      hcompile sources [] w.glCreateProgram.2 hnodup hmem hnone d1 w2 hrun1
    have hrefl := reflectAll_frame d1 w2
    have hwr : w.glCreateProgram.2.writable (cachePath env self.m_FilePath extension)
        = false := hro
    refine ⟨_, _, CompileOrGetVulkanBinaries_of_ok hrun1, hmiss.1, ?_, ?_, ?_⟩
    · rw [hrefl.1]
      exact hmiss.2.2.1 hro
    · refine ⟨Event.glCreateProgram w.nextName :: b1,
        a1 ++ d1.map (fun entry => Event.reflect entry.1 entry.2), ?_, ?_⟩
      · rw [reflectAll_log_eq, hlog1, hwr]
        simp [World.glCreateProgram, World.record]
      · intro ev hev
        simp only [List.mem_append, List.mem_cons, List.mem_map] at hev
        rcases hev with (rfl | h) | h | ⟨entry, _, rfl⟩
        · exact Event.not_ofStage_glCreateProgram _ _ _
        · exact hn1 ev (List.mem_append.2 (Or.inl h))
        · exact hn1 ev (List.mem_append.2 (Or.inr h))
        · exact Event.not_ofStage_reflect _ _ _ _
    · intro w' hfiles
      have hsimT := vulkanStages_sim env self.m_FilePath (fun _ => True) sources []
        w.glCreateProgram.2 w'.glCreateProgram.2 hnodup
        (fun k _ ext _ => congrFun hfiles _) (fun p hp => absurd trivial hp)
        (fun p hp => absurd trivial hp)
      rw [hrun1] at hsimT
      cases hout : vulkanStages env self.m_FilePath sources [] w'.glCreateProgram.2 with
      | mk r1' w2' =>
        rw [hout] at hsimT
        dsimp only at hsimT
        have hr := hsimT.1
        subst hr
        refine ⟨_, CompileOrGetVulkanBinaries_of_ok hout, ?_⟩
        intro hwr' p hp
        have hsimP := vulkanStages_sim env self.m_FilePath
          (fun q => q = cachePath env self.m_FilePath extension) sources []
          w.glCreateProgram.2 w'.glCreateProgram.2 hnodup
          (fun k _ ext _ => congrFun hfiles _) (fun q _ => congrFun hfiles q)
          (fun q hq => hwr' q hq)
        rw [hrun1, hout] at hsimP
        rw [hrefl.1, (reflectAll_frame d1 w2').1]
        exact hsimP.2 p hp
  · intro self w spirv extension module hnodup hmem hext hnone hro hcompile hserve
    obtain ⟨r, w2, hrun1⟩ := openglStages_ok env self.m_FilePath self.m_VulkanSPIRV [] [] w
      hserve
    have hmiss := openglStages_miss env self.m_FilePath hext hkind hcompile
      self.m_VulkanSPIRV [] [] w hnodup hmem hnone r w2 hrun1
    obtain ⟨b1, a1, hlog1, hn1⟩ := openglStages_added_miss env self.m_FilePath hext hkind
      hcompile self.m_VulkanSPIRV [] [] w hnodup hmem hnone r w2 hrun1
    refine ⟨_, _, CompileOrGetOpenGLBinaries_of_ok hrun1, hmiss.1, hmiss.2.2 hro,
      ⟨b1, a1, by rw [hlog1, hro], hn1⟩, ?_⟩
    intro w' hfiles
    have hsimT := openglStages_sim env self.m_FilePath (fun _ => True) self.m_VulkanSPIRV
      [] [] w w' hnodup
      (fun k _ ext _ => congrFun hfiles _) (fun p hp => absurd trivial hp)
      (fun p hp => absurd trivial hp)
    rw [hrun1] at hsimT
    cases hout : openglStages env self.m_FilePath self.m_VulkanSPIRV [] [] w' with
    | mk r1' w2' =>
      rw [hout] at hsimT
      dsimp only at hsimT
      have hr := hsimT.1
      subst hr
      refine ⟨_, CompileOrGetOpenGLBinaries_of_ok hout, ?_⟩
      intro hwr' p hp
      have hsimP := openglStages_sim env self.m_FilePath
        (fun q => q = cachePath env self.m_FilePath extension) self.m_VulkanSPIRV [] []
        w w' hnodup
        (fun k _ ext _ => congrFun hfiles _) (fun q _ => congrFun hfiles q)
        (fun q hq => hwr' q hq)
      rw [hrun1, hout] at hsimP
      exact hsimP.2 p hp

/-- An instance of C12 in `vertexCacheWorld`, where nothing can be written: the vertex stage
is served from its cache files, the fragment stage has none and is compiled, and the failed
writes leave no file behind.  In the same world with every path writable the binaries are
the same. -/
theorem compile_with_unusable_cache_witness :
    (CompileOrGetVulkanBinaries demoEnv demoShader
        [(GL_VERTEX_SHADER, "V".toList), (GL_FRAGMENT_SHADER, "F".toList)]
        vertexCacheWorld).1.map (fun self => self.m_VulkanSPIRV)
      = .ok [(GL_VERTEX_SHADER, [1, 258]), (GL_FRAGMENT_SHADER, [70])] ∧
    (CompileOrGetVulkanBinaries demoEnv demoShader
        [(GL_VERTEX_SHADER, "V".toList), (GL_FRAGMENT_SHADER, "F".toList)]
        vertexCacheWorld).2.log
      = [.glCreateProgram 1,
          .openRead (cachePath demoEnv demoPath ".cached_vulkan.vert".toList) true,
          .openRead (cachePath demoEnv demoPath ".cached_vulkan.frag".toList) false,
          .compileGlslToSpv "F".toList .glsl_fragment_shader demoPath (some vulkanOptions),
          .openWrite (cachePath demoEnv demoPath ".cached_vulkan.frag".toList) false,
          .reflect GL_VERTEX_SHADER [1, 258], .reflect GL_FRAGMENT_SHADER [70]] ∧
    (CompileOrGetOpenGLBinaries demoEnv
        { demoShader with
          m_VulkanSPIRV := [(GL_VERTEX_SHADER, [1, 258]), (GL_FRAGMENT_SHADER, [70])] }
        vertexCacheWorld).1.map (fun self => self.m_OpenGLSPIRV)
      = .ok [(GL_VERTEX_SHADER, [3]), (GL_FRAGMENT_SHADER, [70])] ∧
    (∃ self1 w1, CompileOrGetVulkanBinaries demoEnv demoShader
        [(GL_VERTEX_SHADER, "V".toList), (GL_FRAGMENT_SHADER, "F".toList)] vertexCacheWorld
          = (.ok self1, w1) ∧
      self1.m_VulkanSPIRV.lookup GL_FRAGMENT_SHADER = some [70] ∧
      w1.files (cachePath demoEnv demoPath ".cached_vulkan.frag".toList) = none ∧
      ∃ w1', CompileOrGetVulkanBinaries demoEnv demoShader
        [(GL_VERTEX_SHADER, "V".toList), (GL_FRAGMENT_SHADER, "F".toList)]
        { vertexCacheWorld with writable := fun _ => true } = (.ok self1, w1')) ∧
    ∃ self2 w2, CompileOrGetOpenGLBinaries demoEnv
        { demoShader with
          m_VulkanSPIRV := [(GL_VERTEX_SHADER, [1, 258]), (GL_FRAGMENT_SHADER, [70])] }
        vertexCacheWorld = (.ok self2, w2) ∧
      self2.m_OpenGLSPIRV.lookup GL_FRAGMENT_SHADER = some [70] ∧
      w2.files (cachePath demoEnv demoPath ".cached_opengl.frag".toList) = none ∧
      ∃ w2', CompileOrGetOpenGLBinaries demoEnv
        { demoShader with
          m_VulkanSPIRV := [(GL_VERTEX_SHADER, [1, 258]), (GL_FRAGMENT_SHADER, [70])] }
        { vertexCacheWorld with writable := fun _ => true } = (.ok self2, w2') :=
  have h := compile_with_unusable_cache demoEnv GL_FRAGMENT_SHADER .glsl_fragment_shader rfl
  have hV := h.1 demoShader [(GL_VERTEX_SHADER, "V".toList), (GL_FRAGMENT_SHADER, "F".toList)]
    vertexCacheWorld "F".toList ".cached_vulkan.frag".toList [70] (by decide) (by simp)
    rfl rfl rfl rfl (by
      intro k src hks
      simp only [List.mem_cons, Prod.mk.injEq, List.mem_singleton, List.not_mem_nil,
        or_false] at hks
      rcases hks with ⟨rfl, rfl⟩ | ⟨rfl, rfl⟩
      · exact ⟨_, _, rfl, rfl, Or.inl ⟨[1, 0, 0, 0, 2, 1, 0, 0], rfl, rfl⟩⟩
      · exact ⟨_, _, rfl, rfl, Or.inr ⟨rfl, _, rfl⟩⟩)
  have hG := h.2
    { demoShader with
      m_VulkanSPIRV := [(GL_VERTEX_SHADER, [1, 258]), (GL_FRAGMENT_SHADER, [70])] }
    vertexCacheWorld [70] ".cached_opengl.frag".toList [70] (by decide) (by simp)
    rfl rfl rfl rfl (by
      intro k sp hks
      simp only [List.mem_cons, Prod.mk.injEq, List.mem_singleton, List.not_mem_nil,
        or_false] at hks
      rcases hks with ⟨rfl, rfl⟩ | ⟨rfl, rfl⟩
      · exact ⟨_, _, rfl, rfl, Or.inl ⟨[3, 0, 0, 0], rfl, rfl⟩⟩
      · exact ⟨_, _, rfl, rfl, Or.inr ⟨rfl, _, rfl⟩⟩)
  ⟨rfl, rfl, rfl,
    let ⟨self1, w1, h1, h2, h3, _, h5⟩ := hV
    let ⟨w1', h6, _⟩ := h5 { vertexCacheWorld with writable := fun _ => true } rfl
    ⟨self1, w1, h1, h2, h3, w1', h6⟩,
    let ⟨self2, w2, h1, h2, h3, _, h5⟩ := hG
    let ⟨w2', h6, _⟩ := h5 { vertexCacheWorld with writable := fun _ => true } rfl
    ⟨self2, w2, h1, h2, h3, w2', h6⟩⟩

/-- C13. Take a source map in which some stage has no cache file and a source that the
compiler rejects.  Then `CompileOrGetVulkanBinaries` ends fatally; the cache file of the
rejected stage is still absent afterwards and was not opened for writing; the run calls
neither `Reflect`, nor the cross compiler, nor `glLinkProgram`, nor `glCreateShader`; and
the constructor around it, from sources or from a file, ends with the same fatal error in
the same world, so it produces no shader object. -/
theorem CompileOrGetVulkanBinaries_rejected_stage (env : Env) (self : OpenGLShader)
    (w : World) (sources : StageMap Str) (stage : GLenum) (source extension : Str)
    (kind : ShaderKind) (msg : Str)
    (hnodup : sources.keys.Nodup) (hmem : (stage, source) ∈ sources)
    (hext : GLShaderStageCachedVulkanFileExtension stage = .ok extension)
    (hkind : GLShaderStageToShaderC stage = .ok kind)
    (hreject : env.compileGlslToSpv source kind self.m_FilePath (some vulkanOptions)
      = .error msg)
    (hempty : w.files (cachePath env self.m_FilePath extension) = none) :
    ∃ e w', CompileOrGetVulkanBinaries env self sources w = (.error e, w') ∧
      w'.files (cachePath env self.m_FilePath extension) = none ∧
      (∀ o, Event.openWrite (cachePath env self.m_FilePath extension) o ∈ w'.log →
        Event.openWrite (cachePath env self.m_FilePath extension) o ∈ w.log) ∧
      (∀ st sp, Event.reflect st sp ∈ w'.log → Event.reflect st sp ∈ w.log) ∧
      (∀ sp, Event.crossCompile sp ∈ w'.log → Event.crossCompile sp ∈ w.log) ∧
      (∀ p, Event.glLinkProgram p ∈ w'.log → Event.glLinkProgram p ∈ w.log) ∧
      (∀ st sh, Event.glCreateShader st sh ∈ w'.log → Event.glCreateShader st sh ∈ w.log) ∧
      (∀ name vertexSrc fragmentSrc, self.m_FilePath = [] →
        sources = [(GL_VERTEX_SHADER, vertexSrc), (GL_FRAGMENT_SHADER, fragmentSrc)] →
        OpenGLShader.fromSources env name vertexSrc fragmentSrc w = (.error e, w')) ∧
      (∀ filepath w0 wd, self.m_FilePath = filepath →
        CreateCacheDirectoryIfNeeded w0 = (.ok (), wd) →
        w = (ReadFile filepath wd).2 →
        PreProcess (ReadFile filepath wd).1 = .ok sources →
        OpenGLShader.fromFile env filepath w0 = (.error e, w')) := by
  obtain ⟨e, w', hrun, hfile, hwrite⟩ := vulkanStages_reject env self.m_FilePath hext hkind
    hreject sources [] w.glCreateProgram.2 hnodup hmem hempty
  have hfr := (vulkanStages_frame env self.m_FilePath sources [] w.glCreateProgram.2).2.2.2.2
  rw [hrun] at hfr
  have hbase : ∀ ev ∈ w'.log, ev ∈ w.log ∨ ev = .glCreateProgram w.nextName ∨
      (∃ p o, ev = .openRead p o) ∨
      (∃ src kd, ev = .compileGlslToSpv src kd self.m_FilePath (some vulkanOptions)) ∨
      (∃ p o, ev = .openWrite p o) := by
    intro ev hev
    rcases hfr ev hev with h | h | h | ⟨k, _, ext, o, _, h⟩
    · simp only [World.glCreateProgram, World.record, List.mem_append,
        List.mem_singleton] at h
      rcases h with h | h
      · exact Or.inl h
      · exact Or.inr (Or.inl h)
    · exact Or.inr (Or.inr (Or.inl h))
    · exact Or.inr (Or.inr (Or.inr (Or.inl h)))
    · exact Or.inr (Or.inr (Or.inr (Or.inr ⟨_, o, h⟩)))
  refine ⟨e, w', CompileOrGetVulkanBinaries_of_error hrun, hfile, ?_, ?_, ?_, ?_, ?_, ?_, ?_⟩
  · intro o ho
    have := hwrite o ho
    simpa [World.glCreateProgram, World.record] using this
  · intro st sp hev
    rcases hbase _ hev with h | h | ⟨_, _, h⟩ | ⟨_, _, h⟩ | ⟨_, _, h⟩
    · exact h
    all_goals cases h
  · intro sp hev
    rcases hbase _ hev with h | h | ⟨_, _, h⟩ | ⟨_, _, h⟩ | ⟨_, _, h⟩
    · exact h
    all_goals cases h
  · intro p hev
    rcases hbase _ hev with h | h | ⟨_, _, h⟩ | ⟨_, _, h⟩ | ⟨_, _, h⟩
    · exact h
    all_goals cases h
  · intro st sh hev
    rcases hbase _ hev with h | h | ⟨_, _, h⟩ | ⟨_, _, h⟩ | ⟨_, _, h⟩
    · exact h
    all_goals cases h
  · intro name vertexSrc fragmentSrc hfp hsrc
    rw [hfp, hsrc] at hrun
    unfold OpenGLShader.fromSources
    dsimp only
    have hmap : StageMap.assign GL_FRAGMENT_SHADER fragmentSrc
        (StageMap.assign GL_VERTEX_SHADER vertexSrc [])
        = [(GL_VERTEX_SHADER, vertexSrc), (GL_FRAGMENT_SHADER, fragmentSrc)] := rfl
    rw [hmap, CompileOrGetVulkanBinaries_of_error hrun]
  · intro filepath w0 wd hfp hdir hw hpre
    rw [hfp, hw] at hrun
    unfold OpenGLShader.fromFile
    dsimp only
    rw [hdir]
    dsimp only
    rw [hpre]
    dsimp only
    rw [CompileOrGetVulkanBinaries_of_error hrun]

theorem CompileOrGetVulkanBinaries_rejected_stage_witness :
    (OpenGLShader.fromSources demoEnv "Flat".toList "V".toList [] (demoWorld [])).1
        = .error .compilationFailed ∧
      ∃ e w', CompileOrGetVulkanBinaries demoEnv { demoShader with m_FilePath := [] }
          [(GL_VERTEX_SHADER, "V".toList), (GL_FRAGMENT_SHADER, [])] (demoWorld [])
            = (.error e, w') ∧
        w'.files (cachePath demoEnv [] ".cached_vulkan.frag".toList) = none ∧
        OpenGLShader.fromSources demoEnv "Flat".toList "V".toList [] (demoWorld [])
          = (.error e, w') :=
  have h := CompileOrGetVulkanBinaries_rejected_stage demoEnv
    { demoShader with m_FilePath := [] } (demoWorld [])
    [(GL_VERTEX_SHADER, "V".toList), (GL_FRAGMENT_SHADER, [])] GL_FRAGMENT_SHADER []
    ".cached_vulkan.frag".toList .glsl_fragment_shader "empty".toList (by decide)
    (by simp) rfl rfl rfl rfl
  ⟨rfl, h.elim (fun e he => he.elim (fun w' hw' =>
    ⟨e, w', hw'.1, hw'.2.1, hw'.2.2.2.2.2.2.2.1 "Flat".toList "V".toList [] rfl rfl⟩))⟩

/-- C14. Whatever the target binaries and the link status, `CreateProgram` first creates a
program object and leaves its name in the handle `m_RendererID`.  When the link succeeds the
program object is alive afterwards.  When the link fails, `CreateProgram` has deleted the
program object and every shader object it created, and the handle still holds the name of
the deleted program.  (The driver hands out names that are not in use.) -/
theorem CreateProgram_handle_after_link (env : Env) (self : OpenGLShader) (w : World)
    (hfresh : ∀ n, n ∈ w.programs ∨ n ∈ w.shaders → n < w.nextName) :
    (CreateProgram env self w).1.m_RendererID = some w.nextName ∧
      (∃ rest, (CreateProgram env self w).2.log
        = w.log ++ Event.glCreateProgram w.nextName :: rest) ∧
      (env.linkStatus self.m_OpenGLSPIRV = true →
        w.nextName ∈ (CreateProgram env self w).2.programs) ∧
      (env.linkStatus self.m_OpenGLSPIRV = false →
        w.nextName ∉ (CreateProgram env self w).2.programs ∧
          Event.glDeleteProgram w.nextName ∈ (CreateProgram env self w).2.log ∧
          ∀ stage id, Event.glCreateShader stage id ∈ (CreateProgram env self w).2.log →
            Event.glCreateShader stage id ∉ w.log →
            id ∉ (CreateProgram env self w).2.shaders ∧
              Event.glDeleteShader id ∈ (CreateProgram env self w).2.log) := by
  obtain ⟨ids, w3, hids, hprog, hsh, ⟨rest, hlog⟩, hcreated, hrun⟩ :=
    CreateProgram_fields env self w
  rw [hrun]
  dsimp only
  refine ⟨rfl, ?_, ?_, ?_⟩
  · rw [(detachShaders_fields w.nextName ids _).2.2]
    split
    · exact ⟨_, by rw [hlog, List.append_assoc]; rfl⟩
    · rw [(deleteShaders_fields ids _).2.2]
      simp only [World.glDeleteProgram, World.record]
      exact ⟨_, by rw [hlog]; simp only [List.append_assoc]; rfl⟩
  · intro hlink
    rw [(detachShaders_fields w.nextName ids _).2.1, if_pos hlink, hprog]
    exact List.mem_cons_self _ _
  · intro hlink
    have hfalse : ¬ (env.linkStatus self.m_OpenGLSPIRV = true) := by rw [hlink]; simp
    rw [if_neg hfalse]
    have hd := deleteShaders_fields ids (w3.glDeleteProgram w.nextName)
    have ht := detachShaders_fields w.nextName ids
      (deleteShaders ids (w3.glDeleteProgram w.nextName))
    refine ⟨?_, ?_, ?_⟩
    · rw [ht.2.1, hd.2.1]
      simp only [World.glDeleteProgram, World.record]
      rw [hprog, List.erase_cons_head]
      intro hmem
      exact absurd (hfresh _ (Or.inl hmem)) (lt_irrefl _)
    · rw [ht.2.2, hd.2.2]
      simp [World.glDeleteProgram, World.record]
    · intro stage id hmem hnot
      have hmem3 : Event.glCreateShader stage id ∈ w3.log := by
        rw [ht.2.2, hd.2.2] at hmem
        simpa [World.glDeleteProgram, World.record] using hmem
      have hin : id ∈ ids := by
        rcases hcreated stage id hmem3 with h1 | h1
        · exact absurd h1 hnot
        · exact h1
      refine ⟨?_, ?_⟩
      · rw [ht.1, hd.1]
        simp only [World.glDeleteProgram, World.record]
        rw [hsh]
        intro hcontra
        have hpos := List.count_pos_iff.2 hcontra
        rw [count_foldl_erase, count_foldl_erase, List.count_append, List.count_reverse] at hpos
        have hnodup : ids.Nodup := by rw [hids]; exact List.nodup_range' _ _
        have h1 : List.count id ids = 1 := List.count_eq_one_of_mem hnodup hin
        have h0 : List.count id w.shaders = 0 := by
          rw [List.count_eq_zero]
          intro hm
          have hlt := hfresh id (Or.inr hm)
          rw [hids, List.mem_range'_1] at hin
          omega
        omega
      · rw [ht.2.2, hd.2.2]
        simp only [List.mem_append, List.mem_map]
        exact Or.inl (Or.inr ⟨id, hin, rfl⟩)

theorem CreateProgram_handle_after_link_witness :
    (CreateProgram failingLinkEnv demoTargetShader (demoWorld [])).1.m_RendererID = some 1 ∧
      1 ∉ (CreateProgram failingLinkEnv demoTargetShader (demoWorld [])).2.programs ∧
      (CreateProgram failingLinkEnv demoTargetShader (demoWorld [])).2.shaders = [] ∧
      (CreateProgram failingLinkEnv demoTargetShader (demoWorld [])).2.log
        = [.glCreateProgram 1,
            .glCreateShader GL_VERTEX_SHADER 2, .glShaderBinary 2 [7], .glSpecializeShader 2,
            .glAttachShader 1 2,
            .glCreateShader GL_FRAGMENT_SHADER 3, .glShaderBinary 3 [8], .glSpecializeShader 3,
            .glAttachShader 1 3,
            .glLinkProgram 1, .glDeleteProgram 1, .glDeleteShader 2, .glDeleteShader 3,
            .glDetachShader 1 2, .glDeleteShader 2, .glDetachShader 1 3, .glDeleteShader 3] :=
  have h := CreateProgram_handle_after_link failingLinkEnv demoTargetShader (demoWorld [])
    (by intro n hn; simp [demoWorld] at hn)
  ⟨h.1, (h.2.2.2 rfl).1, rfl, rfl⟩

/-- C15. The round trip of the program cache of `CreateProgramAMD` does not hand the driver
the payload it persisted.  The file written for a format tag `f` and a program binary `b`
is the four bytes of `f` followed by the bytes of `b`; reading that file back gives the tag
`f` (in its low 32 bits), but the buffer handed to `glProgramBinary` is `b` followed by four
zero bytes, and its stated length is the length of `b` plus 4: the buffer is created with
the size of the whole file, tag included.  In the instance a run without a cache file
persists the tag `1` and the payload `7, 8`, and a run on a world holding that file calls
`glProgramBinary` with the tag `1` and the six bytes `7, 8, 0, 0, 0, 0`. -/
theorem CreateProgramAMD_cache_load_pads_payload :
    (∀ (f : Nat) (b : Bytes),
      programCacheBytes f b
          = [f % 256, f / 256 % 256, f / 65536 % 256, f / 16777216 % 256] ++ b ∧
        readProgramCache (programCacheBytes f b) = (f % 2 ^ 32, b ++ [0, 0, 0, 0]) ∧
        (readProgramCache (programCacheBytes f b)).2.length = b.length + 4) ∧
      (CreateProgramAMD demoEnv demoDriver demoVulkanShader (demoWorld [])).2.2.files
          (programCachePath demoEnv demoPath) = some [1, 0, 0, 0, 7, 8] ∧
      demoProgramCacheWorld.files (programCachePath demoEnv demoPath)
        = some [1, 0, 0, 0, 7, 8] ∧
      (CreateProgramAMD demoEnv demoDriver demoVulkanShader demoProgramCacheWorld).2.2.log
        = [.glCreateProgram 1, .openRead (programCachePath demoEnv demoPath) true,
            .glProgramBinary 1 1 [7, 8, 0, 0, 0, 0]] := by
  refine ⟨fun f b => ⟨rfl, readProgramCache_programCacheBytes f b, ?_⟩, rfl, rfl, rfl⟩
  rw [readProgramCache_programCacheBytes]
  simp

/-- C16. When the program cache file opens and the driver reports a failed link for the
binary loaded from it, `CreateProgramAMD` ends fatally with the link-failure assertion.  Its
calls are, in this order and nothing else: `glCreateProgram`, the opening of the cache file,
`glProgramBinary` and `glDeleteProgram`; so no stage is compiled from source and the cache
file is not opened for writing; no file changes, and the shader object, its handle
`m_RendererID` included, is as it was. -/
theorem CreateProgramAMD_cached_link_failure (env : Env) (drv : Driver) (self : OpenGLShader)
    (w : World) (bytes : Bytes)
    (hopen : w.files (programCachePath env self.m_FilePath) = some bytes)
    (hlink : drv.linkStatusOfBinary (readProgramCache bytes).1 (readProgramCache bytes).2
      = false) :
    (CreateProgramAMD env drv self w).1 = .error .shaderLinkFailure ∧
      (CreateProgramAMD env drv self w).2.1 = self ∧
      (CreateProgramAMD env drv self w).2.1.m_RendererID = self.m_RendererID ∧
      (CreateProgramAMD env drv self w).2.2.files = w.files ∧
      (CreateProgramAMD env drv self w).2.2.log
        = w.log ++ [.glCreateProgram w.nextName,
            .openRead (programCachePath env self.m_FilePath) true,
            .glProgramBinary w.nextName (readProgramCache bytes).1 (readProgramCache bytes).2,
            .glDeleteProgram w.nextName] := by
  have hopen' : w.glCreateProgram.2.files (programCachePath env self.m_FilePath) = some bytes :=
    hopen
  have hl : ¬ (drv.linkStatusOfBinary (readProgramCache bytes).1 (readProgramCache bytes).2
      = true) := by rw [hlink]; simp
  have hrun : CreateProgramAMD env drv self w = (.error .shaderLinkFailure, self,
      ((w.glCreateProgram.2.record
          (.openRead (programCachePath env self.m_FilePath) true)).record
        (.glProgramBinary w.nextName (readProgramCache bytes).1
          (readProgramCache bytes).2)).glDeleteProgram w.nextName) := by
    unfold CreateProgramAMD
    dsimp only
    rw [hopen']
    dsimp only
    simp only [VerifyProgramLink, if_neg hl]
    rfl
  rw [hrun]
  refine ⟨rfl, rfl, rfl, rfl, ?_⟩
  simp [World.glDeleteProgram, World.record, World.glCreateProgram]

theorem CreateProgramAMD_cached_link_failure_witness :
    (CreateProgramAMD demoEnv rejectingDriver demoVulkanShader demoProgramCacheWorld).1
        = .error .shaderLinkFailure ∧
      (CreateProgramAMD demoEnv rejectingDriver demoVulkanShader
          demoProgramCacheWorld).2.1.m_RendererID = none ∧
      (CreateProgramAMD demoEnv rejectingDriver demoVulkanShader demoProgramCacheWorld).2.2.log
        = [.glCreateProgram 1, .openRead (programCachePath demoEnv demoPath) true,
            .glProgramBinary 1 1 [7, 8, 0, 0, 0, 0], .glDeleteProgram 1] :=
  have h := CreateProgramAMD_cached_link_failure demoEnv rejectingDriver demoVulkanShader
    demoProgramCacheWorld [1, 0, 0, 0, 7, 8] rfl rfl
  ⟨h.1, h.2.2.1, h.2.2.2.2⟩

/-- C17. On every source text on which `PreProcess` succeeds, every key of the returned map
is the vertex or the fragment stage and the map has at most two entries.  The intermediate
binaries that `CompileOrGetVulkanBinaries` derives from it then have at most two entries as
well, and neither `CompileOpenGLBinariesForAMD`, started on the two-slot array, nor
`CreateProgramAMD`, nor RAPIER's constructor on a file with that text, ever writes a shader
id at an index past 1. -/
theorem PreProcess_stages_fit_shader_id_array (s : Str) (hlen : s.length < sizeMod)
    (m : StageMap Str) (h : PreProcess s = .ok m) :
    (∀ k ∈ m.keys, k = GL_VERTEX_SHADER ∨ k = GL_FRAGMENT_SHADER) ∧ m.length ≤ 2 ∧
      (∀ (env : Env) (drv : Driver) (self self' : OpenGLShader) (w w' : World),
        CompileOrGetVulkanBinaries env self m w = (.ok self', w') →
        self'.m_VulkanSPIRV.length ≤ 2 ∧
          ∀ (program : Nat) (w0 : World),
            (CompileOpenGLBinariesForAMD env drv self' program [none, none] w0).1
                ≠ .error .arrayOutOfBounds ∧
              (CreateProgramAMD env drv self' w0).1 ≠ .error .arrayOutOfBounds) ∧
      ∀ (env : Env) (drv : Driver) (filepath : Str) (w : World),
        (∀ w1, CreateCacheDirectoryIfNeeded w = (.ok (), w1) → (ReadFile filepath w1).1 = s) →
        (OpenGLShader.fromFileRAPIER env drv filepath w).1 ≠ .error .arrayOutOfBounds := by
  have hinv := PreProcess_ok_inv hlen h
  have hkeys : ∀ k ∈ m.keys, k = GL_VERTEX_SHADER ∨ k = GL_FRAGMENT_SHADER :=
    fun k hk => hinv.stage_of_mem hk
  have hm : m.length ≤ 2 := by
    have := length_le_two_of_stages hinv.nodup hkeys
    simpa [StageMap.keys] using this
  refine ⟨hkeys, hm, ?_, fun env drv filepath w hs =>
    fromFileRAPIER_in_bounds env drv filepath w (fun w1 h1 => by rw [hs w1 h1]; exact hlen)⟩
  intro env drv self self' w w' hrun
  have hle : self'.m_VulkanSPIRV.length ≤ 2 :=
    le_trans (CompileOrGetVulkanBinaries_length_le hrun) hm
  refine ⟨hle, fun program w0 => ⟨?_, CreateProgramAMD_in_bounds env drv self' w0 hle⟩⟩
  exact amdStages_in_bounds env drv program self'.m_VulkanSPIRV 0 [none, none] w0
    (by simp only [List.length_cons, List.length_nil]; omega)

theorem PreProcess_stages_fit_shader_id_array_witness :
    PreProcess exampleSource
        = .ok [(GL_VERTEX_SHADER, "VOID_VERT\n".toList),
               (GL_FRAGMENT_SHADER, "VOID_FRAG\n".toList)] ∧
      (CompileOrGetVulkanBinaries demoEnv demoShader
          [(GL_VERTEX_SHADER, "VOID_VERT\n".toList),
            (GL_FRAGMENT_SHADER, "VOID_FRAG\n".toList)] (demoWorld exampleSource)).1.map
        (fun self => (CompileOpenGLBinariesForAMD demoEnv demoDriver self 1 [none, none]
          (demoWorld exampleSource)).1) = .ok (.ok [some 1, some 2]) ∧
      ∀ (self' : OpenGLShader) (w' : World),
        CompileOrGetVulkanBinaries demoEnv demoShader
          [(GL_VERTEX_SHADER, "VOID_VERT\n".toList),
            (GL_FRAGMENT_SHADER, "VOID_FRAG\n".toList)] (demoWorld exampleSource)
          = (.ok self', w') →
        (CreateProgramAMD demoEnv demoDriver self' w').1 ≠ .error .arrayOutOfBounds :=
  ⟨rfl, rfl, fun self' w' hrun =>
    (((PreProcess_stages_fit_shader_id_array exampleSource (by decide) _ rfl).2.2.1
      demoEnv demoDriver demoShader self' (demoWorld exampleSource) w' hrun).2 1 w').2⟩

/-- C18. A construction from sources leaves the file identity empty, so the cache file of a
stage is the cache directory joined with the bare extension, whatever the name of the
program and whatever the sources.  Hence two programs built from sources share their cache
files: when the first construction starts with the four cache files absent and writable and
its sources compile, it returns with the compiler's modules as binaries; and a second
construction in the world it left, with any name and any sources, returns with the
intermediate and target binaries of the first program and calls neither the compiler nor
the cross compiler. -/
theorem fromSources_shares_cache (env : Env) (w : World)
    (name1 vertexSrc1 fragmentSrc1 name2 vertexSrc2 fragmentSrc2 : Str)
    (WV WF TV TF : Words)
    (hWV : env.compileGlslToSpv vertexSrc1 .glsl_vertex_shader [] (some vulkanOptions)
      = .ok WV)
    (hWF : env.compileGlslToSpv fragmentSrc1 .glsl_fragment_shader [] (some vulkanOptions)
      = .ok WF)
    (hTV : env.compileGlslToSpv (env.crossCompile WV) .glsl_vertex_shader [] none = .ok TV)
    (hTF : env.compileGlslToSpv (env.crossCompile WF) .glsl_fragment_shader [] none
      = .ok TF)
    (hbits : ∀ x, x ∈ WV ∨ x ∈ WF ∨ x ∈ TV ∨ x ∈ TF → x < 2 ^ 32)
    (hempty : ∀ ext ∈ [".cached_vulkan.vert".toList, ".cached_vulkan.frag".toList,
        ".cached_opengl.vert".toList, ".cached_opengl.frag".toList],
      w.files (cachePath env [] ext) = none ∧ w.writable (cachePath env [] ext) = true) :
    (∀ ext, cachePath env [] ext = GetCacheDirectory ++ env.preferredSeparator :: ext) ∧
      ∃ self1 w1,
        OpenGLShader.fromSources env name1 vertexSrc1 fragmentSrc1 w = (.ok self1, w1) ∧
        self1.m_FilePath = [] ∧
        self1.m_VulkanSPIRV.lookup GL_VERTEX_SHADER = some WV ∧
        self1.m_VulkanSPIRV.lookup GL_FRAGMENT_SHADER = some WF ∧
        self1.m_OpenGLSPIRV.lookup GL_VERTEX_SHADER = some TV ∧
        self1.m_OpenGLSPIRV.lookup GL_FRAGMENT_SHADER = some TF ∧
        ∃ self2 w2,
          OpenGLShader.fromSources env name2 vertexSrc2 fragmentSrc2 w1 = (.ok self2, w2) ∧
          self2.m_VulkanSPIRV.lookup GL_VERTEX_SHADER = some WV ∧
          self2.m_VulkanSPIRV.lookup GL_FRAGMENT_SHADER = some WF ∧
          self2.m_OpenGLSPIRV.lookup GL_VERTEX_SHADER = some TV ∧
          self2.m_OpenGLSPIRV.lookup GL_FRAGMENT_SHADER = some TF ∧
          (∀ src kind name o, Event.compileGlslToSpv src kind name o ∈ w2.log →
            Event.compileGlslToSpv src kind name o ∈ w1.log) ∧
          ∀ spirv, Event.crossCompile spirv ∈ w2.log → Event.crossCompile spirv ∈ w1.log := by
  refine ⟨fun ext => by simp [cachePath, pathJoin, filename], ?_⟩
  obtain ⟨self1, w1, hfrom1, hpath, hv1, hf1, hg1, hgf1, hVV, hVF, hGV, hGF⟩ :=
    fromSources_populates env name1 vertexSrc1 fragmentSrc1 w hWV hWF hTV hTF hempty
  obtain ⟨self2, w2, hfrom2, hv2, hf2, hg2, hgf2, hev⟩ :=
    fromSources_from_cache env name2 vertexSrc2 fragmentSrc2 w1 hVV hVF hGV hGF
      (bytesOfWords_aligned WV) (bytesOfWords_aligned WF) (bytesOfWords_aligned TV)
      (bytesOfWords_aligned TF)
  have rV := wordsOfBytes_bytesOfWords WV (fun x hx => hbits x (Or.inl hx))
  have rF := wordsOfBytes_bytesOfWords WF (fun x hx => hbits x (Or.inr (Or.inl hx)))
  have rGV := wordsOfBytes_bytesOfWords TV (fun x hx => hbits x (Or.inr (Or.inr (Or.inl hx))))
  have rGF := wordsOfBytes_bytesOfWords TF (fun x hx => hbits x (Or.inr (Or.inr (Or.inr hx))))
  rw [rV] at hv2
  rw [rF] at hf2
  rw [rGV] at hg2
  rw [rGF] at hgf2
  refine ⟨self1, w1, hfrom1, hpath, hv1, hf1, hg1, hgf1, self2, w2, hfrom2, hv2, hf2, hg2,
    hgf2, ?_, ?_⟩
  · intro src kind name o hmem
    rcases hev _ hmem with h | h | ⟨_, h⟩ | ⟨_, _, h⟩
    · exact h
    · cases h
    · cases h
    · cases h
  · intro spirv hmem
    rcases hev _ hmem with h | h | ⟨_, h⟩ | ⟨_, _, h⟩
    · exact h
    · cases h
    · cases h
    · cases h

theorem fromSources_shares_cache_witness :
    (OpenGLShader.fromSources demoEnv "B".toList "X".toList "Y".toList (demoWorld [])).1.map
        (fun self => self.m_VulkanSPIRV)
      = .ok [(GL_VERTEX_SHADER, [88]), (GL_FRAGMENT_SHADER, [89])] ∧
    ∃ self1 w1,
      OpenGLShader.fromSources demoEnv "A".toList "V".toList "F".toList (demoWorld [])
        = (.ok self1, w1) ∧
      ∃ self2 w2,
        OpenGLShader.fromSources demoEnv "B".toList "X".toList "Y".toList w1
          = (.ok self2, w2) ∧
        self2.m_VulkanSPIRV.lookup GL_VERTEX_SHADER = some [86] ∧
        self2.m_VulkanSPIRV.lookup GL_FRAGMENT_SHADER = some [70] ∧
        self2.m_OpenGLSPIRV.lookup GL_VERTEX_SHADER = some [86] ∧
        self2.m_OpenGLSPIRV.lookup GL_FRAGMENT_SHADER = some [70] :=
  have h := (fromSources_shares_cache demoEnv (demoWorld []) "A".toList "V".toList "F".toList
    "B".toList "X".toList "Y".toList [86] [70] [86] [70] rfl rfl rfl rfl
    (by
      intro x hx
      simp only [List.mem_singleton] at hx
      omega)
    (by
      intro ext hext
      simp only [List.mem_cons, List.mem_singleton, List.not_mem_nil, or_false] at hext
      rcases hext with rfl | rfl | rfl | rfl <;> exact ⟨rfl, rfl⟩)).2
  ⟨rfl, h.elim (fun self1 h1 => h1.elim (fun w1 h2 =>
    ⟨self1, w1, h2.1, h2.2.2.2.2.2.2.elim (fun self2 h3 => h3.elim (fun w2 h4 =>
      ⟨self2, w2, h4.1, h4.2.1, h4.2.2.1, h4.2.2.2.1, h4.2.2.2.2.1⟩))⟩))⟩

/-- C19. The claim that `SubTexture2D::CreateFromCoords` computes cell multipliers `AddX` and
`AddY` that are both at least 1 for every sprite size with positive width and height does not
hold of the code: `AddX` is always at least 1, but `AddY` is `0` exactly when the converted
quotient `spriteSize.y / spriteSize.x` is `0` and the converted quotient
`spriteSize.x / spriteSize.y` is not, the branch that assigns `AddX` and leaves `AddY` as it
is.  For the sprite size `(128, 64)` the multipliers are `AddX = 2` and `AddY = 0`, so
`spriteSize.y / AddY` divides by zero. -/
theorem CreateFromCoords_AddY_zero :
    (∀ yOverX xOverY : Nat,
      1 ≤ (SubTexture2D.cellMultipliers yOverX xOverY).1 ∧
        ((SubTexture2D.cellMultipliers yOverX xOverY).2 = 0 ↔ yOverX = 0 ∧ xOverY ≠ 0)) ∧
      (0 : ℚ) < 128 ∧ (0 : ℚ) < 64 ∧
      SubTexture2D.CreateFromCoords_Add (128, 64) = (2, 0) := by
  refine ⟨fun a b => ⟨cellMultipliers_AddX_pos a b, cellMultipliers_AddY_eq_zero_iff a b⟩,
    by norm_num, by norm_num, ?_⟩
  unfold SubTexture2D.CreateFromCoords_Add
  dsimp only
  have h1 : toUint32 ((64 : ℚ) / 128) = 0 := toUint32_of_lt_one (by norm_num)
  have h2 : toUint32 ((128 : ℚ) / 64) = 2 := by
    have h : ((128 : ℚ) / 64) = ((2 : ℕ) : ℚ) := by norm_num
    rw [h]
    exact toUint32_natCast (by norm_num)
  rw [h1, h2]
  rfl

end DAGGer
